import Mathlib

/-!
# LispDSL: a shallow embedding of the interpreter

The development follows the C++ sources file by file:

* `lispdsl.h`   : status codes, `objType`, `objData`, `SynNode`, `LexNode`
* `gc.cpp`      : `createSynNode`, `createPair`, `createFunc`, `createAtom`
* `envstack.cpp`: `newenv`, `push`, `pop`, `lookupVariableList`, `lookupVariable`,
                  `defineVariable`, `setVariable`
* `string.cpp`  : `parserNumberStr`, and the class `StringPool` with `resizeBuffer`,
                  `append` and `buffer`
* `parser.cpp`  : `generate`, `generateList`, the atom generators, `parse`
* `builtin.cpp` : every `symbol...` handler
* `lisp.cpp`    : `eval`, `evalCall`, `evalList`, `evalProcedure`, `dispatchEvaling`, `run`
* `stream.cpp`, `lexer.cpp`: `Getchar`, `UnGetchar`, `lexMisc`, `skipComment`, `lex`,
                  with `StringPool::append` of `string.cpp` and the whole of
                  `Lisp::parser`
* `main.cpp`    : `OutputSynNode` on atoms

Modelling conventions.

* A `SynNode*` is an `Option Nat`: `none` is the null pointer, `some a` the address of
  the `a`-th node handed out by `operator new`.  The node store is a list; a deleted
  node leaves a `none` entry behind, so that a later access is detected.
* `operator new` is assumed never to return null.
* A value of the C++ type `double` is a rational number (`Rat`) and the arithmetic of
  the interpreter and of `parserNumberStr` is exact.  A run of the model is a run of the
  program as long as the exact result of every operation is itself a value of the type
  `double`; the section on the type `double` defines the rounding of IEEE 754
  (`roundDouble`) and the operations `mulDouble` and `subDouble`, and the statements on
  the factorial example give the range in which the two agree and the first value at
  which they differ.  A division by zero leaves the model and is reported as
  `Fault.notRational`.
* Behaviour that C++ leaves undefined (null dereference, access to a deleted node,
  reading a union member that is not the active one, reading a stack slot that was
  never written) stops the run with a `Fault`.
* `m_stack[i]` with `i` outside `0 .. 2047` is an access outside of the array.  Such an
  access is carried out on the same index-to-pointer map (the memory next to the
  array) and recorded in the field `oob`, so that runs which leave the array can be
  followed and recognised.  The read `m_stack[--m_sp]` of `pop`, whose value is not
  used, is recorded in the same way and does not stop the run when the slot was never
  written.
* Loops and recursion are bounded by a fuel argument; exhausting it is
  `Fault.outOfFuel`.
* An input stream is the list of its bytes.  `char` is signed and 8 bits wide, so the
  byte 255 read into a `char` is the value of `STREAM_EOF`.
* The word of a lexicon node is the content of its `StringPool`, all `len` bytes of it.
  Code that reads the word through `buffer()` as a C string sees the bytes before the
  first NUL (`cString`).
-/

namespace DSL

/-! ## lispdsl.h -/

def LINF_SUCCEEDED : Int := 1
def LERR_FAILED : Int := 0
def LERR_ALLOC_MEMORY : Int := -1
def LERR_STREAM_HAS_BEEN_OPENED : Int := -2
def LERR_INVALID_LEX : Int := -3
def LERR_THROW_ERROR : Int := -4
def LERR_SYNTAX_ERROR : Int := -5
def LERR_SYMBOL_NOT_FOUND : Int := -6
def LERR_NOT_MATCHED : Int := -7
def LERR_STACK_OVERFLOWS : Int := -8

/-- The macro `LP_SUCCESS(rc)`, that is `rc > 0`. -/
def LP_SUCCESS (rc : Int) : Bool := decide (0 < rc)

/-- The macro `LP_FAILURE(rc)`, that is `rc < 1`. -/
def LP_FAILURE (rc : Int) : Bool := decide (rc < 1)

def _MAX_STACK_DEEPTH : Int := 2048

/-- A `SynNode*`. -/
abbrev Ptr := Option Nat

/-- An environment stack index, the C++ `EnvSP` (an `int`). -/
abbrev EnvSP := Int

inductive objType
  | OBJTYPE_INVALID
  | OBJTYPE_BOOLEAN
  | OBJTYPE_NUMBER
  | OBJTYPE_CHARACTER
  | OBJTYPE_STRING
  | OBJTYPE_SYMBOL
  | OBJTYPE_PAIR
  | OBJTYPE_FUNC
  deriving DecidableEq, Repr

/-- The tagged union `objData`; the constructor is the `type` field. -/
inductive objData
  | boolean (v : Bool)
  | number (v : Rat)
  | character (v : Char)
  | string (v : String)
  | symbol (v : String)
  | pair (leaf next : Ptr)
  | func (params body : Ptr) (envsp : EnvSP)
  deriving DecidableEq, Repr

def objData.type : objData → objType
  | .boolean _ => .OBJTYPE_BOOLEAN
  | .number _ => .OBJTYPE_NUMBER
  | .character _ => .OBJTYPE_CHARACTER
  | .string _ => .OBJTYPE_STRING
  | .symbol _ => .OBJTYPE_SYMBOL
  | .pair _ _ => .OBJTYPE_PAIR
  | .func _ _ _ => .OBJTYPE_FUNC

structure SynNode where
  object : objData
  line : Nat
  deriving DecidableEq, Repr

inductive LexType
  | LEX_INVALID
  | LEX_OPEN_PAREN
  | LEX_CLOSE_PAREN
  | LEX_STRING
  | LEX_MISC
  deriving DecidableEq, Repr

/-- A lexicon node.  `m_word` is the content of the node's `StringPool`, its `len`
bytes (a NUL byte of the input that the lexer has stored is among them); the links
`m_prev` and `m_next` are the positions in the token list. -/
structure LexNode where
  m_type : LexType
  m_word : String
  m_line : Nat
  deriving DecidableEq, Repr

/-- Ways in which a run leaves the behaviour defined by C++ (or by this model). -/
inductive Fault
  | nullDeref
  | deleted
  | notActiveMember
  | uninitSlot (i : Int)
  | notRational
  | bufferOverrun
  | outOfFuel
  deriving DecidableEq, Repr

/-- The interpreter object: `Lisp` together with its `GC`, `EnvStack` and the sinks
of its outputs. -/
structure Lisp where
  /-- every node created by `GC`, by address; `none` marks a deleted node -/
  heap : List (Option SynNode)
  /-- `EnvStack::m_stack` as the list of the writes made to it, newest first -/
  m_stack : List (Int × Ptr)
  /-- `EnvStack::m_sp` -/
  m_sp : Int
  /-- `EnvStack::m_vars` -/
  m_vars : Ptr
  m_parsed : Bool
  m_ast : Ptr
  /-- whether `m_printAtom` is set -/
  m_printAtom : Bool
  /-- the status variable `rc` that the evaluation routines receive by reference -/
  rc : Int
  /-- the diagnostics emitted by `throwError`: line and message, oldest first -/
  errors : List (Nat × String)
  /-- the calls of the print callback: node and `ln`, oldest first -/
  printed : List (Ptr × Bool)
  /-- the indices outside `0 .. 2047` at which `m_stack` was read or written -/
  oob : List Int
  deriving DecidableEq, Repr

/-- The state after the constructors `Lisp::Lisp`, `EnvStack::EnvStack` have run. -/
def Lisp.init : Lisp :=
  { heap := [], m_stack := [], m_sp := 0, m_vars := none, m_parsed := false,
    m_ast := none, m_printAtom := false, rc := 0, errors := [], printed := [],
    oob := [] }

/-- Computations on the interpreter object. -/
abbrev M := StateT Lisp (Except Fault)

/-- `Lisp::throwError`: emit the diagnostic and return `LERR_THROW_ERROR`. -/
def Lisp.throwError (line : Nat) (msg : String) : M Int := do
  modify fun s => { s with errors := s.errors ++ [(line, msg)] }
  pure LERR_THROW_ERROR

def setRc (rc : Int) : M Unit :=
  modify fun s => { s with rc := rc }

def getRc : M Int := do
  pure (← get).rc

/-- Read the node `*p`. -/
def deref (p : Ptr) : M SynNode := do
  match p with
  | none => throw Fault.nullDeref
  | some a =>
    match (← get).heap[a]? with
    | some (some n) => pure n
    | _ => throw Fault.deleted

/-- Overwrite the node `*p`. -/
def store (p : Ptr) (n : SynNode) : M Unit := do
  let _ ← deref p
  match p with
  | none => throw Fault.nullDeref
  | some a => modify fun s => { s with heap := s.heap.set a (some n) }

/-- The expression `p->object.type`. -/
def typeOf (p : Ptr) : M objType := do
  pure (← deref p).object.type

/-- The expression `p->line`. -/
def lineOf (p : Ptr) : M Nat := do
  pure (← deref p).line

/-- The macro `OBJ_LEAF(s)`. -/
def OBJ_LEAF (p : Ptr) : M Ptr := do
  match (← deref p).object with
  | .pair leaf _ => pure leaf
  | _ => throw Fault.notActiveMember

/-- The macro `OBJ_NEXT(s)`. -/
def OBJ_NEXT (p : Ptr) : M Ptr := do
  match (← deref p).object with
  | .pair _ next => pure next
  | _ => throw Fault.notActiveMember

def OBJ_NEXT2 (p : Ptr) : M Ptr := do
  OBJ_NEXT (← OBJ_NEXT p)

def OBJ_NEXT3 (p : Ptr) : M Ptr := do
  OBJ_NEXT (← OBJ_NEXT2 p)

/-- The assignment `OBJ_LEAF(p) = v`. -/
def setLeaf (p v : Ptr) : M Unit := do
  let n ← deref p
  match n.object with
  | .pair _ next => store p { n with object := .pair v next }
  | _ => throw Fault.notActiveMember

/-- The assignment `OBJ_NEXT(p) = v`. -/
def setNext (p v : Ptr) : M Unit := do
  let n ← deref p
  match n.object with
  | .pair leaf _ => store p { n with object := .pair leaf v }
  | _ => throw Fault.notActiveMember

/-- `OBJ_VALUE(OBJTYPE_SYMBOL, p)->buffer()`. -/
def symbolOf (p : Ptr) : M String := do
  match (← deref p).object with
  | .symbol v => pure v
  | _ => throw Fault.notActiveMember

/-- The statement `delete p`. -/
def delete (p : Ptr) : M Unit := do
  match p with
  | none => pure ()
  | some a =>
    let _ ← deref p
    modify fun s => { s with heap := s.heap.set a none }

/-! ## gc.cpp -/

/-- The expression `new (std::nothrow) SynNode` followed by the initialisation of
the node. -/
def alloc (n : SynNode) : M Ptr := do
  let s ← get
  set { s with heap := s.heap ++ [some n] }
  pure (some s.heap.length)

/-- `GC::createSynNode`: the status and the new node. -/
def createSynNode (leaf next : Ptr) : M (Int × Ptr) := do
  let n ← alloc { object := .pair leaf next, line := 0 }
  pure (LINF_SUCCEEDED, n)

/-- `GC::createPair`. -/
def createPair (leaf next : Ptr) (line : Nat) : M (Int × Ptr) := do
  let n ← alloc { object := .pair leaf next, line := line }
  pure (LINF_SUCCEEDED, n)

/-- `GC::createFunc`. -/
def createFunc (params body : Ptr) (sp : EnvSP) (line : Nat) : M (Int × Ptr) := do
  let n ← alloc { object := .func params body sp, line := line }
  pure (LINF_SUCCEEDED, n)

/-- The macro `createAtom(gc, t, out, v, l, rcref)`; the payload `v` carries the
type `t`.  The status is stored in `rc`. -/
def createAtom (v : objData) (l : Nat) : M Ptr := do
  let n ← alloc { object := v, line := l }
  setRc LINF_SUCCEEDED
  pure n

/-! ## envstack.cpp -/

/-- Whether `i` is an index of the array `m_stack`. -/
def inStack (i : Int) : Bool := decide (0 ≤ i) && decide (i < _MAX_STACK_DEEPTH)

def noteIndex (i : Int) : M Unit :=
  if inStack i then pure () else modify fun s => { s with oob := s.oob ++ [i] }

/-- `EnvStack::node`, the expression `m_stack[sp]`. -/
def node (sp : EnvSP) : M Ptr := do
  noteIndex sp
  match (← get).m_stack.lookup sp with
  | some p => pure p
  | none => throw (Fault.uninitSlot sp)

/-- The assignment `m_stack[i] = p`. -/
def setSlot (i : Int) (p : Ptr) : M Unit := do
  noteIndex i
  modify fun s => { s with m_stack := (i, p) :: s.m_stack }

/-- `EnvStack::newenv`. -/
def newenv : M Int := do
  let (rc, frame) ← createSynNode none none
  if LP_SUCCESS rc then
    let (rc, vars) ← createSynNode frame none
    modify fun s => { s with m_vars := vars }
    if LP_SUCCESS rc then
      modify fun s => { s with m_sp := 0 }
      setSlot 0 vars
      pure rc
    else pure rc
  else pure rc

/-- `EnvStack::push`: the status and the value stored in `*out`, if any. -/
def push (vars vals : Ptr) (sp : EnvSP) : M (Int × Option EnvSP) := do
  if (← get).m_sp + 1 < _MAX_STACK_DEEPTH then
    let (rc, new_frame) ← createPair vars vals 0
    if LP_SUCCESS rc then
      let parent ← node sp
      let (rc, new_env) ← createPair new_frame parent 0
      if LP_SUCCESS rc then
        let out := (← get).m_sp
        setSlot out new_env
        modify fun s => { s with m_sp := s.m_sp + 1 }
        pure (LINF_SUCCEEDED, some out)
      else pure (rc, none)
    else pure (rc, none)
  else pure (LERR_STACK_OVERFLOWS, none)

/-- `EnvStack::pop`.  The slot `m_stack[--m_sp]` is read into `target`, which is not
used (the call of `releaseVarNode` is compiled out): the read leaves no trace but the
index, which is recorded when it lies outside of the array.  Then `m_sp` is decremented
a second time. -/
def pop : M Unit := do
  modify fun s => { s with m_sp := s.m_sp - 1 }
  noteIndex (← get).m_sp
  modify fun s => { s with m_sp := s.m_sp - 1 }

/-- The interpreter object that `EnvStack::pop` leaves. -/
def popped (s : Lisp) : Lisp :=
  { s with m_sp := s.m_sp - 1 - 1,
           oob := if inStack (s.m_sp - 1) = true then s.oob else s.oob ++ [s.m_sp - 1] }

/-- The inner loop of `lookupVariableList`: walk the symbols and the values of one
frame in lockstep.  The result is the value cell of the first match. -/
def lookupFrame (var : String) : Nat → Ptr → Ptr → M (Option Ptr)
  | 0, _, _ => throw Fault.outOfFuel
  | fuel + 1, each_var, each_value => do
    if each_var.isSome && each_value.isSome then
      if (← OBJ_LEAF each_var).isNone then
        lookupFrame var fuel (← OBJ_NEXT each_var) (← OBJ_NEXT each_value)
      else
        let name ← symbolOf (← OBJ_LEAF each_var)
        if name = var then
          pure (some each_value)
        else
          lookupFrame var fuel (← OBJ_NEXT each_var) (← OBJ_NEXT each_value)
    else pure none

/-- The outer loop of `lookupVariableList`: walk the chain of frames. -/
def lookupChain (var : String) : Nat → Ptr → M (Option Ptr)
  | 0, _ => throw Fault.outOfFuel
  | fuel + 1, n => do
    if n.isSome then
      let f ← OBJ_LEAF n
      let each_var ← OBJ_LEAF f
      let each_value ← OBJ_NEXT f
      match ← lookupFrame var fuel each_var each_value with
      | some cell => pure (some cell)
      | none => lookupChain var fuel (← OBJ_NEXT n)
    else pure none

/-- `EnvStack::lookupVariableList`: the status and the value stored in `*out`. -/
def lookupVariableList (fuel : Nat) (sp : EnvSP) (var : Ptr) : M (Int × Ptr) := do
  if (← typeOf var) ≠ objType.OBJTYPE_SYMBOL then
    let rc ← Lisp.throwError (← lineOf var) "type mismatch"
    pure (rc, none)
  else
    let n ← node sp
    match ← lookupChain (← symbolOf var) fuel n with
    | some cell => pure (LINF_SUCCEEDED, cell)
    | none => pure (LERR_SYMBOL_NOT_FOUND, none)

/-- `EnvStack::lookupVariable`. -/
def lookupVariable (fuel : Nat) (sp : EnvSP) (src : Ptr) : M (Int × Ptr) := do
  let (rc, out) ← lookupVariableList fuel sp src
  if LP_SUCCESS rc then
    pure (rc, ← OBJ_LEAF out)
  else pure (rc, out)

/-- `EnvStack::defineVariable`. -/
def defineVariable (sp : EnvSP) (src val : Ptr) : M Int := do
  let n ← node sp
  let frame ← OBJ_LEAF n
  let (rc, leaf) ← createSynNode src (← OBJ_LEAF frame)
  if LP_SUCCESS rc then
    setLeaf frame leaf
    let (rc, next) ← createSynNode val (← OBJ_NEXT frame)
    if LP_SUCCESS rc then
      setNext frame next
    pure rc
  else pure rc

/-- `EnvStack::releaseVarNode`. -/
def releaseVarNode (p : Ptr) : M Unit :=
  delete p

/-- `EnvStack::setVariable`. -/
def setVariable (fuel : Nat) (sp : EnvSP) (nd val : Ptr) : M Int := do
  let (rc, var) ← lookupVariableList fuel sp nd
  if LP_SUCCESS rc then
    releaseVarNode (← OBJ_LEAF var)
    setLeaf var val
  pure rc

/-! ## string.cpp -/

/-- The macro `IsDigit(c)`. -/
def IsDigit (c : Char) : Bool := decide (48 ≤ c.toNat) && decide (c.toNat ≤ 57)

/-- The value `c - 48` of a digit. -/
def digitVal (c : Char) : Rat := ((c.toNat - 48 : Nat) : Rat)

/-- The first loop of `parserNumberStr`: blanks and signs. -/
def parseSign : List Char → Int → List Char × Int
  | [], sign => ([], sign)
  | c :: cs, sign =>
    if c = Char.ofNat 32 then parseSign cs sign
    else if c = Char.ofNat 45 then parseSign cs (-1)
    else if c = Char.ofNat 43 then parseSign cs 1
    else (c :: cs, sign)

/-- The inner loop of `parserNumberStr`: the digits after the point. -/
def parseFraction : List Char → Rat → Rat → List Char × Rat × Rat
  | [], d, power => ([], d, power)
  | c :: cs, d, power =>
    if IsDigit c then parseFraction cs (d * 10 + digitVal c) (power * 10)
    else (c :: cs, d, power)

/-- The second loop of `parserNumberStr`. -/
def parseDigits : List Char → Rat → List Char × Rat × Rat
  | [], d => ([], d, 1)
  | c :: cs, d =>
    if IsDigit c then parseDigits cs (d * 10 + digitVal c)
    else if c = Char.ofNat 46 then parseFraction cs d 1
    else (c :: cs, d, 1)

/-- `parserNumberStr` on the C string `src`: the status and the value stored in
`*out`, if any.  The value is computed in exact arithmetic. -/
def parserNumberStr (src : String) : Int × Option Rat :=
  let (rest, sign) := parseSign src.data 1
  let (rest, d, power) := parseDigits rest 0
  if rest ≠ [] then (LERR_FAILED, none)
  else (LINF_SUCCEEDED, some ((sign : Rat) * d / power))

/-! ## parser.cpp -/

/-- The expression `word[i]` on the buffer of a `StringPool` holding `w`: the bytes
of `w`, then the terminating NUL (the bytes of the inline buffer behind it are
zero as well). -/
def byteAt (w : String) (i : Nat) : Char := w.data[i]?.getD (Char.ofNat 0)

/-- The C string that starts at `buffer()` of a `StringPool` holding `w`: the bytes
before the first NUL. -/
def cString (w : String) : String :=
  String.mk (w.data.takeWhile fun c => c != Char.ofNat 0)

/-- The expression `lexnode->m_line`; the cursor is the position in the token list
and a position behind the last token is the null pointer. -/
def lexLine (toks : List LexNode) (i : Option Nat) : M Nat :=
  match i.bind (fun j => toks[j]?) with
  | some t => pure t.m_line
  | none => throw Fault.nullDeref

/-- The macro `LEX_PREV(n)`. -/
def LEX_PREV (i : Nat) : Option Nat := if i = 0 then none else some (i - 1)

/-- `Parser::generateNumber`. -/
def generateNumber (t : LexNode) : M Ptr := do
  let (rc, val) := parserNumberStr (cString t.m_word)
  setRc rc
  match val with
  | some v => createAtom (.number v) t.m_line
  | none => pure none

/-- `Parser::generateString`. -/
def generateString (t : LexNode) : M Ptr := do
  let length := t.m_word.length
  if byteAt t.m_word 0 ≠ Char.ofNat 34 || byteAt t.m_word (length - 1) ≠ Char.ofNat 34 then
    setRc (← Lisp.throwError t.m_line "String format mismatch.")
    pure none
  else if length < 2 then
    throw Fault.bufferOverrun
  else
    createAtom (.string (String.mk ((t.m_word.data.drop 1).take (length - 2)))) t.m_line

/-- `Parser::generateSymbol`.  The word is copied by `StringPool::copy(const
StringPool &)`, which copies the C string at `buffer()`. -/
def generateSymbol (t : LexNode) : M Ptr :=
  createAtom (.symbol (cString t.m_word)) t.m_line

/-- `Parser::generateBoolean`. -/
def generateBoolean (t : LexNode) : M Ptr := do
  if byteAt t.m_word 0 ≠ Char.ofNat 35 then
    setRc (← Lisp.throwError t.m_line "Not a boolean value.")
    pure none
  else if byteAt t.m_word 1 = Char.ofNat 116 || byteAt t.m_word 1 = Char.ofNat 84 then
    createAtom (.boolean true) t.m_line
  else if byteAt t.m_word 1 = Char.ofNat 102 || byteAt t.m_word 1 = Char.ofNat 70 then
    createAtom (.boolean false) t.m_line
  else
    setRc (← Lisp.throwError t.m_line "Not a boolean value.")
    pure none

/-- `Parser::generateCharacter`. -/
def generateCharacter (t : LexNode) : M Ptr := do
  if byteAt t.m_word 0 ≠ Char.ofNat 39 || byteAt t.m_word 2 ≠ Char.ofNat 39
      || t.m_word.length ≠ 3 then
    setRc (← Lisp.throwError t.m_line "Invalid syntax of character.")
    pure none
  else
    createAtom (.character (byteAt t.m_word 1)) t.m_line

/-- The `LEX_MISC` case of `Parser::generate`. -/
def generateMisc (t : LexNode) : M Ptr :=
  let w := t.m_word
  if byteAt w 0 = Char.ofNat 35 then generateBoolean t
  else if byteAt w 0 = Char.ofNat 39 then generateCharacter t
  else if (byteAt w 0 = Char.ofNat 46 || byteAt w 0 = Char.ofNat 43 || byteAt w 0 = Char.ofNat 45)
      && (IsDigit (byteAt w 1) || byteAt w 1 = Char.ofNat 46) then
    generateNumber t
  else if IsDigit (byteAt w 0) then generateNumber t
  else generateSymbol t

mutual

/-- `Parser::generate`: the node and the new position of the cursor `lexnode`. -/
def generate (toks : List LexNode) : Nat → Nat → M (Ptr × Nat)
  | 0, _ => throw Fault.outOfFuel
  | fuel + 1, lexnode => do
    match toks[lexnode]? with
    | none => throw Fault.nullDeref
    | some t =>
      let (node, lexnode) ← (match t.m_type with
        | .LEX_OPEN_PAREN => generateList toks fuel (lexnode + 1)
        | .LEX_STRING => do pure (← generateString t, lexnode)
        | .LEX_MISC => do pure (← generateMisc t, lexnode)
        | _ => do
          setRc LERR_INVALID_LEX
          pure (none, lexnode) : M (Ptr × Nat))
      if LP_SUCCESS (← getRc) then
        pure (node, lexnode + 1)
      else pure (node, lexnode)

/-- `Parser::generateList`. -/
def generateList (toks : List LexNode) : Nat → Nat → M (Ptr × Nat)
  | 0, _ => throw Fault.outOfFuel
  | fuel + 1, lexnode => do
    match toks[lexnode]? with
    | none =>
      let line ← lexLine toks (if toks.length = 0 then none else LEX_PREV (toks.length - 1))
      setRc (← Lisp.throwError line "Parentheses do not match.")
      pure (none, lexnode)
    | some t =>
      if t.m_type = .LEX_CLOSE_PAREN then
        setRc LINF_SUCCEEDED
        pure (none, lexnode)
      else
        let (a, lexnode) ← generate toks fuel lexnode
        if LP_SUCCESS (← getRc) then
          let (b, lexnode) ← generateList toks fuel lexnode
          if LP_SUCCESS (← getRc) then
            let line ← lexLine toks (LEX_PREV lexnode)
            let (rc, n) ← createPair a b line
            setRc rc
            pure (n, lexnode)
          else pure (none, lexnode)
        else pure (none, lexnode)

end

/-- `Parser::parse` on the token list `toks` (`root` is its first node and `tail`
its last one): the status and the root stored in `Parser::m_ast`, if any. -/
def Parser.parse (toks : List LexNode) : M (Int × Option Ptr) := do
  let (node, _) ← generate toks (2 * toks.length + 2) 0
  let rc ← getRc
  if LP_SUCCESS rc then pure (rc, some node) else pure (rc, none)

/-! ## builtin.cpp

Every routine that evaluates operands receives the evaluator `eval` it calls (the
recursion is closed in `eval` below) and the fuel `fuel` that bounds its own
loops. -/

/-- The evaluator handed to a routine: `Lisp::eval` with less fuel. -/
abbrev Eval := Ptr → EnvSP → M Ptr

/-- The payload `OBJ_VALUE(OBJTYPE_BOOLEAN, p)`. -/
def booleanOf (p : Ptr) : M Bool := do
  match (← deref p).object with
  | .boolean v => pure v
  | _ => throw Fault.notActiveMember

/-- The payload `OBJ_VALUE(OBJTYPE_NUMBER, p)`. -/
def numberOf (p : Ptr) : M Rat := do
  match (← deref p).object with
  | .number v => pure v
  | _ => throw Fault.notActiveMember

/-- The members `params`, `body` and `envsp` of `p->object.u.OBJTYPE_FUNC`. -/
def funcOf (p : Ptr) : M (Ptr × Ptr × EnvSP) := do
  match (← deref p).object with
  | .func params body envsp => pure (params, body, envsp)
  | _ => throw Fault.notActiveMember

/-- The counting loop of `validateSyntax`. -/
def countNodes : Nat → Ptr → Int → M Int
  | 0, _, _ => throw Fault.outOfFuel
  | fuel + 1, leaf, count =>
    if leaf.isSome then do countNodes fuel (← OBJ_NEXT leaf) (count + 1)
    else pure count

/-- `Lisp::validateSyntax`. -/
def validateSyntax (fuel : Nat) (leaf : Ptr) (paramCount : Int) (_name : String) : M Int := do
  if paramCount = -1 then pure LINF_SUCCEEDED
  else
    let line ← lineOf leaf
    let count ← countNodes fuel leaf 0
    if paramCount ≠ count then
      let _ ← Lisp.throwError line "'%s' syntax error."
      pure LERR_SYNTAX_ERROR
    else pure LINF_SUCCEEDED

/-- The loop of `Lisp::dispatchEvaling`; `result` is the value of the expression
evaluated last. -/
def dispatchLoop (eval : Eval) (envsp : EnvSP) : Nat → Ptr → Ptr → M Ptr
  | 0, _, _ => throw Fault.outOfFuel
  | fuel + 1, node, result => do
    if node.isSome then
      if (← typeOf node) ≠ objType.OBJTYPE_PAIR then
        setRc (← Lisp.throwError (← lineOf node) "invalid syntax.")
        pure none
      else
        let result ← eval (← OBJ_LEAF node) envsp
        if LP_SUCCESS (← getRc) then
          dispatchLoop eval envsp fuel (← OBJ_NEXT node) result
        else pure result
    else pure result

/-- `Lisp::dispatchEvaling`. -/
def dispatchEvaling (eval : Eval) (fuel : Nat) (root : Ptr) (envsp : EnvSP) : M Ptr :=
  dispatchLoop eval envsp fuel root none

/-- `Lisp::symbolSet`. -/
def symbolSet (eval : Eval) (fuel : Nat) (leaf : Ptr) (envsp : EnvSP) : M Ptr := do
  setRc (← validateSyntax fuel leaf 3 "set!")
  if LP_FAILURE (← getRc) then pure none
  else
    let var ← OBJ_LEAF (← OBJ_NEXT leaf)
    let val ← eval (← OBJ_LEAF (← OBJ_NEXT2 leaf)) envsp
    if LP_SUCCESS (← getRc) then
      if (← typeOf var) ≠ objType.OBJTYPE_SYMBOL then
        setRc (← Lisp.throwError (← lineOf var) "set: target variable has invalid format.")
        pure none
      else
        setRc (← setVariable fuel envsp var val)
        if LP_FAILURE (← getRc) then
          setRc (← Lisp.throwError (← lineOf leaf) "set: target variable was not found.")
          pure none
        else
          setRc LINF_SUCCEEDED
          pure none
    else pure none

/-- `Lisp::symbolSetCar`. -/
def symbolSetCar (eval : Eval) (fuel : Nat) (leaf : Ptr) (envsp : EnvSP) : M Ptr := do
  setRc (← validateSyntax fuel leaf 3 "set-car!")
  if LP_FAILURE (← getRc) then pure none
  else
    let list ← eval (← OBJ_LEAF (← OBJ_NEXT leaf)) envsp
    if LP_FAILURE (← getRc) then pure none
    else
      let val ← eval (← OBJ_LEAF (← OBJ_NEXT2 leaf)) envsp
      if LP_FAILURE (← getRc) then pure none
      else if (← typeOf list) ≠ objType.OBJTYPE_PAIR then
        setRc (← Lisp.throwError (← lineOf leaf) "set-car! - expected a pair.")
        pure none
      else
        setLeaf list val
        createAtom (.boolean true) (← lineOf leaf)

/-- `Lisp::symbolSetCdr`. -/
def symbolSetCdr (eval : Eval) (fuel : Nat) (leaf : Ptr) (envsp : EnvSP) : M Ptr := do
  setRc (← validateSyntax fuel leaf 3 "set-cdr!")
  if LP_FAILURE (← getRc) then pure none
  else
    let list ← eval (← OBJ_LEAF (← OBJ_NEXT leaf)) envsp
    if LP_FAILURE (← getRc) then pure none
    else
      let val ← eval (← OBJ_LEAF (← OBJ_NEXT2 leaf)) envsp
      if LP_FAILURE (← getRc) then pure none
      else if (← typeOf list) ≠ objType.OBJTYPE_PAIR then
        setRc (← Lisp.throwError (← lineOf leaf) "set-car! - expected a pair.")
        pure none
      else
        setNext list val
        createAtom (.boolean true) (← lineOf leaf)

/-- `Lisp::symbolDefine`. -/
def symbolDefine (eval : Eval) (fuel : Nat) (leaf : Ptr) (envsp : EnvSP) : M Ptr := do
  setRc (← validateSyntax fuel leaf 3 "define")
  if LP_FAILURE (← getRc) then pure none
  else
    let var ← OBJ_LEAF (← OBJ_NEXT leaf)
    let val ← eval (← OBJ_LEAF (← OBJ_NEXT2 leaf)) envsp
    if LP_SUCCESS (← getRc) then
      if (← typeOf var) ≠ objType.OBJTYPE_SYMBOL then
        setRc (← Lisp.throwError (← lineOf var) "target variable has invalid type.")
        pure none
      else
        setRc (← defineVariable envsp var val)
        pure none
    else pure none

/-- `Lisp::symbolLambda`. -/
def symbolLambda (_eval : Eval) (_fuel : Nat) (leaf : Ptr) (envsp : EnvSP) : M Ptr := do
  let params ← OBJ_LEAF (← OBJ_NEXT leaf)
  let body ← OBJ_NEXT2 leaf
  let (rc, n) ← createFunc params body envsp (← lineOf leaf)
  setRc rc
  if LP_SUCCESS rc then pure n else pure none

/-- `Lisp::symbolIf`. -/
def symbolIf (eval : Eval) (fuel : Nat) (leaf : Ptr) (envsp : EnvSP) : M Ptr := do
  setRc (← validateSyntax fuel leaf 4 "if")
  if LP_FAILURE (← getRc) then pure none
  else
    let prev ← eval (← OBJ_LEAF (← OBJ_NEXT leaf)) envsp
    if LP_SUCCESS (← getRc) then
      if (← typeOf prev) ≠ objType.OBJTYPE_BOOLEAN then
        setRc (← Lisp.throwError (← lineOf leaf) "'if' expected a boolean expression.")
        pure none
      else if ← booleanOf prev then
        eval (← OBJ_LEAF (← OBJ_NEXT2 leaf)) envsp
      else
        eval (← OBJ_LEAF (← OBJ_NEXT3 leaf)) envsp
    else pure none

/-- `Lisp::symbolBegin`. -/
def symbolBegin (eval : Eval) (fuel : Nat) (leaf : Ptr) (envsp : EnvSP) : M Ptr := do
  dispatchEvaling eval fuel (← OBJ_NEXT leaf) envsp

/-- The loop of `Lisp::symbolCond`; `fuel0` bounds the loops of the clause bodies. -/
def condLoop (eval : Eval) (fuel0 : Nat) (envsp : EnvSP) : Nat → Ptr → M Ptr
  | 0, _ => throw Fault.outOfFuel
  | fuel + 1, body => do
    if body.isSome then
      let cur ← OBJ_LEAF body
      let test ← OBJ_LEAF cur
      if (← typeOf test) = objType.OBJTYPE_SYMBOL then
        if (← symbolOf test) ≠ "else" then
          setRc (← Lisp.throwError (← lineOf cur) "expected 'else'.")
          pure none
        else
          dispatchEvaling eval fuel0 (← OBJ_NEXT cur) envsp
      else
        let test_ret ← eval test envsp
        if LP_SUCCESS (← getRc) then
          if (← typeOf test_ret) ≠ objType.OBJTYPE_BOOLEAN then
            setRc (← Lisp.throwError (← lineOf test_ret) "expected a boolean expression.")
            pure none
          else if ← booleanOf test_ret then
            dispatchEvaling eval fuel0 (← OBJ_NEXT cur) envsp
          else
            condLoop eval fuel0 envsp fuel (← OBJ_NEXT body)
        else
          condLoop eval fuel0 envsp fuel body
    else pure none

/-- `Lisp::symbolCond`. -/
def symbolCond (eval : Eval) (fuel : Nat) (leaf : Ptr) (envsp : EnvSP) : M Ptr := do
  condLoop eval fuel envsp fuel (← OBJ_NEXT leaf)

/-- The loop of `Lisp::symbolAdd`: the sum, in exact arithmetic, or nothing after a type
mismatch. -/
def addLoop (eval : Eval) (envsp : EnvSP) : Nat → Ptr → Rat → M (Option Rat)
  | 0, _, _ => throw Fault.outOfFuel
  | fuel + 1, args, sum => do
    if args.isSome then
      let each ← OBJ_LEAF args
      let tmp ← eval each envsp
      if (← typeOf tmp) = objType.OBJTYPE_NUMBER then
        addLoop eval envsp fuel (← OBJ_NEXT args) (sum + (← numberOf tmp))
      else
        setRc (← Lisp.throwError (← lineOf each) "add - operand(s) type mismatched.")
        pure none
    else pure (some sum)

/-- `Lisp::symbolAdd`. -/
def symbolAdd (eval : Eval) (fuel : Nat) (args : Ptr) (envsp : EnvSP) : M Ptr := do
  let line ← lineOf args
  match ← addLoop eval envsp fuel (← OBJ_NEXT args) 0 with
  | none => pure none
  | some sum =>
    let res ← createAtom (.number sum) line
    if LP_SUCCESS (← getRc) then pure res else pure none

/-- The loop of `Lisp::symbolMul`: the product, in exact arithmetic, or nothing after a
type mismatch. -/
def mulLoop (eval : Eval) (envsp : EnvSP) : Nat → Ptr → Rat → M (Option Rat)
  | 0, _, _ => throw Fault.outOfFuel
  | fuel + 1, args, mul => do
    if args.isSome then
      let each ← OBJ_LEAF args
      let tmp ← eval each envsp
      if (← typeOf tmp) = objType.OBJTYPE_NUMBER then
        mulLoop eval envsp fuel (← OBJ_NEXT args) (mul * (← numberOf tmp))
      else
        setRc (← Lisp.throwError (← lineOf each) "mul - operand(s) type mismatched.")
        pure none
    else pure (some mul)

/-- `Lisp::symbolMul`. -/
def symbolMul (eval : Eval) (fuel : Nat) (args : Ptr) (envsp : EnvSP) : M Ptr := do
  let line ← lineOf args
  match ← mulLoop eval envsp fuel (← OBJ_NEXT args) 1 with
  | none => pure none
  | some mul =>
    let res ← createAtom (.number mul) line
    if LP_SUCCESS (← getRc) then pure res else pure none

/-- `Lisp::symbolSub`; the difference is exact. -/
def symbolSub (eval : Eval) (fuel : Nat) (args : Ptr) (envsp : EnvSP) : M Ptr := do
  setRc (← validateSyntax fuel args 3 "-")
  if LP_FAILURE (← getRc) then pure none
  else
    let line ← lineOf args
    let first ← eval (← OBJ_LEAF (← OBJ_NEXT args)) envsp
    if LP_FAILURE (← getRc) then pure none
    else
      let second ← eval (← OBJ_LEAF (← OBJ_NEXT2 args)) envsp
      if LP_FAILURE (← getRc) then pure none
      else if (← typeOf first) ≠ objType.OBJTYPE_NUMBER then
        setRc (← Lisp.throwError (← lineOf first) "sub - operand(s) type mismatched.")
        pure none
      else if (← typeOf second) ≠ objType.OBJTYPE_NUMBER then
        setRc (← Lisp.throwError (← lineOf second) "sub - operand(s) type mismatched.")
        pure none
      else
        let sub := (← numberOf first) - (← numberOf second)
        let res ← createAtom (.number sub) line
        if LP_SUCCESS (← getRc) then pure res else pure none

/-- `Lisp::symbolDiv`. -/
def symbolDiv (eval : Eval) (fuel : Nat) (args : Ptr) (envsp : EnvSP) : M Ptr := do
  setRc (← validateSyntax fuel args 3 "/")
  if LP_FAILURE (← getRc) then pure none
  else
    let line ← lineOf args
    let first ← eval (← OBJ_LEAF (← OBJ_NEXT args)) envsp
    if LP_FAILURE (← getRc) then pure none
    else
      let second ← eval (← OBJ_LEAF (← OBJ_NEXT2 args)) envsp
      if LP_FAILURE (← getRc) then pure none
      else if (← typeOf first) ≠ objType.OBJTYPE_NUMBER then
        setRc (← Lisp.throwError (← lineOf first) "sub - operand(s) type mismatched.")
        pure none
      else if (← typeOf second) ≠ objType.OBJTYPE_NUMBER then
        setRc (← Lisp.throwError (← lineOf second) "sub - operand(s) type mismatched.")
        pure none
      else if (← numberOf second) = 0 then
        throw Fault.notRational
      else
        let divs := (← numberOf first) / (← numberOf second)
        let res ← createAtom (.number divs) line
        if LP_SUCCESS (← getRc) then pure res else pure none

/-- `Lisp::symbolCons`. -/
def symbolCons (eval : Eval) (fuel : Nat) (args : Ptr) (envsp : EnvSP) : M Ptr := do
  setRc (← validateSyntax fuel args 3 "cons")
  if LP_FAILURE (← getRc) then pure none
  else
    let first ← eval (← OBJ_LEAF (← OBJ_NEXT args)) envsp
    if LP_FAILURE (← getRc) then pure none
    else
      let second ← eval (← OBJ_LEAF (← OBJ_NEXT2 args)) envsp
      if LP_FAILURE (← getRc) then pure none
      else
        let (rc, res) ← createPair first second (← lineOf args)
        setRc rc
        pure res

/-- `Lisp::symbolCar`. -/
def symbolCar (eval : Eval) (fuel : Nat) (args : Ptr) (envsp : EnvSP) : M Ptr := do
  setRc (← validateSyntax fuel args 2 "car")
  if LP_FAILURE (← getRc) then pure none
  else
    let after ← eval (← OBJ_LEAF (← OBJ_NEXT args)) envsp
    if LP_FAILURE (← getRc) then pure none
    else if (← typeOf after) ≠ objType.OBJTYPE_PAIR then
      setRc (← Lisp.throwError (← lineOf args) "car - the result is invalid.")
      pure none
    else OBJ_LEAF after

/-- `Lisp::symbolCdr`. -/
def symbolCdr (eval : Eval) (fuel : Nat) (args : Ptr) (envsp : EnvSP) : M Ptr := do
  setRc (← validateSyntax fuel args 2 "cdr")
  if LP_FAILURE (← getRc) then pure none
  else
    let after ← eval (← OBJ_LEAF (← OBJ_NEXT args)) envsp
    if LP_FAILURE (← getRc) then pure none
    else if (← typeOf after) ≠ objType.OBJTYPE_PAIR then
      setRc (← Lisp.throwError (← lineOf args) "cdr - the result is invalid.")
      pure none
    else OBJ_NEXT after

/-- `Lisp::symbolQuote`. -/
def symbolQuote (_eval : Eval) (fuel : Nat) (args : Ptr) (_envsp : EnvSP) : M Ptr := do
  setRc (← validateSyntax fuel args 2 "quote")
  if LP_FAILURE (← getRc) then pure none
  else
    setRc LINF_SUCCEEDED
    OBJ_LEAF (← OBJ_NEXT args)

/-- `Lisp::displayInner`. -/
def displayInner (eval : Eval) (fuel : Nat) (args : Ptr) (envsp : EnvSP) (ln : Bool) :
    M Ptr := do
  setRc (← validateSyntax fuel args 2 "display")
  if LP_FAILURE (← getRc) then pure none
  else
    let node ← eval (← OBJ_LEAF (← OBJ_NEXT args)) envsp
    if LP_FAILURE (← getRc) then pure none
    else
      if (← get).m_printAtom then
        modify fun s => { s with printed := s.printed ++ [(node, ln)] }
      createAtom (.boolean true) (← lineOf args)

/-- `Lisp::symbolDisplay`. -/
def symbolDisplay (eval : Eval) (fuel : Nat) (args : Ptr) (envsp : EnvSP) : M Ptr :=
  displayInner eval fuel args envsp true

/-- `Lisp::symbolPrint`. -/
def symbolPrint (eval : Eval) (fuel : Nat) (args : Ptr) (envsp : EnvSP) : M Ptr :=
  displayInner eval fuel args envsp false

/-- `Lisp::symbolEval`. -/
def symbolEval (eval : Eval) (fuel : Nat) (args : Ptr) (envsp : EnvSP) : M Ptr := do
  setRc (← validateSyntax fuel args 2 "eval")
  if LP_FAILURE (← getRc) then pure none
  else
    let res ← eval (← OBJ_LEAF (← OBJ_NEXT args)) envsp
    if LP_FAILURE (← getRc) then pure none
    else
      let res ← eval res envsp
      if LP_FAILURE (← getRc) then pure none
      else pure res

/-- The loop of `Lisp::symbolAppend`: walk to the last node of `first`. -/
def appendLoop : Nat → Ptr → M Ptr
  | 0, _ => throw Fault.outOfFuel
  | fuel + 1, first => do
    if (← typeOf first) = objType.OBJTYPE_PAIR then
      if (← OBJ_NEXT first).isSome then appendLoop fuel (← OBJ_NEXT first)
      else pure first
    else pure first

/-- `Lisp::symbolAppend`. -/
def symbolAppend (eval : Eval) (fuel : Nat) (args : Ptr) (envsp : EnvSP) : M Ptr := do
  setRc (← validateSyntax fuel args 3 "append")
  if LP_FAILURE (← getRc) then pure none
  else
    let first ← eval (← OBJ_LEAF (← OBJ_NEXT args)) envsp
    if LP_FAILURE (← getRc) then pure none
    else
      let second ← eval (← OBJ_LEAF (← OBJ_NEXT args)) envsp
      if LP_FAILURE (← getRc) then pure none
      else
        let res := first
        let first ← appendLoop fuel first
        if (← OBJ_NEXT first).isSome then
          setRc (← Lisp.throwError (← lineOf args) "append - expected a list.")
          pure none
        else
          setNext first second
          pure res

/-- `Lisp::predTypeInner`. -/
def predTypeInner (args : Ptr) (_envsp : EnvSP) (type : objType) : M Ptr := do
  let b := decide (type = (← typeOf (← OBJ_LEAF (← OBJ_NEXT args))))
  createAtom (.boolean b) (← lineOf args)

def symbolBooleanP (_eval : Eval) (_fuel : Nat) (args : Ptr) (envsp : EnvSP) : M Ptr :=
  predTypeInner args envsp .OBJTYPE_BOOLEAN

def symbolNumberP (_eval : Eval) (_fuel : Nat) (args : Ptr) (envsp : EnvSP) : M Ptr :=
  predTypeInner args envsp .OBJTYPE_NUMBER

def symbolCharP (_eval : Eval) (_fuel : Nat) (args : Ptr) (envsp : EnvSP) : M Ptr :=
  predTypeInner args envsp .OBJTYPE_CHARACTER

def symbolStringP (_eval : Eval) (_fuel : Nat) (args : Ptr) (envsp : EnvSP) : M Ptr :=
  predTypeInner args envsp .OBJTYPE_STRING

inductive CmpOpcode
  | CMPOP_EQUAL
  | CMPOP_GREATER
  | CMPOP_LESS
  | CMPOP_EGREATER
  | CMPOP_ELESS
  deriving DecidableEq, Repr

/-- `Lisp::cmpInner`. -/
def cmpInner (eval : Eval) (args : Ptr) (envsp : EnvSP) (op : CmpOpcode) : M Ptr := do
  let first ← eval (← OBJ_LEAF (← OBJ_NEXT args)) envsp
  let second ← eval (← OBJ_LEAF (← OBJ_NEXT2 args)) envsp
  if (← typeOf first) ≠ objType.OBJTYPE_NUMBER then
    setRc (← Lisp.throwError (← lineOf first) "equal - type mismatched.")
    pure none
  else if (← typeOf second) ≠ objType.OBJTYPE_NUMBER then
    setRc (← Lisp.throwError (← lineOf second) "equal - type mismatched.")
    pure none
  else
    let rt := (← numberOf first) - (← numberOf second)
    let cmp : Bool :=
      match op with
      | .CMPOP_EQUAL => decide (rt = 0)
      | .CMPOP_GREATER => decide (0 < rt)
      | .CMPOP_LESS => decide (rt < 0)
      | .CMPOP_EGREATER => decide (0 ≤ rt)
      | .CMPOP_ELESS => decide (rt ≤ 0)
    createAtom (.boolean cmp) (← lineOf args)

def symbolEqual (eval : Eval) (_fuel : Nat) (args : Ptr) (envsp : EnvSP) : M Ptr :=
  cmpInner eval args envsp .CMPOP_EQUAL

def symbolGreater (eval : Eval) (_fuel : Nat) (args : Ptr) (envsp : EnvSP) : M Ptr :=
  cmpInner eval args envsp .CMPOP_GREATER

def symbolLess (eval : Eval) (_fuel : Nat) (args : Ptr) (envsp : EnvSP) : M Ptr :=
  cmpInner eval args envsp .CMPOP_LESS

def symbolEGreater (eval : Eval) (_fuel : Nat) (args : Ptr) (envsp : EnvSP) : M Ptr :=
  cmpInner eval args envsp .CMPOP_EGREATER

def symbolELess (eval : Eval) (_fuel : Nat) (args : Ptr) (envsp : EnvSP) : M Ptr :=
  cmpInner eval args envsp .CMPOP_ELESS

/-! ## lisp.cpp -/

/-- An entry of the primitive table. -/
structure Token where
  symbol : String
  eval : Eval → Nat → Ptr → EnvSP → M Ptr

/-- The table `Lisp::tokens`. -/
def tokens : List Token :=
  [ ⟨"set!", symbolSet⟩, ⟨"set-car!", symbolSetCar⟩, ⟨"set-cdr!", symbolSetCdr⟩,
    ⟨"define", symbolDefine⟩, ⟨"lambda", symbolLambda⟩, ⟨"if", symbolIf⟩,
    ⟨"begin", symbolBegin⟩, ⟨"cond", symbolCond⟩, ⟨"cons", symbolCons⟩,
    ⟨"car", symbolCar⟩, ⟨"cdr", symbolCdr⟩, ⟨"quote", symbolQuote⟩,
    ⟨"display", symbolDisplay⟩, ⟨"print", symbolPrint⟩, ⟨"eval", symbolEval⟩,
    ⟨"append", symbolAppend⟩, ⟨"boolean?", symbolBooleanP⟩, ⟨"number?", symbolNumberP⟩,
    ⟨"char?", symbolCharP⟩, ⟨"string?", symbolStringP⟩, ⟨"+", symbolAdd⟩,
    ⟨"-", symbolSub⟩, ⟨"*", symbolMul⟩, ⟨"/", symbolDiv⟩, ⟨"=", symbolEqual⟩,
    ⟨">", symbolGreater⟩, ⟨"<", symbolLess⟩, ⟨">=", symbolEGreater⟩,
    ⟨"<=", symbolELess⟩ ]

/-- `Lisp::evalVariable`. -/
def evalVariable (fuel : Nat) (leaf : Ptr) (envsp : EnvSP) : M Ptr := do
  let (rc, var) ← lookupVariable fuel envsp leaf
  setRc rc
  if LP_FAILURE rc then
    setRc (← Lisp.throwError (← lineOf leaf) "variable was not found.")
    pure none
  else pure var

/-- The loop of `Lisp::evalList`.  The result is the value of `vals` when the loop
is left at its end, or nothing when the routine returns from inside the loop. -/
def evalListLoop (eval : Eval) (envsp : EnvSP) : Nat → Ptr → Ptr → Ptr → M (Option Ptr)
  | 0, _, _, _ => throw Fault.outOfFuel
  | fuel + 1, vars, vals, index => do
    if vars.isSome then
      let res ← eval (← OBJ_LEAF vals) envsp
      if LP_SUCCESS (← getRc) then
        let (rc, each) ← createPair res none 0
        setRc rc
        if LP_SUCCESS rc then
          setNext index each
          evalListLoop eval envsp fuel (← OBJ_NEXT vars) (← OBJ_NEXT vals) each
        else evalListLoop eval envsp fuel vars vals index
      else pure none
    else pure (some vals)

/-- `Lisp::evalList`. -/
def evalList (eval : Eval) (fuel : Nat) (vars vals : Ptr) (envsp : EnvSP) : M Ptr := do
  let old_vars := vars
  if (vars.isNone && vals.isSome) || (vars.isSome && vals.isNone) then
    setRc (← Lisp.throwError (← lineOf vars)
      "invalid number of actual parameters of target function.")
    pure none
  else if vars.isNone then
    pure none
  else
    let res ← eval (← OBJ_LEAF vals) envsp
    if LP_FAILURE (← getRc) then pure none
    else
      let (rc, first) ← createPair res none 0
      setRc rc
      if LP_FAILURE rc then pure none
      else
        match ← evalListLoop eval envsp fuel (← OBJ_NEXT vars) (← OBJ_NEXT vals) first with
        | none => pure none
        | some vals =>
          if vals.isSome then
            setRc (← Lisp.throwError (← lineOf old_vars)
              "invalid number of actual parameters of target function.")
            pure none
          else pure first

/-- `Lisp::evalProcedure`. -/
def evalProcedure (eval : Eval) (fuel : Nat) (body vars vals : Ptr) (envsp : EnvSP) :
    M Ptr := do
  let (rc, newsp) ← push vars vals envsp
  setRc rc
  match newsp with
  | some newsp =>
    if LP_SUCCESS rc then
      let res ← dispatchEvaling eval fuel body newsp
      if LP_SUCCESS (← getRc) then
        pop
        pure res
      else pure none
    else pure none
  | none => pure none

/-- The search of `Lisp::evalCall` in the table `tokens`. -/
def matchToken (name : String) : Option Token :=
  tokens.find? fun tk => tk.symbol = name

/-- The part of `Lisp::evalCall` shared by its two branches: evaluate the operands
and call the procedure `fn`. -/
def applyFunc (eval : Eval) (fuel : Nat) (fn leaf : Ptr) (envsp : EnvSP) : M Ptr := do
  let args ← evalList eval fuel (← funcOf fn).1 (← OBJ_NEXT leaf) envsp
  if LP_SUCCESS (← getRc) then
    let (params, body, fnsp) ← funcOf fn
    let result ← evalProcedure eval fuel body params args fnsp
    if LP_SUCCESS (← getRc) then pure result else pure none
  else pure none

/-- `Lisp::evalCall`. -/
def evalCall (eval : Eval) (fuel : Nat) (leaf : Ptr) (envsp : EnvSP) : M Ptr := do
  let sym ← OBJ_LEAF leaf
  let matched ← (if (← typeOf sym) = objType.OBJTYPE_SYMBOL then do
      pure (matchToken (← symbolOf sym)) else pure none : M (Option Token))
  match matched with
  | some tk =>
    let val ← tk.eval eval fuel leaf envsp
    if LP_SUCCESS (← getRc) then pure val else pure none
  | none =>
    if (← typeOf (← OBJ_LEAF leaf)) = objType.OBJTYPE_SYMBOL then
      let (rc, value) ← lookupVariable fuel envsp (← OBJ_LEAF leaf)
      setRc rc
      if LP_FAILURE rc then
        setRc (← Lisp.throwError (← lineOf leaf) "target function was not found")
        pure none
      else if (← typeOf value) ≠ objType.OBJTYPE_FUNC then
        setRc (← Lisp.throwError (← lineOf leaf) "invalid calling, target is not a function.")
        pure none
      else applyFunc eval fuel value leaf envsp
    else if (← typeOf (← OBJ_LEAF leaf)) ≠ objType.OBJTYPE_PAIR then
      setRc (← Lisp.throwError (← lineOf leaf) "expected a function.")
      pure none
    else
      let lambda ← eval (← OBJ_LEAF leaf) envsp
      if LP_SUCCESS (← getRc) then
        if (← typeOf lambda) ≠ objType.OBJTYPE_FUNC then
          setRc (← Lisp.throwError (← lineOf leaf) "expected a function.")
          pure none
        else applyFunc eval fuel lambda leaf envsp
      else pure none

/-- `Lisp::targetSymbol`. -/
def targetSymbol (leaf : Ptr) : M Bool := do
  pure (decide ((← typeOf leaf) = objType.OBJTYPE_SYMBOL))

/-- `Lisp::targetCall`. -/
def targetCall (leaf : Ptr) : M Bool := do
  if (← typeOf leaf) = objType.OBJTYPE_PAIR then
    if (← typeOf (← OBJ_LEAF leaf)) = objType.OBJTYPE_SYMBOL then pure true
    else pure false
  else pure false

/-- `Lisp::targetPair`. -/
def targetPair (leaf : Ptr) : M Bool := do
  pure (decide ((← typeOf leaf) = objType.OBJTYPE_PAIR))

/-- `Lisp::targetEval`. -/
def targetEval (leaf : Ptr) : M Bool := do
  match ← typeOf leaf with
  | .OBJTYPE_BOOLEAN => pure true
  | .OBJTYPE_NUMBER => pure true
  | .OBJTYPE_STRING => pure true
  | .OBJTYPE_CHARACTER => pure true
  | _ => pure false

/-- `Lisp::eval`.  The first argument bounds the depth of the nested evaluations
and the length of every loop. -/
def eval : Nat → Ptr → EnvSP → M Ptr
  | 0 => fun _ _ => throw Fault.outOfFuel
  | fuel + 1 => fun node envsp => do
    if ← targetEval node then pure node
    else if ← targetSymbol node then evalVariable fuel node envsp
    else if ← targetCall node then evalCall (eval fuel) fuel node envsp
    else
      setRc (← Lisp.throwError (← lineOf node) "invalid syntax.")
      pure none

/-- `Lisp::run`: the status and the value stored in `*out`, if any. -/
def Lisp.run (fuel : Nat) : M (Int × Option Ptr) := do
  if !(← get).m_parsed then pure (LERR_FAILED, none)
  else
    setRc (← newenv)
    if LP_SUCCESS (← getRc) then
      let result ← dispatchEvaling (eval fuel) fuel (← get).m_ast 0
      if LP_SUCCESS (← getRc) then pure (← getRc, some result)
      else pure (← getRc, none)
    else pure (← getRc, none)

/-- `Lisp::setPrintAtomCallback` with a callback that is not null. -/
def Lisp.setPrintAtomCallback : M Unit :=
  modify fun s => { s with m_printAtom := true }

/-- `Parser::dumpast`, which `Lisp::parser` calls after a successful parse
(`DEBUG_PARSER` is 1).  `dumpNode` starts by reading `node->object.type` of the root,
through the null pointer when the root is nil; below a root that is a node it reads
the nodes of the tree, guarding every leaf and every link.  What it writes goes to the
log and is not recorded. -/
def Parser.dumpast (root : Ptr) : M Unit :=
  if root.isNone then throw Fault.nullDeref else pure ()

/-- `Lisp::parser` from the point at which `m_lexer.lex` has returned with success;
`toks` is the token list of the lexer.  (`Lexer::dumplist` reads the lexicon nodes and
writes to the log only.) -/
def Lisp.parser (toks : List LexNode) : M Int := do
  modify fun s => { s with m_parsed := false }
  let (rc, root) ← Parser.parse toks
  match root with
  | some root =>
    if LP_SUCCESS rc then
      Parser.dumpast root
      modify fun s => { s with m_ast := root, m_parsed := true }
      pure rc
    else pure rc
  | none => pure rc

/-! ## stream.cpp, the `StringPool` of string.cpp and lexer.cpp

An input is the list of the bytes of the file, each a number below 256.  The type
`char` is taken to be signed and 8 bits wide, as on the usual targets, so a `char` is
an integer between -128 and 127. -/

/-- The macro `STREAM_EOF`. -/
def STREAM_EOF : Int := -1

/-- The conversion `static_cast<char>` of a byte. -/
def toChar (b : Nat) : Int :=
  if b % 256 < 128 then ((b % 256 : Nat) : Int) else ((b % 256 : Nat) : Int) - 256

/-- The byte that holds the `char` value `c`. -/
def toByte (c : Int) : Nat := (c % 256).toNat

/-- `Filestream::Getchar` on the bytes not yet read: the next byte converted to
`char`, and `static_cast<char>(EOF)` at the end of the file. -/
def Getchar : List Nat → Int × List Nat
  | [] => (-1, [])
  | b :: stream => (toChar b, stream)

/-- `Filestream::UnGetchar`: `ungetc` pushes the byte back, and fails without any
effect when it is handed `EOF`, the value of `static_cast<int>(c)` for `c = -1`. -/
def UnGetchar (c : Int) (stream : List Nat) : List Nat :=
  if c = -1 then stream else toByte c :: stream

/-- The macro `IsSpace(c)`. -/
def IsSpace (c : Int) : Bool := decide (c = 9) || decide (c = 10) || decide (c = 32)

/-- The macro `_MAX_BUFF_SIZE`. -/
def _MAX_BUFF_SIZE : Nat := 16

/-- `StringPool::append(src, lensrc)` on a pool that holds the bytes `w`.  While the
bytes and the terminating NUL fit into the inline buffer they are stored there.
Otherwise the heap buffer is used; it is allocated with `lensrc + 1` rounded up to 15
bytes and then written at the offsets `len .. len + lensrc`, of which the last is at
least 16: a write behind the end of the buffer.  The lexer appends at most 2 bytes
at a time, and this is the case the definition covers. -/
def StringPool.append (w : String) (src : List Int) : Except Fault String :=
  if w.length + (src.length + 1) ≤ _MAX_BUFF_SIZE then
    .ok (w ++ String.mk (src.map fun c => Char.ofNat (toByte c)))
  else .error Fault.bufferOverrun

/-- The loop of `Lexer::lexMisc`.  `buff` holds the `i` bytes that were read and not
yet appended to the word.  The result is the word, these bytes, the flag `pair`, the
last value of `c` and the bytes not yet read. -/
def lexMiscLoop : List Nat → String → List Int → Bool →
    Except Fault (String × List Int × Bool × Int × List Nat)
  | [], word, buff, pair => .ok (word, buff, pair, STREAM_EOF, [])
  | b :: stream, word, buff, pair =>
    let c := toChar b
    if c = STREAM_EOF then .ok (word, buff, pair, c, stream)
    else if !pair && (c = 41 || c = 40 || c = 59 || IsSpace c) then
      .ok (word, buff, pair, c, stream)
    else
      let buff := buff ++ [c]
      let pair1 := if c = 34 then !pair else pair
      if buff.length = 2 then
        match StringPool.append word buff with
        | .error e => .error e
        | .ok word => lexMiscLoop stream word [] pair1
      else lexMiscLoop stream word buff pair1

/-- `Lexer::lexMisc`: the status, the lexicon node with its word and the bytes not yet
read.  The first `append(buff)` measures `buff` with `strlen`, so it appends nothing
when `c` is the NUL byte. -/
def Lexer.lexMisc (lex : LexNode) (c : Int) (stream : List Nat) :
    M (Int × LexNode × List Nat) := do
  match StringPool.append lex.m_word (if c = 0 then [] else [c]) with
  | .error e => throw e
  | .ok word =>
    match lexMiscLoop stream word [] (decide (c = 34)) with
    | .error e => throw e
    | .ok (word, buff, pair, c, stream) =>
      match (if buff.length ≠ 0 then StringPool.append word buff else .ok word) with
      | .error e => throw e
      | .ok word =>
        let rc ← (if pair then Lisp.throwError lex.m_line "String '\"' unpaired!\n"
          else pure LINF_SUCCEEDED : M Int)
        pure (rc, { lex with m_word := word }, UnGetchar c stream)

/-- `Lexer::skipComment`: the last value of `*c` and the bytes not yet read. -/
def skipComment : List Nat → Int × List Nat
  | [] => (STREAM_EOF, [])
  | b :: stream =>
    if toChar b ≠ STREAM_EOF ∧ toChar b ≠ 10 then skipComment stream
    else (toChar b, stream)

/-- The loop of `Lexer::lex`: the status, `currentLine`, the list of the lexicon
nodes and the bytes not yet read. -/
def lexLoop : Nat → Nat → List LexNode → List Nat → M (Int × Nat × List LexNode × List Nat)
  | 0, _, _, _ => throw Fault.outOfFuel
  | fuel + 1, currentLine, lexlist, stream => do
    let (c, stream) := Getchar stream
    if c = STREAM_EOF then pure (LINF_SUCCEEDED, currentLine, lexlist, stream)
    else if IsSpace c && c ≠ 10 then lexLoop fuel currentLine lexlist stream
    else
      let (c, stream) := if c = 59 then skipComment stream else (c, stream)
      if c = 10 then lexLoop fuel (currentLine + 1) lexlist stream
      else if c = 40 then
        lexLoop fuel currentLine (lexlist ++ [⟨.LEX_OPEN_PAREN, "", currentLine⟩]) stream
      else if c = 41 then
        lexLoop fuel currentLine (lexlist ++ [⟨.LEX_CLOSE_PAREN, "", currentLine⟩]) stream
      else
        let lex : LexNode := ⟨if c = 34 then .LEX_STRING else .LEX_MISC, "", currentLine⟩
        let (rc, lex, stream) ← Lexer.lexMisc lex c stream
        if LP_SUCCESS rc then lexLoop fuel currentLine (lexlist ++ [lex]) stream
        else pure (rc, currentLine, lexlist, stream)

/-- `Lexer::lex` on a lexer whose list holds `lexlist` (the list is not emptied):
the status and the list afterwards.  Every round of the loop reads at least one byte,
so one round more than there are bytes is enough fuel (`lexLoop_total`). -/
def Lexer.lex (lexlist : List LexNode) (input : List Nat) : M (Int × List LexNode) := do
  let (rc, _, lexlist, _) ← lexLoop (input.length + 1) 1 lexlist input
  pure (rc, lexlist)

/-- `Lisp::parser` on the bytes of a stream, with the list `lexlist` that the lexer
holds from earlier calls: the status and the list of the lexer afterwards. -/
def Lisp.parserStream (lexlist : List LexNode) (input : List Nat) :
    M (Int × List LexNode) := do
  modify fun s => { s with m_parsed := false }
  let (rc, lexlist) ← Lexer.lex lexlist input
  if LP_SUCCESS rc then
    let (rc, root) ← Parser.parse lexlist
    match root with
    | some root =>
      if LP_SUCCESS rc then
        Parser.dumpast root
        modify fun s => { s with m_ast := root, m_parsed := true }
        pure (rc, lexlist)
      else pure (rc, lexlist)
    | none => pure (rc, lexlist)
  else pure (rc, lexlist)

/-! ## main.cpp and the inputs of the examples -/

/-- The steps of `main` after the lexer: install the print callback, parse the
token list and, when that succeeded, run.  The result is the status and the value
stored in `*out`, together with the final interpreter object. -/
def interpret (toks : List LexNode) (fuel : Nat) :
    Except Fault ((Int × Option Ptr) × Lisp) :=
  (do
    Lisp.setPrintAtomCallback
    let rc ← Lisp.parser toks
    if LP_SUCCESS rc then Lisp.run fuel else pure (rc, none) : M (Int × Option Ptr)).run
    Lisp.init

/-- The value a computation returned, when it ended without a fault. -/
def returned {α : Type} : Except Fault (α × Lisp) → Option α
  | .ok (a, _) => some a
  | .error _ => none

/-- The interpreter object a computation ended with. -/
def stateOf {α : Type} : Except Fault (α × Lisp) → Option Lisp
  | .ok (_, s) => some s
  | .error _ => none

/-- The status a run ended with. -/
def statusOf (r : Except Fault ((Int × Option Ptr) × Lisp)) : Option Int :=
  (returned r).map Prod.fst

/-- The node behind the pointer a run stored in `*out`. -/
def valueOf : Except Fault ((Int × Option Ptr) × Lisp) → Option SynNode
  | .ok ((_, some (some a)), s) => s.heap[a]?.join
  | _ => none

/-- Split a text at its blanks. -/
def splitWords : List Char → List Char → List String
  | [], acc => if acc = [] then [] else [String.mk acc.reverse]
  | c :: cs, acc =>
    if c = Char.ofNat 32 then
      if acc = [] then splitWords cs [] else String.mk acc.reverse :: splitWords cs []
    else splitWords cs (c :: acc)

/-- The lexicon node of one word on line 1: a parenthesis or a `LEX_MISC` word. -/
def wordToken (w : String) : LexNode :=
  if w = "(" then ⟨.LEX_OPEN_PAREN, "", 1⟩
  else if w = ")" then ⟨.LEX_CLOSE_PAREN, "", 1⟩
  else ⟨.LEX_MISC, w, 1⟩

/-- The token list of a one-line source text whose tokens are separated by blanks. -/
def words (src : String) : List LexNode :=
  (splitWords src.data []).map wordToken

/-- The program of the lexical scope example.  `Parser::parse` reads one expression,
so the expressions of a program are the elements of one enclosing list. -/
def scopeProgram : List LexNode :=
  words ("( ( define x 1 ) ( define getx ( lambda ( d ) x ) ) "
    ++ "( define outer ( lambda ( x ) ( getx 0 ) ) ) ( outer 5 ) )")

def aliasProgram : List LexNode :=
  words "( ( define p ( cons 1 2 ) ) ( define q p ) ( set-car! p 9 ) ( car q ) )"

def aliasCdrProgram : List LexNode :=
  words "( ( define p ( cons 1 2 ) ) ( define q p ) ( set-cdr! p 9 ) ( cdr q ) )"

def factProgram : List LexNode :=
  words ("( ( define fact ( lambda ( n ) ( if ( = n 0 ) 1 ( * n ( fact ( - n 1 ) ) ) ) ) ) "
    ++ "( fact 5 ) )")

def makeAddProgram : List LexNode :=
  words ("( ( define make-add ( lambda ( x ) ( lambda ( y ) ( + x y ) ) ) ) "
    ++ "( define add3 ( make-add 3 ) ) ( add3 4 ) )")

def closureTwiceProgram : List LexNode :=
  words "( ( define mk ( lambda ( x ) ( lambda ( y ) x ) ) ) ( mk 1 ) ( mk 2 ) )"

def evalFunctionProgram : List LexNode :=
  words "( ( define f ( lambda ( x ) x ) ) ( eval f ) )"

def lambdaHeadProgram : List LexNode :=
  words "( ( ( lambda ( x ) x ) 5 ) )"

def twoListsProgram : List LexNode :=
  words "( a ) ( b )"

/-! ## Observations on the node store, used to state the theorems -/

/-- The elements of the chain of Pairs at `p`, when it is a proper list of at most
`n` Pairs in the store of `s`. -/
def listElems (s : Lisp) : Nat → Ptr → Option (List Ptr)
  | _, none => some []
  | 0, some _ => none
  | n + 1, some a =>
    match s.heap[a]? with
    | some (some ⟨.pair hd tl, _⟩) => (listElems s n tl).map (fun xs => hd :: xs)
    | _ => none

/-- The head and the tail of the node at address `p`, when it is a Pair. -/
def pairAt (s : Lisp) (p : Nat) : Option (Ptr × Ptr) :=
  match s.heap[p]? with
  | some (some ⟨.pair hd tl, _⟩) => some (hd, tl)
  | _ => none

/-! ## The grammar read by the parser, used to state the theorems -/

mutual

/-- An expression of the grammar of `Parser::generate`: an atom token, or an opening
parenthesis (on line `line`) followed by the body of a list. -/
inductive SExpr
  | atom (t : LexNode)
  | list (line : Nat) (body : SList)

/-- The body of a list, the grammar of `Parser::generateList`: the closing
parenthesis (on line `line`), or an expression followed by the rest of the body. -/
inductive SList
  | close (line : Nat)
  | cons (e : SExpr) (rest : SList)

end

mutual

/-- The tokens that write an expression. -/
def SExpr.toks : SExpr → List LexNode
  | .atom t => [t]
  | .list line body => ⟨.LEX_OPEN_PAREN, "", line⟩ :: body.toks

/-- The tokens that write the body of a list, the closing parenthesis included. -/
def SList.toks : SList → List LexNode
  | .close line => [⟨.LEX_CLOSE_PAREN, "", line⟩]
  | .cons e rest => e.toks ++ rest.toks

end

/-- The body of the list of the expressions `es`, closed on line `line`. -/
def SList.ofList (line : Nat) : List SExpr → SList
  | [] => .close line
  | e :: es => .cons e (SList.ofList line es)

/-- `n` is the node the parser makes of the atom token `t`: `t` is a `LEX_STRING` or
a `LEX_MISC` token for which the generator of `Parser::generate` succeeds, in every
state, with a new node equal to `n`. -/
def AtomNode (t : LexNode) (n : SynNode) : Prop :=
  (t.m_type = .LEX_STRING ∧ ∀ s : Lisp, (generateString t).run s
      = .ok (some s.heap.length, { s with heap := s.heap ++ [some n], rc := LINF_SUCCEEDED }))
  ∨ (t.m_type = .LEX_MISC ∧ ∀ s : Lisp, (generateMisc t).run s
      = .ok (some s.heap.length, { s with heap := s.heap ++ [some n], rc := LINF_SUCCEEDED }))

mutual

/-- Every atom of the expression is a token the parser accepts. -/
def SExpr.Accepted : SExpr → Prop
  | .atom t => ∃ n, AtomNode t n
  | .list _ body => body.Accepted

def SList.Accepted : SList → Prop
  | .close _ => True
  | .cons e rest => e.Accepted ∧ rest.Accepted

end

mutual

/-- The pointer `p` is the syntax tree of the expression in the store `h`: the node
of the atom, or the chain of Pairs of the list. -/
def SExpr.TreeAt (h : List (Option SynNode)) : SExpr → Ptr → Prop
  | .atom t, p => ∃ a n, p = some a ∧ h[a]? = some (some n) ∧ AtomNode t n
  | .list _ body, p => body.TreeAt h p

/-- The pointer `p` is the proper list of the syntax trees of the expressions of the
body, in their order: null for the empty body, else a Pair whose head is the tree of
the first expression and whose tail is the list of the rest. -/
def SList.TreeAt (h : List (Option SynNode)) : SList → Ptr → Prop
  | .close _, p => p = none
  | .cons e rest, p => ∃ a hd tl ln, p = some a ∧
      h[a]? = some (some ⟨.pair hd tl, ln⟩) ∧ e.TreeAt h hd ∧ rest.TreeAt h tl

end

deriving instance DecidableEq for Except

/-- The alias example at the point where `(set-car! p 9)` is about to be evaluated:
the program is parsed, the environment is new and the two definitions are done. -/
def aliasBefore : Lisp :=
  (stateOf ((do
    let _ ← Lisp.parser aliasProgram
    let _ ← newenv
    let _ ← eval 50 (some 10) 0
    let _ ← eval 50 (some 16) 0 : M Unit).run Lisp.init)).getD Lisp.init

/-- The alias example after `(set-car! p 9)`. -/
def aliasAfter : Lisp :=
  (stateOf ((symbolSetCar (eval 50) 4 (some 22) 0).run aliasBefore)).getD Lisp.init

/-- The expressions `(a)` and `(b)`. -/
def twoLists : List SExpr :=
  [.list 1 (.ofList 1 [.atom ⟨.LEX_MISC, "a", 1⟩]),
   .list 1 (.ofList 1 [.atom ⟨.LEX_MISC, "b", 1⟩])]

/-- The program `(fact n)` for a literal `n`. -/
def factProgramFor (n : Nat) : List LexNode :=
  words ("( ( define fact ( lambda ( n ) ( if ( = n 0 ) 1 ( * n ( fact ( - n 1 ) ) ) ) ) ) "
    ++ "( fact " ++ toString n ++ " ) )")

/-- The node store of the factorial example at the point where `(fact n)` is about
to be evaluated: the syntax tree of the program (nodes 0 to 42; the operand `n` of the
call is node 38, the call node 40, the `if` of the body node 30), the global frame and
chain made by `newenv` (nodes 43 and 44) and the nodes made by `(define fact ...)`
(the Function is node 45). -/
def factHeap (n : Nat) : List (Option SynNode) :=
  [
    some ⟨.symbol "define", 1⟩, some ⟨.symbol "fact", 1⟩, some ⟨.symbol "lambda", 1⟩,
    some ⟨.symbol "n", 1⟩, some ⟨.pair (some 3) none, 1⟩, some ⟨.symbol "if", 1⟩,
    some ⟨.symbol "=", 1⟩, some ⟨.symbol "n", 1⟩, some ⟨.number 0, 1⟩,
    some ⟨.pair (some 8) none, 1⟩, some ⟨.pair (some 7) (some 9), 1⟩,
    some ⟨.pair (some 6) (some 10), 1⟩, some ⟨.number 1, 1⟩, some ⟨.symbol "*", 1⟩,
    some ⟨.symbol "n", 1⟩, some ⟨.symbol "fact", 1⟩, some ⟨.symbol "-", 1⟩,
    some ⟨.symbol "n", 1⟩, some ⟨.number 1, 1⟩, some ⟨.pair (some 18) none, 1⟩,
    some ⟨.pair (some 17) (some 19), 1⟩, some ⟨.pair (some 16) (some 20), 1⟩,
    some ⟨.pair (some 21) none, 1⟩, some ⟨.pair (some 15) (some 22), 1⟩,
    some ⟨.pair (some 23) none, 1⟩, some ⟨.pair (some 14) (some 24), 1⟩,
    some ⟨.pair (some 13) (some 25), 1⟩, some ⟨.pair (some 26) none, 1⟩,
    some ⟨.pair (some 12) (some 27), 1⟩, some ⟨.pair (some 11) (some 28), 1⟩,
    some ⟨.pair (some 5) (some 29), 1⟩, some ⟨.pair (some 30) none, 1⟩,
    some ⟨.pair (some 4) (some 31), 1⟩, some ⟨.pair (some 2) (some 32), 1⟩,
    some ⟨.pair (some 33) none, 1⟩, some ⟨.pair (some 1) (some 34), 1⟩,
    some ⟨.pair (some 0) (some 35), 1⟩, some ⟨.symbol "fact", 1⟩,
    some ⟨.number (n : Rat), 1⟩, some ⟨.pair (some 38) none, 1⟩,
    some ⟨.pair (some 37) (some 39), 1⟩, some ⟨.pair (some 40) none, 1⟩,
    some ⟨.pair (some 36) (some 41), 1⟩, some ⟨.pair (some 46) (some 47), 0⟩,
    some ⟨.pair (some 43) none, 0⟩, some ⟨.func (some 4) (some 31) 0, 1⟩,
    some ⟨.pair (some 1) none, 0⟩, some ⟨.pair (some 45) none, 0⟩ ]

/-- The interpreter object of the factorial example at the point where `(fact n)` is
about to be evaluated. -/
def factReady (n : Nat) : Lisp :=
  { heap := factHeap n, m_stack := [(0, some 44)], m_sp := 0, m_vars := some 44,
    m_parsed := true, m_ast := some 42, m_printAtom := true, rc := LINF_SUCCEEDED,
    errors := [], printed := [], oob := [] }

/-- The store of `s` contains the nodes of the factorial example. -/
def FactStore (N : Nat) (s : Lisp) : Prop :=
  ∀ (a : Nat) (n : SynNode), (factHeap N)[a]? = some (some n) → s.heap[a]? = some (some n)


/-- Only the status and the nodes added to the store distinguish `t` from `s`. -/
def Grows (s t : Lisp) : Prop :=
  (∀ (a : Nat) (n : SynNode), s.heap[a]? = some (some n) → t.heap[a]? = some (some n)) ∧
  t.m_stack = s.m_stack ∧ t.m_sp = s.m_sp ∧ t.oob = s.oob ∧ t.errors = s.errors

/-- The chain `t` is the global chain of the factorial example (node 44), or one
frame binding the parameter of `fact` in front of it. -/
def GlobalBelow (s : Lisp) (t : Ptr) : Prop :=
  t = some 44 ∨ ∃ (c f vl : Nat) (x nx : Ptr) (lc lf lvl : Nat), t = some c ∧
    s.heap[c]? = some (some ⟨.pair (some f) (some 44), lc⟩) ∧
    s.heap[f]? = some (some ⟨.pair (some 4) (some vl), lf⟩) ∧
    s.heap[vl]? = some (some ⟨.pair x nx, lvl⟩)

/-- Slot `E` of the stack holds a chain whose first frame binds the parameter of
`fact` to Number `k` and whose tail is `t`. -/
def FactFrame (s : Lisp) (E : Int) (k : Nat) (t : Ptr) : Prop :=
  ∃ (c f vl v lc lf lvl lv : Nat), s.m_stack.lookup E = some (some c) ∧
    s.heap[c]? = some (some ⟨.pair (some f) t, lc⟩) ∧
    s.heap[f]? = some (some ⟨.pair (some 4) (some vl), lf⟩) ∧
    s.heap[vl]? = some (some ⟨.pair (some v) none, lvl⟩) ∧
    s.heap[v]? = some (some ⟨.number (k : Rat), lv⟩)

/-- What the body of `fact` relies on when it runs in environment `E` with its
parameter bound to `k`. -/
def FactInv (N : Nat) (E : Int) (k : Nat) (s : Lisp) : Prop :=
  FactStore N s ∧ (∃ t, FactFrame s E k t ∧ GlobalBelow s t) ∧
  (∃ t0, s.m_stack.lookup 0 = some t0 ∧ GlobalBelow s t0)


/-- The interpreter object after `Lisp::parser` has read the factorial program with
the literal `n`: the syntax tree is in the store, nothing else has happened. -/
def factParsed (N : Nat) : Lisp :=
  { heap := (factHeap N).take 43, m_stack := [], m_sp := 0, m_vars := none, m_parsed := true,
    m_ast := some 42, m_printAtom := true, rc := LINF_SUCCEEDED, errors := [], printed := [],
    oob := [] }

/-! ## Observations on runs and inputs of the examples of the environment and of the
forms -/

/-- The fault that ended a computation, if any. -/
def faultOf {α : Type} : Except Fault α → Option Fault
  | .ok _ => none
  | .error e => some e

/-- The status of a run, the pointer it stored in `*out` and the entry of the store
at that pointer: `some none` stands for a node that was deleted. -/
def outcomeOf (r : Except Fault ((Int × Option Ptr) × Lisp)) :
    Option (Int × Option Ptr × Option (Option SynNode)) :=
  match r with
  | .ok ((rc, p), s) => some (rc, p, (p.bind id).bind (fun a => s.heap[a]?))
  | .error _ => none

/-- The node `*p` of the store `h`. -/
def derefH (h : List (Option SynNode)) : Ptr → Except Fault SynNode
  | none => .error Fault.nullDeref
  | some a =>
    match h[a]? with
    | some (some n) => .ok n
    | _ => .error Fault.deleted

/-- `OBJ_LEAF(p)` read in the store `h`. -/
def leafH (h : List (Option SynNode)) (p : Ptr) : Except Fault Ptr :=
  match derefH h p with
  | .ok ⟨.pair leaf _, _⟩ => .ok leaf
  | .ok _ => .error Fault.notActiveMember
  | .error e => .error e

/-- `OBJ_NEXT(p)` read in the store `h`. -/
def nextH (h : List (Option SynNode)) (p : Ptr) : Except Fault Ptr :=
  match derefH h p with
  | .ok ⟨.pair _ next, _⟩ => .ok next
  | .ok _ => .error Fault.notActiveMember
  | .error e => .error e

/-- The name of the Symbol `p` read in the store `h`. -/
def symbolH (h : List (Option SynNode)) (p : Ptr) : Except Fault String :=
  match derefH h p with
  | .ok ⟨.symbol v, _⟩ => .ok v
  | .ok _ => .error Fault.notActiveMember
  | .error e => .error e

/-- The inner loop of `lookupVariableList` as a function of the store; `lookupFrame`
is this function run on the store of the state (`lookupFrame_read`). -/
def lookupFrameH (h : List (Option SynNode)) (var : String) :
    Nat → Ptr → Ptr → Except Fault (Option Ptr)
  | 0, _, _ => .error Fault.outOfFuel
  | fuel + 1, each_var, each_value =>
    if each_var.isSome && each_value.isSome then
      match leafH h each_var with
      | .error e => .error e
      | .ok none =>
        match nextH h each_var with
        | .error e => .error e
        | .ok v1 =>
          match nextH h each_value with
          | .error e => .error e
          | .ok l1 => lookupFrameH h var fuel v1 l1
      | .ok (some x) =>
        match symbolH h (some x) with
        | .error e => .error e
        | .ok name =>
          if name = var then .ok (some each_value)
          else
            match nextH h each_var with
            | .error e => .error e
            | .ok v1 =>
              match nextH h each_value with
              | .error e => .error e
              | .ok l1 => lookupFrameH h var fuel v1 l1
    else .ok none

/-- The outer loop of `lookupVariableList` as a function of the store; `lookupChain`
is this function run on the store of the state (`lookupChain_read`). -/
def lookupChainH (h : List (Option SynNode)) (var : String) :
    Nat → Ptr → Except Fault (Option Ptr)
  | 0, _ => .error Fault.outOfFuel
  | fuel + 1, n =>
    if n.isSome then
      match leafH h n with
      | .error e => .error e
      | .ok f =>
        match leafH h f with
        | .error e => .error e
        | .ok each_var =>
          match nextH h f with
          | .error e => .error e
          | .ok each_value =>
            match lookupFrameH h var fuel each_var each_value with
            | .error e => .error e
            | .ok (some cell) => .ok (some cell)
            | .ok none =>
              match nextH h n with
              | .error e => .error e
              | .ok tl => lookupChainH h var fuel tl
    else .ok none

/-- `EnvStack::lookupVariable` for the Symbol `var` as a function of the store, from
the chain node on (`lookupVariable_read`). -/
def lookupH (h : List (Option SynNode)) (var : String) (fuel : Nat) (chain : Ptr) :
    Except Fault (Int × Ptr) :=
  match lookupChainH h var fuel chain with
  | .error e => .error e
  | .ok none => .ok (LERR_SYMBOL_NOT_FOUND, none)
  | .ok (some cell) =>
    match leafH h cell with
    | .error e => .error e
    | .ok v => .ok (LINF_SUCCEEDED, v)

/-- A result of a reading of the store, as a run that leaves the state alone. -/
def readIn {α : Type} (s : Lisp) : Except Fault α → Except Fault (α × Lisp)
  | .ok a => .ok (a, s)
  | .error e => .error e

/-- The addresses of the cells of the chain of Pairs at `p`, when it is a proper list
of at most `k` Pairs in the store `h`. -/
def cellsOf (h : List (Option SynNode)) : Nat → Ptr → Option (List Nat)
  | _, none => some []
  | 0, some _ => none
  | k + 1, some a =>
    match h[a]? with
    | some (some ⟨.pair _ tl, _⟩) => (cellsOf h k tl).map (fun xs => a :: xs)
    | _ => none

/-- The addresses of the nodes that make up the environment at `p` in the store `h`:
for each chain node, the node itself, its frame, the cells of the list of symbols and
the cells of the list of values. -/
def envNodes (h : List (Option SynNode)) : Nat → Ptr → Option (List Nat)
  | _, none => some []
  | 0, some _ => none
  | k + 1, some a =>
    match h[a]? with
    | some (some ⟨.pair (some f) tl, _⟩) =>
      match h[f]? with
      | some (some ⟨.pair pv pl, _⟩) =>
        match cellsOf h k pv, cellsOf h k pl, envNodes h k tl with
        | some vs, some ls, some rest => some (a :: f :: (vs ++ ls ++ rest))
        | _, _, _ => none
      | _ => none
    | _ => none

/-- The names of the nodes `xs`, when each of them is a Symbol in the store of `s`. -/
def symbolNames (s : Lisp) : List Ptr → Option (List String)
  | [] => some []
  | none :: _ => none
  | some x :: xs =>
    match s.heap[x]? with
    | some (some ⟨.symbol v, _⟩) => (symbolNames s xs).map (fun vs => v :: vs)
    | _ => none

/-- The store after `defineVariable(sp, src, val)` on the frame `f` (with line `lf`,
list of symbols `pv` and list of values `pl`), in terms of the store `h` before: the
two new cells are appended and the frame is overwritten twice. -/
def definedHeap (h : List (Option SynNode)) (f lf : Nat) (src val pv pl : Ptr) :
    List (Option SynNode) :=
  (((h ++ [some (SynNode.mk (.pair src pv) 0)]).set f
      (some (SynNode.mk (.pair (some h.length) pl) lf)))
    ++ [some (SynNode.mk (.pair val pl) 0)]).set f
      (some (SynNode.mk (.pair (some h.length) (some (h.length + 1))) lf))

/-- The statuses of `n` consecutive calls `push(0, 0, 0)`, in order. -/
def pushes : Nat → M (List Int)
  | 0 => pure []
  | n + 1 => do
    let (rc, _) ← push none none 0
    let rest ← pushes n
    pure (rc :: rest)

def defineProgram : List LexNode :=
  words "( ( define x 1 ) ( define y 2 ) ( define x 3 ) z )"

/-- The state in which the third definition of `defineProgram` is about to be
evaluated: the program is parsed, the environment is new, `x` and `y` are defined. -/
def defineReady : Lisp :=
  (stateOf ((do
    Lisp.setPrintAtomCallback
    let _ ← Lisp.parser defineProgram
    let _ ← newenv
    let _ ← eval 50 (some 5) 0
    let _ ← eval 50 (some 11) 0 : M Unit).run Lisp.init)).getD Lisp.init

def pushProgram : List LexNode :=
  words "( ( define c 7 ) ( a b a ) ( 1 2 3 ) c d )"

/-- The state in which the lists `(a b a)` and `(1 2 3)` of `pushProgram` are about
to be pushed: the program is parsed, the environment is new and `c` is defined. -/
def pushReady : Lisp :=
  (stateOf ((do
    Lisp.setPrintAtomCallback
    let _ ← Lisp.parser pushProgram
    let _ ← newenv
    let _ ← eval 50 (some 5) 0 : M Unit).run Lisp.init)).getD Lisp.init

/-- The state after `push` of the two lists of `pushProgram` on the global frame. -/
def pushDone : Lisp :=
  (stateOf (push (some 11) (some 17) 0 pushReady)).getD Lisp.init

def setAliasProgram : List LexNode :=
  words "( ( define p ( cons 1 2 ) ) ( define q p ) ( set! p 0 ) ( car q ) )"

def setAliasLookProgram : List LexNode :=
  words "( ( define p ( cons 1 2 ) ) ( define q p ) ( set! p 0 ) q )"

def setTwiceProgram : List LexNode :=
  words "( ( define x 1 ) ( define y x ) ( set! x 2 ) ( set! y 3 ) )"

def setTwiceLookProgram : List LexNode :=
  words "( ( define x 1 ) ( define y x ) ( set! x 2 ) y )"

def setOnceProgram : List LexNode :=
  words "( ( define x 1 ) ( set! x 2 ) x )"

def setUnboundProgram : List LexNode :=
  words "( ( set! zz 2 ) )"

def shadowCarProgram : List LexNode :=
  words "( ( define car ( lambda ( x ) 42 ) ) ( car ( cons 1 2 ) ) )"

/-- The shadowing example at the point where `(car (cons 1 2))` is about to be
evaluated: the program is parsed, the environment is new and `car` is defined. -/
def shadowCarState : Lisp :=
  (stateOf ((do
    Lisp.setPrintAtomCallback
    let _ ← Lisp.parser shadowCarProgram
    let _ ← newenv
    let _ ← eval 50 (some 11) 0 : M Unit).run Lisp.init)).getD Lisp.init

/-- Calls of the comparisons and of the type predicates with one operand too many. -/
def surplusOperandPrograms : List (List LexNode) :=
  [words "( ( = 1 2 3 ) )", words "( ( > 1 2 3 ) )", words "( ( < 1 2 3 ) )",
   words "( ( >= 1 2 3 ) )", words "( ( <= 1 2 3 ) )", words "( ( boolean? 1 2 ) )",
   words "( ( number? 1 2 ) )", words "( ( char? 1 2 ) )", words "( ( string? 1 2 ) )"]

def equalThreeProgram : List LexNode :=
  words "( ( = 1 2 3 ) )"

def numberPTwoProgram : List LexNode :=
  words "( ( number? 1 2 ) )"

def equalOneProgram : List LexNode :=
  words "( ( = 1 ) )"

def subThreeProgram : List LexNode :=
  words "( ( - 1 2 3 ) )"

def tooFewProgram : List LexNode :=
  words "( ( define f ( lambda ( x y ) x ) ) ( f 1 ) )"

def noParamProgram : List LexNode :=
  words "( ( define f ( lambda ( ) 7 ) ) ( f 1 ) )"

def tooManyProgram : List LexNode :=
  words "( ( define f ( lambda ( x ) x ) ) ( f 1 2 ) )"

def noOperandProgram : List LexNode :=
  words "( ( define f ( lambda ( x ) x ) ) ( f ) )"

def sameCountProgram : List LexNode :=
  words "( ( define f ( lambda ( x y ) y ) ) ( f 1 2 ) )"

def condFailProgram : List LexNode :=
  words "( ( cond ( ( nofn ) 1 ) ) )"

/-- The interpreter object after `Lisp::parser` has read `condFailProgram`. -/
def condFailParsed : Lisp :=
  { heap := [some ⟨.symbol "cond", 1⟩, some ⟨.symbol "nofn", 1⟩, some ⟨.pair (some 1) none, 1⟩,
      some ⟨.number 1, 1⟩, some ⟨.pair (some 3) none, 1⟩, some ⟨.pair (some 2) (some 4), 1⟩,
      some ⟨.pair (some 5) none, 1⟩, some ⟨.pair (some 0) (some 6), 1⟩,
      some ⟨.pair (some 7) none, 1⟩],
    m_stack := [], m_sp := 0, m_vars := none, m_parsed := true, m_ast := some 8,
    m_printAtom := true, rc := LINF_SUCCEEDED, errors := [], printed := [], oob := [] }

/-- What the loop of `cond` in `condFailProgram` relies on: the clause, its test
`(nofn)` and the empty global frame at slot 0. -/
def CondFailInv (s : Lisp) : Prop :=
  s.heap[6]? = some (some ⟨.pair (some 5) none, 1⟩) ∧
  s.heap[5]? = some (some ⟨.pair (some 2) (some 4), 1⟩) ∧
  s.heap[2]? = some (some ⟨.pair (some 1) none, 1⟩) ∧
  s.heap[1]? = some (some ⟨.symbol "nofn", 1⟩) ∧
  s.heap[10]? = some (some ⟨.pair (some 9) none, 0⟩) ∧
  s.heap[9]? = some (some ⟨.pair none none, 0⟩) ∧
  s.m_stack.lookup 0 = some (some 10)

/-! ## Observations on runs and inputs of the examples of the handlers and of the
lexer -/

/-- `EvalsNumbers ev envsp p s ns q t`: from the state `s` the operands in the cells
from `p` up to `q` are evaluated in order by `ev`, each evaluation returns a Number
node, the values are `ns`, and the state at the end is `t`. -/
inductive EvalsNumbers (ev : Eval) (envsp : EnvSP) : Ptr → Lisp → List Rat → Ptr → Lisp → Prop
  | done (s : Lisp) (p : Ptr) : EvalsNumbers ev envsp p s [] p s
  | next {a r l1 l2 : Nat} {e tl q : Ptr} {s s1 t : Lisp} {n : Rat} {ns : List Rat}
      (ha : s.heap[a]? = some (some ⟨.pair e tl, l1⟩))
      (hev : ev e envsp s = .ok (some r, s1))
      (hr : s1.heap[r]? = some (some ⟨.number n, l2⟩))
      (ha1 : s1.heap[a]? = some (some ⟨.pair e tl, l1⟩))
      (hrest : EvalsNumbers ev envsp tl s1 ns q t) :
      EvalsNumbers ev envsp (some a) s (n :: ns) q t

/-- The type predicates paired with the variant they test. -/
def typePredicates : List (String × objType) :=
  [("boolean?", .OBJTYPE_BOOLEAN), ("number?", .OBJTYPE_NUMBER),
   ("char?", .OBJTYPE_CHARACTER), ("string?", .OBJTYPE_STRING)]

def numberPFiveProgram : List LexNode := words "( ( number? 5 ) )"

def numberPSymbolProgram : List LexNode := words "( ( define x 5 ) ( number? x ) )"

def numberPCallProgram : List LexNode := words "( ( number? ( + 1 2 ) ) )"

/-- The second example of the type predicates at the point where `(number? x)` is
about to be evaluated. -/
def numberPReady : Lisp :=
  (stateOf ((do
    Lisp.setPrintAtomCallback
    let _ ← Lisp.parser numberPSymbolProgram
    let _ ← newenv
    let _ ← eval 50 (some 5) 0 : M Unit).run Lisp.init)).getD Lisp.init

def addThreeProgram : List LexNode := words "( ( + 1 2 3 ) )"

def mulNoneProgram : List LexNode := words "( ( * ) )"

def addNoneProgram : List LexNode := words "( ( + ) )"

def mulThreeProgram : List LexNode := words "( ( * 2 3 4 ) )"

def addBooleanProgram : List LexNode := words "( ( + 1 #t ) )"

def addNilProgram : List LexNode := words "( ( + 1 ( quote ( ) ) ) )"

/-- The state in which the loop of `evalList` goes on after an operand has been
evaluated with the result `r` in the state `s1`: the new cell of the value list is
appended, the cell `index` made before it is overwritten by `n`, the same cell linked
to the new one, and the status is the success of `createPair`. -/
def linkResult (s1 : Lisp) (index : Nat) (n : SynNode) (r : Ptr) : Lisp :=
  { s1 with heap := (s1.heap ++ [some (SynNode.mk (.pair r none) 0)]).set index (some n),
            rc := LINF_SUCCEEDED }

/-- `OperandsRun ev envsp vars vals index s es rs t`: from the state `s`, with the
parameter cells from `vars` and the operand cells from `vals` left, the operands `es`
are evaluated by `ev` in the environment `envsp` one after the other in the order of
the list, each one once and with success, the results are `rs`, after each
evaluation the cell for the result is appended to the value list whose last cell is
`index`, and the state at the end, when both lists are used up, is `t`. -/
inductive OperandsRun (ev : Eval) (envsp : EnvSP) :
    Ptr → Ptr → Nat → Lisp → List Ptr → List Ptr → Lisp → Prop
  | done (index : Nat) (s : Lisp) : OperandsRun ev envsp none none index s [] [] s
  | next {pv pa index li l1 l2 : Nat} {x pvt e pat r v nx : Ptr} {s s1 t : Lisp}
      {es rs : List Ptr}
      (hpa : s.heap[pa]? = some (some ⟨.pair e pat, l2⟩))
      (hev : ev e envsp s = .ok (r, s1)) (hrc : 0 < s1.rc)
      (hidx : s1.heap[index]? = some (some ⟨.pair v nx, li⟩))
      (hpv : (linkResult s1 index ⟨.pair v (some s1.heap.length), li⟩ r).heap[pv]?
        = some (some ⟨.pair x pvt, l1⟩))
      (hpa1 : (linkResult s1 index ⟨.pair v (some s1.heap.length), li⟩ r).heap[pa]?
        = some (some ⟨.pair e pat, l2⟩))
      (hrest : OperandsRun ev envsp pvt pat s1.heap.length
        (linkResult s1 index ⟨.pair v (some s1.heap.length), li⟩ r) es rs t) :
      OperandsRun ev envsp (some pv) (some pa) index s (e :: es) (r :: rs) t

/-- The bytes of a text of ASCII characters. -/
def bytes (src : String) : List Nat := src.data.map Char.toNat

/-- The lexicon nodes of an input read by a new lexer: status, type, word as bytes and
line of each node. -/
def lexOf (input : List Nat) : Option (Int × List (LexType × List Nat × Nat)) :=
  (returned ((Lexer.lex [] input).run Lisp.init)).map fun r =>
    (r.1, r.2.map fun t => (t.m_type, t.m_word.data.map Char.toNat, t.m_line))

/-- `KeepsParsed x`: the computation `x` leaves the flag `m_parsed` as it found it. -/
def KeepsParsed {α : Type} (x : M α) : Prop :=
  ∀ (s : Lisp) (a : α) (s1 : Lisp), x s = .ok (a, s1) → s1.m_parsed = s.m_parsed

/-- Two calls of `Lisp::parser` on one interpreter, the first on `(a)` and the second
on an input with an unpaired double quote, and then `Lisp::run`: the two statuses of
the parser and the status of `run`, and whether `run` stored no result and left the
state as it found it. -/
def parseTwiceThenRun : M (List Int × Bool) := do
  let (rc1, lexlist) ← Lisp.parserStream [] (bytes "(a)")
  let (rc2, _) ← Lisp.parserStream lexlist (bytes "\"b")
  let before ← get
  let r ← Lisp.run 10
  pure ([rc1, rc2, r.1], r.2.isNone && decide ((← get) = before))

/-- Whether the byte ends a token when it stands outside double quotes: a
parenthesis, a semicolon, a tab, a newline or a blank. -/
def isDelimiter (b : Nat) : Bool :=
  decide (b = 41) || decide (b = 40) || decide (b = 59) || decide (b = 9) || decide (b = 10)
    || decide (b = 32)

/-- The bytes that follow the first byte of a token, read off the input: every double
quote switches between inside and outside of a string (`pair` tells whether the
token starts inside one); the token ends before the first delimiter that stands
outside a string, at a byte 255, which is consumed, or at the end of the input.  The
result is these bytes, whether the end was reached inside a string, and the input
that is left. -/
def tokenRest : Bool → List Nat → List Nat × Bool × List Nat
  | pair, [] => ([], pair, [])
  | pair, b :: stream =>
    if b = 255 then ([], pair, stream)
    else if !pair && isDelimiter b then ([], pair, b :: stream)
    else
      let r := tokenRest (if b = 34 then !pair else pair) stream
      (b :: r.1, r.2.1, r.2.2)

/-- The characters that a list of `char` values stands for in a word. -/
def charsOf (src : List Int) : List Char := src.map fun c => Char.ofNat (toByte c)

def addUndefinedProgram : List LexNode := words "( ( + u 1 ) )"

def mulUndefinedProgram : List LexNode := words "( ( * u 1 ) )"

def equalUndefinedProgram : List LexNode := words "( ( = u ( display 1 ) ) )"

def subUndefinedProgram : List LexNode := words "( ( - u ( display 1 ) ) )"

/-- The program `(= u (display 1))` at the point where the call is about to be
evaluated: parsed, with the global environment made. -/
def equalReady : Lisp :=
  (stateOf ((do
    Lisp.setPrintAtomCallback
    let _ ← Lisp.parser equalUndefinedProgram
    let _ ← newenv : M Unit).run Lisp.init)).getD Lisp.init

/-- The state in which `equalReady` is left by the evaluation of the operand `u`. -/
def equalFailed : Lisp := (stateOf (eval 50 (some 1) 0 equalReady)).getD Lisp.init

/-- What the print callback has received at the end of a computation. -/
def printedOf {α : Type} (r : Except Fault (α × Lisp)) : Option (List (Ptr × Bool)) :=
  (stateOf r).map fun s => s.printed

/-- The diagnostics emitted up to the end of a computation. -/
def errorsOf {α : Type} (r : Except Fault (α × Lisp)) : Option (List (Nat × String)) :=
  (stateOf r).map fun s => s.errors

def appendProgram : List LexNode :=
  words "( ( append ( quote ( 1 2 ) ) ( quote ( 3 ) ) ) )"

def appendDisplayProgram : List LexNode :=
  words "( ( append ( quote ( 1 2 ) ) ( display 3 ) ) )"

def appendUndefinedProgram : List LexNode :=
  words "( ( append ( quote ( 1 2 ) ) u ) )"

/-- The interpreter object at the end of the run of `appendProgram`. -/
def appendResult : Lisp := (stateOf (interpret appendProgram 100)).getD Lisp.init

def carNilProgram : List LexNode := words "( ( car ( quote ( ) ) ) )"

def carEndProgram : List LexNode := words "( ( car ( cdr ( quote ( 1 ) ) ) ) )"

def cdrNilProgram : List LexNode := words "( ( cdr ( quote ( ) ) ) )"

def carNumberProgram : List LexNode := words "( ( car 5 ) )"

def cdrNumberProgram : List LexNode := words "( ( cdr 5 ) )"

def carFunctionProgram : List LexNode := words "( ( car ( lambda ( x ) x ) ) )"

def carPairProgram : List LexNode := words "( ( car ( quote ( 1 2 ) ) ) )"

def cdrPairProgram : List LexNode := words "( ( cdr ( quote ( 1 2 ) ) ) )"

/-- The program `(+ 1 2 3)` at the point where the call is about to be evaluated. -/
def addReady : Lisp :=
  (stateOf ((do
    Lisp.setPrintAtomCallback
    let _ ← Lisp.parser addThreeProgram
    let _ ← newenv : M Unit).run Lisp.init)).getD Lisp.init

def orderProgram : List LexNode :=
  words "( ( define f ( lambda ( a b ) ( display 3 ) ) ) ( f ( display 1 ) ( display 2 ) ) )"

/-- The program of the order of evaluation at the point where the call
`(f (display 1) (display 2))` is about to be evaluated. -/
def orderReady : Lisp :=
  (stateOf ((do
    Lisp.setPrintAtomCallback
    let _ ← Lisp.parser orderProgram
    let _ ← newenv
    let _ ← eval 50 (some 16) 0 : M Unit).run Lisp.init)).getD Lisp.init

/-- The state after the first operand of the call has been evaluated. -/
def orderFirst : Lisp := (stateOf (eval 49 (some 21) 0 orderReady)).getD Lisp.init

/-- The state in which the first cell of the value list has been made. -/
def orderLinked : Lisp :=
  { orderFirst with heap := orderFirst.heap ++ [some (SynNode.mk (.pair (some 36) none) 0)], rc := LINF_SUCCEEDED }

/-- The state after the second operand of the call has been evaluated. -/
def orderSecond : Lisp := (stateOf (eval 49 (some 25) 0 orderLinked)).getD Lisp.init

/-- The state in which both operands have been evaluated and the value list is
complete. -/
def orderEvaluated : Lisp :=
  linkResult orderSecond orderFirst.heap.length
    (SynNode.mk (.pair (some 36) (some orderSecond.heap.length)) 0) (some 38)

/-- The line on which the byte at offset `k` of the input stands: 1 plus the number of
newline bytes before it. -/
def lineAt (input : List Nat) (k : Nat) : Nat := 1 + (input.take k).count 10

/-! ## The buffers of `StringPool` in string.cpp

The class in full: the inline buffer `buff`, the heap buffer `heap_buff` with its size
`buffsize`, and `append` on them.  A buffer is the list of its bytes; a write behind the
end of a buffer is `Fault.bufferOverrun`.  `StringPool.append` above is the view of the
lexer on this class, and `append_refines` relates the two. -/

/-- `strcpy(dst, src)` on two blocks of memory: the bytes of `src` up to and with its
first NUL are written to the start of `dst`.  When `src` holds no NUL, or when these
bytes do not fit into `dst`, the call leaves a block. -/
def strcpy (dst src : List Nat) : Except Fault (List Nat) :=
  let n := (src.takeWhile fun b => b != 0).length
  if n < src.length ∧ n + 1 ≤ dst.length then .ok (src.take (n + 1) ++ dst.drop (n + 1))
  else .error Fault.bufferOverrun

/-- `memcpy(&dst[pos], src, lensrc)` for the `lensrc` bytes `src`. -/
def memcpy (dst : List Nat) (pos : Nat) (src : List Nat) : Except Fault (List Nat) :=
  if pos + src.length ≤ dst.length then
    .ok (dst.take pos ++ src ++ dst.drop (pos + src.length))
  else .error Fault.bufferOverrun

/-- The assignment `dst[pos] = b`. -/
def poke (dst : List Nat) (pos b : Nat) : Except Fault (List Nat) :=
  if pos < dst.length then .ok (dst.set pos b) else .error Fault.bufferOverrun

/-- The data members of `StringPool` (`curpos` is not used by the routines modelled
here).  A block of memory is the list of its bytes, `heap_buff` is `none` for the null
pointer; the bytes of a fresh block are indeterminate in C++ and zero in the model,
and every routine here writes a byte before it reads it.  The sizes are `size_t`; no
value here comes near its range. -/
structure StringPool where
  buff : List Nat
  heap_buff : Option (List Nat)
  len : Nat
  buffsize : Nat
  inheap : Bool
  deriving DecidableEq, Repr

/-- `StringPool::StringPool`. -/
def StringPool.init : StringPool :=
  { buff := List.replicate 16 0, heap_buff := none, len := 0, buffsize := 0, inheap := false }

/-- `StringPool::resizeBuffer`. -/
def StringPool.resizeBuffer (p : StringPool) (newsize : Nat) : Except Fault (Int × StringPool) :=
  let oldbuff := p.heap_buff
  let newsize := newsize ||| (16 - 1)
  let newsize := if newsize / 3 < p.buffsize / 2 then p.buffsize + p.buffsize / 2 else newsize
  let fresh := List.replicate newsize 0
  match oldbuff with
  | some old =>
    match strcpy fresh old with
    | .ok blk => .ok (LINF_SUCCEEDED, { p with heap_buff := some blk, buffsize := newsize })
    | .error e => .error e
  | none => .ok (LINF_SUCCEEDED, { p with heap_buff := some fresh, buffsize := newsize })

/-- The part of `StringPool::append(src, lensrc)` that writes to the heap buffer, after
the buffer has been made ready. -/
def StringPool.appendHeap (p : StringPool) (src : List Nat) : Except Fault (Int × StringPool) :=
  match p.heap_buff with
  | none => .error Fault.nullDeref
  | some heap =>
    match memcpy heap p.len src with
    | .error e => .error e
    | .ok heap =>
      match poke heap (p.len + src.length) 0 with
      | .error e => .error e
      | .ok heap =>
        .ok (LINF_SUCCEEDED, { p with heap_buff := some heap, len := p.len + src.length })

/-- `StringPool::append(src, lensrc)` for the `lensrc` bytes `src`: the status and the
object afterwards. -/
def StringPool.appendBytes (p : StringPool) (src : List Nat) : Except Fault (Int × StringPool) :=
  let lenwr := src.length + 1
  let lenwrSum := p.len + lenwr
  if lenwrSum ≤ 16 then
    match memcpy p.buff p.len src with
    | .error e => .error e
    | .ok buff =>
      match poke buff (p.len + src.length) 0 with
      | .error e => .error e
      | .ok buff => .ok (LINF_SUCCEEDED, { p with buff := buff, len := p.len + src.length })
  else if lenwrSum > p.buffsize then
    match p.resizeBuffer (p.buffsize + lenwr) with
    | .error e => .error e
    | .ok (rc, p) =>
      if LP_SUCCESS rc then
        if !p.inheap then
          match p.heap_buff with
          | none => .error Fault.nullDeref
          | some heap =>
            match strcpy heap p.buff with
            | .error e => .error e
            | .ok heap => ({ p with heap_buff := some heap, inheap := true }).appendHeap src
        else p.appendHeap src
      else .ok (rc, p)
  else p.appendHeap src

/-- `StringPool::buffer`: the block the returned pointer points to. -/
def StringPool.buffer (p : StringPool) : Option (List Nat) :=
  if p.len + 1 ≤ 16 then some p.buff else p.heap_buff

/-- The `len` bytes at `buffer()`. -/
def StringPool.content (p : StringPool) : List Nat :=
  (p.buffer.getD []).take p.len

/-- The pool holds the bytes `w` in its inline buffer, followed by zeros, and has no
heap buffer: the states in which `append` has not yet left the inline buffer. -/
def StringPool.Inline (p : StringPool) (w : List Nat) : Prop :=
  p.heap_buff = none ∧ p.buffsize = 0 ∧ p.inheap = false ∧ p.len = w.length ∧
    w.length + 1 ≤ 16 ∧ p.buff = w ++ List.replicate (16 - w.length) 0

/-- The calls of `append` with the byte lists `srcs`, one after the other, on a new
pool. -/
def appendAll (srcs : List (List Nat)) : Except Fault StringPool :=
  srcs.foldl (fun r src =>
    match r with
    | .error e => .error e
    | .ok p =>
      match p.appendBytes src with
      | .error e => .error e
      | .ok (_, p) => .ok p) (.ok StringPool.init)

/-- The bytes `bs` two at a time, the last one alone when their number is odd. -/
def appendPairs : List Nat → List (List Nat)
  | [] => []
  | [b] => [[b]]
  | b :: c :: bs => [b, c] :: appendPairs bs

/-- The calls of `append` that `Lexer::lexMisc` makes for a lexeme of the bytes `bs`:
the first byte alone, then two bytes at a time, then the byte that is left. -/
def lexemeAppends : List Nat → List (List Nat)
  | [] => []
  | b :: bs => [b] :: appendPairs bs

/-! ## `OutputSynNode` of main.cpp -/

/-- What `OutputSynNode(node, false)` of main.cpp writes for a node that is an atom:
`#t` or `#f` for a Boolean, the C string of the payload between double quotes for a
String, the byte between apostrophes for a Character, `symbol = ` and the C string of
the name for a Symbol, `#func` for a function.  The text of a Number is made by the
`operator<<` of the C++ library for `double` and a Pair is written element by element;
neither is given here. -/
def OutputSynNode (node : SynNode) : Option (List Nat) :=
  match node.object with
  | .boolean v => some (if v = true then bytes "#t" else bytes "#f")
  | .number _ => none
  | .string v => some (bytes "\"" ++ bytes (cString v) ++ bytes "\"")
  | .character v => some (bytes "'" ++ [v.toNat] ++ bytes "'")
  | .symbol v => some (bytes "symbol = " ++ bytes (cString v))
  | .func _ _ _ => some (bytes "#func")
  | .pair _ _ => none

/-! ## Texts of numbers, unclosed lists, lists of symbols and single tokens -/

/-- The sign that a run of blanks and sign characters leaves, read from left to
right: every `-` sets it to -1 and every `+` to 1, so the last sign character
decides; `sign` is the sign before the run. -/
def signAfter (pre : List Char) (sign : Int) : Int :=
  pre.foldl (fun sg c => if c = Char.ofNat 45 then -1 else if c = Char.ofNat 43 then 1 else sg)
    sign

/-- The integer written by the decimal digits `ds`. -/
def digitsValue (ds : List Char) : Nat :=
  ds.foldl (fun a c => 10 * a + (c.toNat - 48)) 0

/-- The text of an optional fractional part: nothing, or the point and its digits. -/
def fracChars : Option (List Char) → List Char
  | none => []
  | some fs => Char.ofNat 46 :: fs

/-- The digits of an optional fractional part. -/
def fracDigits : Option (List Char) → List Char
  | none => []
  | some fs => fs

/-- Whether a lexeme is read as a Number, in the words of the claim: its first byte
is a digit, or its first byte is one of `.`, `+`, `-` and its second byte is a digit or
`.`. -/
def numberLike (w : String) : Bool :=
  match w.data with
  | [] => false
  | c0 :: rest =>
    IsDigit c0 ||
      ((decide (c0 = Char.ofNat 46) || decide (c0 = Char.ofNat 43) || decide (c0 = Char.ofNat 45))
        && (match rest with
            | [] => false
            | c1 :: _ => IsDigit c1 || decide (c1 = Char.ofNat 46)))

/-- The node at the root of the syntax tree after `Lisp::parser` has read the bytes
`input` on a fresh interpreter, with the status of the parser. -/
def parsedRoot (input : List Nat) : Option (Int × Option SynNode) :=
  match (Lisp.parserStream [] input).run Lisp.init with
  | .ok ((rc, _), s) => some (rc, if s.m_parsed then (s.m_ast.bind fun a => s.heap[a]?.join) else none)
  | .error _ => none

/-- The body of a list that is not closed: the tokens end (`stop`), or a complete
expression is followed by the rest of the body, or an inner list is opened (on line
`line`) that is not closed either. -/
inductive SOpen
  | stop
  | cons (e : SExpr) (rest : SOpen)
  | nest (line : Nat) (inner : SOpen)

/-- The tokens that write the body of a list that is not closed. -/
def SOpen.toks : SOpen → List LexNode
  | .stop => []
  | .cons e rest => e.toks ++ rest.toks
  | .nest line inner => ⟨.LEX_OPEN_PAREN, "", line⟩ :: inner.toks

/-- Every atom of the body is a token the parser accepts. -/
def SOpen.Accepted : SOpen → Prop
  | .stop => True
  | .cons e rest => e.Accepted ∧ rest.Accepted
  | .nest _ inner => inner.Accepted

/-- A lexeme that the parser reads as a Symbol of the same name: it holds no NUL byte,
does not begin with `#` or `'`, and is not `numberLike`. -/
def symbolWord (w : String) : Prop :=
  (∀ c ∈ w.data, c ≠ Char.ofNat 0) ∧ byteAt w 0 ≠ Char.ofNat 35 ∧ byteAt w 0 ≠ Char.ofNat 39 ∧
    numberLike w = false

mutual

/-- Every atom of the expression is a `LEX_MISC` token whose lexeme is the name of a
Symbol. -/
def SExpr.Symbols : SExpr → Prop
  | .atom t => t.m_type = .LEX_MISC ∧ symbolWord t.m_word
  | .list _ body => body.Symbols

def SList.Symbols : SList → Prop
  | .close _ => True
  | .cons e rest => e.Symbols ∧ rest.Symbols

end

mutual

/-- The pointer `p` is the expression in the store `h`, for an expression made of
Symbols and lists: a Symbol node with the name and the line of the atom token, or the
list of the body. -/
def SExpr.AstAt (h : List (Option SynNode)) : SExpr → Ptr → Prop
  | .atom t, p => ∃ a, p = some a ∧ h[a]? = some (some ⟨.symbol t.m_word, t.m_line⟩)
  | .list _ body, p => body.AstAt h p

/-- The pointer `p` is the list of the expressions of the body in the store `h`: null
for the empty body, else a Pair whose head is the first expression and whose tail is
the list of the rest. -/
def SList.AstAt (h : List (Option SynNode)) : SList → Ptr → Prop
  | .close _, p => p = none
  | .cons e rest, p => ∃ a hd tl ln, p = some a ∧
      h[a]? = some (some ⟨.pair hd tl, ln⟩) ∧ e.AstAt h hd ∧ rest.AstAt h tl

end

/-- The body of the list `(a () (b c))`, written on the lines 1 and 2. -/
def nestedBody : SList :=
  .cons (.atom ⟨.LEX_MISC, "a", 1⟩)
    (.cons (.list 1 (.close 1))
      (.cons (.list 2 (.cons (.atom ⟨.LEX_MISC, "b", 2⟩)
          (.cons (.atom ⟨.LEX_MISC, "c", 2⟩) (.close 2))))
        (.close 2)))

/-- The expression `(a () (b c))`. -/
def nestedSymbols : SExpr := .list 1 nestedBody

/-- The number of double quotes among the bytes `bs` is odd. -/
def oddQuotes (bs : List Nat) : Bool := decide (bs.count 34 % 2 = 1)

/-- The word of a lexicon node that holds the bytes `bs`. -/
def wordOf (bs : List Nat) : String := String.mk (bs.map Char.ofNat)

/-- Whether the lexer reads the bytes as one token that it stores: the first byte
starts a token, the bytes after it are the rest of this token with nothing left and
every double quote paired, and the token has at most 15 bytes. -/
def singleToken : List Nat → Bool
  | [] => false
  | b0 :: rest =>
    decide (b0 < 255) && decide (b0 ≠ 0) && !isDelimiter b0 && rest.all (fun b => decide (b < 256))
      && decide (tokenRest (decide (b0 = 34)) rest = (rest, false, []))
      && decide (rest.length + 2 ≤ 16)

/-! ## The type `double`

The arithmetic of the interpreter is exact in this development.  The definitions below
give the values of the type `double` and its operations, so that a statement can say
where the exact result of an operation is the result that the program computes, and
where it is not. -/

/-- The integer nearest to `n / d`, the even one of the two when `n / d` lies half way
between them. -/
def roundHalfEven (n d : Nat) : Nat :=
  if 2 * (n % d) < d then n / d
  else if d < 2 * (n % d) then n / d + 1
  else if n / d % 2 = 0 then n / d else n / d + 1

/-- How often `n` can be halved before it falls below 2: the exponent of the largest
power of 2 that is at most `n`, when `fuel` is at least that exponent. -/
def halvings : Nat → Nat → Nat
  | 0, _ => 0
  | fuel + 1, n => if n < 2 then 0 else halvings fuel (n / 2) + 1

/-- The exponent `e` with `2 ^ e ≤ n / d < 2 ^ (e + 1)`, for `n` and `d` positive. -/
def log2Floor (n d : Nat) : Int :=
  let e : Int := (halvings n n : Int) - (halvings d d : Int)
  if 0 ≤ e then (if d * 2 ^ e.toNat ≤ n then e else e - 1)
  else (if d ≤ n * 2 ^ (-e).toNat then e else e - 1)

/-- The value of the type `double` (IEEE 754 binary64: a significand of 53 bits, the
unit in the last place between `2 ^ -1074` and `2 ^ 971`) that is nearest to `q`, the
one with the even significand when `q` lies half way between two of them; `none` when
the rounding gives an infinity. -/
def roundDouble (q : Rat) : Option Rat :=
  if q = 0 then some 0
  else
    let n := q.num.natAbs
    let u : Int := max (log2Floor n q.den - 52) (-1074)
    let r : Rat :=
      if 0 ≤ u then ((roundHalfEven n (q.den * 2 ^ u.toNat) * 2 ^ u.toNat : Nat) : Rat)
      else mkRat (roundHalfEven (n * 2 ^ (-u).toNat) q.den) (2 ^ (-u).toNat)
    if ((2 ^ 1024 : Nat) : Rat) ≤ r then none else some (if q < 0 then -r else r)

/-- The product of two values of the type `double`, as `*` computes it in C++. -/
def mulDouble (a b : Rat) : Option Rat := roundDouble (a * b)

/-- The difference of two values of the type `double`, as `-` computes it in C++. -/
def subDouble (a b : Rat) : Option Rat := roundDouble (a - b)

/-- Whether every Number node of the store holds a value of the type `double`. -/
def numbersAreDoubles (s : Lisp) : Bool :=
  s.heap.all fun n =>
    match n with
    | some ⟨.number v, _⟩ => decide (roundDouble v = some v)
    | _ => true

/-! ## Theorems -/

/-! ### The monad and the store -/

section
variable {α β : Type}

theorem bind_apply (x : M α) (f : α → M β) (s : Lisp) :
    (x >>= f) s = match x s with
      | .ok (a, s') => f a s'
      | .error e => .error e := by
  show StateT.bind x f s = _
  simp only [StateT.bind, bind, Except.bind]
  cases x s <;> rfl

theorem bind_ok {x : M α} {f : α → M β} {s s' : Lisp} {a : α} (h : x s = .ok (a, s')) :
    (x >>= f) s = f a s' := by
  rw [bind_apply, h]

theorem pure_apply (a : α) (s : Lisp) : (pure a : M α) s = .ok (a, s) := rfl

end

theorem setRc_apply (rc : Int) (s : Lisp) : setRc rc s = .ok ((), { s with rc := rc }) := rfl

theorem getRc_apply (s : Lisp) : getRc s = .ok (s.rc, s) := rfl

theorem deref_ok {a : Nat} {s : Lisp} {n : SynNode} (hn : s.heap[a]? = some (some n)) :
    deref (some a) s = .ok (n, s) := by
  simp [deref, bind, StateT.bind, Except.bind, get, getThe, MonadStateOf.get, StateT.get,
    pure, Except.pure, StateT.pure, hn]

theorem typeOf_ok {a : Nat} {s : Lisp} {n : SynNode} (hn : s.heap[a]? = some (some n)) :
    typeOf (some a) s = .ok (n.object.type, s) := by
  simp only [typeOf, bind_ok (deref_ok hn), pure_apply]

theorem lineOf_ok {a : Nat} {s : Lisp} {n : SynNode} (hn : s.heap[a]? = some (some n)) :
    lineOf (some a) s = .ok (n.line, s) := by
  simp only [lineOf, bind_ok (deref_ok hn), pure_apply]

theorem OBJ_LEAF_ok {a : Nat} {s : Lisp} {leaf next : Ptr} {line : Nat}
    (hn : s.heap[a]? = some (some ⟨.pair leaf next, line⟩)) :
    OBJ_LEAF (some a) s = .ok (leaf, s) := by
  simp only [OBJ_LEAF, bind_ok (deref_ok hn), pure_apply]

theorem OBJ_NEXT_ok {a : Nat} {s : Lisp} {leaf next : Ptr} {line : Nat}
    (hn : s.heap[a]? = some (some ⟨.pair leaf next, line⟩)) :
    OBJ_NEXT (some a) s = .ok (next, s) := by
  simp only [OBJ_NEXT, bind_ok (deref_ok hn), pure_apply]

theorem OBJ_NEXT2_ok {a b : Nat} {s : Lisp} {leaf leaf1 next : Ptr} {line line1 : Nat}
    (h0 : s.heap[a]? = some (some ⟨.pair leaf (some b), line⟩))
    (h1 : s.heap[b]? = some (some ⟨.pair leaf1 next, line1⟩)) :
    OBJ_NEXT2 (some a) s = .ok (next, s) := by
  simp only [OBJ_NEXT2, bind_ok (OBJ_NEXT_ok h0), OBJ_NEXT_ok h1]

/-! ### Lists in the store -/

theorem listElems_cons {s : Lisp} {n a : Nat} {x : Ptr} {xs : List Ptr}
    (h : listElems s n (some a) = some (x :: xs)) :
    ∃ m tl ln, n = m + 1 ∧ s.heap[a]? = some (some ⟨.pair x tl, ln⟩) ∧
      listElems s m tl = some xs := by
  cases n with
  | zero => simp [listElems] at h
  | succ m =>
    simp only [listElems] at h
    split at h
    · rename_i hd tl ln heq
      cases hrest : listElems s m tl with
      | none => simp [hrest] at h
      | some ys =>
        simp only [hrest, Option.map_some', Option.some.injEq, List.cons.injEq] at h
        obtain ⟨rfl, rfl⟩ := h
        exact ⟨m, tl, ln, rfl, heq, hrest⟩
    · simp at h

theorem listElems_nil {s : Lisp} {n : Nat} {p : Ptr} (h : listElems s n p = some []) :
    p = none := by
  cases p with
  | none => rfl
  | some a =>
    cases n with
    | zero => simp [listElems] at h
    | succ m =>
      simp only [listElems] at h
      split at h
      · rename_i hd tl ln heq
        cases hrest : listElems s m tl <;> simp [hrest] at h
      · simp at h

theorem countNodes_list (s : Lisp) : ∀ (xs : List Ptr) (n : Nat) (p : Ptr) (c : Int) (fuel : Nat),
    listElems s n p = some xs → xs.length < fuel →
    countNodes fuel p c s = .ok (c + xs.length, s)
  | [], n, p, c, fuel, h, hf => by
    have hp := listElems_nil h
    subst hp
    obtain ⟨f, rfl⟩ : ∃ f, fuel = f + 1 := ⟨fuel - 1, by simp at hf; omega⟩
    simp [countNodes, pure_apply]
  | x :: xs, n, p, c, fuel, h, hf => by
    cases p with
    | none => cases n <;> simp [listElems] at h
    | some a =>
      obtain ⟨m, tl, ln, rfl, hnode, hrest⟩ := listElems_cons h
      obtain ⟨f, rfl⟩ : ∃ f, fuel = f + 1 := ⟨fuel - 1, by simp at hf; omega⟩
      have ih := countNodes_list s xs m tl (c + 1) f hrest (by simpa using hf)
      simp only [countNodes, Option.isSome_some, if_true, bind_ok (OBJ_NEXT_ok hnode), ih]
      simp only [List.length_cons, Nat.cast_add, Nat.cast_one]
      congr 2
      ring

theorem validateSyntax_ok {s : Lisp} {n l : Nat} {xs : List Ptr} {fuel : Nat} (name : String)
    (h : listElems s n (some l) = some xs) (hf : xs.length < fuel) (k : Int)
    (hk : k = xs.length) :
    validateSyntax fuel (some l) k name s = .ok (LINF_SUCCEEDED, s) := by
  cases xs with
  | nil => exact absurd (listElems_nil h) (by simp)
  | cons x xs =>
    obtain ⟨m, tl, ln, rfl, hnode, hrest⟩ := listElems_cons h
    have hc := countNodes_list s (x :: xs) (m + 1) (some l) 0 fuel h hf
    have hk1 : k ≠ -1 := by rw [hk]; simp only [List.length_cons]; omega
    simp only [validateSyntax, hk1, if_false, bind_ok (lineOf_ok hnode), bind_ok hc]
    simp [hk, pure_apply]

theorem listElems_cons_ptr {s : Lisp} {n : Nat} {p x : Ptr} {xs : List Ptr}
    (h : listElems s n p = some (x :: xs)) :
    ∃ a m tl ln, p = some a ∧ n = m + 1 ∧ s.heap[a]? = some (some ⟨.pair x tl, ln⟩) ∧
      listElems s m tl = some xs := by
  cases p with
  | none => cases n <;> simp [listElems] at h
  | some a =>
    obtain ⟨m, tl, ln, hn, hnode, hrest⟩ := listElems_cons h
    exact ⟨a, m, tl, ln, rfl, hn, hnode, hrest⟩

theorem listElems_two {s : Lisp} {n l : Nat} {x e : Ptr}
    (h : listElems s n (some l) = some [x, e]) :
    ∃ r1 ln0 ln1, s.heap[l]? = some (some ⟨.pair x (some r1), ln0⟩) ∧
      s.heap[r1]? = some (some ⟨.pair e none, ln1⟩) := by
  obtain ⟨m, tl, ln0, _, h0, hrest⟩ := listElems_cons h
  obtain ⟨r1, m1, tl1, ln1, rfl, _, h1, hrest1⟩ := listElems_cons_ptr hrest
  have := listElems_nil hrest1
  subst this
  exact ⟨r1, ln0, ln1, h0, h1⟩

theorem listElems_three {s : Lisp} {n l : Nat} {x e1 e2 : Ptr}
    (h : listElems s n (some l) = some [x, e1, e2]) :
    ∃ r1 r2 ln0 ln1 ln2, s.heap[l]? = some (some ⟨.pair x (some r1), ln0⟩) ∧
      s.heap[r1]? = some (some ⟨.pair e1 (some r2), ln1⟩) ∧
      s.heap[r2]? = some (some ⟨.pair e2 none, ln2⟩) := by
  obtain ⟨m, tl, ln0, _, h0, hrest⟩ := listElems_cons h
  obtain ⟨r1, m1, tl1, ln1, rfl, _, h1, hrest1⟩ := listElems_cons_ptr hrest
  obtain ⟨r2, m2, tl2, ln2, rfl, _, h2, hrest2⟩ := listElems_cons_ptr hrest1
  have := listElems_nil hrest2
  subst this
  exact ⟨r1, r2, ln0, ln1, ln2, h0, h1, h2⟩

theorem pairAt_some {s : Lisp} {p : Nat} {hd tl : Ptr} (h : pairAt s p = some (hd, tl)) :
    ∃ ln, s.heap[p]? = some (some ⟨.pair hd tl, ln⟩) := by
  simp only [pairAt] at h
  split at h
  · rename_i hd' tl' ln heq
    simp only [Option.some.injEq, Prod.mk.injEq] at h
    obtain ⟨rfl, rfl⟩ := h
    exact ⟨ln, heq⟩
  · simp at h

theorem store_ok {p : Nat} {s : Lisp} {n n' : SynNode} (hn : s.heap[p]? = some (some n)) :
    store (some p) n' s = .ok ((), { s with heap := s.heap.set p (some n') }) := by
  simp only [store, bind_ok (deref_ok hn)]
  rfl

theorem setLeaf_ok {p : Nat} {s : Lisp} {hd tl v : Ptr} {ln : Nat}
    (hn : s.heap[p]? = some (some ⟨.pair hd tl, ln⟩)) :
    setLeaf (some p) v s
      = .ok ((), { s with heap := s.heap.set p (some ⟨.pair v tl, ln⟩) }) := by
  simp only [setLeaf, bind_ok (deref_ok hn), store_ok hn]

theorem setNext_ok {p : Nat} {s : Lisp} {hd tl v : Ptr} {ln : Nat}
    (hn : s.heap[p]? = some (some ⟨.pair hd tl, ln⟩)) :
    setNext (some p) v s
      = .ok ((), { s with heap := s.heap.set p (some ⟨.pair hd v, ln⟩) }) := by
  simp only [setNext, bind_ok (deref_ok hn), store_ok hn]

theorem createAtom_apply (d : objData) (l : Nat) (s : Lisp) :
    createAtom d l s = .ok (some s.heap.length,
      { s with heap := s.heap ++ [some ⟨d, l⟩], rc := LINF_SUCCEEDED }) := rfl

theorem LP_FAILURE_of_pos {rc : Int} (h : 0 < rc) : LP_FAILURE rc = false := by
  simp [LP_FAILURE]; omega

theorem LP_SUCCESS_of_pos {rc : Int} (h : 0 < rc) : LP_SUCCESS rc = true := by
  simp [LP_SUCCESS]; omega

/-- The effect of `set-car!` on the store. -/
theorem symbolSetCar_ok {ev : Eval} {fuel : Nat} {envsp : EnvSP} {s s1 s2 : Lisp} {l p : Nat}
    {op e1 e2 v hd tl : Ptr} {lp : Nat} {nl : SynNode}
    (hcall : listElems s 3 (some l) = some [op, e1, e2])
    (h1 : ev e1 envsp { s with rc := LINF_SUCCEEDED } = .ok (some p, s1)) (hrc1 : 0 < s1.rc)
    (hcall1 : listElems s1 3 (some l) = some [op, e1, e2])
    (h2 : ev e2 envsp s1 = .ok (v, s2)) (hrc2 : 0 < s2.rc)
    (hl : (s2.heap.set p (some ⟨.pair v tl, lp⟩))[l]? = some (some nl))
    (hp : s2.heap[p]? = some (some ⟨.pair hd tl, lp⟩)) :
    symbolSetCar ev (fuel + 4) (some l) envsp s = .ok (some s2.heap.length,
      { s2 with heap := s2.heap.set p (some ⟨.pair v tl, lp⟩) ++ [some ⟨.boolean true, nl.line⟩],
                rc := LINF_SUCCEEDED }) := by
  obtain ⟨r1, r2, ln0, ln1, ln2, a0, a1, a2⟩ := listElems_three hcall
  obtain ⟨r1', r2', ln0', ln1', ln2', b0, b1, b2⟩ := listElems_three hcall1
  have hv := validateSyntax_ok "set-car!" hcall (by simp : [op, e1, e2].length < fuel + 4) 3 rfl
  have a0' : ({ s with rc := LINF_SUCCEEDED } : Lisp).heap[l]? = _ := a0
  have a1' : ({ s with rc := LINF_SUCCEEDED } : Lisp).heap[r1]? = _ := a1
  have hl' : ({ s2 with heap := s2.heap.set p (some ⟨.pair v tl, lp⟩) } : Lisp).heap[l]? = _ := hl
  simp only [symbolSetCar, bind_ok hv, setRc_apply, bind_ok (setRc_apply _ _),
    bind_ok (getRc_apply _), LP_FAILURE_of_pos (show (0:Int) < LINF_SUCCEEDED by decide),
    Bool.false_eq_true, if_false, bind_ok (OBJ_NEXT_ok a0'), bind_ok (OBJ_LEAF_ok a1'),
    bind_ok h1, LP_FAILURE_of_pos hrc1, bind_ok (OBJ_NEXT2_ok b0 b1),
    bind_ok (OBJ_LEAF_ok b2), bind_ok h2, LP_FAILURE_of_pos hrc2,
    bind_ok (typeOf_ok hp), objData.type, ne_eq, not_true_eq_false,
    bind_ok (setLeaf_ok hp), bind_ok (lineOf_ok hl'), createAtom_apply]
  simp

/-- The effect of `set-cdr!` on the store. -/
theorem symbolSetCdr_ok {ev : Eval} {fuel : Nat} {envsp : EnvSP} {s s1 s2 : Lisp} {l p : Nat}
    {op e1 e2 v hd tl : Ptr} {lp : Nat} {nl : SynNode}
    (hcall : listElems s 3 (some l) = some [op, e1, e2])
    (h1 : ev e1 envsp { s with rc := LINF_SUCCEEDED } = .ok (some p, s1)) (hrc1 : 0 < s1.rc)
    (hcall1 : listElems s1 3 (some l) = some [op, e1, e2])
    (h2 : ev e2 envsp s1 = .ok (v, s2)) (hrc2 : 0 < s2.rc)
    (hl : (s2.heap.set p (some ⟨.pair hd v, lp⟩))[l]? = some (some nl))
    (hp : s2.heap[p]? = some (some ⟨.pair hd tl, lp⟩)) :
    symbolSetCdr ev (fuel + 4) (some l) envsp s = .ok (some s2.heap.length,
      { s2 with heap := s2.heap.set p (some ⟨.pair hd v, lp⟩) ++ [some ⟨.boolean true, nl.line⟩],
                rc := LINF_SUCCEEDED }) := by
  obtain ⟨r1, r2, ln0, ln1, ln2, a0, a1, a2⟩ := listElems_three hcall
  obtain ⟨r1', r2', ln0', ln1', ln2', b0, b1, b2⟩ := listElems_three hcall1
  have hv := validateSyntax_ok "set-cdr!" hcall (by simp : [op, e1, e2].length < fuel + 4) 3 rfl
  have a0' : ({ s with rc := LINF_SUCCEEDED } : Lisp).heap[l]? = _ := a0
  have a1' : ({ s with rc := LINF_SUCCEEDED } : Lisp).heap[r1]? = _ := a1
  have hl' : ({ s2 with heap := s2.heap.set p (some ⟨.pair hd v, lp⟩) } : Lisp).heap[l]? = _ := hl
  simp only [symbolSetCdr, bind_ok hv, setRc_apply, bind_ok (setRc_apply _ _),
    bind_ok (getRc_apply _), LP_FAILURE_of_pos (show (0:Int) < LINF_SUCCEEDED by decide),
    Bool.false_eq_true, if_false, bind_ok (OBJ_NEXT_ok a0'), bind_ok (OBJ_LEAF_ok a1'),
    bind_ok h1, LP_FAILURE_of_pos hrc1, bind_ok (OBJ_NEXT2_ok b0 b1),
    bind_ok (OBJ_LEAF_ok b2), bind_ok h2, LP_FAILURE_of_pos hrc2,
    bind_ok (typeOf_ok hp), objData.type, ne_eq, not_true_eq_false,
    bind_ok (setNext_ok hp), bind_ok (lineOf_ok hl'), createAtom_apply]
  simp

/-- `car` returns the head stored in the Pair its operand evaluates to. -/
theorem symbolCar_ok {ev : Eval} {fuel : Nat} {envsp : EnvSP} {t t1 : Lisp} {c p : Nat}
    {op e hd tl : Ptr} {lp : Nat}
    (hcall : listElems t 2 (some c) = some [op, e])
    (h1 : ev e envsp { t with rc := LINF_SUCCEEDED } = .ok (some p, t1)) (hrc1 : 0 < t1.rc)
    (hp : t1.heap[p]? = some (some ⟨.pair hd tl, lp⟩)) :
    symbolCar ev (fuel + 3) (some c) envsp t = .ok (hd, t1) := by
  obtain ⟨r1, ln0, ln1, a0, a1⟩ := listElems_two hcall
  have hv := validateSyntax_ok "car" hcall (by simp : [op, e].length < fuel + 3) 2 rfl
  have a0' : ({ t with rc := LINF_SUCCEEDED } : Lisp).heap[c]? = _ := a0
  have a1' : ({ t with rc := LINF_SUCCEEDED } : Lisp).heap[r1]? = _ := a1
  simp only [symbolCar, bind_ok hv, setRc_apply, bind_ok (setRc_apply _ _),
    bind_ok (getRc_apply _), LP_FAILURE_of_pos (show (0:Int) < LINF_SUCCEEDED by decide),
    Bool.false_eq_true, if_false, bind_ok (OBJ_NEXT_ok a0'), bind_ok (OBJ_LEAF_ok a1'),
    bind_ok h1, LP_FAILURE_of_pos hrc1, bind_ok (typeOf_ok hp), objData.type, ne_eq,
    not_true_eq_false, OBJ_LEAF_ok hp]

/-- `cdr` returns the tail stored in the Pair its operand evaluates to. -/
theorem symbolCdr_ok {ev : Eval} {fuel : Nat} {envsp : EnvSP} {t t1 : Lisp} {c p : Nat}
    {op e hd tl : Ptr} {lp : Nat}
    (hcall : listElems t 2 (some c) = some [op, e])
    (h1 : ev e envsp { t with rc := LINF_SUCCEEDED } = .ok (some p, t1)) (hrc1 : 0 < t1.rc)
    (hp : t1.heap[p]? = some (some ⟨.pair hd tl, lp⟩)) :
    symbolCdr ev (fuel + 3) (some c) envsp t = .ok (tl, t1) := by
  obtain ⟨r1, ln0, ln1, a0, a1⟩ := listElems_two hcall
  have hv := validateSyntax_ok "cdr" hcall (by simp : [op, e].length < fuel + 3) 2 rfl
  have a0' : ({ t with rc := LINF_SUCCEEDED } : Lisp).heap[c]? = _ := a0
  have a1' : ({ t with rc := LINF_SUCCEEDED } : Lisp).heap[r1]? = _ := a1
  simp only [symbolCdr, bind_ok hv, setRc_apply, bind_ok (setRc_apply _ _),
    bind_ok (getRc_apply _), LP_FAILURE_of_pos (show (0:Int) < LINF_SUCCEEDED by decide),
    Bool.false_eq_true, if_false, bind_ok (OBJ_NEXT_ok a0'), bind_ok (OBJ_LEAF_ok a1'),
    bind_ok h1, LP_FAILURE_of_pos hrc1, bind_ok (typeOf_ok hp), objData.type, ne_eq,
    not_true_eq_false, OBJ_NEXT_ok hp]

theorem getElem?_set_some {xs : List (Option SynNode)} {p l : Nat} {x : Option SynNode}
    {y z : SynNode} (hp : xs[p]? = some x) (hl : xs[l]? = some (some y)) :
    ∃ w, (xs.set p (some z))[l]? = some (some w) := by
  by_cases h : p = l
  · subst h
    have hlt : p < xs.length := by
      by_contra hc
      rw [List.getElem?_eq_none (by omega)] at hp
      exact absurd hp (by simp)
    exact ⟨z, by simp [List.getElem?_set_self, hlt]⟩
  · exact ⟨y, by rw [List.getElem?_set_ne h]; exact hl⟩

theorem getElem?_set_append_self {α : Type} {xs ys : List α} {p : Nat} {x z : α}
    (hp : xs[p]? = some x) : (xs.set p z ++ ys)[p]? = some z := by
  have hlt : p < xs.length := by
    by_contra hc
    rw [List.getElem?_eq_none (by omega)] at hp
    exact absurd hp (by simp)
  rw [List.getElem?_append_left (by simpa using hlt)]
  simp [List.getElem?_set_self, hlt]

/-! ### The parser -/

mutual

theorem exprTree_append (h ext : List (Option SynNode)) :
    ∀ (e : SExpr) (p : Ptr), e.TreeAt h p → e.TreeAt (h ++ ext) p
  | .atom t, p, hp => by
    obtain ⟨a, n, rfl, hn, hat⟩ := hp
    refine ⟨a, n, rfl, ?_, hat⟩
    rw [List.getElem?_append_left (by
      by_contra hc
      rw [List.getElem?_eq_none (by omega)] at hn
      exact absurd hn (by simp))]
    exact hn
  | .list _ body, p, hp => listTree_append h ext body p hp

theorem listTree_append (h ext : List (Option SynNode)) :
    ∀ (b : SList) (p : Ptr), b.TreeAt h p → b.TreeAt (h ++ ext) p
  | .close _, _, hp => hp
  | .cons e rest, p, hp => by
    obtain ⟨a, hd, tl, ln, rfl, hn, he, hr⟩ := hp
    refine ⟨a, hd, tl, ln, rfl, ?_, exprTree_append h ext e hd he,
      listTree_append h ext rest tl hr⟩
    rw [List.getElem?_append_left (by
      by_contra hc
      rw [List.getElem?_eq_none (by omega)] at hn
      exact absurd hn (by simp))]
    exact hn

end

theorem exprToks_length_pos : ∀ e : SExpr, 0 < e.toks.length
  | .atom _ => by simp [SExpr.toks]
  | .list _ _ => by simp [SExpr.toks]

theorem listToks_length_pos : ∀ b : SList, 0 < b.toks.length
  | .close _ => by simp [SList.toks]
  | .cons e rest => by
    simp only [SList.toks, List.length_append]
    have := exprToks_length_pos e
    omega

theorem getElem?_mid {α : Type} (pre : List α) (x : α) (mid post : List α) :
    (pre ++ (x :: mid) ++ post)[pre.length]? = some x := by
  rw [List.append_assoc, List.getElem?_append_right (le_refl _)]
  simp

theorem exprToks_head : ∀ e : SExpr, e.Accepted →
    ∃ t0 tl, e.toks = t0 :: tl ∧ t0.m_type ≠ .LEX_CLOSE_PAREN
  | .atom t, he => by
    obtain ⟨n, hn⟩ := he
    refine ⟨t, [], rfl, ?_⟩
    rcases hn with ⟨hty, _⟩ | ⟨hty, _⟩ <;> simp [hty]
  | .list line body, _ => ⟨⟨.LEX_OPEN_PAREN, "", line⟩, body.toks, rfl, by simp⟩

theorem lexLine_ok {toks : List LexNode} {j : Nat} {t : LexNode} (h : toks[j]? = some t)
    (s : Lisp) : lexLine toks (some j) s = .ok (t.m_line, s) := by
  simp only [lexLine, Option.bind, h]
  rfl

theorem createPair_apply (leaf next : Ptr) (line : Nat) (s : Lisp) :
    createPair leaf next line s = .ok ((LINF_SUCCEEDED, some s.heap.length),
      { s with heap := s.heap ++ [some ⟨.pair leaf next, line⟩] }) := rfl

theorem LP_SUCCESS_one : LP_SUCCESS LINF_SUCCEEDED = true := by decide

mutual

theorem generate_spec : ∀ (e : SExpr), e.Accepted → ∀ (pre post : List LexNode) (s : Lisp)
    (fuel : Nat), e.toks.length ≤ fuel →
    ∃ p ext, generate (pre ++ e.toks ++ post) fuel pre.length s
        = .ok ((p, pre.length + e.toks.length),
            { s with heap := s.heap ++ ext, rc := LINF_SUCCEEDED }) ∧
      e.TreeAt (s.heap ++ ext) p
  | .atom t, he, pre, post, s, fuel, hf => by
    obtain ⟨n, hn⟩ := he
    obtain ⟨f, rfl⟩ : ∃ f, fuel = f + 1 := ⟨fuel - 1, by simp [SExpr.toks] at hf; omega⟩
    have htok : (pre ++ [t] ++ post)[pre.length]? = some t := getElem?_mid pre t [] post
    refine ⟨some s.heap.length, [some n], ?_, ?_⟩
    · rcases hn with ⟨hty, hgen⟩ | ⟨hty, hgen⟩
      · have hg := hgen s
        simp only [StateT.run] at hg
        simp only [SExpr.toks, generate, htok, hty, bind_assoc, pure_bind, bind_ok hg, pure_apply,
          bind_ok (pure_apply _ _), bind_ok (getRc_apply _), LP_SUCCESS_one, if_true,
          List.length_singleton]
      · have hg := hgen s
        simp only [StateT.run] at hg
        simp only [SExpr.toks, generate, htok, hty, bind_assoc, pure_bind, bind_ok hg, pure_apply,
          bind_ok (pure_apply _ _), bind_ok (getRc_apply _), LP_SUCCESS_one, if_true,
          List.length_singleton]
    · exact ⟨s.heap.length, n, rfl, by simp, hn⟩
  | .list line body, he, pre, post, s, fuel, hf => by
    obtain ⟨f, rfl⟩ : ∃ f, fuel = f + 1 := ⟨fuel - 1, by simp [SExpr.toks] at hf; omega⟩
    have htok : (pre ++ (⟨.LEX_OPEN_PAREN, "", line⟩ :: body.toks) ++ post)[pre.length]?
        = some ⟨.LEX_OPEN_PAREN, "", line⟩ := getElem?_mid pre _ _ post
    have hb := generateList_spec body he (pre ++ [⟨.LEX_OPEN_PAREN, "", line⟩]) post s f
      (by simp [SExpr.toks] at hf; omega) (by simp)
    obtain ⟨p, ext, hrun, htree⟩ := hb
    have hl : pre ++ [⟨.LEX_OPEN_PAREN, "", line⟩] ++ body.toks ++ post
        = pre ++ (⟨.LEX_OPEN_PAREN, "", line⟩ :: body.toks) ++ post := by simp
    have hlen : (pre ++ [(⟨.LEX_OPEN_PAREN, "", line⟩ : LexNode)]).length = pre.length + 1 := by
      simp
    rw [hl, hlen] at hrun
    refine ⟨p, ext, ?_, htree⟩
    have hpos := listToks_length_pos body
    simp only [SExpr.toks, generate, htok, bind_ok hrun, bind_ok (getRc_apply _),
      LP_SUCCESS_one, if_true, pure_apply, List.length_cons]
    congr 3
    omega

theorem generateList_spec : ∀ (b : SList), b.Accepted → ∀ (pre post : List LexNode) (s : Lisp)
    (fuel : Nat), b.toks.length ≤ fuel → pre ≠ [] →
    ∃ p ext, generateList (pre ++ b.toks ++ post) fuel pre.length s
        = .ok ((p, pre.length + b.toks.length - 1),
            { s with heap := s.heap ++ ext, rc := LINF_SUCCEEDED }) ∧
      b.TreeAt (s.heap ++ ext) p
  | .close line, _, pre, post, s, fuel, hf, _ => by
    obtain ⟨f, rfl⟩ : ∃ f, fuel = f + 1 := ⟨fuel - 1, by simp [SList.toks] at hf; omega⟩
    have htok : (pre ++ [⟨.LEX_CLOSE_PAREN, "", line⟩] ++ post)[pre.length]?
        = some ⟨.LEX_CLOSE_PAREN, "", line⟩ := getElem?_mid pre _ [] post
    refine ⟨none, [], ?_, rfl⟩
    simp only [SList.toks, generateList, htok, if_true, bind_ok (setRc_apply _ _), pure_apply,
      List.length_singleton, List.append_nil]
    rfl
  | .cons e rest, hb, pre, post, s, fuel, hf, hpre => by
    obtain ⟨f, rfl⟩ : ∃ f, fuel = f + 1 := ⟨fuel - 1, by
      have := listToks_length_pos (.cons e rest); omega⟩
    have hepos := exprToks_length_pos e
    have hrpos := listToks_length_pos rest
    simp only [SList.toks, List.length_append] at hf
    obtain ⟨p1, ext1, hrun1, htree1⟩ := generate_spec e hb.1 pre (rest.toks ++ post) s f
      (by omega)
    obtain ⟨p2, ext2, hrun2, htree2⟩ := generateList_spec rest hb.2 (pre ++ e.toks) post
      { s with heap := s.heap ++ ext1, rc := LINF_SUCCEEDED } f (by omega) (by simp [hpre])
    obtain ⟨t0, tl0, ht0, hclose⟩ := exprToks_head e hb.1
    have hl1 : pre ++ e.toks ++ (rest.toks ++ post) = pre ++ (e.toks ++ rest.toks) ++ post := by
      simp
    have hl2 : pre ++ e.toks ++ rest.toks ++ post = pre ++ (e.toks ++ rest.toks) ++ post := by
      simp
    have hlen : (pre ++ e.toks).length = pre.length + e.toks.length := by simp
    rw [hl1] at hrun1
    rw [hl2, hlen] at hrun2
    have htok : (pre ++ (e.toks ++ rest.toks) ++ post)[pre.length]? = some t0 := by
      rw [ht0]; exact getElem?_mid pre t0 _ post
    have hprelen : 0 < pre.length := List.length_pos.mpr hpre
    -- the token in front of the closing parenthesis
    have hlt : pre.length + e.toks.length + rest.toks.length - 1 - 1
        < (pre ++ (e.toks ++ rest.toks) ++ post).length := by
      simp only [List.length_append]; omega
    obtain ⟨tp, htp⟩ : ∃ tp, (pre ++ (e.toks ++ rest.toks) ++ post)[pre.length + e.toks.length
        + rest.toks.length - 1 - 1]? = some tp := ⟨_, List.getElem?_eq_getElem hlt⟩
    have hprev : LEX_PREV (pre.length + e.toks.length + rest.toks.length - 1)
        = some (pre.length + e.toks.length + rest.toks.length - 1 - 1) := by
      simp only [LEX_PREV]
      rw [if_neg (by omega)]
    refine ⟨some (s.heap ++ ext1 ++ ext2).length,
      ext1 ++ ext2 ++ [some ⟨.pair p1 p2, tp.m_line⟩], ?_, ?_⟩
    · simp only [SList.toks, generateList, htok, hclose, if_false, bind_ok hrun1,
        bind_ok (getRc_apply _), LP_SUCCESS_one, if_true, bind_ok hrun2, hprev,
        bind_ok (lexLine_ok htp _), bind_ok (createPair_apply _ _ _ _),
        bind_ok (setRc_apply _ _), pure_apply]
      simp only [List.length_append, List.append_assoc, Except.ok.injEq, Prod.mk.injEq,
        and_true, true_and]
      omega
    · refine ⟨(s.heap ++ ext1 ++ ext2).length, p1, p2, tp.m_line, rfl, ?_, ?_, ?_⟩
      · simp only [← List.append_assoc]
        rw [List.getElem?_append_right (le_refl _)]
        simp
      · have := exprTree_append (s.heap ++ ext1) (ext2 ++ [some ⟨.pair p1 p2, tp.m_line⟩])
          e p1 htree1
        simpa [List.append_assoc] using this
      · have := listTree_append (s.heap ++ ext1 ++ ext2) [some ⟨.pair p1 p2, tp.m_line⟩]
          rest p2 htree2
        simpa [List.append_assoc] using this

end

theorem ofList_accepted (line : Nat) : ∀ es : List SExpr, (∀ e ∈ es, e.Accepted) →
    (SList.ofList line es).Accepted
  | [], _ => trivial
  | e :: es, h => ⟨h e (by simp), ofList_accepted line es (fun x hx => h x (by simp [hx]))⟩

theorem ofList_elems (s : Lisp) (line : Nat) : ∀ (es : List SExpr) (p : Ptr),
    (SList.ofList line es).TreeAt s.heap p →
    ∃ ps, listElems s es.length p = some ps ∧ List.Forall₂ (fun e q => e.TreeAt s.heap q) es ps
  | [], p, h => by
    have hp : p = none := h
    subst hp
    exact ⟨[], by simp [listElems], List.Forall₂.nil⟩
  | e :: es, p, h => by
    obtain ⟨a, hd, tl, ln, rfl, hn, he, hr⟩ := h
    obtain ⟨ps, hps, hall⟩ := ofList_elems s line es tl hr
    exact ⟨hd :: ps, by simp [listElems, hn, hps], List.Forall₂.cons he hall⟩

theorem parse_first_expression (e : SExpr) (he : e.Accepted) (rest : List LexNode) (s : Lisp) :
    ∃ root ext, Parser.parse (e.toks ++ rest) s
        = .ok ((LINF_SUCCEEDED, some root),
            { s with heap := s.heap ++ ext, rc := LINF_SUCCEEDED }) ∧
      e.TreeAt (s.heap ++ ext) root := by
  obtain ⟨p, ext, hrun, htree⟩ := generate_spec e he [] rest s (2 * (e.toks ++ rest).length + 2)
    (by simp only [List.length_append]; omega)
  refine ⟨p, ext, ?_, htree⟩
  simp only [List.nil_append, List.length_nil] at hrun
  simp only [Parser.parse, bind_ok hrun, bind_ok (getRc_apply _), LP_SUCCESS_one, if_true,
    pure_apply]

theorem atomNode_symbol_a : AtomNode ⟨.LEX_MISC, "a", 1⟩ ⟨.symbol "a", 1⟩ :=
  Or.inr ⟨rfl, fun _ => rfl⟩

theorem atomNode_symbol_b : AtomNode ⟨.LEX_MISC, "b", 1⟩ ⟨.symbol "b", 1⟩ :=
  Or.inr ⟨rfl, fun _ => rfl⟩

theorem twoLists_accepted : ∀ e ∈ twoLists, e.Accepted := by
  intro e he
  simp only [twoLists, List.mem_cons, List.mem_singleton, List.not_mem_nil, or_false] at he
  rcases he with rfl | rfl
  · exact ⟨⟨_, atomNode_symbol_a⟩, trivial⟩
  · exact ⟨⟨_, atomNode_symbol_b⟩, trivial⟩

theorem targetEval_ok {a : Nat} {s : Lisp} {n : SynNode} (hn : s.heap[a]? = some (some n)) :
    targetEval (some a) s = .ok (decide (n.object.type = .OBJTYPE_BOOLEAN ∨
      n.object.type = .OBJTYPE_NUMBER ∨ n.object.type = .OBJTYPE_STRING ∨
      n.object.type = .OBJTYPE_CHARACTER), s) := by
  simp only [targetEval, bind_ok (typeOf_ok hn)]
  cases n.object.type <;> simp [pure_apply]

/-! ### The evaluator on the factorial example -/

theorem lookupFrame_hit {s : Lisp} {var : String} {fuel vs x : Nat} {vl tl : Ptr} {l1 l2 : Nat}
    (hvs : s.heap[vs]? = some (some ⟨.pair (some x) tl, l1⟩))
    (hx : s.heap[x]? = some (some ⟨.symbol var, l2⟩)) (hvl : vl.isSome = true) :
    lookupFrame var (fuel + 1) (some vs) vl s = .ok (some vl, s) := by
  have hsym : symbolOf (some x) s = .ok (var, s) := by
    simp only [symbolOf, bind_ok (deref_ok hx), pure_apply]
  simp only [lookupFrame, Option.isSome_some, hvl, Bool.and_self, if_true,
    bind_ok (OBJ_LEAF_ok hvs), Option.isNone_some, Bool.false_eq_true, if_false, bind_ok hsym,
    pure_apply]

theorem lookupFrame_miss {s : Lisp} {var name : String} {fuel vs x vl : Nat} {v nx : Ptr}
    {l1 l2 l3 : Nat}
    (hvs : s.heap[vs]? = some (some ⟨.pair (some x) none, l1⟩))
    (hx : s.heap[x]? = some (some ⟨.symbol name, l2⟩)) (hne : name ≠ var)
    (hvl : s.heap[vl]? = some (some ⟨.pair v nx, l3⟩)) :
    lookupFrame var (fuel + 2) (some vs) (some vl) s = .ok (none, s) := by
  have hsym : symbolOf (some x) s = .ok (name, s) := by
    simp only [symbolOf, bind_ok (deref_ok hx), pure_apply]
  simp only [lookupFrame, Option.isSome_some, Bool.and_self, if_true,
    bind_ok (OBJ_LEAF_ok hvs), Option.isNone_some, Bool.false_eq_true, if_false, bind_ok hsym,
    hne, bind_ok (OBJ_NEXT_ok hvs), bind_ok (OBJ_NEXT_ok hvl), Option.isSome_none,
    Bool.false_and, pure_apply]

theorem lookupChain_hit {s : Lisp} {var : String} {fuel c f : Nat} {vs vl t : Ptr}
    {l1 l2 : Nat}
    (hc : s.heap[c]? = some (some ⟨.pair (some f) t, l1⟩))
    (hf : s.heap[f]? = some (some ⟨.pair vs vl, l2⟩))
    (hfr : lookupFrame var fuel vs vl s = .ok (some vl, s)) :
    lookupChain var (fuel + 1) (some c) s = .ok (some vl, s) := by
  simp only [lookupChain, Option.isSome_some, if_true, bind_ok (OBJ_LEAF_ok hc),
    bind_ok (OBJ_LEAF_ok hf), bind_ok (OBJ_NEXT_ok hf), bind_ok hfr, pure_apply]

theorem lookupChain_miss {s : Lisp} {var : String} {fuel c f : Nat} {vs vl t : Ptr}
    {l1 l2 : Nat}
    (hc : s.heap[c]? = some (some ⟨.pair (some f) t, l1⟩))
    (hf : s.heap[f]? = some (some ⟨.pair vs vl, l2⟩))
    (hfr : lookupFrame var fuel vs vl s = .ok (none, s)) :
    lookupChain var (fuel + 1) (some c) s = lookupChain var fuel t s := by
  simp only [lookupChain, Option.isSome_some, if_true, bind_ok (OBJ_LEAF_ok hc),
    bind_ok (OBJ_LEAF_ok hf), bind_ok (OBJ_NEXT_ok hf), bind_ok hfr, bind_ok (OBJ_NEXT_ok hc)]

theorem node_ok {s : Lisp} {E : Int} {p : Ptr} (hin : inStack E = true)
    (h : s.m_stack.lookup E = some p) : node E s = .ok (p, s) := by
  have h1 : noteIndex E s = .ok ((), s) := by
    simp only [noteIndex, hin, if_true, pure_apply]
  have h2 : (get : M Lisp) s = .ok (s, s) := rfl
  simp only [node, bind_ok h1, bind_ok h2, h, pure_apply]

theorem symbolOf_ok {s : Lisp} {x : Nat} {var : String} {l : Nat}
    (hx : s.heap[x]? = some (some ⟨.symbol var, l⟩)) : symbolOf (some x) s = .ok (var, s) := by
  simp only [symbolOf, bind_ok (deref_ok hx), pure_apply]

theorem lookupVariable_ok {s : Lisp} {E : Int} {x cell l lc fuel : Nat} {var : String}
    {chain v tl : Ptr} (hin : inStack E = true)
    (hx : s.heap[x]? = some (some ⟨.symbol var, l⟩))
    (hslot : s.m_stack.lookup E = some chain)
    (hch : lookupChain var fuel chain s = .ok (some (some cell), s))
    (hcell : s.heap[cell]? = some (some ⟨.pair v tl, lc⟩)) :
    lookupVariable fuel E (some x) s = .ok ((LINF_SUCCEEDED, v), s) := by
  have h1 : lookupVariableList fuel E (some x) s = .ok ((LINF_SUCCEEDED, some cell), s) := by
    simp only [lookupVariableList, bind_ok (typeOf_ok hx), objData.type, ne_eq,
      not_true_eq_false, if_false, bind_ok (node_ok hin hslot), bind_ok (symbolOf_ok hx),
      bind_ok hch, pure_apply]
  simp only [lookupVariable, bind_ok h1, LP_SUCCESS_one, if_true, bind_ok (OBJ_LEAF_ok hcell),
    pure_apply]

theorem targetSymbol_ok {a : Nat} {s : Lisp} {n : SynNode} (hn : s.heap[a]? = some (some n)) :
    targetSymbol (some a) s = .ok (decide (n.object.type = .OBJTYPE_SYMBOL), s) := by
  simp only [targetSymbol, bind_ok (typeOf_ok hn), pure_apply]

theorem eval_symbol_ok {s : Lisp} {E : Int} {x cell l lc fuel : Nat} {var : String}
    {chain v tl : Ptr} (hin : inStack E = true)
    (hx : s.heap[x]? = some (some ⟨.symbol var, l⟩))
    (hslot : s.m_stack.lookup E = some chain)
    (hch : lookupChain var fuel chain s = .ok (some (some cell), s))
    (hcell : s.heap[cell]? = some (some ⟨.pair v tl, lc⟩)) :
    eval (fuel + 1) (some x) E s = .ok (v, { s with rc := LINF_SUCCEEDED }) := by
  have h1 : targetEval (some x) s = .ok (false, s) := by
    rw [targetEval_ok hx]; simp [objData.type]
  have h2 : targetSymbol (some x) s = .ok (true, s) := by
    rw [targetSymbol_ok hx]; simp [objData.type]
  simp only [eval, bind_ok h1, bind_ok h2, Bool.false_eq_true, if_false, if_true,
    evalVariable, bind_ok (lookupVariable_ok hin hx hslot hch hcell), bind_ok (setRc_apply _ _),
    LP_FAILURE_of_pos (show (0:Int) < LINF_SUCCEEDED by decide), pure_apply]

theorem eval_number_ok {s : Lisp} {E : Int} {a l fuel : Nat} {q : Rat}
    (ha : s.heap[a]? = some (some ⟨.number q, l⟩)) :
    eval (fuel + 1) (some a) E s = .ok (some a, s) := by
  simp only [eval, bind_ok (targetEval_ok ha), objData.type]
  simp [pure_apply]

theorem getElem?_append_some {α : Type} {xs : List α} {a : Nat} {y : α} (ys : List α)
    (h : xs[a]? = some y) : (xs ++ ys)[a]? = some y := by
  have hlt : a < xs.length := by
    by_contra hc
    rw [List.getElem?_eq_none (by omega)] at h
    exact absurd h (by simp)
  rw [List.getElem?_append_left hlt]; exact h

theorem eval_call {s : Lisp} {E : Int} {cn hd l1 l2 fuel : Nat} {rest : Ptr} {name : String}
    (hcn : s.heap[cn]? = some (some ⟨.pair (some hd) rest, l1⟩))
    (hhd : s.heap[hd]? = some (some ⟨.symbol name, l2⟩)) :
    eval (fuel + 1) (some cn) E s = evalCall (eval fuel) fuel (some cn) E s := by
  have h1 : targetEval (some cn) s = .ok (false, s) := by
    rw [targetEval_ok hcn]; simp [objData.type]
  have h2 : targetSymbol (some cn) s = .ok (false, s) := by
    rw [targetSymbol_ok hcn]; simp [objData.type]
  have h3 : targetCall (some cn) s = .ok (true, s) := by
    simp only [targetCall, bind_ok (typeOf_ok hcn), objData.type, if_true,
      bind_ok (OBJ_LEAF_ok hcn), bind_ok (typeOf_ok hhd), pure_apply]
  simp only [eval, bind_ok h1, bind_ok h2, bind_ok h3, Bool.false_eq_true, if_false, if_true]

theorem evalCall_token {ev : Eval} {s s2 : Lisp} {E : Int} {cn hd l1 l2 fuel : Nat}
    {rest val : Ptr} {name : String} {tk : Token}
    (hcn : s.heap[cn]? = some (some ⟨.pair (some hd) rest, l1⟩))
    (hhd : s.heap[hd]? = some (some ⟨.symbol name, l2⟩))
    (hm : matchToken name = some tk)
    (hrun : tk.eval ev fuel (some cn) E s = .ok (val, s2)) (hrc : 0 < s2.rc) :
    evalCall ev fuel (some cn) E s = .ok (val, s2) := by
  simp only [evalCall, bind_ok (OBJ_LEAF_ok hcn), bind_ok (typeOf_ok hhd), objData.type,
    if_true, bind_assoc, pure_bind, bind_ok (symbolOf_ok hhd), hm, pure_apply, bind_ok hrun, bind_ok (getRc_apply _),
    LP_SUCCESS_of_pos hrc]

theorem evalCall_user {ev : Eval} {s : Lisp} {E : Int} {cn hd fn l1 l2 lf fuel : Nat}
    {rest params body : Ptr} {fsp : EnvSP} {name : String}
    (hcn : s.heap[cn]? = some (some ⟨.pair (some hd) rest, l1⟩))
    (hhd : s.heap[hd]? = some (some ⟨.symbol name, l2⟩))
    (hm : matchToken name = none)
    (hlk : lookupVariable fuel E (some hd) s = .ok ((LINF_SUCCEEDED, some fn), s))
    (hfn : s.heap[fn]? = some (some ⟨.func params body fsp, lf⟩)) :
    evalCall ev fuel (some cn) E s
      = applyFunc ev fuel (some fn) (some cn) E { s with rc := LINF_SUCCEEDED } := by
  have hfn' : ({ s with rc := LINF_SUCCEEDED } : Lisp).heap[fn]? = _ := hfn
  simp only [evalCall, bind_ok (OBJ_LEAF_ok hcn), bind_ok (typeOf_ok hhd), objData.type,
    if_true, bind_assoc, pure_bind, bind_ok (symbolOf_ok hhd), hm, pure_apply, bind_ok hlk,
    bind_ok (setRc_apply _ _), LP_FAILURE_of_pos (show (0:Int) < LINF_SUCCEEDED by decide),
    Bool.false_eq_true, if_false, bind_ok (typeOf_ok hfn'), ne_eq, not_true_eq_false]

theorem get_apply (s : Lisp) : (get : M Lisp) s = .ok (s, s) := rfl

theorem modify_apply (f : Lisp → Lisp) (s : Lisp) : (modify f : M Unit) s = .ok ((), f s) := rfl

theorem noteIndex_in {i : Int} (s : Lisp) (h : inStack i = true) :
    noteIndex i s = .ok ((), s) := by
  simp only [noteIndex, h, if_true, pure_apply]

theorem inStack_of {i : Int} (h0 : 0 ≤ i) (h1 : i < 2048) : inStack i = true := by
  simp [inStack, _MAX_STACK_DEEPTH, h0, h1]

theorem push_ok {s : Lisp} {vars vals t0 : Ptr} {sp : EnvSP} (hin : inStack sp = true)
    (hslot : s.m_stack.lookup sp = some t0) (h0 : 0 ≤ s.m_sp) (h1 : s.m_sp + 1 < 2048) :
    push vars vals sp s = .ok ((LINF_SUCCEEDED, some s.m_sp),
      { s with heap := s.heap ++ [some ⟨.pair vars vals, 0⟩]
                         ++ [some ⟨.pair (some s.heap.length) t0, 0⟩],
               m_stack := (s.m_sp, some (s.heap.length + 1)) :: s.m_stack,
               m_sp := s.m_sp + 1 }) := by
  have hlt : s.m_sp + 1 < _MAX_STACK_DEEPTH := h1
  have hin2 : inStack s.m_sp = true := inStack_of h0 (by omega)
  have hslot' : ({ s with heap := s.heap ++ [some ⟨.pair vars vals, 0⟩] } : Lisp).m_stack.lookup sp
      = some t0 := hslot
  simp only [push, bind_ok (get_apply _), hlt, if_true, bind_ok (createPair_apply _ _ _ _),
    LP_SUCCESS_one, bind_ok (node_ok hin hslot'), setSlot, bind_ok (noteIndex_in _ hin2),
    bind_ok (modify_apply _ _), modify_apply, pure_apply, bind_assoc, pure_bind]
  simp

theorem evalList_one {ev : Eval} {s s1 : Lisp} {E : Int} {ps al fuel : Nat} {p0 ae v : Ptr}
    {l1 l2 : Nat}
    (hal : s.heap[al]? = some (some ⟨.pair ae none, l2⟩))
    (harg : ev ae E s = .ok (v, s1)) (hrc1 : 0 < s1.rc)
    (hps1 : s1.heap[ps]? = some (some ⟨.pair p0 none, l1⟩))
    (hal1 : s1.heap[al]? = some (some ⟨.pair ae none, l2⟩)) :
    evalList ev (fuel + 1) (some ps) (some al) E s = .ok (some s1.heap.length,
      { s1 with heap := s1.heap ++ [some ⟨.pair v none, 0⟩], rc := LINF_SUCCEEDED }) := by
  have hps' : ({ s1 with heap := s1.heap ++ [some ⟨.pair v none, 0⟩],
                         rc := LINF_SUCCEEDED } : Lisp).heap[ps]? = _ :=
    getElem?_append_some _ hps1
  have hal' : ({ s1 with heap := s1.heap ++ [some ⟨.pair v none, 0⟩],
                         rc := LINF_SUCCEEDED } : Lisp).heap[al]? = _ :=
    getElem?_append_some _ hal1
  simp only [evalList, Option.isNone_some, Option.isSome_some, Bool.false_and, Bool.and_false,
    Bool.or_self, Bool.false_eq_true, if_false, bind_ok (OBJ_LEAF_ok hal), bind_ok harg,
    bind_ok (getRc_apply _), LP_FAILURE_of_pos hrc1, bind_ok (createPair_apply _ _ _ _),
    bind_ok (setRc_apply _ _), LP_FAILURE_of_pos (show (0:Int) < LINF_SUCCEEDED by decide),
    bind_ok (OBJ_NEXT_ok hps'), bind_ok (OBJ_NEXT_ok hal'), evalListLoop, Option.isSome_none,
    pure_apply, bind_assoc, pure_bind]

theorem dispatch_one {ev : Eval} {s s3 : Lisp} {E : Int} {b fuel l : Nat} {e r : Ptr}
    (hb : s.heap[b]? = some (some ⟨.pair e none, l⟩))
    (hrun : ev e E s = .ok (r, s3)) (hrc : 0 < s3.rc)
    (hb3 : s3.heap[b]? = some (some ⟨.pair e none, l⟩)) :
    dispatchEvaling ev (fuel + 2) (some b) E s = .ok (r, s3) := by
  simp only [dispatchEvaling, dispatchLoop, Option.isSome_some, if_true,
    bind_ok (typeOf_ok hb), objData.type, ne_eq, not_true_eq_false, if_false,
    bind_ok (OBJ_LEAF_ok hb), bind_ok hrun, bind_ok (getRc_apply _), LP_SUCCESS_of_pos hrc,
    bind_ok (OBJ_NEXT_ok hb3), Option.isSome_none, Bool.false_eq_true, pure_apply]

theorem pop_apply (s : Lisp) : pop s = .ok ((), popped s) := by
  by_cases hin : inStack (s.m_sp - 1) = true
  · simp only [pop, popped, bind_ok (modify_apply _ _), bind_ok (get_apply _), noteIndex, hin,
      if_true, bind_ok (pure_apply _ _), modify_apply]
  · simp only [pop, popped, bind_ok (modify_apply _ _), bind_ok (get_apply _), noteIndex, hin,
      Bool.false_eq_true, if_false, modify_apply]

theorem evalProcedure_one {ev : Eval} {s s3 : Lisp} {b fuel l : Nat} {e r vars vals t0 : Ptr}
    {fsp : EnvSP} (hin : inStack fsp = true)
    (hslot : s.m_stack.lookup fsp = some t0) (h0 : 0 ≤ s.m_sp) (h1 : s.m_sp + 1 < 2048)
    (hb : s.heap[b]? = some (some ⟨.pair e none, l⟩))
    (hrun : ev e s.m_sp
      { s with heap := s.heap ++ [some ⟨.pair vars vals, 0⟩]
                         ++ [some ⟨.pair (some s.heap.length) t0, 0⟩],
               m_stack := (s.m_sp, some (s.heap.length + 1)) :: s.m_stack,
               m_sp := s.m_sp + 1, rc := LINF_SUCCEEDED } = .ok (r, s3))
    (hrc : 0 < s3.rc)
    (hb3 : s3.heap[b]? = some (some ⟨.pair e none, l⟩)) :
    evalProcedure ev (fuel + 2) (some b) vars vals fsp s = .ok (r, popped s3) := by
  have hb' : ({ s with heap := s.heap ++ [some ⟨.pair vars vals, 0⟩]
                                  ++ [some ⟨.pair (some s.heap.length) t0, 0⟩],
                        m_stack := (s.m_sp, some (s.heap.length + 1)) :: s.m_stack,
                        m_sp := s.m_sp + 1, rc := LINF_SUCCEEDED } : Lisp).heap[b]? = _ :=
    getElem?_append_some _ (getElem?_append_some _ hb)
  simp only [evalProcedure, bind_ok (push_ok hin hslot h0 h1), bind_ok (setRc_apply _ _),
    LP_SUCCESS_one, if_true, bind_ok (dispatch_one hb' hrun hrc hb3), bind_ok (getRc_apply _),
    LP_SUCCESS_of_pos hrc, bind_ok (pop_apply _), pure_apply]

theorem funcOf_ok {s : Lisp} {fn l : Nat} {params body : Ptr} {fsp : EnvSP}
    (h : s.heap[fn]? = some (some ⟨.func params body fsp, l⟩)) :
    funcOf (some fn) s = .ok ((params, body, fsp), s) := by
  simp only [funcOf, bind_ok (deref_ok h), pure_apply]

theorem applyFunc_one {ev : Eval} {s s1 s3 : Lisp} {E M : Int}
    {fn cn al ps b fuel l1 l2 l3 l4 l5 : Nat} {hd ae v e r p0 t0 : Ptr} {fsp : EnvSP}
    (hfn : s.heap[fn]? = some (some ⟨.func (some ps) (some b) fsp, l1⟩))
    (hcn : s.heap[cn]? = some (some ⟨.pair hd (some al), l2⟩))
    (hal : s.heap[al]? = some (some ⟨.pair ae none, l3⟩))
    (harg : ev ae E s = .ok (v, s1)) (hrc1 : 0 < s1.rc)
    (hfn1 : s1.heap[fn]? = some (some ⟨.func (some ps) (some b) fsp, l1⟩))
    (hal1 : s1.heap[al]? = some (some ⟨.pair ae none, l3⟩))
    (hps1 : s1.heap[ps]? = some (some ⟨.pair p0 none, l4⟩))
    (hb1 : s1.heap[b]? = some (some ⟨.pair e none, l5⟩))
    (hin : inStack fsp = true)
    (hslot : s1.m_stack.lookup fsp = some t0) (hM : s1.m_sp = M) (h0 : 0 ≤ M)
    (h1 : M + 1 < 2048)
    (hrun : ev e M
      { s1 with heap := s1.heap ++ [some ⟨.pair v none, 0⟩]
                          ++ [some ⟨.pair (some ps) (some s1.heap.length), 0⟩]
                          ++ [some ⟨.pair (some (s1.heap.length + 1)) t0, 0⟩],
                m_stack := (M, some (s1.heap.length + 2)) :: s1.m_stack,
                m_sp := M + 1, rc := LINF_SUCCEEDED } = .ok (r, s3))
    (hrc : 0 < s3.rc)
    (hb3 : s3.heap[b]? = some (some ⟨.pair e none, l5⟩)) :
    applyFunc ev (fuel + 2) (some fn) (some cn) E s = .ok (r, popped s3) := by
  subst hM
  have hfn' : ({ s1 with heap := s1.heap ++ [some ⟨.pair v none, 0⟩],
                          rc := LINF_SUCCEEDED } : Lisp).heap[fn]? = _ :=
    getElem?_append_some _ hfn1
  have hb' : ({ s1 with heap := s1.heap ++ [some ⟨.pair v none, 0⟩],
                          rc := LINF_SUCCEEDED } : Lisp).heap[b]? = _ :=
    getElem?_append_some _ hb1
  have hel : evalList ev (fuel + 1 + 1) (some ps) (some al) E s = _ :=
    evalList_one hal harg hrc1 hps1 hal1
  have hpr : evalProcedure ev (fuel + 2) (some b) (some ps) (some s1.heap.length) fsp
      { s1 with heap := s1.heap ++ [some ⟨.pair v none, 0⟩], rc := LINF_SUCCEEDED }
      = .ok (r, popped s3) :=
    evalProcedure_one hin hslot h0 h1 hb' (by simpa [List.length_append] using hrun) hrc hb3
  simp only [applyFunc, bind_ok (funcOf_ok hfn), bind_ok (OBJ_NEXT_ok hcn), bind_ok hel,
    bind_ok (getRc_apply _), LP_SUCCESS_one, if_true, bind_ok (funcOf_ok hfn'), bind_ok hpr,
    show LP_SUCCESS (popped s3).rc = true from LP_SUCCESS_of_pos hrc, pure_apply]

theorem validateSyntax_three {s : Lisp} {l r1 r2 fuel l0 l1 l2 : Nat} {x0 x1 x2 : Ptr}
    (name : String)
    (h0 : s.heap[l]? = some (some ⟨.pair x0 (some r1), l0⟩))
    (h1 : s.heap[r1]? = some (some ⟨.pair x1 (some r2), l1⟩))
    (h2 : s.heap[r2]? = some (some ⟨.pair x2 none, l2⟩)) :
    validateSyntax (fuel + 4) (some l) 3 name s = .ok (LINF_SUCCEEDED, s) := by
  have hc : countNodes (fuel + 4) (some l) 0 s = .ok (3, s) := by
    simp only [countNodes, Option.isSome_some, if_true, bind_ok (OBJ_NEXT_ok h0),
      bind_ok (OBJ_NEXT_ok h1), bind_ok (OBJ_NEXT_ok h2), Option.isSome_none,
      Bool.false_eq_true, if_false, pure_apply]
    rfl
  simp only [validateSyntax, show ¬ ((3 : Int) = -1) by decide, show ¬ ((4 : Int) = -1) by decide,
    if_false, bind_ok (lineOf_ok h0), bind_ok hc]
  simp [pure_apply]

theorem validateSyntax_four {s : Lisp} {l r1 r2 r3 fuel l0 l1 l2 l3 : Nat} {x0 x1 x2 x3 : Ptr}
    (name : String)
    (h0 : s.heap[l]? = some (some ⟨.pair x0 (some r1), l0⟩))
    (h1 : s.heap[r1]? = some (some ⟨.pair x1 (some r2), l1⟩))
    (h2 : s.heap[r2]? = some (some ⟨.pair x2 (some r3), l2⟩))
    (h3 : s.heap[r3]? = some (some ⟨.pair x3 none, l3⟩)) :
    validateSyntax (fuel + 5) (some l) 4 name s = .ok (LINF_SUCCEEDED, s) := by
  have hc : countNodes (fuel + 5) (some l) 0 s = .ok (4, s) := by
    simp only [countNodes, Option.isSome_some, if_true, bind_ok (OBJ_NEXT_ok h0),
      bind_ok (OBJ_NEXT_ok h1), bind_ok (OBJ_NEXT_ok h2), bind_ok (OBJ_NEXT_ok h3),
      Option.isSome_none, Bool.false_eq_true, if_false, pure_apply]
    rfl
  simp only [validateSyntax, show ¬ ((3 : Int) = -1) by decide, show ¬ ((4 : Int) = -1) by decide,
    if_false, bind_ok (lineOf_ok h0), bind_ok hc]
  simp [pure_apply]

theorem OBJ_NEXT3_ok {a b c : Nat} {s : Lisp} {x0 x1 x2 next : Ptr} {l0 l1 l2 : Nat}
    (h0 : s.heap[a]? = some (some ⟨.pair x0 (some b), l0⟩))
    (h1 : s.heap[b]? = some (some ⟨.pair x1 (some c), l1⟩))
    (h2 : s.heap[c]? = some (some ⟨.pair x2 next, l2⟩)) :
    OBJ_NEXT3 (some a) s = .ok (next, s) := by
  simp only [OBJ_NEXT3, bind_ok (OBJ_NEXT2_ok h0 h1), OBJ_NEXT_ok h2]

theorem booleanOf_ok {s : Lisp} {p l : Nat} {b : Bool}
    (h : s.heap[p]? = some (some ⟨.boolean b, l⟩)) : booleanOf (some p) s = .ok (b, s) := by
  simp only [booleanOf, bind_ok (deref_ok h), pure_apply]

theorem numberOf_ok {s : Lisp} {p l : Nat} {q : Rat}
    (h : s.heap[p]? = some (some ⟨.number q, l⟩)) : numberOf (some p) s = .ok (q, s) := by
  simp only [numberOf, bind_ok (deref_ok h), pure_apply]

theorem symbolIf_ok {ev : Eval} {s s1 s2 : Lisp} {E : Int}
    {l r1 r2 r3 p fuel l0 l1 l2 l3 lp : Nat} {x0 c t e r : Ptr} {bv : Bool}
    (h0 : s.heap[l]? = some (some ⟨.pair x0 (some r1), l0⟩))
    (h1 : s.heap[r1]? = some (some ⟨.pair c (some r2), l1⟩))
    (h2 : s.heap[r2]? = some (some ⟨.pair t (some r3), l2⟩))
    (h3 : s.heap[r3]? = some (some ⟨.pair e none, l3⟩))
    (hc : ev c E { s with rc := LINF_SUCCEEDED } = .ok (some p, s1)) (hrc1 : 0 < s1.rc)
    (hp : s1.heap[p]? = some (some ⟨.boolean bv, lp⟩))
    (g0 : s1.heap[l]? = some (some ⟨.pair x0 (some r1), l0⟩))
    (g1 : s1.heap[r1]? = some (some ⟨.pair c (some r2), l1⟩))
    (g2 : s1.heap[r2]? = some (some ⟨.pair t (some r3), l2⟩))
    (g3 : s1.heap[r3]? = some (some ⟨.pair e none, l3⟩))
    (hbr : ev (if bv = true then t else e) E s1 = .ok (r, s2)) :
    symbolIf ev (fuel + 5) (some l) E s = .ok (r, s2) := by
  have h0' : ({ s with rc := LINF_SUCCEEDED } : Lisp).heap[l]? = _ := h0
  have h1' : ({ s with rc := LINF_SUCCEEDED } : Lisp).heap[r1]? = _ := h1
  cases bv with
  | true =>
    simp only [symbolIf, bind_ok (validateSyntax_four "if" h0 h1 h2 h3),
      bind_ok (setRc_apply _ _), bind_ok (getRc_apply _),
      LP_FAILURE_of_pos (show (0:Int) < LINF_SUCCEEDED by decide), Bool.false_eq_true, if_false,
      bind_ok (OBJ_NEXT_ok h0'), bind_ok (OBJ_LEAF_ok h1'), bind_ok hc, LP_SUCCESS_of_pos hrc1,
      if_true, bind_ok (typeOf_ok hp), objData.type, ne_eq, not_true_eq_false,
      bind_ok (booleanOf_ok hp), bind_ok (OBJ_NEXT2_ok g0 g1), bind_ok (OBJ_LEAF_ok g2)]
    simpa using hbr
  | false =>
    simp only [symbolIf, bind_ok (validateSyntax_four "if" h0 h1 h2 h3),
      bind_ok (setRc_apply _ _), bind_ok (getRc_apply _),
      LP_FAILURE_of_pos (show (0:Int) < LINF_SUCCEEDED by decide), Bool.false_eq_true, if_false,
      bind_ok (OBJ_NEXT_ok h0'), bind_ok (OBJ_LEAF_ok h1'), bind_ok hc, LP_SUCCESS_of_pos hrc1,
      if_true, bind_ok (typeOf_ok hp), objData.type, ne_eq, not_true_eq_false,
      bind_ok (booleanOf_ok hp), bind_ok (OBJ_NEXT3_ok g0 g1 g2), bind_ok (OBJ_LEAF_ok g3)]
    simpa using hbr

theorem symbolEqual_ok {ev : Eval} {s s1 s2 : Lisp} {E : Int}
    {l r1 r2 p q fuel l0 l1 l2 lp lq : Nat} {x0 a b nx : Ptr} {u w : Rat} {nl : SynNode}
    (h0 : s.heap[l]? = some (some ⟨.pair x0 (some r1), l0⟩))
    (h1 : s.heap[r1]? = some (some ⟨.pair a (some r2), l1⟩))
    (ha : ev a E s = .ok (some p, s1))
    (g0 : s1.heap[l]? = some (some ⟨.pair x0 (some r1), l0⟩))
    (g1 : s1.heap[r1]? = some (some ⟨.pair a (some r2), l1⟩))
    (g2 : s1.heap[r2]? = some (some ⟨.pair b nx, l2⟩))
    (hb : ev b E s1 = .ok (some q, s2))
    (hp : s2.heap[p]? = some (some ⟨.number u, lp⟩))
    (hq : s2.heap[q]? = some (some ⟨.number w, lq⟩))
    (k0 : s2.heap[l]? = some (some nl)) :
    symbolEqual ev fuel (some l) E s = .ok (some s2.heap.length,
      { s2 with heap := s2.heap ++ [some ⟨.boolean (decide (u - w = 0)), nl.line⟩],
                rc := LINF_SUCCEEDED }) := by
  simp only [symbolEqual, cmpInner, bind_ok (OBJ_NEXT_ok h0), bind_ok (OBJ_LEAF_ok h1),
    bind_ok ha, bind_ok (OBJ_NEXT2_ok g0 g1), bind_ok (OBJ_LEAF_ok g2), bind_ok hb,
    bind_ok (typeOf_ok hp), bind_ok (typeOf_ok hq), objData.type, ne_eq, not_true_eq_false,
    if_false, bind_ok (numberOf_ok hp), bind_ok (numberOf_ok hq), bind_ok (lineOf_ok k0),
    createAtom_apply]

theorem symbolSub_ok {ev : Eval} {s s1 s2 : Lisp} {E : Int}
    {l r1 r2 p q fuel l0 l1 l2 lp lq : Nat} {x0 a b : Ptr} {u w : Rat}
    (h0 : s.heap[l]? = some (some ⟨.pair x0 (some r1), l0⟩))
    (h1 : s.heap[r1]? = some (some ⟨.pair a (some r2), l1⟩))
    (h2 : s.heap[r2]? = some (some ⟨.pair b none, l2⟩))
    (ha : ev a E { s with rc := LINF_SUCCEEDED } = .ok (some p, s1)) (hrc1 : 0 < s1.rc)
    (g0 : s1.heap[l]? = some (some ⟨.pair x0 (some r1), l0⟩))
    (g1 : s1.heap[r1]? = some (some ⟨.pair a (some r2), l1⟩))
    (g2 : s1.heap[r2]? = some (some ⟨.pair b none, l2⟩))
    (hb : ev b E s1 = .ok (some q, s2)) (hrc2 : 0 < s2.rc)
    (hp : s2.heap[p]? = some (some ⟨.number u, lp⟩))
    (hq : s2.heap[q]? = some (some ⟨.number w, lq⟩)) :
    symbolSub ev (fuel + 4) (some l) E s = .ok (some s2.heap.length,
      { s2 with heap := s2.heap ++ [some ⟨.number (u - w), l0⟩], rc := LINF_SUCCEEDED }) := by
  have h0' : ({ s with rc := LINF_SUCCEEDED } : Lisp).heap[l]? = _ := h0
  have h1' : ({ s with rc := LINF_SUCCEEDED } : Lisp).heap[r1]? = _ := h1
  simp only [symbolSub, bind_ok (validateSyntax_three "-" h0 h1 h2),
    bind_ok (setRc_apply _ _), bind_ok (getRc_apply _),
    LP_FAILURE_of_pos (show (0:Int) < LINF_SUCCEEDED by decide), Bool.false_eq_true, if_false,
    bind_ok (lineOf_ok h0'), bind_ok (OBJ_NEXT_ok h0'), bind_ok (OBJ_LEAF_ok h1'), bind_ok ha,
    LP_FAILURE_of_pos hrc1, bind_ok (OBJ_NEXT2_ok g0 g1), bind_ok (OBJ_LEAF_ok g2), bind_ok hb,
    LP_FAILURE_of_pos hrc2, bind_ok (typeOf_ok hp), bind_ok (typeOf_ok hq), objData.type, ne_eq,
    not_true_eq_false, bind_ok (numberOf_ok hp), bind_ok (numberOf_ok hq),
    bind_ok (createAtom_apply _ _ _), LP_SUCCESS_one, if_true, pure_apply]

theorem symbolMul_ok {ev : Eval} {s s1 s2 : Lisp} {E : Int}
    {l r1 r2 p q fuel l0 l1 l2 lp lq : Nat} {x0 a b : Ptr} {u w : Rat}
    (h0 : s.heap[l]? = some (some ⟨.pair x0 (some r1), l0⟩))
    (h1 : s.heap[r1]? = some (some ⟨.pair a (some r2), l1⟩))
    (ha : ev a E s = .ok (some p, s1))
    (hp : s1.heap[p]? = some (some ⟨.number u, lp⟩))
    (g1 : s1.heap[r1]? = some (some ⟨.pair a (some r2), l1⟩))
    (g2 : s1.heap[r2]? = some (some ⟨.pair b none, l2⟩))
    (hb : ev b E s1 = .ok (some q, s2))
    (hq : s2.heap[q]? = some (some ⟨.number w, lq⟩))
    (k2 : s2.heap[r2]? = some (some ⟨.pair b none, l2⟩)) :
    symbolMul ev (fuel + 3) (some l) E s = .ok (some s2.heap.length,
      { s2 with heap := s2.heap ++ [some ⟨.number (1 * u * w), l0⟩],
                rc := LINF_SUCCEEDED }) := by
  simp only [symbolMul, bind_ok (lineOf_ok h0), bind_ok (OBJ_NEXT_ok h0), mulLoop,
    Option.isSome_some, if_true, bind_ok (OBJ_LEAF_ok h1), bind_ok ha, bind_ok (typeOf_ok hp),
    objData.type, bind_ok (OBJ_NEXT_ok g1), bind_ok (numberOf_ok hp), bind_ok (OBJ_LEAF_ok g2),
    bind_ok hb, bind_ok (typeOf_ok hq), bind_ok (OBJ_NEXT_ok k2), bind_ok (numberOf_ok hq),
    Option.isSome_none, Bool.false_eq_true, if_false, pure_apply,
    bind_ok (createAtom_apply _ _ _), bind_ok (getRc_apply _), LP_SUCCESS_one, bind_assoc,
    pure_bind]

theorem grows_refl (s : Lisp) : Grows s s := ⟨fun _ _ h => h, rfl, rfl, rfl, rfl⟩

theorem grows_trans {s t u : Lisp} (h1 : Grows s t) (h2 : Grows t u) : Grows s u :=
  ⟨fun a n h => h2.1 a n (h1.1 a n h), h2.2.1.trans h1.2.1, h2.2.2.1.trans h1.2.2.1,
    h2.2.2.2.1.trans h1.2.2.2.1, h2.2.2.2.2.trans h1.2.2.2.2⟩

theorem grows_rc (s : Lisp) (rc : Int) : Grows s { s with rc := rc } :=
  ⟨fun _ _ h => h, rfl, rfl, rfl, rfl⟩

theorem grows_append (s : Lisp) (ext : List (Option SynNode)) (rc : Int) :
    Grows s { s with heap := s.heap ++ ext, rc := rc } :=
  ⟨fun _ _ h => getElem?_append_some _ h, rfl, rfl, rfl, rfl⟩

theorem globalBelow_grows {s t : Lisp} {p : Ptr}
    (hg : ∀ (a : Nat) (n : SynNode), s.heap[a]? = some (some n) → t.heap[a]? = some (some n))
    (h : GlobalBelow s p) : GlobalBelow t p := by
  rcases h with h | ⟨c, f, vl, x, nx, lc, lf, lvl, h1, h2, h3, h4⟩
  · exact Or.inl h
  · exact Or.inr ⟨c, f, vl, x, nx, lc, lf, lvl, h1, hg _ _ h2, hg _ _ h3, hg _ _ h4⟩

theorem factInv_grows {N : Nat} {E : Int} {k : Nat} {s t : Lisp} (hg : Grows s t)
    (h : FactInv N E k s) : FactInv N E k t := by
  obtain ⟨hS, ⟨p, ⟨c, f, vl, v, lc, lf, lvl, lv, f1, f2, f3, f4, f5⟩, hp⟩, ⟨t0, h0, ht0⟩⟩ := h
  refine ⟨fun a n ha => hg.1 a n (hS a n ha), ⟨p, ⟨c, f, vl, v, lc, lf, lvl, lv, ?_,
    hg.1 _ _ f2, hg.1 _ _ f3, hg.1 _ _ f4, hg.1 _ _ f5⟩, globalBelow_grows hg.1 hp⟩,
    ⟨t0, ?_, globalBelow_grows hg.1 ht0⟩⟩
  · rw [hg.2.1]; exact f1
  · rw [hg.2.1]; exact h0

theorem matchToken_if : matchToken "if" = some ⟨"if", symbolIf⟩ := by
  simp [matchToken, tokens]

theorem matchToken_equal : matchToken "=" = some ⟨"=", symbolEqual⟩ := by
  simp [matchToken, tokens]

theorem matchToken_sub : matchToken "-" = some ⟨"-", symbolSub⟩ := by
  simp [matchToken, tokens]

theorem matchToken_mul : matchToken "*" = some ⟨"*", symbolMul⟩ := by
  simp [matchToken, tokens]

theorem matchToken_fact : matchToken "fact" = none := by
  simp [matchToken, tokens]

theorem eval_param {N : Nat} {E : Int} {k x : Nat} {s : Lisp} (hI : FactInv N E k s)
    (hE : inStack E = true) (hx : (factHeap N)[x]? = some (some ⟨.symbol "n", 1⟩))
    (fuel : Nat) :
    ∃ (v lv : Nat), s.heap[v]? = some (some ⟨.number (k : Rat), lv⟩) ∧
      eval (fuel + 3) (some x) E s = .ok (some v, { s with rc := LINF_SUCCEEDED }) := by
  obtain ⟨hS, ⟨p, ⟨c, f, vl, v, lc, lf, lvl, lv, f1, f2, f3, f4, f5⟩, _⟩, _⟩ := hI
  have h4 : s.heap[4]? = some (some ⟨.pair (some 3) none, 1⟩) := hS _ _ rfl
  have h3 : s.heap[3]? = some (some ⟨.symbol "n", 1⟩) := hS _ _ rfl
  have hfr : lookupFrame "n" (fuel + 1) (some 4) (some vl) s = .ok (some (some vl), s) :=
    lookupFrame_hit h4 h3 rfl
  have hch : lookupChain "n" (fuel + 1 + 1) (some c) s = .ok (some (some vl), s) :=
    lookupChain_hit f2 f3 hfr
  exact ⟨v, lv, f5, eval_symbol_ok hE (hS x _ hx) f1 hch f4⟩

theorem lookupChain_fact_global {N : Nat} {s : Lisp} (hS : FactStore N s) (fuel : Nat) :
    lookupChain "fact" (fuel + 2) (some 44) s = .ok (some (some 47), s) := by
  have h44 : s.heap[44]? = some (some ⟨.pair (some 43) none, 0⟩) := hS _ _ rfl
  have h43 : s.heap[43]? = some (some ⟨.pair (some 46) (some 47), 0⟩) := hS _ _ rfl
  have h46 : s.heap[46]? = some (some ⟨.pair (some 1) none, 0⟩) := hS _ _ rfl
  have h1 : s.heap[1]? = some (some ⟨.symbol "fact", 1⟩) := hS _ _ rfl
  have hfr : lookupFrame "fact" (fuel + 1) (some 46) (some 47) s = .ok (some (some 47), s) :=
    lookupFrame_hit h46 h1 rfl
  exact lookupChain_hit h44 h43 hfr

theorem lookupChain_fact_below {N : Nat} {s : Lisp} {t : Ptr} (hS : FactStore N s)
    (hG : GlobalBelow s t) (fuel : Nat) :
    lookupChain "fact" (fuel + 5) t s = .ok (some (some 47), s) := by
  have h4 : s.heap[4]? = some (some ⟨.pair (some 3) none, 1⟩) := hS _ _ rfl
  have h3 : s.heap[3]? = some (some ⟨.symbol "n", 1⟩) := hS _ _ rfl
  rcases hG with h | ⟨c, f, vl, x, nx, lc, lf, lvl, h1, h2, h3', h4'⟩
  · rw [h]; exact lookupChain_fact_global hS (fuel + 3)
  · have hfr : lookupFrame "fact" (fuel + 2 + 2) (some 4) (some vl) s = .ok (none, s) :=
      lookupFrame_miss h4 h3 (by decide) h4'
    rw [h1, lookupChain_miss h2 h3' hfr]
    exact lookupChain_fact_global hS (fuel + 2)

theorem lookup_fact {N : Nat} {E : Int} {k hd : Nat} {s : Lisp} (hI : FactInv N E k s)
    (hE : inStack E = true) (hx : (factHeap N)[hd]? = some (some ⟨.symbol "fact", 1⟩))
    (fuel : Nat) :
    lookupVariable (fuel + 6) E (some hd) s = .ok ((LINF_SUCCEEDED, some 45), s) := by
  obtain ⟨hS, ⟨p, ⟨c, f, vl, v, lc, lf, lvl, lv, f1, f2, f3, f4, f5⟩, hp⟩, _⟩ := hI
  have h4 : s.heap[4]? = some (some ⟨.pair (some 3) none, 1⟩) := hS _ _ rfl
  have h3 : s.heap[3]? = some (some ⟨.symbol "n", 1⟩) := hS _ _ rfl
  have h47 : s.heap[47]? = some (some ⟨.pair (some 45) none, 0⟩) := hS _ _ rfl
  have hfr : lookupFrame "fact" (fuel + 3 + 2) (some 4) (some vl) s = .ok (none, s) :=
    lookupFrame_miss h4 h3 (by decide) f4
  have hch : lookupChain "fact" (fuel + 5 + 1) (some c) s = .ok (some (some 47), s) := by
    rw [lookupChain_miss f2 f3 hfr]
    exact lookupChain_fact_below hS hp fuel
  exact lookupVariable_ok hE (hS hd _ hx) f1 hch h47

/-- The test `(= n 0)` of the body of `fact`. -/
theorem eval_test {N : Nat} {E : Int} {k : Nat} {s : Lisp} (hI : FactInv N E k s)
    (hE : inStack E = true) (fuel : Nat) :
    ∃ (p : Nat) (t : Lisp), eval (fuel + 5) (some 11) E s = .ok (some p, t) ∧ Grows s t ∧
      t.rc = LINF_SUCCEEDED ∧ t.heap[p]? = some (some ⟨.boolean (decide (k = 0)), 1⟩) := by
  have hS := hI.1
  obtain ⟨v, lv, hv, hrun⟩ := eval_param hI hE (show (factHeap N)[7]? = _ from rfl) (fuel + 1)
  have h11 : s.heap[11]? = some (some ⟨.pair (some 6) (some 10), 1⟩) := hS _ _ rfl
  have h6 : s.heap[6]? = some (some ⟨.symbol "=", 1⟩) := hS _ _ rfl
  have h10 : s.heap[10]? = some (some ⟨.pair (some 7) (some 9), 1⟩) := hS _ _ rfl
  have h9 : s.heap[9]? = some (some ⟨.pair (some 8) none, 1⟩) := hS _ _ rfl
  have h8 : s.heap[8]? = some (some ⟨.number 0, 1⟩) := hS _ _ rfl
  have g8 : ({ s with rc := LINF_SUCCEEDED } : Lisp).heap[8]? = _ := h8
  have hrun' : eval (fuel + 4) (some 7) E s = _ := hrun
  have hb : eval (fuel + 4) (some 8) E { s with rc := LINF_SUCCEEDED }
      = .ok (some 8, { s with rc := LINF_SUCCEEDED }) := eval_number_ok g8
  have hpos : (0 : Int) < LINF_SUCCEEDED := by decide
  have hop : symbolEqual (eval (fuel + 4)) (fuel + 4) (some 11) E s = _ :=
    symbolEqual_ok h11 h10 hrun' h11 h10 h9 hb hv g8 h11
  have hcall : evalCall (eval (fuel + 4)) (fuel + 4) (some 11) E s = _ :=
    evalCall_token h11 h6 matchToken_equal hop hpos
  refine ⟨_, _, (eval_call h11 h6).trans hcall, grows_append _ _ _, rfl, ?_⟩
  have hk : decide ((k : Rat) - 0 = 0) = decide (k = 0) := by simp
  show (s.heap ++ _)[s.heap.length]? = _
  rw [List.getElem?_append_right (le_refl _)]
  simp

/-- The operand `(- n 1)` of the recursive call in the body of `fact`. -/
theorem eval_pred {N : Nat} {E : Int} {k : Nat} {s : Lisp} (hI : FactInv N E (k + 1) s)
    (hE : inStack E = true) (fuel : Nat) :
    ∃ (p : Nat) (t : Lisp), eval (fuel + 6) (some 21) E s = .ok (some p, t) ∧ Grows s t ∧
      t.rc = LINF_SUCCEEDED ∧ t.heap[p]? = some (some ⟨.number (k : Rat), 1⟩) := by
  have hS := hI.1
  have hI1 : FactInv N E (k + 1) { s with rc := LINF_SUCCEEDED } :=
    factInv_grows (grows_rc s _) hI
  obtain ⟨v, lv, hv, hrun⟩ :=
    eval_param hI1 hE (show (factHeap N)[17]? = _ from rfl) (fuel + 2)
  have h21 : s.heap[21]? = some (some ⟨.pair (some 16) (some 20), 1⟩) := hS _ _ rfl
  have h16 : s.heap[16]? = some (some ⟨.symbol "-", 1⟩) := hS _ _ rfl
  have h20 : s.heap[20]? = some (some ⟨.pair (some 17) (some 19), 1⟩) := hS _ _ rfl
  have h19 : s.heap[19]? = some (some ⟨.pair (some 18) none, 1⟩) := hS _ _ rfl
  have h18 : s.heap[18]? = some (some ⟨.number 1, 1⟩) := hS _ _ rfl
  have g18 : ({ ({ s with rc := LINF_SUCCEEDED } : Lisp) with rc := LINF_SUCCEEDED }
      : Lisp).heap[18]? = _ := h18
  have hrun' : eval (fuel + 5) (some 17) E { s with rc := LINF_SUCCEEDED } = _ := hrun
  have hb : eval (fuel + 5) (some 18) E
      { ({ s with rc := LINF_SUCCEEDED } : Lisp) with rc := LINF_SUCCEEDED }
      = .ok (some 18, _) := eval_number_ok g18
  have hpos : (0 : Int) < LINF_SUCCEEDED := by decide
  have hop : symbolSub (eval (fuel + 5)) (fuel + 1 + 4) (some 21) E s = _ :=
    symbolSub_ok h21 h20 h19 hrun' hpos h21 h20 h19 hb hpos hv g18
  have hcall : evalCall (eval (fuel + 5)) (fuel + 5) (some 21) E s = _ :=
    evalCall_token h21 h16 matchToken_sub hop hpos
  refine ⟨_, _, (eval_call h21 h16).trans hcall, grows_append _ _ _, rfl, ?_⟩
  show (s.heap ++ _)[s.heap.length]? = _
  rw [List.getElem?_append_right (le_refl _)]
  simp

theorem getElem?_app3_0 {α : Type} (xs : List α) (a b c : α) :
    (xs ++ [a] ++ [b] ++ [c])[xs.length]? = some a := by
  rw [List.append_assoc, List.append_assoc, List.getElem?_append_right (le_refl _)]
  simp

theorem getElem?_app3_1 {α : Type} (xs : List α) (a b c : α) :
    (xs ++ [a] ++ [b] ++ [c])[xs.length + 1]? = some b := by
  rw [List.append_assoc, List.append_assoc, List.getElem?_append_right (by omega)]
  simp

theorem getElem?_app3_2 {α : Type} (xs : List α) (a b c : α) :
    (xs ++ [a] ++ [b] ++ [c])[xs.length + 2]? = some c := by
  rw [List.append_assoc, List.append_assoc, List.getElem?_append_right (by omega)]
  simp

theorem getElem?_app3_some {α : Type} {xs : List α} {i : Nat} {y : α} (a b c : α)
    (h : xs[i]? = some y) : (xs ++ [a] ++ [b] ++ [c])[i]? = some y :=
  getElem?_append_some _ (getElem?_append_some _ (getElem?_append_some _ h))

/-- The environment pushed for a call of `fact` from inside a call of `fact`
satisfies what the body relies on. -/
theorem factInv_push {N k p lp : Nat} {s : Lisp} {t0 : Ptr} {M : Int} (hS : FactStore N s)
    (h0 : s.m_stack.lookup 0 = some t0) (hG : GlobalBelow s t0)
    (hp : s.heap[p]? = some (some ⟨.number (k : Rat), lp⟩)) (hsp : M ≠ 0) :
    FactInv N M k
      { s with heap := s.heap ++ [some ⟨.pair (some p) none, 0⟩]
                         ++ [some ⟨.pair (some 4) (some s.heap.length), 0⟩]
                         ++ [some ⟨.pair (some (s.heap.length + 1)) t0, 0⟩],
               m_stack := (M, some (s.heap.length + 2)) :: s.m_stack,
               m_sp := M + 1, rc := LINF_SUCCEEDED } := by
  have hg : ∀ (a : Nat) (n : SynNode), s.heap[a]? = some (some n) →
      (s.heap ++ [some ⟨.pair (some p) none, 0⟩]
        ++ [some ⟨.pair (some 4) (some s.heap.length), 0⟩]
        ++ [some ⟨.pair (some (s.heap.length + 1)) t0, 0⟩])[a]? = some (some n) :=
    fun a n h => getElem?_app3_some _ _ _ h
  refine ⟨fun a n ha => hg a n (hS a n ha), ⟨t0, ⟨s.heap.length + 2, s.heap.length + 1,
    s.heap.length, p, 0, 0, 0, lp, ?_, getElem?_app3_2 _ _ _ _, getElem?_app3_1 _ _ _ _,
    getElem?_app3_0 _ _ _ _, hg _ _ hp⟩, globalBelow_grows hg hG⟩,
    ⟨t0, ?_, globalBelow_grows hg hG⟩⟩
  · show List.lookup M ((M, some (s.heap.length + 2)) :: s.m_stack) = _
    simp [List.lookup]
  · show List.lookup 0 ((M, some (s.heap.length + 2)) :: s.m_stack) = _
    have hne : ((0 : Int) == M) = false := by
      simp only [beq_eq_false_iff_ne, ne_eq]; exact fun h => hsp h.symm
    simp only [List.lookup, hne]; exact h0

/-- The environment pushed for the call of `fact` made at the top level. -/
theorem factInv_push_top {N k p lp : Nat} {s : Lisp} (hS : FactStore N s)
    (hp : s.heap[p]? = some (some ⟨.number (k : Rat), lp⟩)) :
    FactInv N 0 k
      { s with heap := s.heap ++ [some ⟨.pair (some p) none, 0⟩]
                         ++ [some ⟨.pair (some 4) (some s.heap.length), 0⟩]
                         ++ [some ⟨.pair (some (s.heap.length + 1)) (some 44), 0⟩],
               m_stack := (0, some (s.heap.length + 2)) :: s.m_stack,
               m_sp := 0 + 1, rc := LINF_SUCCEEDED } := by
  have hg : ∀ (a : Nat) (n : SynNode), s.heap[a]? = some (some n) →
      (s.heap ++ [some ⟨.pair (some p) none, 0⟩]
        ++ [some ⟨.pair (some 4) (some s.heap.length), 0⟩]
        ++ [some ⟨.pair (some (s.heap.length + 1)) (some 44), 0⟩])[a]? = some (some n) :=
    fun a n h => getElem?_app3_some _ _ _ h
  have hl : List.lookup (0 : Int) (((0 : Int), some (s.heap.length + 2)) :: s.m_stack)
      = some (some (s.heap.length + 2)) := by simp [List.lookup]
  exact ⟨fun a n ha => hg a n (hS a n ha), ⟨some 44, ⟨s.heap.length + 2, s.heap.length + 1,
    s.heap.length, p, 0, 0, 0, lp, hl, getElem?_app3_2 _ _ _ _, getElem?_app3_1 _ _ _ _,
    getElem?_app3_0 _ _ _ _, hg _ _ hp⟩, Or.inl rfl⟩,
    ⟨some (s.heap.length + 2), hl, Or.inr ⟨s.heap.length + 2, s.heap.length + 1,
      s.heap.length, some p, none, 0, 0, 0, rfl, getElem?_app3_2 _ _ _ _,
      getElem?_app3_1 _ _ _ _, getElem?_app3_0 _ _ _ _⟩⟩⟩

/-- The body of `fact`, run in environment `E` with the parameter bound to Number
`k`, yields Number `k!` in exact arithmetic. -/
theorem fact_body {N : Nat} : ∀ (k : Nat) (E : Int) (s : Lisp) (j : Nat),
    FactInv N E k s → 0 ≤ E → s.m_sp = E + 1 → E + k + 1 < 2048 →
    ∃ (a : Nat) (t : Lisp), eval (j + 3 * k + 6) (some 30) E s = .ok (some a, t) ∧
      t.heap[a]? = some (some ⟨.number (k.factorial : Rat), 1⟩) ∧ t.rc = LINF_SUCCEEDED ∧
      FactStore N t ∧ t.m_sp = s.m_sp - k ∧ t.errors = s.errors := by
  intro k
  induction k with
  | zero =>
    intro E s j hI hE0 hsp hlt
    have hE : inStack E = true := inStack_of hE0 (by omega)
    have hS := hI.1
    have hpos : (0 : Int) < LINF_SUCCEEDED := by decide
    have h30 : s.heap[30]? = some (some ⟨.pair (some 5) (some 29), 1⟩) := hS _ _ rfl
    have h29 : s.heap[29]? = some (some ⟨.pair (some 11) (some 28), 1⟩) := hS _ _ rfl
    have h28 : s.heap[28]? = some (some ⟨.pair (some 12) (some 27), 1⟩) := hS _ _ rfl
    have h27 : s.heap[27]? = some (some ⟨.pair (some 26) none, 1⟩) := hS _ _ rfl
    have h5 : s.heap[5]? = some (some ⟨.symbol "if", 1⟩) := hS _ _ rfl
    have hIA : FactInv N E 0 { s with rc := LINF_SUCCEEDED } := factInv_grows (grows_rc s _) hI
    obtain ⟨p, s1, hc, hg1, hrc1, hp⟩ := eval_test hIA hE j
    have hg : Grows s s1 := grows_trans (grows_rc s _) hg1
    have hS1 : FactStore N s1 := (factInv_grows hg hI).1
    have g12 : s1.heap[12]? = some (some ⟨.number 1, 1⟩) := hS1 _ _ rfl
    have hbr : eval (j + 5) (some 12) E s1 = .ok (some 12, s1) := eval_number_ok g12
    have hrc1' : 0 < s1.rc := by rw [hrc1]; exact hpos
    have hif : symbolIf (eval (j + 5)) (j + 5) (some 30) E s = .ok (some 12, s1) :=
      symbolIf_ok h30 h29 h28 h27 hc hrc1' hp (hg.1 _ _ h30) (hg.1 _ _ h29) (hg.1 _ _ h28)
        (hg.1 _ _ h27) (by simpa using hbr)
    have hcall : evalCall (eval (j + 5)) (j + 5) (some 30) E s = .ok (some 12, s1) :=
      evalCall_token h30 h5 matchToken_if hif hrc1'
    refine ⟨12, s1, (eval_call h30 h5).trans hcall, ?_, hrc1, hS1, ?_, hg.2.2.2.2⟩
    · rw [g12]; simp
    · rw [hg.2.2.1]; simp
  | succ k ih =>
    intro E s j hI hE0 hsp hlt
    have hE : inStack E = true := inStack_of hE0 (by omega)
    have hS := hI.1
    have hpos : (0 : Int) < LINF_SUCCEEDED := by decide
    have hfuel : j + 3 * (k + 1) + 6 = j + 3 * k + 9 := by ring
    rw [hfuel]
    have h30 : s.heap[30]? = some (some ⟨.pair (some 5) (some 29), 1⟩) := hS _ _ rfl
    have h29 : s.heap[29]? = some (some ⟨.pair (some 11) (some 28), 1⟩) := hS _ _ rfl
    have h28 : s.heap[28]? = some (some ⟨.pair (some 12) (some 27), 1⟩) := hS _ _ rfl
    have h27 : s.heap[27]? = some (some ⟨.pair (some 26) none, 1⟩) := hS _ _ rfl
    have h5 : s.heap[5]? = some (some ⟨.symbol "if", 1⟩) := hS _ _ rfl
    -- the test
    have hIA : FactInv N E (k + 1) { s with rc := LINF_SUCCEEDED } :=
      factInv_grows (grows_rc s _) hI
    obtain ⟨p, s1, hc, hg1, hrc1, hp⟩ := eval_test hIA hE (j + 3 * k + 3)
    have hg : Grows s s1 := grows_trans (grows_rc s _) hg1
    have hI1 : FactInv N E (k + 1) s1 := factInv_grows hg hI
    have hS1 : FactStore N s1 := hI1.1
    have hrc1' : 0 < s1.rc := by rw [hrc1]; exact hpos
    -- the first operand of the product
    have g26 : s1.heap[26]? = some (some ⟨.pair (some 13) (some 25), 1⟩) := hS1 _ _ rfl
    have g25 : s1.heap[25]? = some (some ⟨.pair (some 14) (some 24), 1⟩) := hS1 _ _ rfl
    have g13 : s1.heap[13]? = some (some ⟨.symbol "*", 1⟩) := hS1 _ _ rfl
    obtain ⟨v, lv, hv, hn⟩ :=
      eval_param hI1 hE (show (factHeap N)[14]? = _ from rfl) (j + 3 * k + 4)
    have hgD : Grows s { s1 with rc := LINF_SUCCEEDED } := grows_trans hg (grows_rc s1 _)
    have hID : FactInv N E (k + 1) { s1 with rc := LINF_SUCCEEDED } := factInv_grows hgD hI
    have hSD : FactStore N { s1 with rc := LINF_SUCCEEDED } := hID.1
    -- the recursive call
    have d23 : ({ s1 with rc := LINF_SUCCEEDED } : Lisp).heap[23]?
        = some (some ⟨.pair (some 15) (some 22), 1⟩) := hSD _ _ rfl
    have d15 : ({ s1 with rc := LINF_SUCCEEDED } : Lisp).heap[15]?
        = some (some ⟨.symbol "fact", 1⟩) := hSD _ _ rfl
    have d45 : ({ s1 with rc := LINF_SUCCEEDED } : Lisp).heap[45]?
        = some (some ⟨.func (some 4) (some 31) 0, 1⟩) := hSD _ _ rfl
    have d22 : ({ s1 with rc := LINF_SUCCEEDED } : Lisp).heap[22]?
        = some (some ⟨.pair (some 21) none, 1⟩) := hSD _ _ rfl
    have hlk := lookup_fact hID hE (show (factHeap N)[15]? = _ from rfl) (j + 3 * k)
    have hgE : Grows s { ({ s1 with rc := LINF_SUCCEEDED } : Lisp) with rc := LINF_SUCCEEDED } :=
      grows_trans hgD (grows_rc _ _)
    have hIE := factInv_grows hgE hI
    obtain ⟨q, s2, harg, hg2, hrc2, hq⟩ := eval_pred hIE hE (j + 3 * k)
    have hgs2 : Grows s s2 := grows_trans hgE hg2
    have hI2 : FactInv N E (k + 1) s2 := factInv_grows hgs2 hI
    have hS2 : FactStore N s2 := hI2.1
    obtain ⟨t0, hslot, hG0⟩ := hI2.2.2
    have hsp2 : s2.m_sp = E + 1 := hgs2.2.2.1.trans hsp
    have hI3 : FactInv N (E + 1) k _ := factInv_push hS2 hslot hG0 hq (by omega)
    obtain ⟨a, s3, hbody, ha, hrc3, hS3, hsp3, herr3⟩ :=
      ih (E + 1) _ j hI3 (by omega) rfl (by push_cast at hlt; omega)
    have hrc2' : 0 < s2.rc := by rw [hrc2]; exact hpos
    have hrc3' : 0 < s3.rc := by rw [hrc3]; exact hpos
    have happ : applyFunc (eval (j + 3 * k + 6)) (j + 3 * k + 4 + 2) (some 45) (some 23) E
        { ({ s1 with rc := LINF_SUCCEEDED } : Lisp) with rc := LINF_SUCCEEDED }
        = .ok (some a, popped s3) :=
      applyFunc_one d45 d23 d22 harg hrc2' (hS2 _ _ rfl) (hS2 _ _ rfl)
        (show s2.heap[4]? = some (some ⟨.pair (some 3) none, 1⟩) from hS2 _ _ rfl)
        (show s2.heap[31]? = some (some ⟨.pair (some 30) none, 1⟩) from hS2 _ _ rfl)
        (by decide) hslot hsp2 (by omega) (by omega) hbody hrc3' (hS3 _ _ rfl)
    have hcall2 : evalCall (eval (j + 3 * k + 6)) (j + 3 * k + 6) (some 23) E
        { s1 with rc := LINF_SUCCEEDED } = _ :=
      (evalCall_user d23 d15 matchToken_fact hlk d45).trans happ
    have hrec : eval (j + 3 * k + 7) (some 23) E { s1 with rc := LINF_SUCCEEDED } = _ :=
      (eval_call d23 d15).trans hcall2
    -- the product
    have hmul : symbolMul (eval (j + 3 * k + 7)) (j + 3 * k + 4 + 3) (some 26) E s1 = _ :=
      symbolMul_ok g26 g25 hn hv (hSD _ _ rfl)
        (show ({ s1 with rc := LINF_SUCCEEDED } : Lisp).heap[24]?
          = some (some ⟨.pair (some 23) none, 1⟩) from hSD _ _ rfl)
        hrec ha (hS3 _ _ rfl)
    have hcall1 : evalCall (eval (j + 3 * k + 7)) (j + 3 * k + 7) (some 26) E s1 = _ :=
      evalCall_token g26 g13 matchToken_mul hmul hpos
    have hbr : eval (j + 3 * k + 8) (some 26) E s1 = _ := (eval_call g26 g13).trans hcall1
    -- the conditional
    have hif : symbolIf (eval (j + 3 * k + 8)) (j + 3 * k + 3 + 5) (some 30) E s = _ :=
      symbolIf_ok h30 h29 h28 h27 hc hrc1' hp (hg.1 _ _ h30) (hg.1 _ _ h29) (hg.1 _ _ h28)
        (hg.1 _ _ h27) (by simpa using hbr)
    have hcall : evalCall (eval (j + 3 * k + 8)) (j + 3 * k + 8) (some 30) E s = _ :=
      evalCall_token h30 h5 matchToken_if hif hpos
    refine ⟨_, _, (eval_call h30 h5).trans hcall, ?_, rfl, ?_, ?_, ?_⟩
    · show (s3.heap ++ _)[s3.heap.length]? = _
      rw [List.getElem?_append_right (le_refl _)]
      simp [Nat.factorial_succ]
    · exact fun a n h => getElem?_append_some _ (hS3 a n h)
    · show s3.m_sp - 1 - 1 = s.m_sp - ((k + 1 : Nat) : Int)
      rw [hsp3, hsp]; push_cast
      show E + 1 + 1 - (k : Int) - 1 - 1 = _
      ring
    · show s3.errors = s.errors
      rw [herr3]; exact hgs2.2.2.2.2

theorem dispatch_two {ev : Eval} {s s1 s2 : Lisp} {E : Int} {b b2 fuel l l2 : Nat}
    {e1 e2 r1 r2 : Ptr}
    (hb : s.heap[b]? = some (some ⟨.pair e1 (some b2), l⟩))
    (hrun1 : ev e1 E s = .ok (r1, s1)) (hrc1 : 0 < s1.rc)
    (hb1 : s1.heap[b]? = some (some ⟨.pair e1 (some b2), l⟩))
    (hb2 : s1.heap[b2]? = some (some ⟨.pair e2 none, l2⟩))
    (hrun2 : ev e2 E s1 = .ok (r2, s2)) (hrc2 : 0 < s2.rc)
    (hb2' : s2.heap[b2]? = some (some ⟨.pair e2 none, l2⟩)) :
    dispatchEvaling ev (fuel + 3) (some b) E s = .ok (r2, s2) := by
  simp only [dispatchEvaling, dispatchLoop, Option.isSome_some, if_true,
    bind_ok (typeOf_ok hb), objData.type, ne_eq, not_true_eq_false, if_false,
    bind_ok (OBJ_LEAF_ok hb), bind_ok hrun1, bind_ok (getRc_apply _), LP_SUCCESS_of_pos hrc1,
    bind_ok (OBJ_NEXT_ok hb1), bind_ok (typeOf_ok hb2), bind_ok (OBJ_LEAF_ok hb2),
    bind_ok hrun2, LP_SUCCESS_of_pos hrc2, bind_ok (OBJ_NEXT_ok hb2'), Option.isSome_none,
    Bool.false_eq_true, pure_apply]

/-- The call `(fact N)` made at the top level, after the definition, in exact
arithmetic. -/
theorem fact_call (N j : Nat) (hN : N ≤ 2046) :
    ∃ (a : Nat) (t : Lisp), eval (j + 3 * N + 7) (some 40) 0 (factReady N) = .ok (some a, t) ∧
      t.heap[a]? = some (some ⟨.number (N.factorial : Rat), 1⟩) ∧ t.rc = LINF_SUCCEEDED ∧
      FactStore N t ∧ t.errors = [] := by
  have hS : FactStore N (factReady N) := fun a n h => h
  have hpos : (0 : Int) < LINF_SUCCEEDED := by decide
  have h40 : (factReady N).heap[40]? = some (some ⟨.pair (some 37) (some 39), 1⟩) := rfl
  have h37 : (factReady N).heap[37]? = some (some ⟨.symbol "fact", 1⟩) := rfl
  have h39 : (factReady N).heap[39]? = some (some ⟨.pair (some 38) none, 1⟩) := rfl
  have h38 : (factReady N).heap[38]? = some (some ⟨.number (N : Rat), 1⟩) := rfl
  have h45 : (factReady N).heap[45]? = some (some ⟨.func (some 4) (some 31) 0, 1⟩) := rfl
  have h47 : (factReady N).heap[47]? = some (some ⟨.pair (some 45) none, 0⟩) := rfl
  have hslot : (factReady N).m_stack.lookup 0 = some (some 44) := rfl
  have hlk : lookupVariable (j + 3 * N + 4 + 2) 0 (some 37) (factReady N)
      = .ok ((LINF_SUCCEEDED, some 45), factReady N) :=
    lookupVariable_ok (by decide) h37 hslot (lookupChain_fact_global hS _) h47
  have harg : eval (j + 3 * N + 6) (some 38) 0 { factReady N with rc := LINF_SUCCEEDED }
      = .ok (some 38, { factReady N with rc := LINF_SUCCEEDED }) := eval_number_ok h38
  have hI : FactInv N 0 N _ := factInv_push_top hS h38
  obtain ⟨a, s3, hbody, ha, hrc3, hS3, hsp3, herr3⟩ :=
    fact_body N 0 _ j hI (le_refl _) rfl (by omega)
  have hrc3' : 0 < s3.rc := by rw [hrc3]; exact hpos
  have happ : applyFunc (eval (j + 3 * N + 6)) (j + 3 * N + 4 + 2) (some 45) (some 40) 0
      { factReady N with rc := LINF_SUCCEEDED }
      = .ok (some a, popped s3) :=
    applyFunc_one h45 h40 h39 harg hpos h45 h39
      (show (factReady N).heap[4]? = some (some ⟨.pair (some 3) none, 1⟩) from rfl)
      (show (factReady N).heap[31]? = some (some ⟨.pair (some 30) none, 1⟩) from rfl)
      (by decide) hslot rfl (le_refl _) (show (0 : Int) + 1 < 2048 by decide) hbody hrc3'
      (hS3 _ _ rfl)
  have hcall : evalCall (eval (j + 3 * N + 6)) (j + 3 * N + 6) (some 40) 0 (factReady N) = _ :=
    (evalCall_user h40 h37 matchToken_fact hlk h45).trans happ
  exact ⟨a, _, (eval_call h40 h37).trans hcall, ha, hrc3, hS3, herr3⟩

/-! ### Readings of the store: the lookups as functions of the store -/

theorem deref_read (p : Ptr) (s : Lisp) : deref p s = readIn s (derefH s.heap p) := by
  cases p with
  | none => rfl
  | some a =>
    simp only [deref, derefH, bind_ok (get_apply _)]
    cases hn : s.heap[a]? with
    | none => rfl
    | some o => cases o <;> rfl

theorem OBJ_LEAF_read (p : Ptr) (s : Lisp) : OBJ_LEAF p s = readIn s (leafH s.heap p) := by
  simp only [OBJ_LEAF, leafH, bind_apply, deref_read]
  cases derefH s.heap p with
  | error e => rfl
  | ok n => obtain ⟨o, l⟩ := n; cases o <;> rfl

theorem OBJ_NEXT_read (p : Ptr) (s : Lisp) : OBJ_NEXT p s = readIn s (nextH s.heap p) := by
  simp only [OBJ_NEXT, nextH, bind_apply, deref_read]
  cases derefH s.heap p with
  | error e => rfl
  | ok n => obtain ⟨o, l⟩ := n; cases o <;> rfl

theorem symbolOf_read (p : Ptr) (s : Lisp) : symbolOf p s = readIn s (symbolH s.heap p) := by
  simp only [symbolOf, symbolH, bind_apply, deref_read]
  cases derefH s.heap p with
  | error e => rfl
  | ok n => obtain ⟨o, l⟩ := n; cases o <;> rfl

theorem readIn_ok {α : Type} (s : Lisp) (a : α) : readIn s (.ok a : Except Fault α) = .ok (a, s) := rfl

theorem readIn_error {α : Type} (s : Lisp) (e : Fault) :
    readIn s (.error e : Except Fault α) = .error e := rfl

theorem lookupFrame_read (var : String) : ∀ (fuel : Nat) (pv pl : Ptr) (s : Lisp),
    lookupFrame var fuel pv pl s = readIn s (lookupFrameH s.heap var fuel pv pl)
  | 0, _, _, _ => rfl
  | fuel + 1, pv, pl, s => by
    by_cases hc : (pv.isSome && pl.isSome) = true
    · simp only [lookupFrame, lookupFrameH, hc, if_true, bind_apply, OBJ_LEAF_read]
      cases hl : leafH s.heap pv with
      | error e => rfl
      | ok x =>
        cases x with
        | none =>
          simp only [readIn_ok, Option.isNone_none, if_true, bind_apply, OBJ_NEXT_read]
          cases nextH s.heap pv with
          | error e => rfl
          | ok v1 =>
            simp only [readIn_ok]
            cases nextH s.heap pl with
            | error e => rfl
            | ok l1 => exact lookupFrame_read var fuel v1 l1 s
        | some x =>
          simp only [readIn_ok, Option.isNone_some, Bool.false_eq_true, if_false, bind_apply,
            OBJ_LEAF_read, hl, symbolOf_read]
          cases symbolH s.heap (some x) with
          | error e => rfl
          | ok name =>
            simp only [readIn_ok]
            by_cases hn : name = var
            · simp only [hn, if_true, pure_apply, readIn_ok]
            · simp only [hn, if_false, bind_apply, OBJ_NEXT_read]
              cases nextH s.heap pv with
              | error e => rfl
              | ok v1 =>
                simp only [readIn_ok]
                cases nextH s.heap pl with
                | error e => rfl
                | ok l1 => exact lookupFrame_read var fuel v1 l1 s
    · simp only [lookupFrame, lookupFrameH, hc, Bool.false_eq_true, if_false, pure_apply,
        readIn_ok]

theorem lookupChain_read (var : String) : ∀ (fuel : Nat) (p : Ptr) (s : Lisp),
    lookupChain var fuel p s = readIn s (lookupChainH s.heap var fuel p)
  | 0, _, _ => rfl
  | fuel + 1, p, s => by
    by_cases hc : p.isSome = true
    · simp only [lookupChain, lookupChainH, hc, if_true, bind_apply, OBJ_LEAF_read]
      cases leafH s.heap p with
      | error e => rfl
      | ok f =>
        simp only [readIn_ok, OBJ_NEXT_read]
        cases leafH s.heap f with
        | error e => rfl
        | ok pv =>
          simp only [readIn_ok]
          cases nextH s.heap f with
          | error e => rfl
          | ok pl =>
            simp only [readIn_ok, lookupFrame_read]
            cases lookupFrameH s.heap var fuel pv pl with
            | error e => rfl
            | ok r =>
              cases r with
              | some cell => rfl
              | none =>
                simp only [readIn_ok, bind_apply, OBJ_NEXT_read]
                cases nextH s.heap p with
                | error e => rfl
                | ok tl => exact lookupChain_read var fuel tl s
    · simp only [lookupChain, lookupChainH, hc, Bool.false_eq_true, if_false, pure_apply,
        readIn_ok]

theorem derefH_ok {h : List (Option SynNode)} {p : Ptr} {n : SynNode}
    (hd : derefH h p = .ok n) : ∃ a, p = some a ∧ h[a]? = some (some n) := by
  cases p with
  | none => simp [derefH] at hd
  | some a =>
    refine ⟨a, rfl, ?_⟩
    simp only [derefH] at hd
    cases hn : h[a]? with
    | none => rw [hn] at hd; simp at hd
    | some o =>
      cases o with
      | none => rw [hn] at hd; simp at hd
      | some m => rw [hn] at hd; simp only [Except.ok.injEq] at hd; rw [hd]

theorem derefH_of {h : List (Option SynNode)} {a : Nat} {n : SynNode}
    (hn : h[a]? = some (some n)) : derefH h (some a) = .ok n := by
  simp only [derefH, hn]

theorem leafH_ok {h : List (Option SynNode)} {p r : Ptr} (hl : leafH h p = .ok r) :
    ∃ a nx l, p = some a ∧ h[a]? = some (some ⟨.pair r nx, l⟩) := by
  simp only [leafH] at hl
  cases hd : derefH h p with
  | error e => rw [hd] at hl; simp at hl
  | ok n =>
    obtain ⟨a, rfl, ha⟩ := derefH_ok hd
    rw [hd] at hl
    obtain ⟨o, l⟩ := n
    cases o <;> simp at hl
    subst hl
    exact ⟨a, _, l, rfl, ha⟩

theorem nextH_ok {h : List (Option SynNode)} {p r : Ptr} (hl : nextH h p = .ok r) :
    ∃ a lf l, p = some a ∧ h[a]? = some (some ⟨.pair lf r, l⟩) := by
  simp only [nextH] at hl
  cases hd : derefH h p with
  | error e => rw [hd] at hl; simp at hl
  | ok n =>
    obtain ⟨a, rfl, ha⟩ := derefH_ok hd
    rw [hd] at hl
    obtain ⟨o, l⟩ := n
    cases o <;> simp at hl
    subst hl
    exact ⟨a, _, l, rfl, ha⟩

theorem symbolH_ok {h : List (Option SynNode)} {p : Ptr} {v : String}
    (hl : symbolH h p = .ok v) : ∃ a l, p = some a ∧ h[a]? = some (some ⟨.symbol v, l⟩) := by
  simp only [symbolH] at hl
  cases hd : derefH h p with
  | error e => rw [hd] at hl; simp at hl
  | ok n =>
    obtain ⟨a, rfl, ha⟩ := derefH_ok hd
    rw [hd] at hl
    obtain ⟨o, l⟩ := n
    cases o <;> simp at hl
    subst hl
    exact ⟨a, l, rfl, ha⟩

theorem leafH_of {h : List (Option SynNode)} {a l : Nat} {lf nx : Ptr}
    (hn : h[a]? = some (some ⟨.pair lf nx, l⟩)) : leafH h (some a) = .ok lf := by
  simp only [leafH, derefH_of hn]

theorem nextH_of {h : List (Option SynNode)} {a l : Nat} {lf nx : Ptr}
    (hn : h[a]? = some (some ⟨.pair lf nx, l⟩)) : nextH h (some a) = .ok nx := by
  simp only [nextH, derefH_of hn]

theorem symbolH_of {h : List (Option SynNode)} {a l : Nat} {v : String}
    (hn : h[a]? = some (some ⟨.symbol v, l⟩)) : symbolH h (some a) = .ok v := by
  simp only [symbolH, derefH_of hn]

/-- One round of the walk through a frame, when it returns. -/
theorem frame_step {h : List (Option SynNode)} {var : String} {fuel a b : Nat}
    {r : Option Ptr} :
    lookupFrameH h var (fuel + 1) (some a) (some b) = .ok r ↔
    ∃ (hd tv : Ptr) (la : Nat), h[a]? = some (some ⟨.pair hd tv, la⟩) ∧
      ((∃ (x lx : Nat), hd = some x ∧ h[x]? = some (some ⟨.symbol var, lx⟩) ∧
          r = some (some b)) ∨
       ((hd = none ∨ ∃ (x lx : Nat) (nm : String), hd = some x ∧
            h[x]? = some (some ⟨.symbol nm, lx⟩) ∧ nm ≠ var) ∧
        ∃ (vb tl : Ptr) (lb : Nat), h[b]? = some (some ⟨.pair vb tl, lb⟩) ∧
          lookupFrameH h var fuel tv tl = .ok r)) := by
  constructor
  · intro hr
    simp only [lookupFrameH, Option.isSome_some, Bool.and_self, if_true] at hr
    cases hl : leafH h (some a) with
    | error e => rw [hl] at hr; simp at hr
    | ok hd =>
      obtain ⟨a', tv, la, ha', hcell⟩ := leafH_ok hl
      cases ha'
      refine ⟨hd, tv, la, hcell, ?_⟩
      rw [hl] at hr
      have hnv : nextH h (some a) = .ok tv := nextH_of hcell
      cases hd with
      | none =>
        simp only [hnv] at hr
        cases hnl : nextH h (some b) with
        | error e => rw [hnl] at hr; simp at hr
        | ok tl =>
          obtain ⟨b', vb, lb, hb', hbcell⟩ := nextH_ok hnl
          cases hb'
          rw [hnl] at hr
          exact Or.inr ⟨Or.inl rfl, vb, tl, lb, hbcell, hr⟩
      | some x =>
        simp only at hr
        cases hs : symbolH h (some x) with
        | error e => rw [hs] at hr; simp at hr
        | ok nm =>
          obtain ⟨x', lx, hx', hxs⟩ := symbolH_ok hs
          cases hx'
          rw [hs] at hr
          simp only at hr
          by_cases hn : nm = var
          · subst hn
            simp only [if_true, Except.ok.injEq] at hr
            exact Or.inl ⟨x, lx, rfl, hxs, hr.symm⟩
          · simp only [hn, if_false, hnv] at hr
            cases hnl : nextH h (some b) with
            | error e => rw [hnl] at hr; simp at hr
            | ok tl =>
              obtain ⟨b', vb, lb, hb', hbcell⟩ := nextH_ok hnl
              cases hb'
              rw [hnl] at hr
              exact Or.inr ⟨Or.inr ⟨x, lx, nm, rfl, hxs, hn⟩, vb, tl, lb, hbcell, hr⟩
  · rintro ⟨hd, tv, la, hcell, hcase⟩
    simp only [lookupFrameH, Option.isSome_some, Bool.and_self, if_true, leafH_of hcell,
      nextH_of hcell]
    rcases hcase with ⟨x, lx, rfl, hxs, rfl⟩ | ⟨hhd, vb, tl, lb, hbcell, hrest⟩
    · simp only [symbolH_of hxs, if_true]
    · rcases hhd with rfl | ⟨x, lx, nm, rfl, hxs, hn⟩
      · simp only [nextH_of hbcell, hrest]
      · simp only [symbolH_of hxs, hn, if_false, nextH_of hbcell, hrest]

theorem frame_stop {h : List (Option SynNode)} {var : String} {fuel : Nat} {pv pl : Ptr}
    (hc : (pv.isSome && pl.isSome) = false) :
    lookupFrameH h var (fuel + 1) pv pl = .ok none := by
  simp only [lookupFrameH, hc, Bool.false_eq_true, if_false]

/-- One round of the walk through the chain of frames, when it returns. -/
theorem chain_step {h : List (Option SynNode)} {var : String} {fuel a : Nat}
    {r : Option Ptr} :
    lookupChainH h var (fuel + 1) (some a) = .ok r ↔
    ∃ (f la lf : Nat) (tl pv pl : Ptr), h[a]? = some (some ⟨.pair (some f) tl, la⟩) ∧
      h[f]? = some (some ⟨.pair pv pl, lf⟩) ∧
      ((∃ cell, lookupFrameH h var fuel pv pl = .ok (some cell) ∧ r = some cell) ∨
       (lookupFrameH h var fuel pv pl = .ok none ∧ lookupChainH h var fuel tl = .ok r)) := by
  constructor
  · intro hr
    simp only [lookupChainH, Option.isSome_some, if_true] at hr
    cases hl : leafH h (some a) with
    | error e => rw [hl] at hr; simp at hr
    | ok fp =>
      obtain ⟨a', tl, la, ha', hcell⟩ := leafH_ok hl
      cases ha'
      rw [hl] at hr
      simp only at hr
      cases hlf : leafH h fp with
      | error e => rw [hlf] at hr; simp at hr
      | ok pv =>
        obtain ⟨f, pl, lf, hf', hfcell⟩ := leafH_ok hlf
        subst hf'
        rw [hlf] at hr
        simp only [nextH_of hfcell] at hr
        refine ⟨f, la, lf, tl, pv, pl, hcell, hfcell, ?_⟩
        cases hfr : lookupFrameH h var fuel pv pl with
        | error e => rw [hfr] at hr; simp at hr
        | ok o =>
          rw [hfr] at hr
          cases o with
          | some cell =>
            simp only [Except.ok.injEq] at hr
            exact Or.inl ⟨cell, rfl, hr.symm⟩
          | none =>
            simp only [nextH_of hcell] at hr
            exact Or.inr ⟨rfl, hr⟩
  · rintro ⟨f, la, lf, tl, pv, pl, hcell, hfcell, hcase⟩
    simp only [lookupChainH, Option.isSome_some, if_true, leafH_of hcell, leafH_of hfcell,
      nextH_of hfcell]
    rcases hcase with ⟨cell, hfr, rfl⟩ | ⟨hfr, hrest⟩
    · simp only [hfr]
    · simp only [hfr, nextH_of hcell, hrest]

theorem chain_stop {h : List (Option SynNode)} {var : String} {fuel : Nat} :
    lookupChainH h var (fuel + 1) none = .ok none := by
  simp only [lookupChainH, Option.isSome_none, Bool.false_eq_true, if_false]

theorem lookupFrameH_mono {h h' : List (Option SynNode)} {var : String}
    (hle : ∀ (a : Nat) (n : SynNode), h[a]? = some (some n) → h'[a]? = some (some n)) :
    ∀ (fuel : Nat) (pv pl : Ptr) (r : Option Ptr),
      lookupFrameH h var fuel pv pl = .ok r → lookupFrameH h' var fuel pv pl = .ok r
  | 0, _, _, _, hr => by simp [lookupFrameH] at hr
  | fuel + 1, pv, pl, r, hr => by
    by_cases hc : (pv.isSome && pl.isSome) = true
    · obtain ⟨a, rfl⟩ := Option.isSome_iff_exists.mp (Bool.and_eq_true_iff.mp hc).1
      obtain ⟨b, rfl⟩ := Option.isSome_iff_exists.mp (Bool.and_eq_true_iff.mp hc).2
      obtain ⟨hd, tv, la, hcell, hcase⟩ := frame_step.mp hr
      refine frame_step.mpr ⟨hd, tv, la, hle _ _ hcell, ?_⟩
      rcases hcase with ⟨x, lx, rfl, hxs, rfl⟩ | ⟨hhd, vb, tl, lb, hbcell, hrest⟩
      · exact Or.inl ⟨x, lx, rfl, hle _ _ hxs, rfl⟩
      · refine Or.inr ⟨?_, vb, tl, lb, hle _ _ hbcell, lookupFrameH_mono hle fuel _ _ _ hrest⟩
        rcases hhd with rfl | ⟨x, lx, nm, rfl, hxs, hn⟩
        · exact Or.inl rfl
        · exact Or.inr ⟨x, lx, nm, rfl, hle _ _ hxs, hn⟩
    · have hc' : (pv.isSome && pl.isSome) = false := by simpa using hc
      rw [frame_stop hc'] at hr
      rw [frame_stop hc']; exact hr

theorem lookupChainH_mono {h h' : List (Option SynNode)} {var : String}
    (hle : ∀ (a : Nat) (n : SynNode), h[a]? = some (some n) → h'[a]? = some (some n)) :
    ∀ (fuel : Nat) (p : Ptr) (r : Option Ptr),
      lookupChainH h var fuel p = .ok r → lookupChainH h' var fuel p = .ok r
  | 0, _, _, hr => by simp [lookupChainH] at hr
  | fuel + 1, none, r, hr => by rw [chain_stop] at hr ⊢; exact hr
  | fuel + 1, some a, r, hr => by
    obtain ⟨f, la, lf, tl, pv, pl, hcell, hfcell, hcase⟩ := chain_step.mp hr
    refine chain_step.mpr ⟨f, la, lf, tl, pv, pl, hle _ _ hcell, hle _ _ hfcell, ?_⟩
    rcases hcase with ⟨cell, hfr, rfl⟩ | ⟨hfr, hrest⟩
    · exact Or.inl ⟨cell, lookupFrameH_mono hle _ _ _ _ hfr, rfl⟩
    · exact Or.inr ⟨lookupFrameH_mono hle _ _ _ _ hfr, lookupChainH_mono hle fuel _ _ hrest⟩

theorem lookupFrameH_fuel {h : List (Option SynNode)} {var : String} :
    ∀ (fuel : Nat) (pv pl : Ptr) (r : Option Ptr),
      lookupFrameH h var fuel pv pl = .ok r → lookupFrameH h var (fuel + 1) pv pl = .ok r
  | 0, _, _, _, hr => by simp [lookupFrameH] at hr
  | fuel + 1, pv, pl, r, hr => by
    by_cases hc : (pv.isSome && pl.isSome) = true
    · obtain ⟨a, rfl⟩ := Option.isSome_iff_exists.mp (Bool.and_eq_true_iff.mp hc).1
      obtain ⟨b, rfl⟩ := Option.isSome_iff_exists.mp (Bool.and_eq_true_iff.mp hc).2
      obtain ⟨hd, tv, la, hcell, hcase⟩ := frame_step.mp hr
      refine frame_step.mpr ⟨hd, tv, la, hcell, ?_⟩
      rcases hcase with hhit | ⟨hhd, vb, tl, lb, hbcell, hrest⟩
      · exact Or.inl hhit
      · exact Or.inr ⟨hhd, vb, tl, lb, hbcell, lookupFrameH_fuel fuel _ _ _ hrest⟩
    · have hc' : (pv.isSome && pl.isSome) = false := by simpa using hc
      rw [frame_stop hc'] at hr
      rw [frame_stop hc']; exact hr

theorem lookupChainH_fuel {h : List (Option SynNode)} {var : String} :
    ∀ (fuel : Nat) (p : Ptr) (r : Option Ptr),
      lookupChainH h var fuel p = .ok r → lookupChainH h var (fuel + 1) p = .ok r
  | 0, _, _, hr => by simp [lookupChainH] at hr
  | fuel + 1, none, r, hr => by rw [chain_stop] at hr ⊢; exact hr
  | fuel + 1, some a, r, hr => by
    obtain ⟨f, la, lf, tl, pv, pl, hcell, hfcell, hcase⟩ := chain_step.mp hr
    refine chain_step.mpr ⟨f, la, lf, tl, pv, pl, hcell, hfcell, ?_⟩
    rcases hcase with ⟨cell, hfr, rfl⟩ | ⟨hfr, hrest⟩
    · exact Or.inl ⟨cell, lookupFrameH_fuel _ _ _ _ hfr, rfl⟩
    · exact Or.inr ⟨lookupFrameH_fuel _ _ _ _ hfr, lookupChainH_fuel fuel _ _ hrest⟩


theorem lookupVariable_read {s : Lisp} {sp : EnvSP} {x lx : Nat} {var : String} {chain : Ptr}
    (fuel : Nat) (hin : inStack sp = true) (hslot : s.m_stack.lookup sp = some chain)
    (hx : s.heap[x]? = some (some ⟨.symbol var, lx⟩)) :
    lookupVariable fuel sp (some x) s = readIn s (lookupH s.heap var fuel chain) := by
  simp only [lookupVariable, lookupVariableList, bind_assoc, bind_ok (typeOf_ok hx),
    objData.type, ne_eq, not_true_eq_false, if_false, bind_ok (node_ok hin hslot),
    bind_ok (symbolOf_ok hx), lookupH, bind_apply, lookupChain_read]
  cases lookupChainH s.heap var fuel chain with
  | error e => rfl
  | ok r =>
    cases r with
    | none => rfl
    | some cell =>
      simp only [readIn_ok, pure_apply, LP_SUCCESS_one, if_true, bind_apply, OBJ_LEAF_read]
      cases leafH s.heap cell with
      | error e => rfl
      | ok v => rfl

theorem readIn_inv {α : Type} {s s1 : Lisp} {x : Except Fault α} {a : α}
    (h : readIn s x = .ok (a, s1)) : x = .ok a ∧ s1 = s := by
  cases x with
  | error e => simp [readIn] at h
  | ok b =>
    simp only [readIn, Except.ok.injEq, Prod.mk.injEq] at h
    exact ⟨by rw [h.1], h.2.symm⟩

theorem cellsOf_some {h : List (Option SynNode)} {k a : Nat} {A : List Nat}
    (hc : cellsOf h k (some a) = some A) :
    ∃ (m l : Nat) (hd tl : Ptr) (rest : List Nat), k = m + 1 ∧
      h[a]? = some (some ⟨.pair hd tl, l⟩) ∧ cellsOf h m tl = some rest ∧ A = a :: rest := by
  cases k with
  | zero => simp [cellsOf] at hc
  | succ m =>
    simp only [cellsOf] at hc
    split at hc
    · rename_i hd tl l heq
      cases hrest : cellsOf h m tl with
      | none => simp [hrest] at hc
      | some rest =>
        simp only [hrest, Option.map_some', Option.some.injEq] at hc
        exact ⟨m, l, hd, tl, rest, rfl, heq, hrest, hc.symm⟩
    · simp at hc

theorem envNodes_some {h : List (Option SynNode)} {k a : Nat} {A : List Nat}
    (hc : envNodes h k (some a) = some A) :
    ∃ (m f l lf : Nat) (tl pv pl : Ptr) (vs ls rest : List Nat), k = m + 1 ∧
      h[a]? = some (some ⟨.pair (some f) tl, l⟩) ∧ h[f]? = some (some ⟨.pair pv pl, lf⟩) ∧
      cellsOf h m pv = some vs ∧ cellsOf h m pl = some ls ∧ envNodes h m tl = some rest ∧
      A = a :: f :: (vs ++ ls ++ rest) := by
  cases k with
  | zero => simp [envNodes] at hc
  | succ m =>
    simp only [envNodes] at hc
    split at hc
    · rename_i f tl l heq
      split at hc
      · rename_i pv pl lf heqf
        split at hc
        · rename_i vs ls rest h1 h2 h3
          simp only [Option.some.injEq] at hc
          exact ⟨m, f, l, lf, tl, pv, pl, vs, ls, rest, rfl, heq, heqf, h1, h2, h3, hc.symm⟩
        · simp at hc
      · simp at hc
    · simp at hc

/-- A walk through a frame whose cells are left alone by a change of the store reads
the same and ends in a cell of the list of values. -/
theorem frame_agree {h h' : List (Option SynNode)} {var : String} {f : Nat}
    (hag : ∀ (a : Nat) (n : SynNode), a ≠ f → h[a]? = some (some n) → h'[a]? = some (some n))
    (hsym : ∀ (x l : Nat) (nm : String), h[x]? = some (some ⟨.symbol nm, l⟩) → x ≠ f) :
    ∀ (fuel k1 k2 : Nat) (pv pl : Ptr) (vs ls : List Nat) (r : Option Ptr),
      cellsOf h k1 pv = some vs → cellsOf h k2 pl = some ls → f ∉ vs → f ∉ ls →
      lookupFrameH h var fuel pv pl = .ok r →
      lookupFrameH h' var fuel pv pl = .ok r ∧ ∀ c, r = some c → ∃ a, c = some a ∧ a ∈ ls
  | 0, _, _, _, _, _, _, _, _, _, _, _, hr => by simp [lookupFrameH] at hr
  | fuel + 1, k1, k2, pv, pl, vs, ls, r, hvs, hls, hfv, hfl, hr => by
    by_cases hc : (pv.isSome && pl.isSome) = true
    · obtain ⟨a, rfl⟩ := Option.isSome_iff_exists.mp (Bool.and_eq_true_iff.mp hc).1
      obtain ⟨b, rfl⟩ := Option.isSome_iff_exists.mp (Bool.and_eq_true_iff.mp hc).2
      obtain ⟨m1, la', hd', tv', vs', rfl, hcella, hvs', rfl⟩ := cellsOf_some hvs
      obtain ⟨m2, lb', vb', tl', ls', rfl, hcellb, hls', rfl⟩ := cellsOf_some hls
      have haf : a ≠ f := fun e => hfv (by rw [e]; exact List.mem_cons_self _ _)
      have hbf : b ≠ f := fun e => hfl (by rw [e]; exact List.mem_cons_self _ _)
      obtain ⟨hd, tv, la, hcell, hcase⟩ := frame_step.mp hr
      rw [hcella] at hcell
      simp only [Option.some.injEq, SynNode.mk.injEq, objData.pair.injEq] at hcell
      obtain ⟨⟨rfl, rfl⟩, rfl⟩ := hcell
      rcases hcase with ⟨x, lx, rfl, hxs, rfl⟩ | ⟨hhd, vb, tl, lb, hbcell, hrest⟩
      · refine ⟨frame_step.mpr ⟨_, _, _, hag _ _ haf hcella,
          Or.inl ⟨x, lx, rfl, hag _ _ (hsym _ _ _ hxs) hxs, rfl⟩⟩, ?_⟩
        intro c hc'
        simp only [Option.some.injEq] at hc'
        exact ⟨b, hc'.symm, List.mem_cons_self _ _⟩
      · rw [hcellb] at hbcell
        simp only [Option.some.injEq, SynNode.mk.injEq, objData.pair.injEq] at hbcell
        obtain ⟨⟨rfl, rfl⟩, rfl⟩ := hbcell
        obtain ⟨ih1, ih2⟩ := frame_agree hag hsym fuel m1 m2 _ _ vs' ls' r hvs' hls'
          (fun hm => hfv (List.mem_cons_of_mem _ hm)) (fun hm => hfl (List.mem_cons_of_mem _ hm))
          hrest
        refine ⟨frame_step.mpr ⟨_, _, _, hag _ _ haf hcella, Or.inr ⟨?_, _, _, _,
          hag _ _ hbf hcellb, ih1⟩⟩, ?_⟩
        · rcases hhd with rfl | ⟨x, lx, nm, rfl, hxs, hn⟩
          · exact Or.inl rfl
          · exact Or.inr ⟨x, lx, nm, rfl, hag _ _ (hsym _ _ _ hxs) hxs, hn⟩
        · intro c hc'
          obtain ⟨a', ha', hmem⟩ := ih2 c hc'
          exact ⟨a', ha', List.mem_cons_of_mem _ hmem⟩
    · have hc' : (pv.isSome && pl.isSome) = false := by simpa using hc
      rw [frame_stop hc'] at hr
      rw [frame_stop hc']
      refine ⟨hr, ?_⟩
      intro c hcc
      rw [← Except.ok.inj hr] at hcc
      exact absurd hcc (by simp)

/-- A walk through an environment whose nodes are left alone by a change of the store
reads the same and ends in one of these nodes. -/
theorem chain_agree {h h' : List (Option SynNode)} {var : String} {f : Nat}
    (hag : ∀ (a : Nat) (n : SynNode), a ≠ f → h[a]? = some (some n) → h'[a]? = some (some n))
    (hsym : ∀ (x l : Nat) (nm : String), h[x]? = some (some ⟨.symbol nm, l⟩) → x ≠ f) :
    ∀ (fuel k : Nat) (p : Ptr) (A : List Nat) (r : Option Ptr),
      envNodes h k p = some A → f ∉ A → lookupChainH h var fuel p = .ok r →
      lookupChainH h' var fuel p = .ok r ∧ ∀ c, r = some c → ∃ a, c = some a ∧ a ∈ A
  | 0, _, _, _, _, _, _, hr => by simp [lookupChainH] at hr
  | fuel + 1, _, none, _, r, _, _, hr => by
    rw [chain_stop] at hr ⊢
    refine ⟨hr, ?_⟩
    intro c hcc
    rw [← Except.ok.inj hr] at hcc
    exact absurd hcc (by simp)
  | fuel + 1, k, some a, A, r, hA, hfA, hr => by
    obtain ⟨m, f0, l, lf, tl, pv, pl, vs, ls, rest, rfl, hcella, hcellf, hvs, hls, hrest, rfl⟩ :=
      envNodes_some hA
    simp only [List.mem_cons, List.mem_append, not_or] at hfA
    obtain ⟨hfa, hff0, ⟨hfvs, hfls⟩, hfrest⟩ := hfA
    obtain ⟨f1, la1, lf1, tl1, pv1, pl1, hcell, hfcell, hcase⟩ := chain_step.mp hr
    rw [hcella] at hcell
    simp only [Option.some.injEq, SynNode.mk.injEq, objData.pair.injEq] at hcell
    obtain ⟨⟨rfl, rfl⟩, rfl⟩ := hcell
    rw [hcellf] at hfcell
    simp only [Option.some.injEq, SynNode.mk.injEq, objData.pair.injEq] at hfcell
    obtain ⟨⟨rfl, rfl⟩, rfl⟩ := hfcell
    have ha' := hag _ _ (fun e => hfa e.symm) hcella
    have hf' := hag _ _ (fun e => hff0 e.symm) hcellf
    rcases hcase with ⟨cell, hfr, rfl⟩ | ⟨hfr, hrest'⟩
    · obtain ⟨h1, h2⟩ := frame_agree hag hsym fuel m m _ _ vs ls _ hvs hls hfvs hfls hfr
      refine ⟨chain_step.mpr ⟨_, _, _, _, _, _, ha', hf', Or.inl ⟨cell, h1, rfl⟩⟩, ?_⟩
      intro c hc
      obtain ⟨a', e, hm⟩ := h2 cell rfl
      simp only [Option.some.injEq] at hc
      subst hc
      exact ⟨a', e, by simp [hm]⟩
    · obtain ⟨h1, _⟩ := frame_agree hag hsym fuel m m _ _ vs ls _ hvs hls hfvs hfls hfr
      obtain ⟨h3, h4⟩ := chain_agree hag hsym fuel m tl rest r hrest hfrest hrest'
      refine ⟨chain_step.mpr ⟨_, _, _, _, _, _, ha', hf', Or.inr ⟨h1, h3⟩⟩, ?_⟩
      intro c hc
      obtain ⟨a', e, hm⟩ := h4 c hc
      exact ⟨a', e, by simp [hm]⟩


/-! ### defineVariable and push on the store -/

theorem createSynNode_apply (leaf next : Ptr) (s : Lisp) :
    createSynNode leaf next s = .ok ((LINF_SUCCEEDED, some s.heap.length),
      { s with heap := s.heap ++ [some ⟨.pair leaf next, 0⟩] }) := rfl

theorem getElem?_lt_of_some {α : Type} {xs : List α} {a : Nat} {y : α} (h : xs[a]? = some y) :
    a < xs.length := by
  by_contra hc
  rw [List.getElem?_eq_none (by omega)] at h
  exact absurd h (by simp)

theorem defineVariable_ok {s : Lisp} {sp : EnvSP} {n0 f l0 lf : Nat} {tl pv pl : Ptr}
    (src val : Ptr) (hin : inStack sp = true) (hslot : s.m_stack.lookup sp = some (some n0))
    (hn0 : s.heap[n0]? = some (some ⟨.pair (some f) tl, l0⟩))
    (hf : s.heap[f]? = some (some ⟨.pair pv pl, lf⟩)) :
    defineVariable sp src val s = .ok (LINF_SUCCEEDED,
      { s with heap := definedHeap s.heap f lf src val pv pl }) := by
  have hlt : f < s.heap.length := getElem?_lt_of_some hf
  have hf1 : ({ s with heap := s.heap ++ [some ⟨.pair src pv, 0⟩] } : Lisp).heap[f]?
      = some (some ⟨.pair pv pl, lf⟩) := getElem?_append_some _ hf
  have hf2 : ({ s with heap := (s.heap ++ [some (SynNode.mk (.pair src pv) 0)]).set f (some (SynNode.mk (.pair (some s.heap.length) pl) lf)) } : Lisp).heap[f]?
      = some (some (SynNode.mk (.pair (some s.heap.length) pl) lf)) := by
    show ((s.heap ++ [some (SynNode.mk (.pair src pv) 0)]).set f _)[f]? = _
    rw [List.getElem?_set_self (by simp; omega)]
  have hf3 : ({ s with heap := (s.heap ++ [some (SynNode.mk (.pair src pv) 0)]).set f (some (SynNode.mk (.pair (some s.heap.length) pl) lf)) ++ [some (SynNode.mk (.pair val pl) 0)] } : Lisp).heap[f]?
      = some (some (SynNode.mk (.pair (some s.heap.length) pl) lf)) := getElem?_append_some _ hf2
  simp only [defineVariable, bind_ok (node_ok hin hslot), bind_ok (OBJ_LEAF_ok hn0),
    bind_ok (OBJ_LEAF_ok hf), bind_ok (createSynNode_apply _ _ _), LP_SUCCESS_one, if_true,
    bind_ok (setLeaf_ok hf1), bind_ok (OBJ_NEXT_ok hf2), bind_ok (setNext_ok hf3), pure_apply,
    definedHeap, List.length_append, List.length_set, List.length_singleton, bind_assoc,
    pure_bind]

theorem definedHeap_old {h : List (Option SynNode)} {f lf a : Nat} {src val pv pl : Ptr}
    {n : SynNode} (ha : a ≠ f) (hn : h[a]? = some (some n)) :
    (definedHeap h f lf src val pv pl)[a]? = some (some n) := by
  have hlt : a < h.length := getElem?_lt_of_some hn
  simp only [definedHeap]
  rw [List.getElem?_set_ne (fun e => ha e.symm), List.getElem?_append_left (by simp; omega),
    List.getElem?_set_ne (fun e => ha e.symm), List.getElem?_append_left hlt, hn]

theorem definedHeap_frame {h : List (Option SynNode)} {f lf : Nat} {src val pv pl : Ptr}
    (hlt : f < h.length) :
    (definedHeap h f lf src val pv pl)[f]?
      = some (some ⟨.pair (some h.length) (some (h.length + 1)), lf⟩) := by
  simp only [definedHeap]
  rw [List.getElem?_set_self (by simp; omega)]

theorem definedHeap_symbol {h : List (Option SynNode)} {f lf : Nat} {src val pv pl : Ptr}
    (hlt : f < h.length) :
    (definedHeap h f lf src val pv pl)[h.length]? = some (some ⟨.pair src pv, 0⟩) := by
  simp only [definedHeap]
  rw [List.getElem?_set_ne (by omega), List.getElem?_append_left (by simp),
    List.getElem?_set_ne (by omega), List.getElem?_append_right (by omega)]
  simp

theorem definedHeap_value {h : List (Option SynNode)} {f lf : Nat} {src val pv pl : Ptr}
    (hlt : f < h.length) :
    (definedHeap h f lf src val pv pl)[h.length + 1]? = some (some ⟨.pair val pl, 0⟩) := by
  simp only [definedHeap]
  rw [List.getElem?_set_ne (by omega), List.getElem?_append_right (by simp)]
  simp

/-- A Symbol node of the store after `defineVariable` is a node of the store before,
unchanged, and is not the frame. -/
theorem definedHeap_symbol_inv {h : List (Option SynNode)} {f lf y ly : Nat}
    {src val pv pl : Ptr} {nm : String} (hlt : f < h.length)
    (hy : (definedHeap h f lf src val pv pl)[y]? = some (some ⟨.symbol nm, ly⟩)) :
    y ≠ f ∧ h[y]? = some (some ⟨.symbol nm, ly⟩) := by
  have hyf : y ≠ f := by
    intro e
    rw [e, definedHeap_frame hlt] at hy
    simp at hy
  refine ⟨hyf, ?_⟩
  by_cases h1 : y < h.length
  · simp only [definedHeap] at hy
    rw [List.getElem?_set_ne (fun e => hyf e.symm), List.getElem?_append_left (by simp; omega),
      List.getElem?_set_ne (fun e => hyf e.symm), List.getElem?_append_left h1] at hy
    exact hy
  · exfalso
    by_cases h2 : y = h.length
    · rw [h2, definedHeap_symbol hlt] at hy
      simp at hy
    · by_cases h3 : y = h.length + 1
      · rw [h3, definedHeap_value hlt] at hy
        simp at hy
      · have hlen : (definedHeap h f lf src val pv pl).length = h.length + 2 := by
          simp [definedHeap]
        have := getElem?_lt_of_some hy
        omega

theorem lookupChainH_fuel_le {h : List (Option SynNode)} {var : String} {p : Ptr}
    {r : Option Ptr} {fuel fuel' : Nat} (hle : fuel ≤ fuel')
    (hr : lookupChainH h var fuel p = .ok r) : lookupChainH h var fuel' p = .ok r := by
  induction hle with
  | refl => exact hr
  | step _ ih => exact lookupChainH_fuel _ _ _ ih

theorem lookupFrameH_fuel_le {h : List (Option SynNode)} {var : String} {pv pl : Ptr}
    {r : Option Ptr} {fuel fuel' : Nat} (hle : fuel ≤ fuel')
    (hr : lookupFrameH h var fuel pv pl = .ok r) : lookupFrameH h var fuel' pv pl = .ok r := by
  induction hle with
  | refl => exact hr
  | step _ ih => exact lookupFrameH_fuel _ _ _ _ ih

theorem lookupH_ok {h : List (Option SynNode)} {var : String} {fuel : Nat} {chain : Ptr}
    {r : Int × Ptr} (hr : lookupH h var fuel chain = .ok r) :
    (lookupChainH h var fuel chain = .ok none ∧ r = (LERR_SYMBOL_NOT_FOUND, none)) ∨
    ∃ (a l : Nat) (v tl : Ptr), lookupChainH h var fuel chain = .ok (some (some a)) ∧
      h[a]? = some (some ⟨.pair v tl, l⟩) ∧ r = (LINF_SUCCEEDED, v) := by
  simp only [lookupH] at hr
  cases hc : lookupChainH h var fuel chain with
  | error e => rw [hc] at hr; simp at hr
  | ok o =>
    rw [hc] at hr
    cases o with
    | none =>
      simp only [Except.ok.injEq] at hr
      exact Or.inl ⟨rfl, hr.symm⟩
    | some cell =>
      simp only at hr
      cases hl : leafH h cell with
      | error e => rw [hl] at hr; simp at hr
      | ok v =>
        rw [hl] at hr
        simp only [Except.ok.injEq] at hr
        obtain ⟨a, tl, l, rfl, ha⟩ := leafH_ok hl
        exact Or.inr ⟨a, l, v, tl, rfl, ha, hr.symm⟩

theorem lookupH_none {h : List (Option SynNode)} {var : String} {fuel : Nat} {chain : Ptr}
    (hc : lookupChainH h var fuel chain = .ok none) :
    lookupH h var fuel chain = .ok (LERR_SYMBOL_NOT_FOUND, none) := by
  simp only [lookupH, hc]

theorem lookupH_some {h : List (Option SynNode)} {var : String} {fuel a l : Nat}
    {chain v tl : Ptr} (hc : lookupChainH h var fuel chain = .ok (some (some a)))
    (ha : h[a]? = some (some ⟨.pair v tl, l⟩)) :
    lookupH h var fuel chain = .ok (LINF_SUCCEEDED, v) := by
  simp only [lookupH, hc, leafH_of ha]

/-- The environment whose first frame `f` receives a definition: the frame occurs
once among the nodes of the environment. -/
theorem envNodes_once {h : List (Option SynNode)} {k n0 f l0 : Nat} {tl : Ptr} {A : List Nat}
    (hn0 : h[n0]? = some (some ⟨.pair (some f) tl, l0⟩))
    (hA : envNodes h k (some n0) = some A) (hf : A.count f = 1) :
    ∃ (m lf : Nat) (pv pl : Ptr) (vs ls rest : List Nat),
      h[f]? = some (some ⟨.pair pv pl, lf⟩) ∧ cellsOf h m pv = some vs ∧
      cellsOf h m pl = some ls ∧ envNodes h m tl = some rest ∧
      n0 ≠ f ∧ f ∉ vs ∧ f ∉ ls ∧ f ∉ rest := by
  obtain ⟨m, f0, l, lf, tl0, pv, pl, vs, ls, rest, rfl, hcella, hcellf, hvs, hls, hrest, rfl⟩ :=
    envNodes_some hA
  rw [hn0] at hcella
  simp only [Option.some.injEq, SynNode.mk.injEq, objData.pair.injEq] at hcella
  obtain ⟨⟨rfl, rfl⟩, rfl⟩ := hcella
  refine ⟨m, lf, pv, pl, vs, ls, rest, hcellf, hvs, hls, hrest, ?_⟩
  rw [List.count_cons, List.count_cons_self] at hf
  have h0 : List.count f (vs ++ ls ++ rest) = 0 := by omega
  have hne : n0 ≠ f := by
    intro e
    rw [e] at hf
    simp at hf
  have hnot : f ∉ vs ++ ls ++ rest := List.count_eq_zero.mp h0
  simp only [List.mem_append, not_or] at hnot
  exact ⟨hne, hnot.1.1, hnot.1.2, hnot.2⟩


/-- The walk through the environment after a definition of `name` in its first
frame, for a symbol with another name. -/
theorem define_keeps_chain {h : List (Option SynNode)} {m n0 f l0 lf x lx : Nat}
    {tl pv pl v : Ptr} {name nm : String} {vs ls rest : List Nat}
    (hn0 : h[n0]? = some (some ⟨.pair (some f) tl, l0⟩))
    (hcf : h[f]? = some (some ⟨.pair pv pl, lf⟩))
    (hvs : cellsOf h m pv = some vs) (hls : cellsOf h m pl = some ls)
    (hrest : envNodes h m tl = some rest)
    (hne : n0 ≠ f) (hfv : f ∉ vs) (hfl : f ∉ ls) (hfr : f ∉ rest)
    (hx : h[x]? = some (some ⟨.symbol name, lx⟩)) (hnm : nm ≠ name)
    {fuel : Nat} {o : Option Ptr} (ho : lookupChainH h nm fuel (some n0) = .ok o) :
    lookupChainH (definedHeap h f lf (some x) v pv pl) nm (fuel + 1) (some n0) = .ok o ∧
    ∀ c, o = some c → ∃ a, c = some a ∧ a ≠ f := by
  have hsym : ∀ (y l : Nat) (nm' : String), h[y]? = some (some ⟨.symbol nm', l⟩) → y ≠ f := by
    intro y l nm' hy e
    rw [e, hcf] at hy
    simp at hy
  have hag : ∀ (a : Nat) (n : SynNode), a ≠ f → h[a]? = some (some n) →
      (definedHeap h f lf (some x) v pv pl)[a]? = some (some n) :=
    fun a n ha hn => definedHeap_old ha hn
  have hlt : f < h.length := getElem?_lt_of_some hcf
  cases fuel with
  | zero => simp [lookupChainH] at ho
  | succ F =>
    obtain ⟨f1, la1, lf1, tl1, pv1, pl1, hcell, hfcell, hcase⟩ := chain_step.mp ho
    rw [hn0] at hcell
    simp only [Option.some.injEq, SynNode.mk.injEq, objData.pair.injEq] at hcell
    obtain ⟨⟨rfl, rfl⟩, rfl⟩ := hcell
    rw [hcf] at hfcell
    simp only [Option.some.injEq, SynNode.mk.injEq, objData.pair.injEq] at hfcell
    obtain ⟨⟨rfl, rfl⟩, rfl⟩ := hfcell
    have hskip : ∀ r, lookupFrameH (definedHeap h f lf (some x) v pv pl) nm F pv pl = .ok r →
        lookupFrameH (definedHeap h f lf (some x) v pv pl) nm (F + 1) (some h.length)
          (some (h.length + 1)) = .ok r := fun r hr =>
      frame_step.mpr ⟨some x, pv, 0, definedHeap_symbol hlt,
        Or.inr ⟨Or.inr ⟨x, lx, name, rfl, hag _ _ (hsym _ _ _ hx) hx, fun e => hnm e.symm⟩,
          v, pl, 0, definedHeap_value hlt, hr⟩⟩
    rcases hcase with ⟨cell, hfr1, rfl⟩ | ⟨hfr1, hrest1⟩
    · obtain ⟨h1, h2⟩ := frame_agree hag hsym F m m _ _ vs ls _ hvs hls hfv hfl hfr1
      refine ⟨chain_step.mpr ⟨f, l0, lf, tl, _, _, hag _ _ hne hn0, definedHeap_frame hlt,
        Or.inl ⟨cell, hskip _ h1, rfl⟩⟩, ?_⟩
      intro c hc
      obtain ⟨a, e, hm⟩ := h2 cell rfl
      simp only [Option.some.injEq] at hc
      subst hc
      exact ⟨a, e, fun e' => hfl (e' ▸ hm)⟩
    · obtain ⟨h1, _⟩ := frame_agree hag hsym F m m _ _ vs ls _ hvs hls hfv hfl hfr1
      obtain ⟨h3, h4⟩ := chain_agree hag hsym F m tl rest o hrest hfr hrest1
      refine ⟨chain_step.mpr ⟨f, l0, lf, tl, _, _, hag _ _ hne hn0, definedHeap_frame hlt,
        Or.inr ⟨hskip _ h1, lookupChainH_fuel _ _ _ h3⟩⟩, ?_⟩
      intro c hc
      obtain ⟨a, e, hm⟩ := h4 c hc
      exact ⟨a, e, fun e' => hfr (e' ▸ hm)⟩

theorem symbolNames_nil {s : Lisp} {xs : List Ptr} (h : symbolNames s xs = some []) :
    xs = [] := by
  cases xs with
  | nil => rfl
  | cons x xs =>
    cases x with
    | none => simp [symbolNames] at h
    | some a =>
      simp only [symbolNames] at h
      split at h
      · rename_i v l heq
        cases hr : symbolNames s xs <;> simp [hr] at h
      · simp at h

theorem symbolNames_cons {s : Lisp} {xs : List Ptr} {nm : String} {names : List String}
    (h : symbolNames s xs = some (nm :: names)) :
    ∃ (x l : Nat) (xs' : List Ptr), xs = some x :: xs' ∧
      s.heap[x]? = some (some ⟨.symbol nm, l⟩) ∧ symbolNames s xs' = some names := by
  cases xs with
  | nil => simp [symbolNames] at h
  | cons x xs =>
    cases x with
    | none => simp [symbolNames] at h
    | some a =>
      simp only [symbolNames] at h
      split at h
      · rename_i v l heq
        cases hr : symbolNames s xs with
        | none => simp [hr] at h
        | some vs =>
          simp only [hr, Option.map_some', Option.some.injEq, List.cons.injEq] at h
          obtain ⟨rfl, rfl⟩ := h
          exact ⟨a, l, xs, rfl, heq, hr⟩
      · simp at h

/-- The walk through a frame made of a list of Symbols and a list of values of the
same length: a name of the list is found at its first occurrence, in the cell that
holds the value of that position, and any other name is not found. -/
theorem frame_walk {s : Lisp} {h' : List (Option SynNode)}
    (hle : ∀ (a : Nat) (n : SynNode), s.heap[a]? = some (some n) → h'[a]? = some (some n))
    (var : String) :
    ∀ (names : List String) (xs vs : List Ptr) (k1 k2 : Nat) (pv pl : Ptr) (fuel : Nat),
      listElems s k1 pv = some xs → symbolNames s xs = some names →
      listElems s k2 pl = some vs → xs.length = vs.length → names.length < fuel →
      (var ∉ names → lookupFrameH h' var fuel pv pl = .ok none) ∧
      (var ∈ names → ∀ v, vs[names.indexOf var]? = some v →
        ∃ (c l : Nat) (tl : Ptr), lookupFrameH h' var fuel pv pl = .ok (some (some c)) ∧
          h'[c]? = some (some ⟨.pair v tl, l⟩))
  | [], xs, vs, k1, k2, pv, pl, fuel, hxs, hnames, hvs, hlen, hfuel => by
    have := symbolNames_nil hnames
    subst this
    have := listElems_nil hxs
    subst this
    obtain ⟨F, rfl⟩ : ∃ F, fuel = F + 1 := ⟨fuel - 1, by simp at hfuel; omega⟩
    refine ⟨fun _ => frame_stop (by simp), fun hm => absurd hm (by simp)⟩
  | nm :: names, xs, vs, k1, k2, pv, pl, fuel, hxs, hnames, hvs, hlen, hfuel => by
    obtain ⟨x, lx, xs', rfl, hx, hnames'⟩ := symbolNames_cons hnames
    obtain ⟨a, m1, tla, la, rfl, rfl, hcella, hxs'⟩ := listElems_cons_ptr hxs
    cases vs with
    | nil => simp at hlen
    | cons v0 vs' =>
      obtain ⟨b, m2, tlb, lb, rfl, rfl, hcellb, hvs'⟩ := listElems_cons_ptr hvs
      obtain ⟨F, rfl⟩ : ∃ F, fuel = F + 1 := ⟨fuel - 1, by simp at hfuel; omega⟩
      have hlen' : xs'.length = vs'.length := by simpa using hlen
      have hfuel' : names.length < F := by simp at hfuel; omega
      obtain ⟨ih1, ih2⟩ := frame_walk hle var names xs' vs' m1 m2 tla tlb F hxs' hnames'
        hvs' hlen' hfuel'
      by_cases hn : nm = var
      · subst hn
        refine ⟨fun hnot => absurd (List.mem_cons_self _ _) hnot, ?_⟩
        intro _ v hv
        simp only [List.indexOf_cons_self, List.getElem?_cons_zero, Option.some.injEq] at hv
        subst hv
        exact ⟨b, lb, tlb, frame_step.mpr ⟨some x, tla, la, hle _ _ hcella,
          Or.inl ⟨x, lx, rfl, hle _ _ hx, rfl⟩⟩, hle _ _ hcellb⟩
      · have hstep : ∀ r, lookupFrameH h' var F tla tlb = .ok r →
            lookupFrameH h' var (F + 1) (some a) (some b) = .ok r := fun r hr =>
          frame_step.mpr ⟨some x, tla, la, hle _ _ hcella,
            Or.inr ⟨Or.inr ⟨x, lx, nm, rfl, hle _ _ hx, hn⟩, v0, tlb, lb, hle _ _ hcellb, hr⟩⟩
        refine ⟨fun hnot => hstep _ (ih1 (fun hm => hnot (List.mem_cons_of_mem _ hm))), ?_⟩
        intro hm v hv
        have hm' : var ∈ names := by
          rcases List.mem_cons.mp hm with e | hm'
          · exact absurd e.symm hn
          · exact hm'
        rw [List.indexOf_cons_ne _ hn, List.getElem?_cons_succ] at hv
        obtain ⟨c, l, tl, hc, hcell⟩ := ih2 hm' v hv
        exact ⟨c, l, tl, hstep _ hc, hcell⟩

theorem push_full {s : Lisp} (vars vals : Ptr) (sp : EnvSP) (h : 2048 ≤ s.m_sp + 1) :
    push vars vals sp s = .ok ((LERR_STACK_OVERFLOWS, none), s) := by
  have hlt : ¬ (s.m_sp + 1 < _MAX_STACK_DEEPTH) := by
    show ¬ (s.m_sp + 1 < 2048); omega
  simp only [push, bind_ok (get_apply _), hlt, if_false, pure_apply]

theorem noteIndex_apply (i : Int) (s : Lisp) :
    noteIndex i s = .ok ((), { s with oob := if inStack i = true then s.oob else s.oob ++ [i] }) := by
  by_cases hin : inStack i = true
  · simp only [noteIndex, hin, if_true, pure_apply]
  · simp only [noteIndex, hin, Bool.false_eq_true, if_false]
    rfl

theorem node_apply (sp : EnvSP) (s : Lisp) :
    node sp s = match s.m_stack.lookup sp with
      | some p => .ok (p, { s with oob := if inStack sp = true then s.oob else s.oob ++ [sp] })
      | none => .error (Fault.uninitSlot sp) := by
  have hl : ({ s with oob := if inStack sp = true then s.oob else s.oob ++ [sp] }
      : Lisp).m_stack.lookup sp = s.m_stack.lookup sp := rfl
  simp only [node, bind_ok (noteIndex_apply _ _), bind_ok (get_apply _), hl]
  cases s.m_stack.lookup sp <;> rfl

theorem push_room {s t : Lisp} {vars vals : Ptr} {sp : EnvSP} {r : Int × Option EnvSP}
    (h : s.m_sp + 1 < 2048) (hr : push vars vals sp s = .ok (r, t)) :
    r = (LINF_SUCCEEDED, some s.m_sp) ∧ t.m_sp = s.m_sp + 1 := by
  have hlt : s.m_sp + 1 < _MAX_STACK_DEEPTH := h
  cases hl : s.m_stack.lookup sp with
  | none =>
    have hl' : ({ s with heap := s.heap ++ [some ⟨.pair vars vals, 0⟩] } : Lisp).m_stack.lookup sp
        = none := hl
    have hn := node_apply sp { s with heap := s.heap ++ [some ⟨.pair vars vals, 0⟩] }
    rw [hl'] at hn
    simp only [push, bind_ok (get_apply _), hlt, if_true, bind_ok (createPair_apply _ _ _ _),
      LP_SUCCESS_one, bind_apply, hn] at hr
    exact absurd hr (by simp)
  | some p =>
    have hl' : ({ s with heap := s.heap ++ [some ⟨.pair vars vals, 0⟩] } : Lisp).m_stack.lookup sp
        = some p := hl
    have hn := node_apply sp { s with heap := s.heap ++ [some ⟨.pair vars vals, 0⟩] }
    rw [hl'] at hn
    simp only [push, bind_ok (get_apply _), hlt, if_true, bind_ok (createPair_apply _ _ _ _),
      LP_SUCCESS_one, bind_ok hn, setSlot, bind_ok (noteIndex_apply _ _),
      bind_ok (modify_apply _ _), modify_apply, pure_apply, bind_assoc, pure_bind,
      Except.ok.injEq, Prod.mk.injEq] at hr
    obtain ⟨hr1, hr2⟩ := hr
    exact ⟨hr1.symm, by rw [← hr2]⟩

/-- From a state in which `n` more pushes fit, `n` pushes succeed and the next one
reports the overflow and changes nothing. -/
theorem pushes_until_full : ∀ (n : Nat) (s : Lisp), 0 ≤ s.m_sp → s.m_sp + n = 2047 →
    (s.m_stack.lookup 0).isSome = true →
    ∃ t : Lisp, pushes (n + 1) s
        = .ok (List.replicate n LINF_SUCCEEDED ++ [LERR_STACK_OVERFLOWS], t) ∧
      t.m_sp = 2047
  | 0, s, _, hlt, _ => by
    have hfull := push_full (s := s) none none 0 (by simp at hlt; omega)
    refine ⟨s, ?_, by simpa using hlt⟩
    simp only [pushes, bind_ok hfull]
    rfl
  | n + 1, s, hsp, hlt, h0 => by
    obtain ⟨t0, ht0⟩ := Option.isSome_iff_exists.mp h0
    have hp : push none none 0 s = _ :=
      push_ok (by decide : inStack 0 = true) ht0 hsp (by push_cast at hlt; omega)
    have hs0 : (List.lookup (0 : Int) ((s.m_sp, some (s.heap.length + 1)) :: s.m_stack)).isSome
        = true := by
      by_cases hz : (0 : Int) = s.m_sp
      · simp [← hz, List.lookup]
      · have hne : ((0 : Int) == s.m_sp) = false := by
          simp only [beq_eq_false_iff_ne, ne_eq]; exact hz
        simp only [List.lookup, hne]; exact h0
    obtain ⟨t, hrun, hsp'⟩ := pushes_until_full n
      { s with heap := s.heap ++ [some ⟨.pair none none, 0⟩]
                         ++ [some ⟨.pair (some s.heap.length) t0, 0⟩],
               m_stack := (s.m_sp, some (s.heap.length + 1)) :: s.m_stack,
               m_sp := s.m_sp + 1 }
      (show (0:Int) ≤ s.m_sp + 1 by omega)
      (show s.m_sp + 1 + (n : Int) = 2047 by push_cast at hlt; omega) hs0
    refine ⟨t, ?_, hsp'⟩
    rw [show pushes (n + 1 + 1) s = (do
      let (rc, _) ← push none none 0
      let rest ← pushes (n + 1)
      pure (rc :: rest) : M (List Int)) s from rfl]
    simp only [bind_ok hp, bind_ok hrun, pure_apply, List.replicate_succ, List.cons_append]

/-- The state after a call of `push` that succeeded. -/
theorem push_inv {s t : Lisp} {vars vals : Ptr} {sp n : EnvSP} (hin : inStack sp = true)
    (h0 : 0 ≤ s.m_sp)
    (hr : push vars vals sp s = .ok ((LINF_SUCCEEDED, some n), t)) :
    ∃ t0, s.m_stack.lookup sp = some t0 ∧ n = s.m_sp ∧ s.m_sp + 1 < 2048 ∧
      t = { s with heap := s.heap ++ [some ⟨.pair vars vals, 0⟩]
                             ++ [some ⟨.pair (some s.heap.length) t0, 0⟩],
                   m_stack := (s.m_sp, some (s.heap.length + 1)) :: s.m_stack,
                   m_sp := s.m_sp + 1 } := by
  by_cases hlt : s.m_sp + 1 < 2048
  · cases hl : s.m_stack.lookup sp with
    | none =>
      have hl' : ({ s with heap := s.heap ++ [some ⟨.pair vars vals, 0⟩] } : Lisp).m_stack.lookup sp
          = none := hl
      have hn := node_apply sp { s with heap := s.heap ++ [some ⟨.pair vars vals, 0⟩] }
      rw [hl'] at hn
      have hlt' : s.m_sp + 1 < _MAX_STACK_DEEPTH := hlt
      simp only [push, bind_ok (get_apply _), hlt', if_true, bind_ok (createPair_apply _ _ _ _),
        LP_SUCCESS_one, bind_apply, hn] at hr
      exact absurd hr (by simp)
    | some t0 =>
      have hp : push vars vals sp s = _ := push_ok hin hl h0 hlt
      rw [hp] at hr
      simp only [Except.ok.injEq, Prod.mk.injEq, Option.some.injEq, true_and] at hr
      exact ⟨t0, rfl, hr.1.symm, hlt, hr.2.symm⟩
  · have hfull := push_full (s := s) vars vals sp (by omega)
    rw [hfull] at hr
    simp at hr


/-! ### Calls through the table and the loop of cond -/

theorem bind_error {α β : Type} {x : M α} {f : α → M β} {s : Lisp} {e : Fault}
    (h : x s = .error e) : (x >>= f) s = .error e := by
  rw [bind_apply, h]

theorem throwError_apply (line : Nat) (msg : String) (s : Lisp) :
    Lisp.throwError line msg s
      = .ok (LERR_THROW_ERROR, { s with errors := s.errors ++ [(line, msg)] }) := rfl

theorem lookupFrame_end {s : Lisp} {var : String} {fuel : Nat} (vl : Ptr) :
    lookupFrame var (fuel + 1) none vl s = .ok (none, s) := by
  simp only [lookupFrame, Option.isSome_none, Bool.false_and, Bool.false_eq_true, if_false,
    pure_apply]

theorem lookupChain_end {s : Lisp} {var : String} {fuel : Nat} :
    lookupChain var (fuel + 1) none s = .ok (none, s) := by
  simp only [lookupChain, Option.isSome_none, Bool.false_eq_true, if_false, pure_apply]

theorem lookupVariable_missing {s : Lisp} {E : Int} {x l fuel : Nat} {var : String}
    {chain : Ptr} (hin : inStack E = true)
    (hx : s.heap[x]? = some (some ⟨.symbol var, l⟩))
    (hslot : s.m_stack.lookup E = some chain)
    (hch : lookupChain var fuel chain s = .ok (none, s)) :
    lookupVariable fuel E (some x) s = .ok ((LERR_SYMBOL_NOT_FOUND, none), s) := by
  have h1 : lookupVariableList fuel E (some x) s = .ok ((LERR_SYMBOL_NOT_FOUND, none), s) := by
    simp only [lookupVariableList, bind_ok (typeOf_ok hx), objData.type, ne_eq,
      not_true_eq_false, if_false, bind_ok (node_ok hin hslot), bind_ok (symbolOf_ok hx),
      bind_ok hch, pure_apply]
  have hf : LP_SUCCESS LERR_SYMBOL_NOT_FOUND = false := by decide
  simp only [lookupVariable, bind_ok h1, hf, Bool.false_eq_true, if_false, pure_apply]

theorem evalCall_unbound {ev : Eval} {s : Lisp} {E : Int} {cn hd l1 l2 fuel : Nat}
    {rest : Ptr} {name : String}
    (hcn : s.heap[cn]? = some (some ⟨.pair (some hd) rest, l1⟩))
    (hhd : s.heap[hd]? = some (some ⟨.symbol name, l2⟩))
    (hm : matchToken name = none)
    (hlk : lookupVariable fuel E (some hd) s = .ok ((LERR_SYMBOL_NOT_FOUND, none), s)) :
    evalCall ev fuel (some cn) E s = .ok (none,
      { s with rc := LERR_THROW_ERROR,
               errors := s.errors ++ [(l1, "target function was not found")] }) := by
  have hf : LP_FAILURE LERR_SYMBOL_NOT_FOUND = true := by decide
  have hcn' : ({ s with rc := LERR_SYMBOL_NOT_FOUND } : Lisp).heap[cn]? = _ := hcn
  simp only [evalCall, bind_ok (OBJ_LEAF_ok hcn), bind_ok (typeOf_ok hhd), objData.type,
    if_true, bind_assoc, pure_bind, bind_ok (symbolOf_ok hhd), hm, pure_apply, bind_ok hlk,
    bind_ok (setRc_apply _ _), hf, bind_ok (lineOf_ok hcn'), bind_ok (throwError_apply _ _ _),
    setRc_apply]

/-- While the test of the first clause keeps failing, the loop of `symbolCond` stays
at that clause: whatever the number of iterations allowed, it does not return. -/
theorem condLoop_stuck {ev : Eval} {fuel0 : Nat} {envsp : EnvSP} {body cur test : Nat}
    (P : Lisp → Prop)
    (hP : ∀ s, P s → ∃ (rest cb r : Ptr) (l1 l2 : Nat) (n : SynNode) (t : Lisp),
      s.heap[body]? = some (some ⟨.pair (some cur) rest, l1⟩) ∧
      s.heap[cur]? = some (some ⟨.pair (some test) cb, l2⟩) ∧
      s.heap[test]? = some (some n) ∧ n.object.type ≠ objType.OBJTYPE_SYMBOL ∧
      ev (some test) envsp s = .ok (r, t) ∧ t.rc < 1 ∧ P t) :
    ∀ (k : Nat) (s : Lisp), P s →
      condLoop ev fuel0 envsp k (some body) s = .error Fault.outOfFuel
  | 0, _, _ => rfl
  | k + 1, s, hs => by
    obtain ⟨rest, cb, r, l1, l2, n, t, hb, hc, ht, hty, hev, hrc, hPt⟩ := hP s hs
    have hf : LP_SUCCESS t.rc = false := by simp [LP_SUCCESS]; omega
    simp only [condLoop, Option.isSome_some, if_true, bind_ok (OBJ_LEAF_ok hb),
      bind_ok (OBJ_LEAF_ok hc), bind_ok (typeOf_ok ht), hty, if_false, bind_ok hev,
      bind_ok (getRc_apply _), hf, Bool.false_eq_true]
    exact condLoop_stuck P hP k t hPt

theorem run_eq_of {α : Type} {r : Except Fault (α × Lisp)} {a : α} {s : Lisp}
    (h1 : returned r = some a) (h2 : stateOf r = some s) : r = .ok (a, s) := by
  cases r with
  | error e => simp [returned] at h1
  | ok p =>
    obtain ⟨a', s'⟩ := p
    simp only [returned, stateOf, Option.some.injEq] at h1 h2
    rw [h1, h2]

theorem matchToken_cond : matchToken "cond" = some ⟨"cond", symbolCond⟩ := by
  simp [matchToken, tokens]

theorem matchToken_nofn : matchToken "nofn" = none := by
  simp [matchToken, tokens]

theorem evalCall_table {ev : Eval} {s : Lisp} {E : Int} {cn hd l1 l2 fuel : Nat}
    {rest : Ptr} {name : String} {tk : Token}
    (hcn : s.heap[cn]? = some (some ⟨.pair (some hd) rest, l1⟩))
    (hhd : s.heap[hd]? = some (some ⟨.symbol name, l2⟩))
    (hm : matchToken name = some tk) :
    evalCall ev fuel (some cn) E s = (do
      let val ← tk.eval ev fuel (some cn) E
      if LP_SUCCESS (← getRc) then pure val else pure none : M Ptr) s := by
  simp only [evalCall, bind_ok (OBJ_LEAF_ok hcn), bind_ok (typeOf_ok hhd), objData.type,
    if_true, bind_assoc, pure_bind, bind_ok (symbolOf_ok hhd), hm]

theorem matchToken_car : matchToken "car" = some ⟨"car", symbolCar⟩ := by
  simp [matchToken, tokens]

theorem addLoop_numbers {ev : Eval} {envsp : EnvSP} {p q : Ptr} {s t : Lisp} {ns : List Rat}
    (h : EvalsNumbers ev envsp p s ns q t) :
    ∀ (fuel : Nat) (acc : Rat),
      addLoop ev envsp (fuel + ns.length) p acc s = addLoop ev envsp fuel q (acc + ns.sum) t := by
  induction h with
  | done s p => intro fuel acc; simp
  | @next a r l1 l2 e tl q s s1 t n ns ha hev hr ha1 _ ih =>
    intro fuel acc
    rw [show fuel + (n :: ns).length = (fuel + ns.length) + 1 by simp; omega]
    simp only [addLoop, Option.isSome_some, if_true, bind_ok (OBJ_LEAF_ok ha), bind_ok hev,
      bind_ok (typeOf_ok hr), objData.type, bind_ok (OBJ_NEXT_ok ha1), bind_ok (numberOf_ok hr)]
    rw [ih fuel (acc + n), List.sum_cons, add_assoc]

theorem mulLoop_numbers {ev : Eval} {envsp : EnvSP} {p q : Ptr} {s t : Lisp} {ns : List Rat}
    (h : EvalsNumbers ev envsp p s ns q t) :
    ∀ (fuel : Nat) (acc : Rat),
      mulLoop ev envsp (fuel + ns.length) p acc s = mulLoop ev envsp fuel q (acc * ns.prod) t := by
  induction h with
  | done s p => intro fuel acc; simp
  | @next a r l1 l2 e tl q s s1 t n ns ha hev hr ha1 _ ih =>
    intro fuel acc
    rw [show fuel + (n :: ns).length = (fuel + ns.length) + 1 by simp; omega]
    simp only [mulLoop, Option.isSome_some, if_true, bind_ok (OBJ_LEAF_ok ha), bind_ok hev,
      bind_ok (typeOf_ok hr), objData.type, bind_ok (OBJ_NEXT_ok ha1), bind_ok (numberOf_ok hr)]
    rw [ih fuel (acc * n), List.prod_cons, mul_assoc]

theorem addLoop_end {ev : Eval} {envsp : EnvSP} {fuel : Nat} (acc : Rat) (s : Lisp) :
    addLoop ev envsp (fuel + 1) none acc s = .ok (some acc, s) := by
  simp only [addLoop, Option.isSome_none, Bool.false_eq_true, if_false, pure_apply]

theorem mulLoop_end {ev : Eval} {envsp : EnvSP} {fuel : Nat} (acc : Rat) (s : Lisp) :
    mulLoop ev envsp (fuel + 1) none acc s = .ok (some acc, s) := by
  simp only [mulLoop, Option.isSome_none, Bool.false_eq_true, if_false, pure_apply]

theorem addLoop_mismatch {ev : Eval} {envsp : EnvSP} {fuel b x r l1 : Nat} {tl : Ptr}
    {s s1 : Lisp} {nx nr : SynNode} (acc : Rat)
    (hb : s.heap[b]? = some (some ⟨.pair (some x) tl, l1⟩))
    (hev : ev (some x) envsp s = .ok (some r, s1))
    (hr : s1.heap[r]? = some (some nr)) (hty : nr.object.type ≠ .OBJTYPE_NUMBER)
    (hx : s1.heap[x]? = some (some nx)) :
    addLoop ev envsp (fuel + 1) (some b) acc s = .ok (none,
      { s1 with rc := LERR_THROW_ERROR,
                errors := s1.errors ++ [(nx.line, "add - operand(s) type mismatched.")] }) := by
  simp only [addLoop, Option.isSome_some, if_true, bind_ok (OBJ_LEAF_ok hb), bind_ok hev,
    bind_ok (typeOf_ok hr), hty, if_false, bind_ok (lineOf_ok hx),
    bind_ok (throwError_apply _ _ _), bind_ok (setRc_apply _ _), pure_apply]

theorem mulLoop_mismatch {ev : Eval} {envsp : EnvSP} {fuel b x r l1 : Nat} {tl : Ptr}
    {s s1 : Lisp} {nx nr : SynNode} (acc : Rat)
    (hb : s.heap[b]? = some (some ⟨.pair (some x) tl, l1⟩))
    (hev : ev (some x) envsp s = .ok (some r, s1))
    (hr : s1.heap[r]? = some (some nr)) (hty : nr.object.type ≠ .OBJTYPE_NUMBER)
    (hx : s1.heap[x]? = some (some nx)) :
    mulLoop ev envsp (fuel + 1) (some b) acc s = .ok (none,
      { s1 with rc := LERR_THROW_ERROR,
                errors := s1.errors ++ [(nx.line, "mul - operand(s) type mismatched.")] }) := by
  simp only [mulLoop, Option.isSome_some, if_true, bind_ok (OBJ_LEAF_ok hb), bind_ok hev,
    bind_ok (typeOf_ok hr), hty, if_false, bind_ok (lineOf_ok hx),
    bind_ok (throwError_apply _ _ _), bind_ok (setRc_apply _ _), pure_apply]

theorem typeOf_null (s : Lisp) : typeOf none s = .error Fault.nullDeref := rfl

theorem addLoop_nil {ev : Eval} {envsp : EnvSP} {fuel b l1 : Nat} {e tl : Ptr}
    {s s1 : Lisp} (acc : Rat)
    (hb : s.heap[b]? = some (some ⟨.pair e tl, l1⟩))
    (hev : ev e envsp s = .ok (none, s1)) :
    addLoop ev envsp (fuel + 1) (some b) acc s = .error Fault.nullDeref := by
  simp only [addLoop, Option.isSome_some, if_true, bind_ok (OBJ_LEAF_ok hb), bind_ok hev,
    bind_error (typeOf_null _)]

theorem mulLoop_nil {ev : Eval} {envsp : EnvSP} {fuel b l1 : Nat} {e tl : Ptr}
    {s s1 : Lisp} (acc : Rat)
    (hb : s.heap[b]? = some (some ⟨.pair e tl, l1⟩))
    (hev : ev e envsp s = .ok (none, s1)) :
    mulLoop ev envsp (fuel + 1) (some b) acc s = .error Fault.nullDeref := by
  simp only [mulLoop, Option.isSome_some, if_true, bind_ok (OBJ_LEAF_ok hb), bind_ok hev,
    bind_error (typeOf_null _)]

theorem matchToken_add : matchToken "+" = some ⟨"+", symbolAdd⟩ := by
  simp [matchToken, tokens]

theorem matchToken_booleanP : matchToken "boolean?" = some ⟨"boolean?", symbolBooleanP⟩ := by
  simp [matchToken, tokens]

theorem matchToken_numberP : matchToken "number?" = some ⟨"number?", symbolNumberP⟩ := by
  simp [matchToken, tokens]

theorem matchToken_charP : matchToken "char?" = some ⟨"char?", symbolCharP⟩ := by
  simp [matchToken, tokens]

theorem matchToken_stringP : matchToken "string?" = some ⟨"string?", symbolStringP⟩ := by
  simp [matchToken, tokens]

theorem predTypeInner_ok {s : Lisp} {cn a1 x l0 l1 : Nat} {hd tl : Ptr} {n : SynNode}
    (envsp : EnvSP) (ty : objType)
    (hcn : s.heap[cn]? = some (some ⟨.pair hd (some a1), l0⟩))
    (ha1 : s.heap[a1]? = some (some ⟨.pair (some x) tl, l1⟩))
    (hx : s.heap[x]? = some (some n)) :
    predTypeInner (some cn) envsp ty s = .ok (some s.heap.length,
      { s with heap := s.heap ++ [some ⟨.boolean (decide (ty = n.object.type)), l0⟩],
               rc := LINF_SUCCEEDED }) := by
  simp only [predTypeInner, bind_ok (OBJ_NEXT_ok hcn), bind_ok (OBJ_LEAF_ok ha1),
    bind_ok (typeOf_ok hx), bind_ok (lineOf_ok hcn), createAtom_apply]

theorem evalListLoop_run {ev : Eval} {envsp : EnvSP} {vars vals : Ptr} {index : Nat}
    {s t : Lisp} {es rs : List Ptr} (h : OperandsRun ev envsp vars vals index s es rs t) :
    ∀ fuel, evalListLoop ev envsp (fuel + es.length + 1) vars vals (some index) s
      = .ok (some none, t) := by
  induction h with
  | done index s =>
    intro fuel
    simp only [evalListLoop, Option.isSome_none, Bool.false_eq_true, if_false, pure_apply]
  | @next pv pa index li l1 l2 x pvt e pat r v nx s s1 t es rs hpa hev hrc hidx hpv hpa1
      _ ih =>
    intro fuel
    have hidx' : ({ s1 with heap := s1.heap ++ [some ⟨.pair r none, 0⟩], rc := LINF_SUCCEEDED } : Lisp).heap[index]?
        = some (some ⟨.pair v nx, li⟩) :=
      getElem?_append_some _ hidx
    rw [show fuel + (e :: es).length + 1 = (fuel + es.length + 1) + 1 by simp; omega]
    simp only [evalListLoop, Option.isSome_some, if_true, bind_ok (OBJ_LEAF_ok hpa),
      bind_ok hev, bind_ok (getRc_apply _), LP_SUCCESS_of_pos hrc,
      bind_ok (createPair_apply _ _ _ _), bind_ok (setRc_apply _ _), LP_SUCCESS_one,
      bind_ok (setNext_ok hidx')]
    have hpv' : ({ s1 with heap := (s1.heap ++ [some (SynNode.mk (.pair r none) 0)]).set index (some ⟨.pair v (some s1.heap.length), li⟩), rc := LINF_SUCCEEDED } : Lisp).heap[pv]?
        = some (some ⟨.pair x pvt, l1⟩) := hpv
    have hpa' : ({ s1 with heap := (s1.heap ++ [some (SynNode.mk (.pair r none) 0)]).set index (some ⟨.pair v (some s1.heap.length), li⟩), rc := LINF_SUCCEEDED } : Lisp).heap[pa]?
        = some (some ⟨.pair e pat, l2⟩) := hpa1
    simp only [bind_ok (OBJ_NEXT_ok hpv'), bind_ok (OBJ_NEXT_ok hpa')]
    have := ih fuel
    simp only [linkResult] at this
    exact this

theorem operandsRun_rc {ev : Eval} {envsp : EnvSP} {vars vals : Ptr} {index : Nat}
    {s t : Lisp} {es rs : List Ptr} (h : OperandsRun ev envsp vars vals index s es rs t) :
    0 < s.rc → 0 < t.rc := by
  induction h with
  | done index s => exact id
  | next _ _ _ _ _ _ _ ih => intro _; exact ih (show (0 : Int) < LINF_SUCCEEDED by decide)

theorem operandsRun_length {ev : Eval} {envsp : EnvSP} {vars vals : Ptr} {index : Nat}
    {s t : Lisp} {es rs : List Ptr} (h : OperandsRun ev envsp vars vals index s es rs t) :
    rs.length = es.length := by
  induction h with
  | done index s => rfl
  | next _ _ _ _ _ _ _ ih => simp [ih]

theorem keeps_pure {α : Type} (a : α) : KeepsParsed (pure a : M α) := by
  intro s b s1 h
  rw [pure_apply] at h
  cases h
  rfl

theorem keeps_throw {α : Type} (e : Fault) : KeepsParsed (throw e : M α) := by
  intro s b s1 h
  cases h

theorem keeps_bind {α β : Type} {x : M α} {f : α → M β} (hx : KeepsParsed x) (hf : ∀ a, KeepsParsed (f a)) :
    KeepsParsed (x >>= f) := by
  intro s b s1 h
  rw [bind_apply] at h
  cases hxs : x s with
  | error e => rw [hxs] at h; cases h
  | ok p =>
    obtain ⟨a, s0⟩ := p
    rw [hxs] at h
    exact (hf a s0 b s1 h).trans (hx s a s0 hxs)

theorem keeps_modify (f : Lisp → Lisp) (hf : ∀ s, (f s).m_parsed = s.m_parsed) :
    KeepsParsed (modify f : M Unit) := by
  intro s b s1 h
  rw [modify_apply] at h
  cases h
  exact hf s

theorem keeps_ite {α : Type} {c : Prop} [Decidable c] {x y : M α} (hx : KeepsParsed x)
    (hy : KeepsParsed y) : KeepsParsed (if c then x else y) := by
  split
  · exact hx
  · exact hy

theorem keeps_get : KeepsParsed (get : M Lisp) := by
  intro s b s1 h
  rw [get_apply] at h
  cases h
  rfl

theorem keeps_setRc (rc : Int) : KeepsParsed (setRc rc) :=
  keeps_modify _ (fun _ => rfl)

theorem keeps_getRc : KeepsParsed getRc := by
  intro s b s1 h
  rw [getRc_apply] at h
  cases h
  rfl

theorem keeps_throwError (line : Nat) (msg : String) : KeepsParsed (Lisp.throwError line msg) := by
  intro s b s1 h
  rw [throwError_apply] at h
  cases h
  rfl

theorem keeps_createAtom (d : objData) (l : Nat) : KeepsParsed (createAtom d l) := by
  intro s b s1 h
  rw [createAtom_apply] at h
  cases h
  rfl

theorem keeps_createPair (a b : Ptr) (l : Nat) : KeepsParsed (createPair a b l) := by
  intro s x s1 h
  rw [createPair_apply] at h
  cases h
  rfl

theorem keeps_fail {α : Type} (line : Nat) (msg : String) (a : α) : KeepsParsed (do
    setRc (← Lisp.throwError line msg)
    pure a : M α) :=
  keeps_bind (keeps_throwError _ _) (fun _ => keeps_bind (keeps_setRc _) (fun _ => keeps_pure _))

theorem keeps_lexLine (toks : List LexNode) (i : Option Nat) : KeepsParsed (lexLine toks i) := by
  unfold lexLine
  split
  · exact keeps_pure _
  · exact keeps_throw _

theorem keeps_generateNumber (t : LexNode) : KeepsParsed (generateNumber t) := by
  unfold generateNumber
  refine keeps_bind (keeps_setRc _) (fun _ => ?_)
  split
  · exact keeps_createAtom _ _
  · exact keeps_pure _

theorem keeps_generateString (t : LexNode) : KeepsParsed (generateString t) := by
  unfold generateString
  refine keeps_ite (keeps_fail _ _ _) (keeps_ite (keeps_throw _) (keeps_createAtom _ _))

theorem keeps_generateBoolean (t : LexNode) : KeepsParsed (generateBoolean t) := by
  unfold generateBoolean
  refine keeps_ite (keeps_fail _ _ _) (keeps_ite (keeps_createAtom _ _) (keeps_ite (keeps_createAtom _ _)
      (keeps_fail _ _ _)))

theorem keeps_generateCharacter (t : LexNode) : KeepsParsed (generateCharacter t) := by
  unfold generateCharacter
  refine keeps_ite (keeps_fail _ _ _) (keeps_createAtom _ _)

theorem keeps_generateMisc (t : LexNode) : KeepsParsed (generateMisc t) := by
  unfold generateMisc
  refine keeps_ite (keeps_generateBoolean t) (keeps_ite (keeps_generateCharacter t)
    (keeps_ite (keeps_generateNumber t) (keeps_ite (keeps_generateNumber t)
      (keeps_createAtom _ _))))

theorem keeps_generate (toks : List LexNode) : ∀ (fuel : Nat),
    (∀ i, KeepsParsed (generate toks fuel i)) ∧ (∀ i, KeepsParsed (generateList toks fuel i))
  | 0 => ⟨fun i => by unfold generate; exact keeps_throw _,
          fun i => by unfold generateList; exact keeps_throw _⟩
  | fuel + 1 => by
    obtain ⟨ih1, ih2⟩ := keeps_generate toks fuel
    have htail : ∀ (p : Ptr × Nat), KeepsParsed (do
        if LP_SUCCESS (← getRc) then pure (p.1, p.2 + 1) else pure (p.1, p.2) : M (Ptr × Nat)) :=
      fun p => keeps_bind keeps_getRc (fun _ => keeps_ite (keeps_pure _) (keeps_pure _))
    constructor
    · intro i
      unfold generate
      cases hti : toks[i]? with
      | none => exact keeps_throw _
      | some t =>
        simp only
        refine keeps_bind ?_ (fun p => htail p)
        cases t.m_type with
        | LEX_OPEN_PAREN => exact ih2 _
        | LEX_STRING => exact keeps_bind (keeps_generateString t) (fun _ => keeps_pure _)
        | LEX_MISC => exact keeps_bind (keeps_generateMisc t) (fun _ => keeps_pure _)
        | LEX_INVALID => exact keeps_bind (keeps_setRc _) (fun _ => keeps_pure _)
        | LEX_CLOSE_PAREN => exact keeps_bind (keeps_setRc _) (fun _ => keeps_pure _)
    · intro i
      unfold generateList
      cases hti : toks[i]? with
      | none =>
        exact keeps_bind (keeps_lexLine _ _) (fun _ => keeps_fail _ _ _)
      | some t =>
        simp only
        refine keeps_ite (keeps_bind (keeps_setRc _) (fun _ => keeps_pure _)) ?_
        refine keeps_bind (ih1 _) (fun p => ?_)
        refine keeps_bind keeps_getRc (fun _ => keeps_ite ?_ (keeps_pure _))
        refine keeps_bind (ih2 _) (fun q => ?_)
        refine keeps_bind keeps_getRc (fun _ => keeps_ite ?_ (keeps_pure _))
        exact keeps_bind (keeps_lexLine _ _) (fun _ => keeps_bind (keeps_createPair _ _ _)
          (fun _ => keeps_bind (keeps_setRc _) (fun _ => keeps_pure _)))

theorem keeps_parse (toks : List LexNode) : KeepsParsed (Parser.parse toks) := by
  unfold Parser.parse
  refine keeps_bind ((keeps_generate toks _).1 _) (fun p => ?_)
  exact keeps_bind keeps_getRc (fun _ => keeps_ite (keeps_pure _) (keeps_pure _))

theorem keeps_lexMisc (lex : LexNode) (c : Int) (stream : List Nat) :
    KeepsParsed (Lexer.lexMisc lex c stream) := by
  unfold Lexer.lexMisc
  split
  · exact keeps_throw _
  · split
    · exact keeps_throw _
    · split
      · exact keeps_throw _
      · exact keeps_bind (keeps_ite (keeps_throwError _ _) (keeps_pure _))
          (fun _ => keeps_pure _)

theorem keeps_lexLoop : ∀ (fuel line : Nat) (lexlist : List LexNode) (stream : List Nat),
    KeepsParsed (lexLoop fuel line lexlist stream)
  | 0, _, _, _ => by unfold lexLoop; exact keeps_throw _
  | fuel + 1, line, lexlist, stream => by
    unfold lexLoop
    simp only
    refine keeps_ite (keeps_pure _) (keeps_ite (keeps_lexLoop fuel _ _ _) ?_)
    refine keeps_ite (keeps_lexLoop fuel _ _ _) (keeps_ite (keeps_lexLoop fuel _ _ _)
      (keeps_ite (keeps_lexLoop fuel _ _ _) ?_))
    refine keeps_bind (keeps_lexMisc _ _ _) (fun p => ?_)
    exact keeps_ite (keeps_lexLoop fuel _ _ _) (keeps_pure _)

theorem keeps_lex (lexlist : List LexNode) (input : List Nat) :
    KeepsParsed (Lexer.lex lexlist input) := by
  unfold Lexer.lex
  exact keeps_bind (keeps_lexLoop _ _ _ _) (fun _ => keeps_pure _)

theorem parse_root {toks : List LexNode} {s s1 : Lisp} {rc : Int} {root : Option Ptr}
    (h : Parser.parse toks s = .ok ((rc, root), s1)) : root.isSome = LP_SUCCESS rc := by
  simp only [Parser.parse, bind_apply] at h
  cases hg : generate toks (2 * toks.length + 2) 0 s with
  | error e => rw [hg] at h; cases h
  | ok p =>
    obtain ⟨⟨node, i⟩, s0⟩ := p
    rw [hg] at h
    simp only [getRc_apply] at h
    by_cases hrc : LP_SUCCESS s0.rc = true
    · simp only [hrc, if_true, pure_apply, Except.ok.injEq, Prod.mk.injEq] at h
      obtain ⟨⟨rfl, rfl⟩, _⟩ := h
      simp [hrc]
    · simp only [hrc, Bool.false_eq_true, if_false, pure_apply, Except.ok.injEq,
        Prod.mk.injEq] at h
      obtain ⟨⟨rfl, rfl⟩, _⟩ := h
      simp [hrc]

/-- After `Lisp::parser` the flag `m_parsed` tells whether this call succeeded. -/
theorem parserStream_parsed {lexlist ll : List LexNode} {input : List Nat} {s s1 : Lisp}
    {rc : Int} (h : Lisp.parserStream lexlist input s = .ok ((rc, ll), s1)) :
    s1.m_parsed = LP_SUCCESS rc := by
  simp only [Lisp.parserStream, bind_apply, modify_apply] at h
  cases hl : Lexer.lex lexlist input { s with m_parsed := false } with
  | error e => rw [hl] at h; cases h
  | ok p =>
    obtain ⟨⟨rc1, ll1⟩, s0⟩ := p
    have hk0 : s0.m_parsed = false := keeps_lex _ _ _ _ _ hl
    rw [hl] at h
    by_cases hrc1 : LP_SUCCESS rc1 = true
    · simp only [hrc1, if_true, bind_apply] at h
      cases hp : Parser.parse ll1 s0 with
      | error e => rw [hp] at h; cases h
      | ok q =>
        obtain ⟨⟨rc2, root⟩, s2⟩ := q
        have hk2 : s2.m_parsed = false := (keeps_parse _ _ _ _ hp).trans hk0
        have hroot := parse_root hp
        rw [hp] at h
        cases root with
        | none =>
          simp only [pure_apply, Except.ok.injEq, Prod.mk.injEq] at h
          obtain ⟨⟨rfl, _⟩, rfl⟩ := h
          rw [hk2]
          simpa using hroot
        | some r =>
          have hrc2 : LP_SUCCESS rc2 = true := by simpa using hroot.symm
          cases r with
          | none =>
            simp only [hrc2, if_true, bind_apply, Parser.dumpast, Option.isNone_none] at h
            cases h
          | some a =>
            simp only [hrc2, if_true, bind_apply, Parser.dumpast, Option.isNone_some,
              Bool.false_eq_true, if_false, modify_apply, pure_apply, Except.ok.injEq,
              Prod.mk.injEq] at h
            obtain ⟨⟨rfl, _⟩, rfl⟩ := h
            simp [hrc2]
    · simp only [hrc1, Bool.false_eq_true, if_false, pure_apply, Except.ok.injEq,
        Prod.mk.injEq] at h
      obtain ⟨⟨rfl, _⟩, rfl⟩ := h
      rw [hk0]
      simpa using hrc1

/-- The same for the part of `Lisp::parser` that follows the lexer. -/
theorem parser_parsed {toks : List LexNode} {s s1 : Lisp} {rc : Int}
    (h : Lisp.parser toks s = .ok (rc, s1)) : s1.m_parsed = LP_SUCCESS rc := by
  simp only [Lisp.parser, bind_apply, modify_apply] at h
  cases hp : Parser.parse toks { s with m_parsed := false } with
  | error e => rw [hp] at h; cases h
  | ok q =>
    obtain ⟨⟨rc2, root⟩, s2⟩ := q
    have hk2 : s2.m_parsed = false := keeps_parse _ _ _ _ hp
    have hroot := parse_root hp
    rw [hp] at h
    cases root with
    | none =>
      simp only [pure_apply, Except.ok.injEq, Prod.mk.injEq] at h
      obtain ⟨rfl, rfl⟩ := h
      rw [hk2]
      simpa using hroot
    | some r =>
      have hrc2 : LP_SUCCESS rc2 = true := by simpa using hroot.symm
      cases r with
      | none =>
        simp only [hrc2, if_true, bind_apply, Parser.dumpast, Option.isNone_none] at h
        cases h
      | some a =>
        simp only [hrc2, if_true, bind_apply, Parser.dumpast, Option.isNone_some,
          Bool.false_eq_true, if_false, modify_apply, pure_apply, Except.ok.injEq,
          Prod.mk.injEq] at h
        obtain ⟨rfl, rfl⟩ := h
        simp [hrc2]

theorem toChar_lt {b : Nat} (h : b < 256) :
    toChar b = if b < 128 then (b : Int) else (b : Int) - 256 := by
  simp only [toChar, Nat.mod_eq_of_lt h]

theorem toChar_eof {b : Nat} (h : b < 256) : toChar b = STREAM_EOF ↔ b = 255 := by
  rw [toChar_lt h, STREAM_EOF]
  split <;> omega

theorem toChar_quote {b : Nat} (h : b < 256) : toChar b = 34 ↔ b = 34 := by
  rw [toChar_lt h]
  split <;> omega

theorem toChar_delimiter {b : Nat} (h : b < 256) :
    (decide (toChar b = 41) || decide (toChar b = 40) || decide (toChar b = 59)
      || IsSpace (toChar b)) = isDelimiter b := by
  rw [toChar_lt h]
  simp only [IsSpace, isDelimiter]
  by_cases h1 : b < 128
  · simp only [h1, if_true]
    have e : ∀ k : Nat, decide ((b : Int) = (k : Int)) = decide (b = k) := by
      intro k
      simp
    have := e 41; have := e 40; have := e 59; have := e 9; have := e 10; have := e 32
    simp_all [Bool.or_assoc]
  · simp only [h1, if_false]
    have n1 : ¬ ((b : Int) - 256 = 41) := by omega
    have n2 : ¬ ((b : Int) - 256 = 40) := by omega
    have n3 : ¬ ((b : Int) - 256 = 59) := by omega
    have n4 : ¬ ((b : Int) - 256 = 9) := by omega
    have n5 : ¬ ((b : Int) - 256 = 10) := by omega
    have n6 : ¬ ((b : Int) - 256 = 32) := by omega
    have m1 : ¬ (b = 41) := by omega
    have m2 : ¬ (b = 40) := by omega
    have m3 : ¬ (b = 59) := by omega
    have m4 : ¬ (b = 9) := by omega
    have m5 : ¬ (b = 10) := by omega
    have m6 : ¬ (b = 32) := by omega
    simp [n1, n2, n3, n4, n5, n6, m1, m2, m3, m4, m5, m6]

theorem toByte_toChar {b : Nat} (h : b < 256) : toByte (toChar b) = b := by
  rw [toChar_lt h, toByte]
  split <;> omega

theorem append_ok {w : String} {src : List Int} (h : w.length + (src.length + 1) ≤ 16) :
    StringPool.append w src = .ok (w ++ String.mk (charsOf src)) := by
  simp only [StringPool.append, _MAX_BUFF_SIZE, h, if_true, charsOf]

theorem append_data (w : String) (l : List Char) : (w ++ String.mk l).data = w.data ++ l := rfl

theorem append_length (w : String) (l : List Char) :
    (w ++ String.mk l).length = w.length + l.length := by
  show (w.data ++ l).length = w.data.length + l.length
  exact List.length_append _ _

theorem lexMiscLoop_spec : ∀ (stream : List Nat) (word : String) (buff : List Int) (pair : Bool),
    (∀ b ∈ stream, b < 256) → buff.length ≤ 1 →
    word.length + buff.length + (tokenRest pair stream).1.length + 1 ≤ 16 →
    ∃ word1 buff1 c stream1,
      lexMiscLoop stream word buff pair
        = .ok (word1, buff1, (tokenRest pair stream).2.1, c, stream1) ∧
      buff1.length ≤ 1 ∧
      word1.data ++ charsOf buff1
        = word.data ++ charsOf buff ++ (tokenRest pair stream).1.map Char.ofNat ∧
      UnGetchar c stream1 = (tokenRest pair stream).2.2
  | [], word, buff, pair, _, hb, _ => by
    refine ⟨word, buff, STREAM_EOF, [], ?_, hb, ?_, ?_⟩
    · simp only [lexMiscLoop, tokenRest]
    · simp only [tokenRest, List.map_nil, List.append_nil]
    · simp only [UnGetchar, STREAM_EOF, if_true, tokenRest]
  | b :: stream, word, buff, pair, hbytes, hb, hlen => by
    have hlt : b < 256 := hbytes b (List.mem_cons_self _ _)
    have hrest : ∀ x ∈ stream, x < 256 := fun x hx => hbytes x (List.mem_cons_of_mem _ hx)
    by_cases h255 : b = 255
    · have heof : toChar b = STREAM_EOF := (toChar_eof hlt).2 h255
      refine ⟨word, buff, toChar b, stream, ?_, hb, ?_, ?_⟩
      · simp only [lexMiscLoop, heof, if_true]
        simp only [tokenRest, h255, if_true]
      · simp only [tokenRest, h255, if_true, List.map_nil, List.append_nil]
      · rw [heof]
        simp only [UnGetchar, STREAM_EOF, tokenRest, h255, if_true]
    · have hne : ¬ (toChar b = STREAM_EOF) := fun h => h255 ((toChar_eof hlt).1 h)
      by_cases hd : (!pair && isDelimiter b) = true
      · refine ⟨word, buff, toChar b, stream, ?_, hb, ?_, ?_⟩
        · simp only [lexMiscLoop, tokenRest, hne, h255, if_false, toChar_delimiter hlt, hd,
            if_true]
        · simp only [tokenRest, h255, if_false, hd, if_true, List.map_nil, List.append_nil]
        · have hne1 : ¬ (toChar b = -1) := hne
          simp only [UnGetchar, tokenRest, h255, if_false, hd, if_true, hne1,
            toByte_toChar hlt]
      · have hq : (if toChar b = 34 then !pair else pair) = (if b = 34 then !pair else pair) := by
          by_cases h34 : b = 34
          · rw [if_pos ((toChar_quote hlt).2 h34), if_pos h34]
          · rw [if_neg (fun h => h34 ((toChar_quote hlt).1 h)), if_neg h34]
        have ht : tokenRest pair (b :: stream)
            = (b :: (tokenRest (if b = 34 then !pair else pair) stream).1,
               (tokenRest (if b = 34 then !pair else pair) stream).2.1,
               (tokenRest (if b = 34 then !pair else pair) stream).2.2) := by
          simp only [tokenRest, h255, if_false, hd]
          rfl
        rw [ht] at hlen ⊢
        simp only [List.length_cons] at hlen
        by_cases h2 : (buff ++ [toChar b]).length = 2
        · have hbl : buff.length = 1 := by
            simp only [List.length_append, List.length_singleton] at h2
            omega
          have hfit : word.length + ((buff ++ [toChar b]).length + 1) ≤ 16 := by
            rw [h2]
            omega
          have hwl : (word ++ String.mk (charsOf (buff ++ [toChar b]))).length
              = word.length + 2 := by
            rw [append_length]
            simp only [charsOf, List.length_map, h2]
          obtain ⟨word1, buff1, c, stream1, h1, h2', h3, h4⟩ :=
            lexMiscLoop_spec stream (word ++ String.mk (charsOf (buff ++ [toChar b]))) []
              (if b = 34 then !pair else pair) hrest (by simp)
              (by rw [hwl]; simp only [List.length_nil]; omega)
          refine ⟨word1, buff1, c, stream1, ?_, h2', ?_, h4⟩
          · simp only [lexMiscLoop, hne, if_false, toChar_delimiter hlt, hd, h2, if_true,
              append_ok hfit, hq, h1]
            rfl
          · rw [h3, append_data]
            simp only [charsOf, List.map_append, List.map_cons, List.map_nil,
              toByte_toChar hlt, List.append_assoc, List.append_nil, List.cons_append,
              List.nil_append]
        · have hbl : buff.length = 0 := by
            simp only [List.length_append, List.length_singleton] at h2
            omega
          have hbn : buff = [] := List.length_eq_zero.1 hbl
          subst hbn
          obtain ⟨word1, buff1, c, stream1, h1, h2', h3, h4⟩ :=
            lexMiscLoop_spec stream word ([] ++ [toChar b])
              (if b = 34 then !pair else pair) hrest (by simp)
              (by simp only [List.nil_append, List.length_singleton]
                  simp only [List.length_nil] at hlen
                  omega)
          refine ⟨word1, buff1, c, stream1, ?_, h2', ?_, h4⟩
          · simp only [lexMiscLoop, hne, if_false, toChar_delimiter hlt, hd, h2,
              hq, h1]
            rfl
          · rw [h3]
            simp only [charsOf, List.map_append, List.map_cons, List.map_nil,
              toByte_toChar hlt, List.append_assoc, List.append_nil, List.cons_append,
              List.nil_append]

theorem lexMisc_string (line : Nat) (stream : List Nat) (s : Lisp)
    (hbytes : ∀ b ∈ stream, b < 256) (hlen : (tokenRest true stream).1.length + 2 ≤ 16) :
    Lexer.lexMisc ⟨.LEX_STRING, "", line⟩ 34 stream s
      = .ok ((if (tokenRest true stream).2.1 then LERR_THROW_ERROR else LINF_SUCCEEDED,
              ⟨.LEX_STRING, String.mk ((34 :: (tokenRest true stream).1).map Char.ofNat), line⟩,
              (tokenRest true stream).2.2),
             if (tokenRest true stream).2.1
             then { s with errors := s.errors ++ [(line, "String '\"' unpaired!\n")] }
             else s) := by
  have h0 : StringPool.append "" [34] = .ok "\"" := by decide
  obtain ⟨word1, buff1, c, stream1, h1, h2, h3, h4⟩ :=
    lexMiscLoop_spec stream "\"" [] true hbytes (by simp)
      (by show 1 + 0 + _ + 1 ≤ 16
          omega)
  have hl : word1.length + buff1.length = 1 + (tokenRest true stream).1.length := by
    have := congrArg List.length h3
    simp only [List.length_append, charsOf, List.length_map, List.length_nil] at this
    exact this
  have hflush : (if buff1.length ≠ 0 then StringPool.append word1 buff1 else .ok word1)
      = .ok (String.mk ((34 :: (tokenRest true stream).1).map Char.ofNat)) := by
    have hd : word1.data ++ charsOf buff1
        = (34 :: (tokenRest true stream).1).map Char.ofNat := by
      rw [h3]
      rfl
    by_cases hb : buff1.length = 0
    · have : buff1 = [] := List.length_eq_zero.1 hb
      subst this
      simp only [List.length_nil, ne_eq, not_true, if_false]
      simp only [charsOf, List.map_nil, List.append_nil] at hd
      rw [← hd]
    · simp only [ne_eq, hb, not_false_eq_true, if_true]
      rw [append_ok (by omega)]
      have : (word1 ++ String.mk (charsOf buff1)) = String.mk (word1.data ++ charsOf buff1) := rfl
      rw [this, hd]
  simp only [Lexer.lexMisc]
  have hc : (if (34 : Int) = 0 then ([] : List Int) else [34]) = [34] := by decide
  have hp : decide ((34 : Int) = 34) = true := by decide
  have hp1 : decide True = true := rfl
  rw [hc, h0]
  simp only [hp, hp1, h1, hflush]
  cases hpair : (tokenRest true stream).2.1
  · simp only [hpair] at h1
    simp only [h1, hflush, Bool.false_eq_true, if_false, h4]
    rfl
  · simp only [hpair] at h1
    simp only [h1, hflush, if_true, h4]
    rfl

theorem symbolAdd_nil {ev : Eval} {envsp : EnvSP} {fuel cn a l0 l1 : Nat} {hd e tl : Ptr}
    {s s1 : Lisp}
    (hcn : s.heap[cn]? = some (some ⟨.pair hd (some a), l0⟩))
    (ha : s.heap[a]? = some (some ⟨.pair e tl, l1⟩))
    (hev : ev e envsp s = .ok (none, s1)) :
    symbolAdd ev (fuel + 1) (some cn) envsp s = .error Fault.nullDeref := by
  simp only [symbolAdd, bind_ok (lineOf_ok hcn), bind_ok (OBJ_NEXT_ok hcn),
    bind_error (addLoop_nil 0 ha hev)]

theorem symbolMul_nil {ev : Eval} {envsp : EnvSP} {fuel cn a l0 l1 : Nat} {hd e tl : Ptr}
    {s s1 : Lisp}
    (hcn : s.heap[cn]? = some (some ⟨.pair hd (some a), l0⟩))
    (ha : s.heap[a]? = some (some ⟨.pair e tl, l1⟩))
    (hev : ev e envsp s = .ok (none, s1)) :
    symbolMul ev (fuel + 1) (some cn) envsp s = .error Fault.nullDeref := by
  simp only [symbolMul, bind_ok (lineOf_ok hcn), bind_ok (OBJ_NEXT_ok hcn),
    bind_error (mulLoop_nil 1 ha hev)]

theorem cmpInner_nil {ev : Eval} {envsp : EnvSP} {op : CmpOpcode} {cn a b l0 l1 l2 : Nat}
    {hd e1 e2 tl v2 : Ptr} {s s1 s2 : Lisp}
    (hcn : s.heap[cn]? = some (some ⟨.pair hd (some a), l0⟩))
    (ha : s.heap[a]? = some (some ⟨.pair e1 (some b), l1⟩))
    (hev1 : ev e1 envsp s = .ok (none, s1))
    (hcn1 : s1.heap[cn]? = some (some ⟨.pair hd (some a), l0⟩))
    (ha1 : s1.heap[a]? = some (some ⟨.pair e1 (some b), l1⟩))
    (hb1 : s1.heap[b]? = some (some ⟨.pair e2 tl, l2⟩))
    (hev2 : ev e2 envsp s1 = .ok (v2, s2)) :
    cmpInner ev (some cn) envsp op s = .error Fault.nullDeref := by
  have hn2 : OBJ_NEXT2 (some cn) s1 = .ok (some b, s1) := OBJ_NEXT2_ok hcn1 ha1
  simp only [cmpInner, bind_ok (OBJ_NEXT_ok hcn), bind_ok (OBJ_LEAF_ok ha), bind_ok hev1,
    bind_ok hn2, bind_ok (OBJ_LEAF_ok hb1), bind_ok hev2, bind_error (typeOf_null _)]

theorem symbolCar_nil {ev : Eval} {fuel : Nat} {envsp : EnvSP} {t t1 : Lisp} {c : Nat}
    {op e : Ptr}
    (hcall : listElems t 2 (some c) = some [op, e])
    (h1 : ev e envsp { t with rc := LINF_SUCCEEDED } = .ok (none, t1)) (hrc1 : 0 < t1.rc) :
    symbolCar ev (fuel + 3) (some c) envsp t = .error Fault.nullDeref := by
  obtain ⟨r1, ln0, ln1, a0, a1⟩ := listElems_two hcall
  have hv := validateSyntax_ok "car" hcall (by simp : [op, e].length < fuel + 3) 2 rfl
  have a0' : ({ t with rc := LINF_SUCCEEDED } : Lisp).heap[c]? = _ := a0
  have a1' : ({ t with rc := LINF_SUCCEEDED } : Lisp).heap[r1]? = _ := a1
  simp only [symbolCar, bind_ok hv, setRc_apply, bind_ok (setRc_apply _ _),
    bind_ok (getRc_apply _), LP_FAILURE_of_pos (show (0:Int) < LINF_SUCCEEDED by decide),
    Bool.false_eq_true, if_false, bind_ok (OBJ_NEXT_ok a0'), bind_ok (OBJ_LEAF_ok a1'),
    bind_ok h1, LP_FAILURE_of_pos hrc1, bind_error (typeOf_null _)]

theorem symbolCdr_nil {ev : Eval} {fuel : Nat} {envsp : EnvSP} {t t1 : Lisp} {c : Nat}
    {op e : Ptr}
    (hcall : listElems t 2 (some c) = some [op, e])
    (h1 : ev e envsp { t with rc := LINF_SUCCEEDED } = .ok (none, t1)) (hrc1 : 0 < t1.rc) :
    symbolCdr ev (fuel + 3) (some c) envsp t = .error Fault.nullDeref := by
  obtain ⟨r1, ln0, ln1, a0, a1⟩ := listElems_two hcall
  have hv := validateSyntax_ok "cdr" hcall (by simp : [op, e].length < fuel + 3) 2 rfl
  have a0' : ({ t with rc := LINF_SUCCEEDED } : Lisp).heap[c]? = _ := a0
  have a1' : ({ t with rc := LINF_SUCCEEDED } : Lisp).heap[r1]? = _ := a1
  simp only [symbolCdr, bind_ok hv, setRc_apply, bind_ok (setRc_apply _ _),
    bind_ok (getRc_apply _), LP_FAILURE_of_pos (show (0:Int) < LINF_SUCCEEDED by decide),
    Bool.false_eq_true, if_false, bind_ok (OBJ_NEXT_ok a0'), bind_ok (OBJ_LEAF_ok a1'),
    bind_ok h1, LP_FAILURE_of_pos hrc1, bind_error (typeOf_null _)]

theorem symbolCar_mismatch {ev : Eval} {fuel : Nat} {envsp : EnvSP} {t t1 : Lisp} {c p : Nat}
    {op e : Ptr} {n nc : SynNode}
    (hcall : listElems t 2 (some c) = some [op, e])
    (h1 : ev e envsp { t with rc := LINF_SUCCEEDED } = .ok (some p, t1)) (hrc1 : 0 < t1.rc)
    (hp : t1.heap[p]? = some (some n)) (hty : n.object.type ≠ .OBJTYPE_PAIR)
    (hc : t1.heap[c]? = some (some nc)) :
    symbolCar ev (fuel + 3) (some c) envsp t = .ok (none,
      { t1 with rc := LERR_THROW_ERROR,
                errors := t1.errors ++ [(nc.line, "car - the result is invalid.")] }) := by
  obtain ⟨r1, ln0, ln1, a0, a1⟩ := listElems_two hcall
  have hv := validateSyntax_ok "car" hcall (by simp : [op, e].length < fuel + 3) 2 rfl
  have a0' : ({ t with rc := LINF_SUCCEEDED } : Lisp).heap[c]? = _ := a0
  have a1' : ({ t with rc := LINF_SUCCEEDED } : Lisp).heap[r1]? = _ := a1
  simp only [symbolCar, bind_ok hv, setRc_apply, bind_ok (setRc_apply _ _),
    bind_ok (getRc_apply _), LP_FAILURE_of_pos (show (0:Int) < LINF_SUCCEEDED by decide),
    Bool.false_eq_true, if_false, bind_ok (OBJ_NEXT_ok a0'), bind_ok (OBJ_LEAF_ok a1'),
    bind_ok h1, LP_FAILURE_of_pos hrc1, bind_ok (typeOf_ok hp), ne_eq, hty,
    not_false_eq_true, if_true, bind_ok (lineOf_ok hc), bind_ok (throwError_apply _ _ _),
    pure_apply]

theorem symbolCdr_mismatch {ev : Eval} {fuel : Nat} {envsp : EnvSP} {t t1 : Lisp} {c p : Nat}
    {op e : Ptr} {n nc : SynNode}
    (hcall : listElems t 2 (some c) = some [op, e])
    (h1 : ev e envsp { t with rc := LINF_SUCCEEDED } = .ok (some p, t1)) (hrc1 : 0 < t1.rc)
    (hp : t1.heap[p]? = some (some n)) (hty : n.object.type ≠ .OBJTYPE_PAIR)
    (hc : t1.heap[c]? = some (some nc)) :
    symbolCdr ev (fuel + 3) (some c) envsp t = .ok (none,
      { t1 with rc := LERR_THROW_ERROR,
                errors := t1.errors ++ [(nc.line, "cdr - the result is invalid.")] }) := by
  obtain ⟨r1, ln0, ln1, a0, a1⟩ := listElems_two hcall
  have hv := validateSyntax_ok "cdr" hcall (by simp : [op, e].length < fuel + 3) 2 rfl
  have a0' : ({ t with rc := LINF_SUCCEEDED } : Lisp).heap[c]? = _ := a0
  have a1' : ({ t with rc := LINF_SUCCEEDED } : Lisp).heap[r1]? = _ := a1
  simp only [symbolCdr, bind_ok hv, setRc_apply, bind_ok (setRc_apply _ _),
    bind_ok (getRc_apply _), LP_FAILURE_of_pos (show (0:Int) < LINF_SUCCEEDED by decide),
    Bool.false_eq_true, if_false, bind_ok (OBJ_NEXT_ok a0'), bind_ok (OBJ_LEAF_ok a1'),
    bind_ok h1, LP_FAILURE_of_pos hrc1, bind_ok (typeOf_ok hp), ne_eq, hty,
    not_false_eq_true, if_true, bind_ok (lineOf_ok hc), bind_ok (throwError_apply _ _ _),
    pure_apply]

theorem listElems_cycle {s : Lisp} {a b l0 l1 : Nat} {x y : Ptr}
    (ha : s.heap[a]? = some (some ⟨.pair x (some b), l0⟩))
    (hb : s.heap[b]? = some (some ⟨.pair y (some a), l1⟩)) :
    ∀ n, listElems s n (some a) = none ∧ listElems s n (some b) = none
  | 0 => ⟨rfl, rfl⟩
  | n + 1 => by
    have ih := listElems_cycle ha hb n
    simp only [listElems, ha, hb, ih.1, ih.2, Option.map_none', and_self]

theorem addReady_numbers : EvalsNumbers (eval 50) 0 (some 6) addReady [1, 2, 3] none addReady := by
  have h6 : addReady.heap[6]? = some (some ⟨.pair (some 1) (some 5), 1⟩) := by decide!
  have h5 : addReady.heap[5]? = some (some ⟨.pair (some 2) (some 4), 1⟩) := by decide!
  have h4 : addReady.heap[4]? = some (some ⟨.pair (some 3) none, 1⟩) := by decide!
  have h1 : addReady.heap[1]? = some (some ⟨.number 1, 1⟩) := by decide!
  have h2 : addReady.heap[2]? = some (some ⟨.number 2, 1⟩) := by decide!
  have h3 : addReady.heap[3]? = some (some ⟨.number 3, 1⟩) := by decide!
  have e1 : eval 50 (some 1) 0 addReady = .ok (some 1, addReady) :=
    run_eq_of (by decide!) (by decide!)
  have e2 : eval 50 (some 2) 0 addReady = .ok (some 2, addReady) :=
    run_eq_of (by decide!) (by decide!)
  have e3 : eval 50 (some 3) 0 addReady = .ok (some 3, addReady) :=
    run_eq_of (by decide!) (by decide!)
  exact .next h6 e1 h1 h6 (.next h5 e2 h2 h5 (.next h4 e3 h3 h4 (.done addReady none)))

theorem orderReady_first : eval 49 (some 21) 0 orderReady = .ok (some 36, orderFirst) :=
  run_eq_of (by decide!) (by decide!)

theorem orderFirst_run :
    OperandsRun (eval 49) 0 (some 5) (some 26) orderFirst.heap.length
      { orderFirst with heap := orderFirst.heap ++ [some ⟨.pair (some 36) none, 0⟩], rc := LINF_SUCCEEDED }
      [some 25] [some 38] orderEvaluated := by
  have hpa : orderLinked.heap[26]? = some (some ⟨.pair (some 25) none, 1⟩) := by decide!
  have hev : eval 49 (some 25) 0 orderLinked = .ok (some 38, orderSecond) :=
    run_eq_of (by decide!) (by decide!)
  have hrc : 0 < orderSecond.rc := by decide!
  have hidx : orderSecond.heap[orderFirst.heap.length]?
      = some (some ⟨.pair (some 36) none, 0⟩) := by decide!
  have hpv : orderEvaluated.heap[5]? = some (some ⟨.pair (some 4) none, 1⟩) := by decide!
  have hpa1 : orderEvaluated.heap[26]? = some (some ⟨.pair (some 25) none, 1⟩) := by decide!
  exact @OperandsRun.next (eval 49) 0 5 26 orderFirst.heap.length 0 1 1 (some 4) none (some 25)
    none (some 38) (some 36) none orderLinked orderSecond orderEvaluated [] [] hpa hev hrc hidx
    hpv hpa1 (OperandsRun.done _ _)

theorem lexLoop_string (fuel line : Nat) (lexlist : List LexNode) (stream : List Nat)
    (s : Lisp) (hbytes : ∀ b ∈ stream, b < 256)
    (hlen : (tokenRest true stream).1.length + 2 ≤ 16) :
    lexLoop (fuel + 1) line lexlist (34 :: stream) s
      = if (tokenRest true stream).2.1
        then .ok ((LERR_THROW_ERROR, line, lexlist, (tokenRest true stream).2.2),
          { s with errors := s.errors ++ [(line, "String '\"' unpaired!\n")] })
        else lexLoop fuel line
          (lexlist ++ [⟨.LEX_STRING,
            String.mk ((34 :: (tokenRest true stream).1).map Char.ofNat), line⟩])
          (tokenRest true stream).2.2 s := by
  have h := lexMisc_string line stream s hbytes hlen
  have hc : toChar 34 = 34 := by decide
  have h1 : ¬ ((34 : Int) = STREAM_EOF) := by decide
  have h2 : (IsSpace 34 && decide ((34 : Int) ≠ 10)) = false := by decide
  have h3 : ¬ ((34 : Int) = 59) := by decide
  have h4 : ¬ ((34 : Int) = 10) := by decide
  have h5 : ¬ ((34 : Int) = 40) := by decide
  have h6 : ¬ ((34 : Int) = 41) := by decide
  simp only [lexLoop, Getchar, hc, h1, h2, h3, h4, h5, h6, if_false, Bool.false_eq_true,
    if_true, bind_ok h]
  cases (tokenRest true stream).2.1
  · simp only [Bool.false_eq_true, if_false]
    rw [if_pos (show LP_SUCCESS LINF_SUCCEEDED = true by decide)]
  · simp only [if_true]
    rw [if_neg (show ¬ (LP_SUCCESS LERR_THROW_ERROR = true) by decide)]
    rfl

theorem unget_length (c : Int) (stream : List Nat) :
    (UnGetchar c stream).length ≤ stream.length + 1 := by
  simp only [UnGetchar]
  split
  · omega
  · simp

theorem append_fault {w : String} {src : List Int} {e : Fault}
    (h : StringPool.append w src = .error e) : e = Fault.bufferOverrun := by
  simp only [StringPool.append] at h
  split at h
  · cases h
  · cases h
    rfl

theorem lexMiscLoop_fault : ∀ (stream : List Nat) (word : String) (buff : List Int)
    (pair : Bool) (e : Fault), lexMiscLoop stream word buff pair = .error e →
    e = Fault.bufferOverrun
  | [], word, buff, pair, e, h => by
    simp only [lexMiscLoop] at h
    cases h
  | b :: stream, word, buff, pair, e, h => by
    simp only [lexMiscLoop] at h
    split at h
    · cases h
    · split at h
      · cases h
      · split at h
        · split at h
          · rename_i e1 he
            cases h
            exact append_fault he
          · exact lexMiscLoop_fault stream _ _ _ e h
        · exact lexMiscLoop_fault stream _ _ _ e h

theorem lexMiscLoop_length : ∀ (stream : List Nat) (word : String) (buff : List Int)
    (pair : Bool) (r : String × List Int × Bool × Int × List Nat),
    lexMiscLoop stream word buff pair = .ok r →
    (UnGetchar r.2.2.2.1 r.2.2.2.2).length ≤ stream.length
  | [], word, buff, pair, r, h => by
    simp only [lexMiscLoop] at h
    cases h
    simp [UnGetchar, STREAM_EOF]
  | b :: stream, word, buff, pair, r, h => by
    simp only [lexMiscLoop] at h
    split at h
    · rename_i hc
      cases h
      simp only [UnGetchar]
      rw [if_pos (show toChar b = -1 from hc)]
      simp
    · split at h
      · cases h
        exact unget_length _ _
      · split at h
        · split at h
          · cases h
          · have := lexMiscLoop_length stream _ _ _ r h
            simp only [List.length_cons]
            omega
        · have := lexMiscLoop_length stream _ _ _ r h
          simp only [List.length_cons]
          omega

theorem skipComment_length : ∀ stream : List Nat, (skipComment stream).2.length ≤ stream.length
  | [] => by decide
  | b :: stream => by
    simp only [skipComment]
    split
    · have := skipComment_length stream
      simp only [List.length_cons]
      omega
    · simp

theorem throw_apply {α : Type} (e : Fault) (s : Lisp) : (throw e : M α) s = .error e := rfl

theorem lexMisc_fault {lex : LexNode} {c : Int} {stream : List Nat} {s : Lisp} {e : Fault}
    (h : Lexer.lexMisc lex c stream s = .error e) : e = Fault.bufferOverrun := by
  simp only [Lexer.lexMisc] at h
  cases h0 : StringPool.append lex.m_word (if c = 0 then [] else [c]) with
  | error e1 =>
    simp only [h0, throw_apply] at h
    cases h
    exact append_fault h0
  | ok word =>
    simp only [h0] at h
    cases h1 : lexMiscLoop stream word [] (decide (c = 34)) with
    | error e1 =>
      simp only [h1, throw_apply] at h
      cases h
      exact lexMiscLoop_fault _ _ _ _ _ h1
    | ok r =>
      obtain ⟨word1, buff1, pair1, c1, stream1⟩ := r
      simp only [h1] at h
      cases h2 : (if buff1.length ≠ 0 then StringPool.append word1 buff1 else .ok word1) with
      | error e1 =>
        simp only [h2, throw_apply] at h
        cases h
        split at h2
        · exact append_fault h2
        · cases h2
      | ok word2 =>
        simp only [h2] at h
        cases pair1
        · simp only [Bool.false_eq_true, if_false, bind_ok (pure_apply _ _), pure_apply] at h
          cases h
        · simp only [if_true, bind_ok (throwError_apply _ _ _), pure_apply] at h
          cases h

theorem lexMisc_length {lex lex1 : LexNode} {c rc : Int} {stream stream1 : List Nat}
    {s s1 : Lisp} (h : Lexer.lexMisc lex c stream s = .ok ((rc, lex1, stream1), s1)) :
    stream1.length ≤ stream.length := by
  simp only [Lexer.lexMisc] at h
  cases h0 : StringPool.append lex.m_word (if c = 0 then [] else [c]) with
  | error e1 =>
    simp only [h0, throw_apply] at h
    cases h
  | ok word =>
    simp only [h0] at h
    cases h1 : lexMiscLoop stream word [] (decide (c = 34)) with
    | error e1 =>
      simp only [h1, throw_apply] at h
      cases h
    | ok r =>
      obtain ⟨word1, buff1, pair1, c1, stream2⟩ := r
      have hl := lexMiscLoop_length _ _ _ _ _ h1
      simp only [h1] at h
      cases h2 : (if buff1.length ≠ 0 then StringPool.append word1 buff1 else .ok word1) with
      | error e1 =>
        simp only [h2, throw_apply] at h
        cases h
      | ok word2 =>
        simp only [h2] at h
        cases pair1
        · simp only [Bool.false_eq_true, if_false, bind_ok (pure_apply _ _), pure_apply] at h
          cases h
          exact hl
        · simp only [if_true, bind_ok (throwError_apply _ _ _), pure_apply] at h
          cases h
          exact hl

theorem lexLoop_total : ∀ (fuel line : Nat) (lexlist : List LexNode) (stream : List Nat)
    (s : Lisp), stream.length < fuel →
    faultOf (lexLoop fuel line lexlist stream s) ≠ some Fault.outOfFuel
  | 0, _, _, _, _, h => absurd h (Nat.not_lt_zero _)
  | fuel + 1, line, lexlist, [], s, _ => by
    simp only [lexLoop, Getchar, STREAM_EOF, if_true, pure_apply, faultOf]
    exact fun h => nomatch h
  | fuel + 1, line, lexlist, b :: stream, s, h => by
    have hlen : stream.length < fuel := by
      simp only [List.length_cons] at h
      omega
    have hskip := skipComment_length stream
    have hst : (if toChar b = 59 then skipComment stream else (toChar b, stream)).2.length
        < fuel := by
      split
      · omega
      · exact hlen
    simp only [lexLoop, Getchar]
    by_cases h1 : toChar b = STREAM_EOF
    · rw [if_pos h1]
      simp only [pure_apply, faultOf]
      exact fun h => nomatch h
    · rw [if_neg h1]
      by_cases h2 : (IsSpace (toChar b) && decide (toChar b ≠ 10)) = true
      · rw [if_pos h2]
        exact lexLoop_total fuel _ _ _ _ hlen
      · rw [if_neg h2]
        generalize (if toChar b = 59 then skipComment stream else (toChar b, stream)) = p
          at hst ⊢
        obtain ⟨c1, st1⟩ := p
        simp only at hst ⊢
        by_cases h3 : c1 = 10
        · rw [if_pos h3]
          exact lexLoop_total fuel _ _ _ _ hst
        · rw [if_neg h3]
          by_cases h4 : c1 = 40
          · rw [if_pos h4]
            exact lexLoop_total fuel _ _ _ _ hst
          · rw [if_neg h4]
            by_cases h5 : c1 = 41
            · rw [if_pos h5]
              exact lexLoop_total fuel _ _ _ _ hst
            · rw [if_neg h5, bind_apply]
              split
              · rename_i a s1 hm
                obtain ⟨rc, lex1, stream1⟩ := a
                have := lexMisc_length hm
                simp only
                split
                · exact lexLoop_total fuel _ _ _ _ (by omega)
                · simp only [pure_apply, faultOf]
                  exact fun h => nomatch h
              · rename_i e hm
                have := lexMisc_fault hm
                subst this
                simp only [faultOf]
                exact fun h => nomatch h

/-! ### Number texts, the generators of the atoms, unclosed lists, comments, quotes
and the buffers of `StringPool` -/

theorem digit_not_special {c : Char} (h : IsDigit c = true) :
    c ≠ Char.ofNat 32 ∧ c ≠ Char.ofNat 45 ∧ c ≠ Char.ofNat 43 ∧ c ≠ Char.ofNat 46 := by
  refine ⟨?_, ?_, ?_, ?_⟩ <;> (rintro rfl; exact absurd h (by decide))

theorem digitsValue_foldl (ds : List Char) : ∀ a : Nat,
    ds.foldl (fun a c => 10 * a + (c.toNat - 48)) a = a * 10 ^ ds.length + digitsValue ds := by
  induction ds with
  | nil => intro a; simp [digitsValue]
  | cons c cs ih =>
    intro a
    simp only [List.foldl_cons, List.length_cons, digitsValue]
    rw [ih, ih (10 * 0 + (c.toNat - 48))]
    ring

theorem digitsValue_cons (c : Char) (cs : List Char) :
    digitsValue (c :: cs) = (c.toNat - 48) * 10 ^ cs.length + digitsValue cs := by
  simp only [digitsValue, List.foldl_cons]
  rw [digitsValue_foldl]
  simp [digitsValue]

theorem digitsValue_append (ds fs : List Char) :
    digitsValue (ds ++ fs) = digitsValue ds * 10 ^ fs.length + digitsValue fs := by
  simp only [digitsValue, List.foldl_append]
  rw [digitsValue_foldl]
  rfl

theorem parseSign_blank (cs : List Char) (sign : Int) :
    parseSign (Char.ofNat 32 :: cs) sign = parseSign cs sign := by
  rw [parseSign, if_pos rfl]

theorem parseSign_minus (cs : List Char) (sign : Int) :
    parseSign (Char.ofNat 45 :: cs) sign = parseSign cs (-1) := by
  rw [parseSign, if_neg (by decide), if_pos rfl]

theorem parseSign_plus (cs : List Char) (sign : Int) :
    parseSign (Char.ofNat 43 :: cs) sign = parseSign cs 1 := by
  rw [parseSign, if_neg (by decide), if_neg (by decide), if_pos rfl]

theorem parseSign_other {c : Char} (cs : List Char) (sign : Int) (h1 : c ≠ Char.ofNat 32)
    (h2 : c ≠ Char.ofNat 45) (h3 : c ≠ Char.ofNat 43) :
    parseSign (c :: cs) sign = (c :: cs, sign) := by
  rw [parseSign, if_neg h1, if_neg h2, if_neg h3]

theorem signAfter_blank (pre : List Char) (sign : Int) :
    signAfter (Char.ofNat 32 :: pre) sign = signAfter pre sign := by
  unfold signAfter
  rw [List.foldl_cons, if_neg (by decide), if_neg (by decide)]

theorem signAfter_minus (pre : List Char) (sign : Int) :
    signAfter (Char.ofNat 45 :: pre) sign = signAfter pre (-1) := by
  unfold signAfter
  rw [List.foldl_cons, if_pos rfl]

theorem signAfter_plus (pre : List Char) (sign : Int) :
    signAfter (Char.ofNat 43 :: pre) sign = signAfter pre 1 := by
  unfold signAfter
  rw [List.foldl_cons, if_neg (by decide), if_pos rfl]

theorem parseSign_run : ∀ (pre rest : List Char) (sign : Int),
    (∀ c ∈ pre, c = Char.ofNat 32 ∨ c = Char.ofNat 43 ∨ c = Char.ofNat 45) →
    (∀ c, rest.head? = some c → c ≠ Char.ofNat 32 ∧ c ≠ Char.ofNat 45 ∧ c ≠ Char.ofNat 43) →
    parseSign (pre ++ rest) sign = (rest, signAfter pre sign)
  | [], rest, sign, _, hrest => by
    cases rest with
    | nil => rfl
    | cons c cs =>
      obtain ⟨h1, h2, h3⟩ := hrest c rfl
      rw [List.nil_append, parseSign_other cs sign h1 h2 h3]
      rfl
  | c :: pre, rest, sign, hpre, hrest => by
    have ih := fun sg => parseSign_run pre rest sg
      (fun x hx => hpre x (List.mem_cons_of_mem _ hx)) hrest
    rcases hpre c (List.mem_cons_self _ _) with rfl | rfl | rfl
    · rw [List.cons_append, parseSign_blank, signAfter_blank, ih]
    · rw [List.cons_append, parseSign_plus, signAfter_plus, ih]
    · rw [List.cons_append, parseSign_minus, signAfter_minus, ih]

theorem parseSign_split : ∀ (src : List Char) (sign : Int),
    ∃ pre, src = pre ++ (parseSign src sign).1 ∧
      (∀ c ∈ pre, c = Char.ofNat 32 ∨ c = Char.ofNat 43 ∨ c = Char.ofNat 45) ∧
      (parseSign src sign).2 = signAfter pre sign
  | [], sign => ⟨[], rfl, by simp, rfl⟩
  | c :: cs, sign => by
    by_cases h1 : c = Char.ofNat 32
    · obtain ⟨pre, e, hp, hs⟩ := parseSign_split cs sign
      subst h1
      refine ⟨Char.ofNat 32 :: pre, ?_, ?_, ?_⟩
      · rw [parseSign_blank, List.cons_append, ← e]
      · intro x hx
        rcases List.mem_cons.1 hx with rfl | hx
        · exact Or.inl rfl
        · exact hp x hx
      · rw [parseSign_blank, signAfter_blank, hs]
    · by_cases h2 : c = Char.ofNat 45
      · obtain ⟨pre, e, hp, hs⟩ := parseSign_split cs (-1)
        subst h2
        refine ⟨Char.ofNat 45 :: pre, ?_, ?_, ?_⟩
        · rw [parseSign_minus, List.cons_append, ← e]
        · intro x hx
          rcases List.mem_cons.1 hx with rfl | hx
          · exact Or.inr (Or.inr rfl)
          · exact hp x hx
        · rw [parseSign_minus, signAfter_minus, hs]
      · by_cases h3 : c = Char.ofNat 43
        · obtain ⟨pre, e, hp, hs⟩ := parseSign_split cs 1
          subst h3
          refine ⟨Char.ofNat 43 :: pre, ?_, ?_, ?_⟩
          · rw [parseSign_plus, List.cons_append, ← e]
          · intro x hx
            rcases List.mem_cons.1 hx with rfl | hx
            · exact Or.inr (Or.inl rfl)
            · exact hp x hx
          · rw [parseSign_plus, signAfter_plus, hs]
        · refine ⟨[], ?_, by simp, ?_⟩
          · rw [parseSign_other cs sign h1 h2 h3]
            rfl
          · rw [parseSign_other cs sign h1 h2 h3]
            rfl

theorem parseFraction_run : ∀ (fs : List Char) (d power : Rat),
    (∀ c ∈ fs, IsDigit c = true) →
    parseFraction fs d power
      = ([], d * 10 ^ fs.length + digitsValue fs, power * 10 ^ fs.length)
  | [], d, power, _ => by simp [parseFraction, digitsValue]
  | c :: cs, d, power, h => by
    have hc := h c (List.mem_cons_self _ _)
    have ih := parseFraction_run cs (d * 10 + digitVal c) (power * 10)
      (fun x hx => h x (List.mem_cons_of_mem _ hx))
    rw [parseFraction, if_pos hc, ih]
    simp only [List.length_cons, digitsValue_cons, digitVal, Prod.mk.injEq, true_and]
    constructor
    · push_cast
      ring
    · ring

theorem parseFraction_split : ∀ (src : List Char) (d power : Rat),
    ∃ fs, src = fs ++ (parseFraction src d power).1 ∧ (∀ c ∈ fs, IsDigit c = true)
  | [], d, power => ⟨[], rfl, by simp⟩
  | c :: cs, d, power => by
    by_cases hc : IsDigit c = true
    · obtain ⟨fs, e, hf⟩ := parseFraction_split cs (d * 10 + digitVal c) (power * 10)
      refine ⟨c :: fs, ?_, ?_⟩
      · simp only [parseFraction, hc, if_true, List.cons_append]
        rw [← e]
      · intro x hx
        rcases List.mem_cons.1 hx with rfl | hx
        · exact hc
        · exact hf x hx
    · exact ⟨[], by simp [parseFraction, hc], by simp⟩

theorem parseDigits_run : ∀ (ds : List Char) (frac : Option (List Char)) (d : Rat),
    (∀ c ∈ ds, IsDigit c = true) → (∀ c ∈ fracDigits frac, IsDigit c = true) →
    parseDigits (ds ++ fracChars frac) d
      = ([], d * 10 ^ (ds ++ fracDigits frac).length + digitsValue (ds ++ fracDigits frac),
         10 ^ (fracDigits frac).length)
  | [], none, d, _, _ => by simp [parseDigits, fracChars, fracDigits, digitsValue]
  | [], some fs, d, _, hf => by
    have h1 : ¬ (IsDigit (Char.ofNat 46) = true) := by decide
    simp only [List.nil_append, fracChars, parseDigits, h1, if_false, if_true,
      parseFraction_run fs d 1 hf, fracDigits, one_mul]
    rfl
  | c :: cs, frac, d, h, hf => by
    have hc := h c (List.mem_cons_self _ _)
    have ih := parseDigits_run cs frac (d * 10 + digitVal c)
      (fun x hx => h x (List.mem_cons_of_mem _ hx)) hf
    rw [List.cons_append, parseDigits, if_pos hc, ih]
    simp only [List.cons_append, List.length_cons, digitsValue_cons, digitVal, Prod.mk.injEq,
      true_and, and_true]
    push_cast
    ring

theorem parseDigits_split : ∀ (src : List Char) (d : Rat),
    ∃ ds frac, src = ds ++ fracChars frac ++ (parseDigits src d).1 ∧
      (∀ c ∈ ds, IsDigit c = true) ∧ (∀ c ∈ fracDigits frac, IsDigit c = true)
  | [], d => ⟨[], none, rfl, by simp, by simp [fracDigits]⟩
  | c :: cs, d => by
    by_cases hc : IsDigit c = true
    · obtain ⟨ds, frac, e, hd, hf⟩ := parseDigits_split cs (d * 10 + digitVal c)
      refine ⟨c :: ds, frac, ?_, ?_, hf⟩
      · simp only [parseDigits, hc, if_true, List.cons_append]
        rw [← e]
      · intro x hx
        rcases List.mem_cons.1 hx with rfl | hx
        · exact hc
        · exact hd x hx
    · by_cases hp : c = Char.ofNat 46
      · obtain ⟨fs, e, hf⟩ := parseFraction_split cs d 1
        refine ⟨[], some fs, ?_, by simp, hf⟩
        rw [parseDigits, if_neg hc, if_pos hp]
        simp only [fracChars, List.nil_append, List.cons_append]
        rw [← e, hp]
      · exact ⟨[], none, by simp [parseDigits, hc, hp, fracChars], by simp,
          by simp [fracDigits]⟩

theorem fracChars_head {frac : Option (List Char)} {ds : List Char}
    (hd : ∀ c ∈ ds, IsDigit c = true) :
    ∀ c, (ds ++ fracChars frac).head? = some c →
      c ≠ Char.ofNat 32 ∧ c ≠ Char.ofNat 45 ∧ c ≠ Char.ofNat 43 := by
  intro c hc
  cases ds with
  | cons x xs =>
    simp only [List.cons_append, List.head?_cons, Option.some.injEq] at hc
    subst hc
    have := digit_not_special (hd x (List.mem_cons_self _ _))
    exact ⟨this.1, this.2.1, this.2.2.1⟩
  | nil =>
    cases frac with
    | none => simp [fracChars] at hc
    | some fs =>
      simp only [List.nil_append, fracChars, List.head?_cons, Option.some.injEq] at hc
      subst hc
      decide

theorem parserNumberStr_shape (pre ds : List Char) (frac : Option (List Char))
    (hpre : ∀ c ∈ pre, c = Char.ofNat 32 ∨ c = Char.ofNat 43 ∨ c = Char.ofNat 45)
    (hds : ∀ c ∈ ds, IsDigit c = true) (hfs : ∀ c ∈ fracDigits frac, IsDigit c = true) :
    parserNumberStr (String.mk (pre ++ (ds ++ fracChars frac)))
      = (LINF_SUCCEEDED, some ((signAfter pre 1 : Rat)
          * (digitsValue (ds ++ fracDigits frac) : Rat) / 10 ^ (fracDigits frac).length)) := by
  simp only [parserNumberStr, parseSign_run pre _ 1 hpre (fracChars_head hds),
    parseDigits_run ds frac 0 hds hfs, ne_eq, not_true, if_false, zero_mul, zero_add]

theorem cString_of_no_nul {w : String} (h : ∀ c ∈ w.data, c ≠ Char.ofNat 0) : cString w = w := by
  have : w.data.takeWhile (fun c => c != Char.ofNat 0) = w.data := by
    rw [List.takeWhile_eq_self_iff]
    intro c hc
    simpa using h c hc
  unfold cString
  rw [this]

theorem digit_not_nul {c : Char} (h : IsDigit c = true) : c ≠ Char.ofNat 0 := by
  rintro rfl
  exact absurd h (by decide)

theorem number_text_no_nul {pre ds : List Char} {frac : Option (List Char)}
    (hpre : ∀ c ∈ pre, c = Char.ofNat 32 ∨ c = Char.ofNat 43 ∨ c = Char.ofNat 45)
    (hds : ∀ c ∈ ds, IsDigit c = true) (hfs : ∀ c ∈ fracDigits frac, IsDigit c = true) :
    ∀ c ∈ (String.mk (pre ++ (ds ++ fracChars frac))).data, c ≠ Char.ofNat 0 := by
  intro c hc
  simp only [List.mem_append] at hc
  rcases hc with hc | hc | hc
  · rcases hpre c hc with rfl | rfl | rfl <;> decide
  · exact digit_not_nul (hds c hc)
  · cases frac with
    | none => simp [fracChars] at hc
    | some fs =>
      simp only [fracChars, List.mem_cons] at hc
      rcases hc with rfl | hc
      · decide
      · exact digit_not_nul (hfs c hc)

theorem generateNumber_ok {w : String} {v : Rat} (line : Nat) (ty : LexType) (s : Lisp)
    (h : parserNumberStr (cString w) = (LINF_SUCCEEDED, some v)) :
    generateNumber ⟨ty, w, line⟩ s = .ok (some s.heap.length,
      { s with heap := s.heap ++ [some ⟨.number v, line⟩], rc := LINF_SUCCEEDED }) := by
  simp only [generateNumber, h, bind_ok (setRc_apply _ _)]
  rfl

theorem generateNumber_fail {w : String} (line : Nat) (ty : LexType) (s : Lisp)
    (h : parserNumberStr (cString w) = (LERR_FAILED, none)) :
    generateNumber ⟨ty, w, line⟩ s = .ok (none, { s with rc := LERR_FAILED }) := by
  simp only [generateNumber, h, bind_ok (setRc_apply _ _)]
  rfl

theorem generateBoolean_second (w : String) (line : Nat) (ty : LexType) (s : Lisp)
    (h : byteAt w 0 = Char.ofNat 35) :
    generateBoolean ⟨ty, w, line⟩ s
      = if byteAt w 1 = Char.ofNat 116 ∨ byteAt w 1 = Char.ofNat 84 then
          .ok (some s.heap.length,
            { s with heap := s.heap ++ [some ⟨.boolean true, line⟩], rc := LINF_SUCCEEDED })
        else if byteAt w 1 = Char.ofNat 102 ∨ byteAt w 1 = Char.ofNat 70 then
          .ok (some s.heap.length,
            { s with heap := s.heap ++ [some ⟨.boolean false, line⟩], rc := LINF_SUCCEEDED })
        else .ok (none, { s with rc := LERR_THROW_ERROR,
                                 errors := s.errors ++ [(line, "Not a boolean value.")] }) := by
  by_cases h1 : byteAt w 1 = Char.ofNat 116 ∨ byteAt w 1 = Char.ofNat 84
  · rw [if_pos h1]
    simp only [generateBoolean, h, ne_eq, not_true_eq_false, if_false]
    have : (decide (byteAt w 1 = Char.ofNat 116) || decide (byteAt w 1 = Char.ofNat 84)) = true := by
      simpa using h1
    rw [if_pos this]
    rfl
  · rw [if_neg h1]
    have n1 : (decide (byteAt w 1 = Char.ofNat 116) || decide (byteAt w 1 = Char.ofNat 84)) ≠ true := by
      simpa using h1
    by_cases h2 : byteAt w 1 = Char.ofNat 102 ∨ byteAt w 1 = Char.ofNat 70
    · rw [if_pos h2]
      have : (decide (byteAt w 1 = Char.ofNat 102) || decide (byteAt w 1 = Char.ofNat 70)) = true := by
        simpa using h2
      simp only [generateBoolean, h, ne_eq, not_true_eq_false, if_false]
      rw [if_neg n1, if_pos this]
      rfl
    · rw [if_neg h2]
      have n2 : (decide (byteAt w 1 = Char.ofNat 102) || decide (byteAt w 1 = Char.ofNat 70)) ≠ true := by
        simpa using h2
      simp only [generateBoolean, h, ne_eq, not_true_eq_false, if_false]
      rw [if_neg n1, if_neg n2]
      simp only [bind_ok (throwError_apply _ _ _), bind_ok (setRc_apply _ _), pure_apply]

theorem generateMisc_hash (w : String) (line : Nat) (s : Lisp)
    (h : byteAt w 0 = Char.ofNat 35) :
    generateMisc ⟨.LEX_MISC, w, line⟩ s = generateBoolean ⟨.LEX_MISC, w, line⟩ s := by
  simp only [generateMisc, h, if_true]

theorem numberLike_eq (w : String) :
    ((decide (byteAt w 0 = Char.ofNat 46) || decide (byteAt w 0 = Char.ofNat 43)
        || decide (byteAt w 0 = Char.ofNat 45))
      && (IsDigit (byteAt w 1) || decide (byteAt w 1 = Char.ofNat 46))
      || IsDigit (byteAt w 0)) = numberLike w := by
  obtain ⟨d⟩ := w
  cases d with
  | nil => decide
  | cons c0 rest =>
    cases rest with
    | nil =>
      have h1 : IsDigit (Char.ofNat 0) = false := by decide
      have h2 : decide (Char.ofNat 0 = Char.ofNat 46) = false := by decide
      simp only [byteAt, numberLike, List.getElem?_cons_zero, List.getElem?_cons_succ,
        List.getElem?_nil, Option.getD_some, Option.getD_none, h1, h2, Bool.or_self,
        Bool.and_false, Bool.false_or, Bool.or_false]
    | cons c1 more =>
      simp only [byteAt, numberLike, List.getElem?_cons_zero, List.getElem?_cons_succ,
        Option.getD_some]
      rw [Bool.or_comm]

theorem generateMisc_other (w : String) (line : Nat) (s : Lisp)
    (h1 : byteAt w 0 ≠ Char.ofNat 35) (h2 : byteAt w 0 ≠ Char.ofNat 39) :
    generateMisc ⟨.LEX_MISC, w, line⟩ s
      = if numberLike w then generateNumber ⟨.LEX_MISC, w, line⟩ s
        else .ok (some s.heap.length,
          { s with heap := s.heap ++ [some ⟨.symbol (cString w), line⟩],
                   rc := LINF_SUCCEEDED }) := by
  rw [← numberLike_eq]
  simp only [generateMisc, h1, h2, if_false]
  by_cases ha : ((decide (byteAt w 0 = Char.ofNat 46) || decide (byteAt w 0 = Char.ofNat 43)
        || decide (byteAt w 0 = Char.ofNat 45))
      && (IsDigit (byteAt w 1) || decide (byteAt w 1 = Char.ofNat 46))) = true
  · simp only [ha, if_true, Bool.true_or]
  · by_cases hb : IsDigit (byteAt w 0) = true
    · simp only [ha, hb, if_true, if_false, Bool.or_true]
      rfl
    · simp only [ha, hb, if_false, Bool.or_self, Bool.false_eq_true]
      rfl

theorem generate_open {toks : List LexNode} {fuel i pos : Nat} {t : LexNode} {s s1 : Lisp}
    (htok : toks[i]? = some t) (hty : t.m_type = .LEX_OPEN_PAREN)
    (hrun : generateList toks fuel (i + 1) s = .ok ((none, pos), s1))
    (hrc : s1.rc = LERR_THROW_ERROR) :
    generate toks (fuel + 1) i s = .ok ((none, pos), s1) := by
  simp only [generate, htok, hty, bind_ok hrun, bind_ok (getRc_apply _), hrc,
    show LP_SUCCESS LERR_THROW_ERROR = false by decide, Bool.false_eq_true, if_false,
    pure_apply]

theorem generateList_open : ∀ (b : SOpen), b.Accepted → ∀ (pre : List LexNode) (s : Lisp)
    (fuel : Nat), 2 * b.toks.length + 1 ≤ fuel → pre ≠ [] → 2 ≤ (pre ++ b.toks).length →
    ∃ ext pos t, (pre ++ b.toks)[(pre ++ b.toks).length - 2]? = some t ∧
      generateList (pre ++ b.toks) fuel pre.length s
        = .ok ((none, pos),
            { s with heap := s.heap ++ ext, rc := LERR_THROW_ERROR,
                     errors := s.errors ++ [(t.m_line, "Parentheses do not match.")] })
  | .stop, _, pre, s, fuel, hf, _, h2 => by
    obtain ⟨f, rfl⟩ : ∃ f, fuel = f + 1 := ⟨fuel - 1, by omega⟩
    simp only [SOpen.toks, List.append_nil] at h2 ⊢
    obtain ⟨t, ht⟩ : ∃ t, pre[pre.length - 2]? = some t :=
      ⟨_, List.getElem?_eq_getElem (by omega)⟩
    have hnone : pre[pre.length]? = none := List.getElem?_eq_none (le_refl _)
    have hprev : (if pre.length = 0 then none else LEX_PREV (pre.length - 1))
        = some (pre.length - 2) := by
      rw [if_neg (by omega)]
      simp only [LEX_PREV]
      rw [if_neg (by omega)]
      rfl
    refine ⟨[], pre.length, t, ht, ?_⟩
    simp only [generateList, hnone, hprev, bind_ok (lexLine_ok ht _),
      bind_ok (throwError_apply _ _ _), bind_ok (setRc_apply _ _), pure_apply,
      List.append_nil]
  | .cons e rest, hb, pre, s, fuel, hf, hpre, h2 => by
    obtain ⟨f, rfl⟩ : ∃ f, fuel = f + 1 := ⟨fuel - 1, by omega⟩
    have hepos := exprToks_length_pos e
    simp only [SOpen.toks, List.length_append] at hf h2
    obtain ⟨p1, ext1, hrun1, -⟩ := generate_spec e hb.1 pre rest.toks s f (by omega)
    obtain ⟨ext2, pos, t, ht, hrun2⟩ := generateList_open rest hb.2 (pre ++ e.toks)
      { s with heap := s.heap ++ ext1, rc := LINF_SUCCEEDED } f (by omega) (by simp [hpre])
      (by simp only [List.length_append]; omega)
    obtain ⟨t0, tl0, ht0, hclose⟩ := exprToks_head e hb.1
    have hl : pre ++ (e.toks ++ rest.toks) = pre ++ e.toks ++ rest.toks := by simp
    have hlen : (pre ++ e.toks).length = pre.length + e.toks.length := by simp
    rw [hlen] at hrun2
    have htok : (pre ++ e.toks ++ rest.toks)[pre.length]? = some t0 := by
      rw [ht0]
      exact getElem?_mid pre t0 _ rest.toks
    refine ⟨ext1 ++ ext2, pos, t, ?_, ?_⟩
    · simp only [SOpen.toks]
      rw [hl]
      exact ht
    · simp only [SOpen.toks]
      rw [hl]
      simp only [generateList, htok, hclose, if_false, bind_ok hrun1, bind_ok (getRc_apply _),
        LP_SUCCESS_one, if_true, bind_ok hrun2,
        show LP_SUCCESS LERR_THROW_ERROR = false by decide, Bool.false_eq_true, pure_apply]
      simp only [List.append_assoc]
  | .nest line inner, hb, pre, s, fuel, hf, hpre, h2 => by
    obtain ⟨f, rfl⟩ : ∃ f, fuel = f + 1 := ⟨fuel - 1, by omega⟩
    simp only [SOpen.toks, List.length_cons] at hf
    obtain ⟨g, rfl⟩ : ∃ g, f = g + 1 := ⟨f - 1, by omega⟩
    obtain ⟨ext, pos, t, ht, hrun⟩ := generateList_open inner hb
      (pre ++ [⟨.LEX_OPEN_PAREN, "", line⟩]) s g (by omega) (by simp)
      (by simp only [List.length_append, List.length_singleton]
          have := List.length_pos.mpr hpre
          omega)
    have hl : pre ++ (⟨.LEX_OPEN_PAREN, "", line⟩ :: inner.toks)
        = pre ++ [⟨.LEX_OPEN_PAREN, "", line⟩] ++ inner.toks := by simp
    have hlen : (pre ++ [(⟨.LEX_OPEN_PAREN, "", line⟩ : LexNode)]).length = pre.length + 1 := by
      simp
    rw [hlen] at hrun
    have htok : (pre ++ [⟨.LEX_OPEN_PAREN, "", line⟩] ++ inner.toks)[pre.length]?
        = some ⟨.LEX_OPEN_PAREN, "", line⟩ := getElem?_mid pre _ [] inner.toks
    have hne : (LexType.LEX_OPEN_PAREN = LexType.LEX_CLOSE_PAREN) = False := by simp
    refine ⟨ext, pos, t, ?_, ?_⟩
    · simp only [SOpen.toks]
      rw [hl]
      exact ht
    · simp only [SOpen.toks]
      rw [hl]
      have hgen := generate_open htok rfl hrun rfl
      simp only [generateList, htok, hne, if_false, bind_ok hgen,
        bind_ok (getRc_apply _), show LP_SUCCESS LERR_THROW_ERROR = false by decide,
        Bool.false_eq_true, pure_apply]

theorem parse_open (line : Nat) (b : SOpen) (hb : b.Accepted) (hne : b.toks ≠ []) (s : Lisp) :
    ∃ ext t, (⟨.LEX_OPEN_PAREN, "", line⟩ :: b.toks)[b.toks.length - 1]? = some t ∧
      Parser.parse (⟨.LEX_OPEN_PAREN, "", line⟩ :: b.toks) s
        = .ok ((LERR_THROW_ERROR, none),
            { s with heap := s.heap ++ ext, rc := LERR_THROW_ERROR,
                     errors := s.errors ++ [(t.m_line, "Parentheses do not match.")] }) := by
  have hpos : 0 < b.toks.length := List.length_pos.mpr hne
  obtain ⟨ext, pos, t, ht, hrun⟩ := generateList_open b hb [⟨.LEX_OPEN_PAREN, "", line⟩] s
    (2 * (b.toks.length + 1) + 1) (by omega) (by simp)
    (by simp only [List.length_append, List.length_singleton]; omega)
  simp only [List.singleton_append, List.length_cons, List.length_nil, zero_add] at ht hrun
  have hidx : b.toks.length + 1 - 2 = b.toks.length - 1 := by omega
  rw [hidx] at ht
  refine ⟨ext, t, ht, ?_⟩
  have hne1 : (LexType.LEX_OPEN_PAREN = LexType.LEX_CLOSE_PAREN) = False := by simp
  have htok : (⟨.LEX_OPEN_PAREN, "", line⟩ :: b.toks)[0]?
      = some (⟨.LEX_OPEN_PAREN, "", line⟩ : LexNode) := List.getElem?_cons_zero
  have hgen := generate_open htok rfl hrun rfl
  simp only [Parser.parse, List.length_cons,
    show 2 * (b.toks.length + 1) + 2 = 2 * (b.toks.length + 1) + 1 + 1 by omega, bind_ok hgen,
    bind_ok (getRc_apply _), show LP_SUCCESS LERR_THROW_ERROR = false by decide,
    Bool.false_eq_true, if_false, pure_apply]

theorem parse_lone_open (line : Nat) (s : Lisp) :
    Parser.parse [⟨.LEX_OPEN_PAREN, "", line⟩] s = .error Fault.nullDeref := rfl

theorem generateMisc_symbol {w : String} (h : symbolWord w) (line : Nat) (s : Lisp) :
    generateMisc ⟨.LEX_MISC, w, line⟩ s = .ok (some s.heap.length,
      { s with heap := s.heap ++ [some ⟨.symbol w, line⟩], rc := LINF_SUCCEEDED }) := by
  rw [generateMisc_other w line s h.2.1 h.2.2.1, h.2.2.2, cString_of_no_nul h.1]
  rfl

theorem atomNode_symbol {t : LexNode} (hty : t.m_type = .LEX_MISC) (h : symbolWord t.m_word) :
    AtomNode t ⟨.symbol t.m_word, t.m_line⟩ := by
  obtain ⟨ty, w, line⟩ := t
  simp only at hty h
  subst hty
  exact Or.inr ⟨rfl, fun s => generateMisc_symbol h line s⟩

theorem atomNode_symbol_eq {t : LexNode} {n : SynNode} (hty : t.m_type = .LEX_MISC)
    (h : symbolWord t.m_word) (hn : AtomNode t n) : n = ⟨.symbol t.m_word, t.m_line⟩ := by
  obtain ⟨ty, w, line⟩ := t
  simp only at hty h
  subst hty
  rcases hn with ⟨hs, -⟩ | ⟨-, hgen⟩
  · cases hs
  · have h1 := hgen Lisp.init
    simp only [StateT.run] at h1
    rw [generateMisc_symbol h line Lisp.init] at h1
    simp only [Except.ok.injEq, Prod.mk.injEq, true_and] at h1
    have h2 := congrArg (fun st : Lisp => st.heap) h1
    simp only [List.append_cancel_left_eq, List.cons.injEq, Option.some.injEq, and_true] at h2
    exact h2.symm

mutual

theorem symbols_accepted : ∀ e : SExpr, e.Symbols → e.Accepted
  | .atom _, h => ⟨_, atomNode_symbol h.1 h.2⟩
  | .list _ body, h => symbolsList_accepted body h

theorem symbolsList_accepted : ∀ b : SList, b.Symbols → b.Accepted
  | .close _, _ => trivial
  | .cons e rest, h => ⟨symbols_accepted e h.1, symbolsList_accepted rest h.2⟩

end

mutual

theorem symbols_ast (h : List (Option SynNode)) : ∀ (e : SExpr) (p : Ptr), e.Symbols →
    e.TreeAt h p → e.AstAt h p
  | .atom t, p, hs, ht => by
    obtain ⟨a, n, rfl, hn, hat⟩ := ht
    have := atomNode_symbol_eq hs.1 hs.2 hat
    subst this
    exact ⟨a, rfl, hn⟩
  | .list _ body, p, hs, ht => symbolsList_ast h body p hs ht

theorem symbolsList_ast (h : List (Option SynNode)) : ∀ (b : SList) (p : Ptr), b.Symbols →
    b.TreeAt h p → b.AstAt h p
  | .close _, p, _, ht => ht
  | .cons e rest, p, hs, ht => by
    obtain ⟨a, hd, tl, ln, rfl, hn, h1, h2⟩ := ht
    exact ⟨a, hd, tl, ln, rfl, hn, symbols_ast h e hd hs.1 h1, symbolsList_ast h rest tl hs.2 h2⟩

end

theorem nestedBody_symbols : nestedBody.Symbols := by
  simp only [nestedBody, SList.Symbols, SExpr.Symbols, symbolWord, and_true]
  decide

theorem toChar_zero {b : Nat} (h : b < 256) : toChar b = 0 ↔ b = 0 := by
  rw [toChar_lt h]
  split <;> omega

theorem tokenRest_parity : ∀ (stream : List Nat) (pair : Bool),
    (tokenRest pair stream).2.1 = xor pair (oddQuotes (tokenRest pair stream).1)
  | [], pair => by simp [tokenRest, oddQuotes]
  | b :: stream, pair => by
    by_cases h255 : b = 255
    · simp [tokenRest, h255, oddQuotes]
    · by_cases hd : (!pair && isDelimiter b) = true
      · simp only [tokenRest, h255, if_false, hd, if_true, oddQuotes, List.count_nil]
        simp
      · have ih := tokenRest_parity stream (if b = 34 then !pair else pair)
        have ht : tokenRest pair (b :: stream)
            = (b :: (tokenRest (if b = 34 then !pair else pair) stream).1,
               (tokenRest (if b = 34 then !pair else pair) stream).2.1,
               (tokenRest (if b = 34 then !pair else pair) stream).2.2) := by
          simp only [tokenRest, h255, if_false, hd]
          rfl
        rw [ht]
        simp only
        rw [ih]
        by_cases h34 : b = 34
        · subst h34
          simp only [if_true, oddQuotes, List.count_cons_self]
          generalize List.count 34 (tokenRest (!pair) stream).1 = n
          have hn : n % 2 = 0 ∨ n % 2 = 1 := by omega
          rcases hn with hn | hn <;> cases pair <;> simp [hn, Nat.succ_mod_two_eq_one_iff,
            Nat.add_mod]
        · have hne : (b == 34) = false := by simpa using h34
          simp only [h34, if_false, oddQuotes, List.count_cons, hne, Bool.false_eq_true,
            add_zero]

theorem lexMisc_token (ty : LexType) (line b0 : Nat) (stream : List Nat) (s : Lisp)
    (hb0 : b0 < 256) (h0 : b0 ≠ 0) (hbytes : ∀ b ∈ stream, b < 256)
    (hlen : (tokenRest (decide (b0 = 34)) stream).1.length + 2 ≤ 16) :
    Lexer.lexMisc ⟨ty, "", line⟩ (toChar b0) stream s
      = .ok ((if (tokenRest (decide (b0 = 34)) stream).2.1 then LERR_THROW_ERROR
                else LINF_SUCCEEDED,
              ⟨ty, String.mk ((b0 :: (tokenRest (decide (b0 = 34)) stream).1).map Char.ofNat),
                line⟩,
              (tokenRest (decide (b0 = 34)) stream).2.2),
             if (tokenRest (decide (b0 = 34)) stream).2.1
             then { s with errors := s.errors ++ [(line, "String '\"' unpaired!\n")] }
             else s) := by
  have hc0 : ¬ (toChar b0 = 0) := fun h => h0 ((toChar_zero hb0).1 h)
  have hq : decide (toChar b0 = 34) = decide (b0 = 34) := by
    by_cases h34 : b0 = 34
    · rw [decide_eq_true ((toChar_quote hb0).2 h34), decide_eq_true h34]
    · rw [decide_eq_false (fun h => h34 ((toChar_quote hb0).1 h)), decide_eq_false h34]
  have h0w : StringPool.append "" [toChar b0] = .ok (String.mk [Char.ofNat b0]) := by
    rw [append_ok (show "".length + ([toChar b0].length + 1) ≤ 16 from Nat.le_of_ble_eq_true rfl)]
    simp only [charsOf, List.map_cons, List.map_nil, toByte_toChar hb0]
    rfl
  obtain ⟨word1, buff1, c, stream1, h1, h2, h3, h4⟩ :=
    lexMiscLoop_spec stream (String.mk [Char.ofNat b0]) [] (decide (b0 = 34)) hbytes (by simp)
      (by show 1 + 0 + _ + 1 ≤ 16
          omega)
  have hl : word1.length + buff1.length
      = 1 + (tokenRest (decide (b0 = 34)) stream).1.length := by
    have := congrArg List.length h3
    simp only [List.length_append, charsOf, List.length_map, List.length_nil,
      List.length_singleton] at this
    exact this
  have hflush : (if buff1.length ≠ 0 then StringPool.append word1 buff1 else .ok word1)
      = .ok (String.mk ((b0 :: (tokenRest (decide (b0 = 34)) stream).1).map Char.ofNat)) := by
    have hd : word1.data ++ charsOf buff1
        = (b0 :: (tokenRest (decide (b0 = 34)) stream).1).map Char.ofNat := by
      rw [h3]
      rfl
    by_cases hb : buff1.length = 0
    · have : buff1 = [] := List.length_eq_zero.1 hb
      subst this
      simp only [List.length_nil, ne_eq, not_true, if_false]
      simp only [charsOf, List.map_nil, List.append_nil] at hd
      rw [← hd]
    · simp only [ne_eq, hb, not_false_eq_true, if_true]
      rw [append_ok (by omega)]
      have : (word1 ++ String.mk (charsOf buff1)) = String.mk (word1.data ++ charsOf buff1) := rfl
      rw [this, hd]
  simp only [Lexer.lexMisc]
  rw [if_neg hc0, h0w]
  simp only [hq, h1, hflush]
  cases hpair : (tokenRest (decide (b0 = 34)) stream).2.1
  · simp only [hpair] at h1
    simp only [h1, hflush, Bool.false_eq_true, if_false, h4]
    rfl
  · simp only [hpair] at h1
    simp only [h1, hflush, if_true, h4]
    rfl

theorem lexLoop_token (fuel line b0 : Nat) (lexlist : List LexNode) (stream : List Nat)
    (s : Lisp) (hb0 : b0 < 255) (h0 : b0 ≠ 0) (hstart : isDelimiter b0 = false)
    (hbytes : ∀ b ∈ stream, b < 256)
    (hlen : (tokenRest (decide (b0 = 34)) stream).1.length + 2 ≤ 16) :
    lexLoop (fuel + 1) line lexlist (b0 :: stream) s
      = if (tokenRest (decide (b0 = 34)) stream).2.1
        then .ok ((LERR_THROW_ERROR, line, lexlist, (tokenRest (decide (b0 = 34)) stream).2.2),
          { s with errors := s.errors ++ [(line, "String '\"' unpaired!\n")] })
        else lexLoop fuel line
          (lexlist ++ [⟨if b0 = 34 then .LEX_STRING else .LEX_MISC,
            String.mk ((b0 :: (tokenRest (decide (b0 = 34)) stream).1).map Char.ofNat), line⟩])
          (tokenRest (decide (b0 = 34)) stream).2.2 s := by
  have hlt : b0 < 256 := by omega
  have h := lexMisc_token (if b0 = 34 then .LEX_STRING else .LEX_MISC) line b0 stream s hlt h0
    hbytes hlen
  have h1 : ¬ (toChar b0 = STREAM_EOF) := fun h => by
    have := (toChar_eof hlt).1 h
    omega
  have hdel := toChar_delimiter hlt
  rw [hstart] at hdel
  simp only [Bool.or_eq_false_iff, decide_eq_false_iff_not] at hdel
  obtain ⟨⟨⟨h41, h40⟩, h59⟩, hsp⟩ := hdel
  have h10 : ¬ (toChar b0 = 10) := by
    intro h
    simp [IsSpace, h] at hsp
  have h2 : (IsSpace (toChar b0) && decide (toChar b0 ≠ 10)) = false := by
    simp [hsp]
  have hty : (if toChar b0 = 34 then LexType.LEX_STRING else LexType.LEX_MISC)
      = (if b0 = 34 then LexType.LEX_STRING else LexType.LEX_MISC) := by
    by_cases h34 : b0 = 34
    · rw [if_pos h34, if_pos ((toChar_quote hlt).2 h34)]
    · rw [if_neg h34, if_neg (fun h => h34 ((toChar_quote hlt).1 h))]
  simp only [lexLoop, Getchar, h1, h2, h59, h10, h40, h41, if_false, Bool.false_eq_true,
    hty, bind_ok h]
  cases (tokenRest (decide (b0 = 34)) stream).2.1
  · simp only [Bool.false_eq_true, if_false]
    rw [if_pos (show LP_SUCCESS LINF_SUCCEEDED = true by decide)]
  · simp only [if_true]
    rw [if_neg (show ¬ (LP_SUCCESS LERR_THROW_ERROR = true) by decide)]
    rfl

theorem toChar_newline {b : Nat} (h : b < 256) : toChar b = 10 ↔ b = 10 := by
  rw [toChar_lt h]
  split <;> omega

theorem oddQuotes_cons (b0 : Nat) (bs : List Nat) :
    oddQuotes (b0 :: bs) = xor (decide (b0 = 34)) (oddQuotes bs) := by
  by_cases h34 : b0 = 34
  · subst h34
    simp only [oddQuotes, List.count_cons_self, decide_True, Bool.true_xor]
    generalize List.count 34 bs = n
    have hn : n % 2 = 0 ∨ n % 2 = 1 := by omega
    rcases hn with hn | hn <;> simp [hn, Nat.add_mod]
  · have hne : (b0 == 34) = false := by simpa using h34
    simp only [oddQuotes, List.count_cons, hne, Bool.false_eq_true, if_false, add_zero,
      decide_eq_false h34, Bool.false_xor]

theorem skipComment_eof : ∀ text : List Nat, (∀ b ∈ text, b < 255 ∧ b ≠ 10) →
    skipComment text = (STREAM_EOF, [])
  | [], _ => rfl
  | b :: text, h => by
    have hb := h b (List.mem_cons_self _ _)
    have h1 : toChar b ≠ STREAM_EOF := fun e => by
      have := (toChar_eof (by omega : b < 256)).1 e
      omega
    have h2 : toChar b ≠ 10 := fun e => hb.2 ((toChar_newline (by omega)).1 e)
    rw [skipComment, if_pos ⟨h1, h2⟩]
    exact skipComment_eof text (fun x hx => h x (List.mem_cons_of_mem _ hx))

theorem skipComment_line : ∀ (text rest : List Nat), (∀ b ∈ text, b < 255 ∧ b ≠ 10) →
    skipComment (text ++ 10 :: rest) = (10, rest)
  | [], rest, _ => by
    rw [List.nil_append, skipComment, if_neg (by decide)]
    rfl
  | b :: text, rest, h => by
    have hb := h b (List.mem_cons_self _ _)
    have h1 : toChar b ≠ STREAM_EOF := fun e => by
      have := (toChar_eof (by omega : b < 256)).1 e
      omega
    have h2 : toChar b ≠ 10 := fun e => hb.2 ((toChar_newline (by omega)).1 e)
    rw [List.cons_append, skipComment, if_pos ⟨h1, h2⟩]
    exact skipComment_line text rest (fun x hx => h x (List.mem_cons_of_mem _ hx))

theorem lexMisc_eof (line : Nat) (s : Lisp) :
    Lexer.lexMisc ⟨.LEX_MISC, "", line⟩ STREAM_EOF [] s
      = .ok ((LINF_SUCCEEDED, ⟨.LEX_MISC, String.mk [Char.ofNat 255], line⟩, []), s) := rfl

theorem lexLoop_comment_eof (fuel line : Nat) (lexlist : List LexNode) (text : List Nat)
    (s : Lisp) (h : ∀ b ∈ text, b < 255 ∧ b ≠ 10) :
    lexLoop (fuel + 2) line lexlist (59 :: text) s
      = .ok ((LINF_SUCCEEDED, line,
          lexlist ++ [⟨.LEX_MISC, String.mk [Char.ofNat 255], line⟩], []), s) := by
  have hc : toChar 59 = 59 := by decide
  have h1 : ¬ ((59 : Int) = STREAM_EOF) := by decide
  have h2 : (IsSpace 59 && decide ((59 : Int) ≠ 10)) = false := by decide
  have e1 : ¬ (STREAM_EOF = 10) := by decide
  have e2 : ¬ (STREAM_EOF = 40) := by decide
  have e3 : ¬ (STREAM_EOF = 41) := by decide
  have e4 : ¬ (STREAM_EOF = 34) := by decide
  simp only [lexLoop, Getchar, hc, h1, h2, if_false, Bool.false_eq_true, if_true,
    skipComment_eof text h, e1, e2, e3, e4, bind_ok (lexMisc_eof line s), LP_SUCCESS_one,
    pure_apply]
  rfl

theorem lexLoop_comment_line (fuel line : Nat) (lexlist : List LexNode) (text rest : List Nat)
    (s : Lisp) (h : ∀ b ∈ text, b < 255 ∧ b ≠ 10) :
    lexLoop (fuel + 1) line lexlist (59 :: (text ++ 10 :: rest)) s
      = lexLoop fuel (line + 1) lexlist rest s := by
  have hc : toChar 59 = 59 := by decide
  have h1 : ¬ ((59 : Int) = STREAM_EOF) := by decide
  have h2 : (IsSpace 59 && decide ((59 : Int) ≠ 10)) = false := by decide
  simp only [lexLoop, Getchar, hc, h1, h2, if_false, Bool.false_eq_true, if_true,
    skipComment_line text rest h]

theorem lexLoop_end (fuel line : Nat) (lexlist : List LexNode) (s : Lisp) :
    lexLoop (fuel + 1) line lexlist [] s = .ok ((LINF_SUCCEEDED, line, lexlist, []), s) := rfl

theorem lor_fifteen {n : Nat} (h : n ≤ 15) : n ||| 15 = 15 := by
  interval_cases n <;> rfl

theorem strcpy_length {dst src r : List Nat} (h : strcpy dst src = .ok r) :
    r.length = dst.length := by
  simp only [strcpy] at h
  split at h
  · rename_i hc
    cases h
    simp only [List.length_append, List.length_take, List.length_drop]
    omega
  · cases h

theorem memcpy_inline (w src : List Nat) (h : w.length + src.length + 1 ≤ 16) :
    memcpy (w ++ List.replicate (16 - w.length) 0) w.length src
      = .ok ((w ++ src) ++ List.replicate (16 - (w ++ src).length) 0) := by
  have hl : (w ++ List.replicate (16 - w.length) 0).length = 16 := by
    simp only [List.length_append, List.length_replicate]
    omega
  rw [memcpy, if_pos (by rw [hl]; omega)]
  congr 1
  rw [List.take_left, List.drop_append_eq_append_drop,
    List.drop_eq_nil_of_le (Nat.le_add_right _ _), List.nil_append, List.drop_replicate]
  congr 2
  simp only [List.length_append]
  omega

theorem poke_inline (w : List Nat) (h : w.length + 1 ≤ 16) :
    poke (w ++ List.replicate (16 - w.length) 0) w.length 0
      = .ok (w ++ List.replicate (16 - w.length) 0) := by
  have hl : (w ++ List.replicate (16 - w.length) 0).length = 16 := by
    simp only [List.length_append, List.length_replicate]
    omega
  rw [poke, if_pos (by rw [hl]; omega)]
  congr 1
  apply List.ext_getElem
  · simp
  · intro i h1 h2
    by_cases hi : i = w.length
    · subst hi
      rw [List.getElem_set_self]
      rw [List.getElem_append_right (le_refl _)]
      simp
    · rw [List.getElem_set_ne (fun e => hi e.symm)]

theorem appendBytes_inline {p : StringPool} {w : List Nat} (src : List Nat)
    (hp : p.Inline w) (h : w.length + src.length + 1 ≤ 16) :
    ∃ q, p.appendBytes src = .ok (LINF_SUCCEEDED, q) ∧ q.Inline (w ++ src) := by
  obtain ⟨h1, h2, h3, h4, h5, h6⟩ := hp
  have hm := memcpy_inline w src h
  have hk := poke_inline (w ++ src) (by simp only [List.length_append]; omega)
  refine ⟨{ p with buff := (w ++ src) ++ List.replicate (16 - (w ++ src).length) 0,
                   len := p.len + src.length }, ?_, ?_⟩
  · simp only [StringPool.appendBytes, h4, h6]
    rw [if_pos (by omega), hm]
    simp only
    have : w.length + src.length = (w ++ src).length := by simp
    rw [this, hk]
  · exact ⟨h1, h2, h3, by simp [h4], by simp only [List.length_append]; omega, rfl⟩

theorem appendBytes_overrun {p : StringPool} {w : List Nat} (src : List Nat)
    (hp : p.Inline w) (h : 16 < w.length + src.length + 1) (hs : src.length ≤ 14) :
    p.appendBytes src = .error Fault.bufferOverrun := by
  obtain ⟨h1, h2, h3, h4, h5, h6⟩ := hp
  have hr : p.resizeBuffer (p.buffsize + (src.length + 1))
      = .ok (LINF_SUCCEEDED, { p with heap_buff := some (List.replicate 15 0), buffsize := 15 }) := by
    simp only [StringPool.resizeBuffer, h1, h2, zero_add, Nat.zero_div]
    rw [lor_fifteen (by omega)]
    rfl
  simp only [StringPool.appendBytes, h4]
  rw [if_neg (by omega), if_pos (by rw [h2]; omega), hr]
  simp only [LP_SUCCESS_one, if_true, h3, Bool.not_false]
  cases hc : strcpy (List.replicate 15 0) p.buff with
  | error e =>
    simp only [strcpy] at hc
    split at hc
    · cases hc
    · cases hc
      rfl
  | ok heap =>
    have hlen := strcpy_length hc
    simp only [List.length_replicate] at hlen
    simp only [StringPool.appendHeap, h4, memcpy]
    rw [if_neg (by rw [hlen]; omega)]

theorem inline_content {p : StringPool} {w : List Nat} (hp : p.Inline w) : p.content = w := by
  obtain ⟨-, -, -, h4, h5, h6⟩ := hp
  simp only [StringPool.content, StringPool.buffer, h4]
  rw [if_pos h5]
  simp only [Option.getD_some, h6, List.take_left]

theorem init_inline : StringPool.init.Inline [] := by
  refine ⟨rfl, rfl, rfl, rfl, by decide, rfl⟩

theorem append_error {w : String} {src : List Int} (h : 16 < w.length + (src.length + 1)) :
    StringPool.append w src = .error Fault.bufferOverrun := by
  simp only [StringPool.append, _MAX_BUFF_SIZE]
  rw [if_neg (by omega)]

theorem append_refines {p : StringPool} {wb : List Nat} (src : List Int) (hp : p.Inline wb)
    (hs : src.length ≤ 14) :
    StringPool.append (String.mk (wb.map Char.ofNat)) src
      = (match p.appendBytes (src.map toByte) with
         | .ok (_, q) => .ok (String.mk (q.content.map Char.ofNat))
         | .error e => .error e) := by
  have hwl : (String.mk (wb.map Char.ofNat)).length = wb.length := by
    simp [String.length]
  by_cases h : wb.length + src.length + 1 ≤ 16
  · obtain ⟨q, hq, hi⟩ := appendBytes_inline (src.map toByte) hp (by simpa using h)
    rw [hq, append_ok (by rw [hwl]; omega)]
    simp only [inline_content hi, List.map_append, List.map_map]
    rfl
  · rw [appendBytes_overrun (src.map toByte) hp (by simp only [List.length_map]; omega)
      (by simpa using hs)]
    exact append_error (by rw [hwl]; omega)

theorem lexMiscLoop_long : ∀ (stream : List Nat) (word : String) (buff : List Int) (pair : Bool),
    (∀ b ∈ stream, b < 256) → word.length ≤ 15 → buff.length ≤ 1 →
    16 ≤ word.length + buff.length + (tokenRest pair stream).1.length →
    lexMiscLoop stream word buff pair = .error Fault.bufferOverrun ∨
    ∃ word1 buff1 c stream1,
      lexMiscLoop stream word buff pair
        = .ok (word1, buff1, (tokenRest pair stream).2.1, c, stream1) ∧
      word1.length = 15 ∧ buff1.length = 1
  | [], word, buff, pair, _, hw, hb, hlen => by
    simp only [tokenRest, List.length_nil, add_zero] at hlen
    exact Or.inr ⟨word, buff, STREAM_EOF, [], by simp only [lexMiscLoop, tokenRest],
      by omega, by omega⟩
  | b :: stream, word, buff, pair, hbytes, hw, hb, hlen => by
    have hlt : b < 256 := hbytes b (List.mem_cons_self _ _)
    have hrest : ∀ x ∈ stream, x < 256 := fun x hx => hbytes x (List.mem_cons_of_mem _ hx)
    by_cases h255 : b = 255
    · have heof : toChar b = STREAM_EOF := (toChar_eof hlt).2 h255
      simp only [tokenRest, h255, if_true, List.length_nil, add_zero] at hlen
      refine Or.inr ⟨word, buff, toChar b, stream, ?_, by omega, by omega⟩
      simp only [lexMiscLoop, heof, if_true]
      simp only [tokenRest, h255, if_true]
    · have hne : ¬ (toChar b = STREAM_EOF) := fun h => h255 ((toChar_eof hlt).1 h)
      by_cases hd : (!pair && isDelimiter b) = true
      · simp only [tokenRest, h255, if_false, hd, if_true, List.length_nil, add_zero] at hlen
        refine Or.inr ⟨word, buff, toChar b, stream, ?_, by omega, by omega⟩
        simp only [lexMiscLoop, tokenRest, hne, h255, if_false, toChar_delimiter hlt, hd,
          if_true]
      · have hq : (if toChar b = 34 then !pair else pair) = (if b = 34 then !pair else pair) := by
          by_cases h34 : b = 34
          · rw [if_pos ((toChar_quote hlt).2 h34), if_pos h34]
          · rw [if_neg (fun h => h34 ((toChar_quote hlt).1 h)), if_neg h34]
        have ht : tokenRest pair (b :: stream)
            = (b :: (tokenRest (if b = 34 then !pair else pair) stream).1,
               (tokenRest (if b = 34 then !pair else pair) stream).2.1,
               (tokenRest (if b = 34 then !pair else pair) stream).2.2) := by
          simp only [tokenRest, h255, if_false, hd]
          rfl
        rw [ht] at hlen ⊢
        simp only [List.length_cons] at hlen
        by_cases h2 : (buff ++ [toChar b]).length = 2
        · have hbl : buff.length = 1 := by
            simp only [List.length_append, List.length_singleton] at h2
            omega
          by_cases hfit : word.length + ((buff ++ [toChar b]).length + 1) ≤ 16
          · have hwl : (word ++ String.mk (charsOf (buff ++ [toChar b]))).length
                = word.length + 2 := by
              rw [append_length]
              simp only [charsOf, List.length_map, h2]
            rcases lexMiscLoop_long stream (word ++ String.mk (charsOf (buff ++ [toChar b]))) []
              (if b = 34 then !pair else pair) hrest (by rw [hwl, h2] at *; omega) (by simp)
              (by rw [hwl]; simp only [List.length_nil]; omega) with h | ⟨w1, b1, c, st, h, e1, e2⟩
            · left
              simp only [lexMiscLoop, hne, if_false, toChar_delimiter hlt, hd, h2, if_true,
                append_ok hfit, hq, h]
              rfl
            · right
              refine ⟨w1, b1, c, st, ?_, e1, e2⟩
              simp only [lexMiscLoop, hne, if_false, toChar_delimiter hlt, hd, h2, if_true,
                append_ok hfit, hq, h]
              rfl
          · left
            simp only [lexMiscLoop, hne, if_false, toChar_delimiter hlt, hd, h2, if_true,
              append_error (by omega : 16 < word.length + ((buff ++ [toChar b]).length + 1))]
            rfl
        · have hbl : buff.length = 0 := by
            simp only [List.length_append, List.length_singleton] at h2
            omega
          have hbn : buff = [] := List.length_eq_zero.1 hbl
          subst hbn
          rcases lexMiscLoop_long stream word ([] ++ [toChar b])
            (if b = 34 then !pair else pair) hrest hw (by simp)
            (by simp only [List.nil_append, List.length_singleton]
                simp only [List.length_nil] at hlen
                omega) with h | ⟨w1, b1, c, st, h, e1, e2⟩
          · left
            simp only [lexMiscLoop, hne, if_false, toChar_delimiter hlt, hd, h2, hq, h]
            rfl
          · right
            refine ⟨w1, b1, c, st, ?_, e1, e2⟩
            simp only [lexMiscLoop, hne, if_false, toChar_delimiter hlt, hd, h2, hq, h]
            rfl

theorem lexMisc_long (ty : LexType) (line b0 : Nat) (stream : List Nat) (s : Lisp)
    (hb0 : b0 < 256) (h0 : b0 ≠ 0) (hbytes : ∀ b ∈ stream, b < 256)
    (hlen : 16 ≤ (b0 :: (tokenRest (decide (b0 = 34)) stream).1).length) :
    Lexer.lexMisc ⟨ty, "", line⟩ (toChar b0) stream s = .error Fault.bufferOverrun := by
  have hc0 : ¬ (toChar b0 = 0) := fun h => h0 ((toChar_zero hb0).1 h)
  have hq : decide (toChar b0 = 34) = decide (b0 = 34) := by
    by_cases h34 : b0 = 34
    · rw [decide_eq_true ((toChar_quote hb0).2 h34), decide_eq_true h34]
    · rw [decide_eq_false (fun h => h34 ((toChar_quote hb0).1 h)), decide_eq_false h34]
  have h0w : StringPool.append "" [toChar b0] = .ok (String.mk [Char.ofNat b0]) := by
    rw [append_ok (show "".length + ([toChar b0].length + 1) ≤ 16 from Nat.le_of_ble_eq_true rfl)]
    simp only [charsOf, List.map_cons, List.map_nil, toByte_toChar hb0]
    rfl
  simp only [List.length_cons] at hlen
  simp only [Lexer.lexMisc]
  rw [if_neg hc0, h0w]
  simp only [hq]
  rcases lexMiscLoop_long stream (String.mk [Char.ofNat b0]) [] (decide (b0 = 34)) hbytes
    (show (String.mk [Char.ofNat b0]).length ≤ 15 from Nat.le_of_ble_eq_true rfl) (by simp)
    (by show 16 ≤ 1 + 0 + _; omega) with h | ⟨w1, b1, c, st, h, e1, e2⟩
  · simp only [h]
    rfl
  · simp only [h]
    rw [if_pos (by omega), append_error (by omega)]
    rfl

theorem toNat_ofNat {b : Nat} (h : b < 256) : (Char.ofNat b).toNat = b := by
  have hv : b.isValidChar := Or.inl (by omega)
  simp only [Char.ofNat, hv, dite_true, Char.toNat, Char.ofNatAux]
  rfl

theorem bytes_wordOf : ∀ (bs : List Nat), (∀ b ∈ bs, b < 256) → bytes (wordOf bs) = bs
  | [], _ => rfl
  | b :: bs, h => by
    have ih := bytes_wordOf bs (fun x hx => h x (List.mem_cons_of_mem _ hx))
    simp only [bytes, wordOf, List.map_cons] at ih ⊢
    rw [toNat_ofNat (h b (List.mem_cons_self _ _)), ih]

theorem ofNat_ne_zero {b : Nat} (h : b < 256) (h0 : b ≠ 0) : Char.ofNat b ≠ Char.ofNat 0 := by
  intro e
  have := congrArg Char.toNat e
  rw [toNat_ofNat h, toNat_ofNat (by decide)] at this
  exact h0 this

theorem cString_wordOf (bs : List Nat) (h : ∀ b ∈ bs, b < 256 ∧ b ≠ 0) :
    cString (wordOf bs) = wordOf bs := by
  apply cString_of_no_nul
  intro c hc
  simp only [wordOf, List.mem_map] at hc
  obtain ⟨b, hb, rfl⟩ := hc
  exact ofNat_ne_zero (h b hb).1 (h b hb).2

theorem tokenRest_idem : ∀ (stream : List Nat) (pair : Bool),
    tokenRest pair (tokenRest pair stream).1
      = ((tokenRest pair stream).1, (tokenRest pair stream).2.1, [])
  | [], pair => rfl
  | b :: stream, pair => by
    by_cases h255 : b = 255
    · simp only [tokenRest, h255, if_true]
    · by_cases hd : (!pair && isDelimiter b) = true
      · simp only [tokenRest, h255, if_false, hd, if_true]
      · have ih := tokenRest_idem stream (if b = 34 then !pair else pair)
        simp only [tokenRest, h255, if_false, hd, Bool.false_eq_true]
        rw [ih]

theorem singleToken_cons {b0 : Nat} {rest : List Nat} (h : singleToken (b0 :: rest) = true) :
    b0 < 255 ∧ b0 ≠ 0 ∧ isDelimiter b0 = false ∧ (∀ b ∈ rest, b < 256)
      ∧ tokenRest (decide (b0 = 34)) rest = (rest, false, []) ∧ rest.length + 2 ≤ 16 := by
  simp only [singleToken, Bool.and_eq_true, decide_eq_true_eq, Bool.not_eq_true',
    List.all_eq_true] at h
  obtain ⟨⟨⟨⟨⟨h1, h2⟩, h3⟩, h4⟩, h5⟩, h6⟩ := h
  exact ⟨h1, h2, h3, h4, h5, h6⟩

theorem lexLoop_single (fuel line : Nat) (lexlist : List LexNode) (b0 : Nat) (rest : List Nat)
    (h : singleToken (b0 :: rest) = true) (s : Lisp) :
    lexLoop (fuel + 2) line lexlist (b0 :: rest) s
      = .ok ((LINF_SUCCEEDED, line,
          lexlist ++ [⟨if b0 = 34 then .LEX_STRING else .LEX_MISC, wordOf (b0 :: rest), line⟩],
          []), s) := by
  obtain ⟨h1, h2, h3, h4, h5, h6⟩ := singleToken_cons h
  have hl : (tokenRest (decide (b0 = 34)) rest).1.length + 2 ≤ 16 := by rw [h5]; exact h6
  rw [lexLoop_token (fuel + 1) line b0 lexlist rest s h1 h2 h3 h4 hl, h5]
  simp only [Bool.false_eq_true, if_false]
  exact lexLoop_end fuel line _ s

theorem lex_single (b0 : Nat) (rest : List Nat) (h : singleToken (b0 :: rest) = true)
    (s : Lisp) :
    Lexer.lex [] (b0 :: rest) s
      = .ok ((LINF_SUCCEEDED,
          [⟨if b0 = 34 then .LEX_STRING else .LEX_MISC, wordOf (b0 :: rest), 1⟩]), s) := by
  have hrun := lexLoop_single rest.length 1 [] b0 rest h s
  simp only [Lexer.lex, List.length_cons, bind_ok hrun, pure_apply, List.nil_append]

theorem lexLoop_blank (fuel line : Nat) (lexlist : List LexNode) (stream : List Nat) (s : Lisp) :
    lexLoop (fuel + 1) line lexlist (32 :: stream) s = lexLoop fuel line lexlist stream s := by
  have hc : toChar 32 = 32 := by decide
  have h1 : ¬ ((32 : Int) = STREAM_EOF) := by decide
  have h2 : (IsSpace 32 && decide ((32 : Int) ≠ 10)) = true := by decide
  simp only [lexLoop, Getchar, hc, h1, h2, if_false, if_true]

theorem parse_atom {t : LexNode} {n : SynNode} (hn : AtomNode t n) (rest : List LexNode)
    (s : Lisp) :
    Parser.parse (t :: rest) s
      = .ok ((LINF_SUCCEEDED, some (some s.heap.length)),
          { s with heap := s.heap ++ [some n], rc := LINF_SUCCEEDED }) := by
  have htok : (t :: rest)[0]? = some t := List.getElem?_cons_zero
  have hf : 2 * (t :: rest).length + 2 = (2 * (t :: rest).length + 1) + 1 := rfl
  rcases hn with ⟨hty, hgen⟩ | ⟨hty, hgen⟩
  · have hg := hgen s
    simp only [StateT.run] at hg
    simp only [Parser.parse, hf, generate, htok, hty, bind_assoc, pure_bind, bind_ok hg,
      pure_apply, bind_ok (pure_apply _ _), bind_ok (getRc_apply _), LP_SUCCESS_one, if_true]
  · have hg := hgen s
    simp only [StateT.run] at hg
    simp only [Parser.parse, hf, generate, htok, hty, bind_assoc, pure_bind, bind_ok hg,
      pure_apply, bind_ok (pure_apply _ _), bind_ok (getRc_apply _), LP_SUCCESS_one, if_true]

theorem parsedRoot_atom {input : List Nat} {t : LexNode} {rest : List LexNode} {n : SynNode}
    (hlex : Lexer.lex [] input { Lisp.init with m_parsed := false }
      = .ok ((LINF_SUCCEEDED, t :: rest), { Lisp.init with m_parsed := false }))
    (hn : AtomNode t n) :
    parsedRoot input = some (LINF_SUCCEEDED, some n) := by
  have hp := parse_atom hn rest { Lisp.init with m_parsed := false }
  simp only [parsedRoot, Lisp.parserStream, StateT.run, bind_ok (modify_apply _ _), bind_ok hlex,
    LP_SUCCESS_one, if_true, bind_ok hp, pure_apply]
  rfl

theorem generateString_quoted (pb : List Nat) (line : Nat) (s : Lisp) :
    generateString ⟨.LEX_STRING, wordOf (34 :: (pb ++ [34])), line⟩ s
      = .ok (some s.heap.length,
          { s with heap := s.heap ++ [some ⟨.string (wordOf pb), line⟩],
                   rc := LINF_SUCCEEDED }) := by
  have hlen : (wordOf (34 :: (pb ++ [34]))).length = pb.length + 2 := by
    simp [wordOf, String.length]
  have h0 : byteAt (wordOf (34 :: (pb ++ [34]))) 0 = Char.ofNat 34 := by
    simp [byteAt, wordOf]
  have h1 : byteAt (wordOf (34 :: (pb ++ [34]))) (pb.length + 2 - 1) = Char.ofNat 34 := by
    simp [byteAt, wordOf, List.getElem?_append_right]
  have hd : ((wordOf (34 :: (pb ++ [34]))).data.drop 1).take (pb.length + 2 - 2)
      = (wordOf pb).data := by
    simp [wordOf]
  have h2 : ¬ (pb.length + 2 < 2) := by omega
  simp only [generateString, hlen, h0, h1, ne_eq, not_true_eq_false, decide_False, Bool.or_self,
    Bool.false_eq_true, if_false, h2, hd]
  rfl

theorem atomNode_string (pb : List Nat) (line : Nat) :
    AtomNode ⟨.LEX_STRING, wordOf (34 :: (pb ++ [34])), line⟩ ⟨.string (wordOf pb), line⟩ :=
  Or.inl ⟨rfl, fun s => generateString_quoted pb line s⟩

theorem generateMisc_character (x line : Nat) (s : Lisp) :
    generateMisc ⟨.LEX_MISC, wordOf [39, x, 39], line⟩ s
      = .ok (some s.heap.length,
          { s with heap := s.heap ++ [some ⟨.character (Char.ofNat x), line⟩],
                   rc := LINF_SUCCEEDED }) := by
  have h0 : byteAt (wordOf [39, x, 39]) 0 = Char.ofNat 39 := rfl
  have h1 : byteAt (wordOf [39, x, 39]) 1 = Char.ofNat x := rfl
  have h2 : byteAt (wordOf [39, x, 39]) 2 = Char.ofNat 39 := rfl
  have hl : (wordOf [39, x, 39]).length = 3 := rfl
  have hne : ¬ (Char.ofNat 39 = Char.ofNat 35) := by decide
  simp only [generateMisc, generateCharacter, h0, h1, h2, hl, hne, if_false, if_true, ne_eq,
    not_true_eq_false, decide_False, Bool.or_self, Bool.false_eq_true]
  rfl

theorem atomNode_character (x line : Nat) :
    AtomNode ⟨.LEX_MISC, wordOf [39, x, 39], line⟩ ⟨.character (Char.ofNat x), line⟩ :=
  Or.inr ⟨rfl, fun s => generateMisc_character x line s⟩

theorem atomNode_symbol_word :
    AtomNode ⟨.LEX_MISC, wordOf (bytes "symbol"), 1⟩ ⟨.symbol "symbol", 1⟩ :=
  Or.inr ⟨rfl, fun _ => rfl⟩

theorem lex_symbol_rendering (b0 : Nat) (rest : List Nat) (h : singleToken (b0 :: rest) = true)
    (s : Lisp) :
    Lexer.lex [] (bytes "symbol = " ++ b0 :: rest) s
      = .ok ((LINF_SUCCEEDED,
          [⟨.LEX_MISC, wordOf (bytes "symbol"), 1⟩, ⟨.LEX_MISC, wordOf (bytes "="), 1⟩,
            ⟨if b0 = 34 then .LEX_STRING else .LEX_MISC, wordOf (b0 :: rest), 1⟩]), s) := by
  obtain ⟨-, -, -, h4, -, -⟩ := singleToken_cons h
  have hb : bytes "symbol = " ++ b0 :: rest
      = 115 :: (121 :: 109 :: 98 :: 111 :: 108 :: 32 :: 61 :: 32 :: b0 :: rest) := rfl
  have hlt : b0 < 256 := by have := (singleToken_cons h).1; omega
  have hall : ∀ b ∈ (121 :: 109 :: 98 :: 111 :: 108 :: 32 :: 61 :: 32 :: b0 :: rest), b < 256 := by
    intro b hb
    simp only [List.mem_cons] at hb
    rcases hb with rfl | rfl | rfl | rfl | rfl | rfl | rfl | rfl | rfl | hb
    all_goals first | omega | exact h4 b hb
  have hall2 : ∀ b ∈ (32 :: b0 :: rest), b < 256 := by
    intro b hb
    simp only [List.mem_cons] at hb
    rcases hb with rfl | rfl | hb
    all_goals first | omega | exact h4 b hb
  have ht1 : tokenRest (decide ((115 : Nat) = 34))
      (121 :: 109 :: 98 :: 111 :: 108 :: 32 :: 61 :: 32 :: b0 :: rest)
      = ([121, 109, 98, 111, 108], false, 32 :: 61 :: 32 :: b0 :: rest) := by
    simp [tokenRest, isDelimiter]
  have ht2 : tokenRest (decide ((61 : Nat) = 34)) (32 :: b0 :: rest)
      = ([], false, 32 :: b0 :: rest) := by
    simp [tokenRest, isDelimiter]
  have e1 := lexLoop_token (rest.length + 5 + 2 + 1 + 1 + 1) 1 115 []
    (121 :: 109 :: 98 :: 111 :: 108 :: 32 :: 61 :: 32 :: b0 :: rest) s (by omega) (by omega)
    (by decide) hall (by rw [ht1]; exact Nat.le_of_ble_eq_true rfl)
  rw [ht1] at e1
  have e2 := lexLoop_blank (rest.length + 5 + 2 + 1 + 1) 1 ([] ++ [⟨if (115 : Nat) = 34 then .LEX_STRING
    else .LEX_MISC, String.mk ((115 :: [121, 109, 98, 111, 108]).map Char.ofNat), 1⟩])
    (61 :: 32 :: b0 :: rest) s
  have e3 := lexLoop_token (rest.length + 5 + 2 + 1) 1 61 ([] ++ [⟨if (115 : Nat) = 34 then .LEX_STRING
    else .LEX_MISC, String.mk ((115 :: [121, 109, 98, 111, 108]).map Char.ofNat), 1⟩])
    (32 :: b0 :: rest) s (by omega) (by omega) (by decide) hall2 (by rw [ht2]; exact Nat.le_of_ble_eq_true rfl)
  rw [ht2] at e3
  have e4 := lexLoop_blank (rest.length + 5 + 2) 1 (([] ++ [⟨if (115 : Nat) = 34 then .LEX_STRING
    else .LEX_MISC, String.mk ((115 :: [121, 109, 98, 111, 108]).map Char.ofNat), 1⟩])
    ++ [⟨if (61 : Nat) = 34 then .LEX_STRING else .LEX_MISC,
      String.mk ((61 :: []).map Char.ofNat), 1⟩]) (b0 :: rest) s
  have e5 := lexLoop_single (rest.length + 5) 1 (([] ++ [⟨if (115 : Nat) = 34 then .LEX_STRING
    else .LEX_MISC, String.mk ((115 :: [121, 109, 98, 111, 108]).map Char.ofNat), 1⟩])
    ++ [⟨if (61 : Nat) = 34 then .LEX_STRING else .LEX_MISC,
      String.mk ((61 :: []).map Char.ofNat), 1⟩]) b0 rest h s
  simp only [Bool.false_eq_true, if_false] at e1 e3
  have hrun := e1.trans (e2.trans (e3.trans (e4.trans e5)))
  have hfuel : (115 :: (121 :: 109 :: 98 :: 111 :: 108 :: 32 :: 61 :: 32 :: b0 :: rest)).length + 1
      = rest.length + 5 + 2 + 1 + 1 + 1 + 1 := by
    simp only [List.length_cons]
  rw [hb]
  simp only [Lexer.lex, hfuel, bind_ok hrun, pure_apply]
  rfl

theorem parsedRoot_symbol_rendering (b0 : Nat) (rest : List Nat)
    (h : singleToken (b0 :: rest) = true) :
    parsedRoot (bytes "symbol = " ++ b0 :: rest)
      = some (LINF_SUCCEEDED, some ⟨.symbol "symbol", 1⟩) :=
  parsedRoot_atom (lex_symbol_rendering b0 rest h _) atomNode_symbol_word

theorem tokenRest_mem : ∀ (stream : List Nat) (pair : Bool),
    ∀ b ∈ (tokenRest pair stream).1, b ∈ stream
  | [], _, b, hb => by simp [tokenRest] at hb
  | c :: stream, pair, b, hb => by
    by_cases h255 : c = 255
    · simp [tokenRest, h255] at hb
    · by_cases hd : (!pair && isDelimiter c) = true
      · simp only [tokenRest, h255, if_false, hd, if_true, List.not_mem_nil] at hb
      · simp only [tokenRest, h255, if_false, hd, Bool.false_eq_true, List.mem_cons] at hb
        rcases hb with rfl | hb
        · exact List.mem_cons_self _ _
        · exact List.mem_cons_of_mem _ (tokenRest_mem stream _ b hb)

theorem singleToken_of_lexed (b0 : Nat) (stream : List Nat) (hb0 : b0 < 255) (h0 : b0 ≠ 0)
    (hstart : isDelimiter b0 = false) (hbytes : ∀ b ∈ stream, b < 256)
    (hlen : (tokenRest (decide (b0 = 34)) stream).1.length + 2 ≤ 16)
    (hpair : (tokenRest (decide (b0 = 34)) stream).2.1 = false) :
    singleToken (b0 :: (tokenRest (decide (b0 = 34)) stream).1) = true := by
  have hid := tokenRest_idem stream (decide (b0 = 34))
  rw [hpair] at hid
  simp only [singleToken, Bool.and_eq_true, decide_eq_true_eq, Bool.not_eq_true',
    List.all_eq_true]
  exact ⟨⟨⟨⟨⟨hb0, h0⟩, hstart⟩, fun b hb => hbytes b (tokenRest_mem stream _ b hb)⟩, hid⟩, hlen⟩

theorem lexOf_single (b0 : Nat) (rest : List Nat) (h : singleToken (b0 :: rest) = true) :
    lexOf (b0 :: rest)
      = some (LINF_SUCCEEDED,
          [(if b0 = 34 then .LEX_STRING else .LEX_MISC, b0 :: rest, 1)]) := by
  obtain ⟨h1, -, -, h4, -, -⟩ := singleToken_cons h
  have hall : ∀ b ∈ b0 :: rest, b < 256 := by
    intro b hb
    rcases List.mem_cons.mp hb with rfl | hb
    · omega
    · exact h4 b hb
  have hw := bytes_wordOf (b0 :: rest) hall
  simp only [bytes] at hw
  simp only [lexOf, StateT.run, lex_single b0 rest h Lisp.init, returned, Option.map_some',
    List.map_cons, List.map_nil, hw]

theorem output_string (pb : List Nat) (line : Nat) (h : ∀ b ∈ pb, b < 256 ∧ b ≠ 0) :
    OutputSynNode ⟨.string (wordOf pb), line⟩ = some (34 :: (pb ++ [34])) := by
  simp only [OutputSynNode, cString_wordOf pb h, bytes_wordOf pb (fun b hb => (h b hb).1)]
  rfl

theorem output_character (x line : Nat) (h : x < 256) :
    OutputSynNode ⟨.character (Char.ofNat x), line⟩ = some [39, x, 39] := by
  simp only [OutputSynNode, toNat_ofNat h]
  rfl

/-! ### The factorial example and the arithmetic of `double` -/

/-- The operations that the call `(fact k)` carries out on Numbers, for `k` from 1 to
22, give in `double` the values they have in exact arithmetic: the difference
`k - 1`, the product `1 * k` and the product of `k` and `(k - 1)!`. -/
theorem fact_steps_exact : ∀ j ∈ List.range 22,
    subDouble ((j + 1 : Nat) : Rat) 1 = some ((j : Nat) : Rat) ∧
    mulDouble 1 ((j + 1 : Nat) : Rat) = some ((j + 1 : Nat) : Rat) ∧
    mulDouble ((j + 1 : Nat) : Rat) ((j.factorial : Nat) : Rat)
      = some (((j + 1).factorial : Nat) : Rat) := by
  decide!

/-- The program `(fact 22)` yields Number `22!`. -/
theorem fact_22_value :
    valueOf (interpret (factProgramFor 22) 200)
      = some ⟨.number (Nat.factorial 22 : Rat), 1⟩ := by
  decide!

/-- Every Number in the store at the end of the run of `(fact 22)` is a value of the
type `double`. -/
theorem fact_22_doubles :
    (stateOf (interpret (factProgramFor 22) 200)).map numbersAreDoubles = some true := by
  decide!

/-- The run of the parsed factorial program with the literal `n`, in exact
arithmetic. -/
theorem fact_run (n fuel : Nat) (hn : n ≤ 2046) (hfuel : 3 * n + 7 ≤ fuel) :
    ∃ (a : Nat) (t : Lisp),
      (Lisp.run fuel).run (factParsed n) = .ok ((LINF_SUCCEEDED, some (some a)), t) ∧
      t.heap[a]? = some (some ⟨.number (n.factorial : Rat), 1⟩) ∧ t.errors = [] := by
  obtain ⟨j, rfl⟩ : ∃ j, fuel = j + 3 * n + 7 := ⟨fuel - (3 * n + 7), by omega⟩
  obtain ⟨a, t, hcall, ha, hrc, hS, herr⟩ := fact_call n j hn
  have hpos : (0 : Int) < LINF_SUCCEEDED := by decide
  have hrc' : 0 < t.rc := by rw [hrc]; exact hpos
  obtain ⟨e, hnew, hdef⟩ : ∃ e, newenv (factParsed n) = .ok (LINF_SUCCEEDED, e) ∧
      eval (j + 3 * n + 7) (some 36) 0 { e with rc := LINF_SUCCEEDED }
        = .ok (none, factReady n) := ⟨_, rfl, rfl⟩
  have he42 : ({ e with rc := LINF_SUCCEEDED } : Lisp).heap[42]?
      = some (some ⟨.pair (some 36) (some 41), 1⟩) := by
    have := congrArg (fun r => (stateOf r).map (fun s => s.heap[42]?)) hnew
    exact Option.some.inj this.symm
  have hd : dispatchEvaling (eval (j + 3 * n + 7)) (j + 3 * n + 7) (some 42) 0
      { e with rc := LINF_SUCCEEDED } = .ok (some a, t) :=
    dispatch_two he42 hdef hpos rfl rfl hcall hrc' (hS _ _ rfl)
  refine ⟨a, t, ?_, ha, herr⟩
  have hast : e.m_ast = some 42 := by
    have := congrArg (fun r => (stateOf r).map (fun s => s.m_ast)) hnew
    exact Option.some.inj this.symm
  have hd' : dispatchEvaling (eval (j + 3 * n + 7)) (j + 3 * n + 7) e.m_ast 0
      { e with rc := LINF_SUCCEEDED } = .ok (some a, t) :=
    (congrArg (fun p => dispatchEvaling (eval (j + 3 * n + 7)) (j + 3 * n + 7) p 0
      { e with rc := LINF_SUCCEEDED }) hast).trans hd
  show Lisp.run (j + 3 * n + 7) (factParsed n) = _
  have hp : (factParsed n).m_parsed = true := rfl
  simp only [Lisp.run, bind_ok (get_apply _), hp, Bool.not_true, Bool.false_eq_true, if_false,
    bind_ok hnew, bind_ok (setRc_apply _ _), bind_ok (getRc_apply _), LP_SUCCESS_one, if_true,
    bind_ok hd', LP_SUCCESS_of_pos hrc', hrc, pure_apply]

/-! ### The claims -/

/-- C1, evaluated on the code.  After `(define x 1)`, `(define getx (lambda (d) x))`
and `(define outer (lambda (x) (getx 0)))` the call `(outer 5)` succeeds and yields
Number 5, the binding of `x` made by the caller `outer`, and not Number 1, the
binding visible where `getx` was defined. -/
theorem scope_example_yields_caller_binding :
    statusOf (interpret scopeProgram 100) = some LINF_SUCCEEDED ∧
    valueOf (interpret scopeProgram 100) = some ⟨.number 5, 1⟩ := by
  constructor <;> decide!

/-- C4, evaluated on the code.  After `newenv`, one `push` followed by `pop` leaves
the stack pointer at -1 and not at 0, and the nested sequence push, push, pop, pop
leaves it at -2: `pop` decrements twice for one `push`. -/
theorem pop_decrements_twice :
    returned ((do
        let _ ← newenv
        let _ ← push none none 0
        pop
        pure (← get).m_sp : M Int).run Lisp.init) = some (-1) ∧
    returned ((do
        let _ ← newenv
        let _ ← push none none 0
        let _ ← push none none 0
        pop
        pop
        pure (← get).m_sp : M Int).run Lisp.init) = some (-2) := by
  constructor <;> decide!

/-- C5, evaluated on the code.  Right after `newenv` slot 0 holds the global chain
(node 1).  The first `push` succeeds, returns index 0 and stores its new chain
(node 3) in slot 0, which was in use for the global chain. -/
theorem push_overwrites_global_slot :
    returned ((do
        let _ ← newenv
        let global ← node 0
        let r ← push none none 0
        let slot0 ← node 0
        pure (global, r, slot0) : M (Ptr × (Int × Option EnvSP) × Ptr)).run Lisp.init)
      = some (some 1, (LINF_SUCCEEDED, some 0), some 3) := by
  decide!

/-- C6, evaluated on the code.  Running `(define mk (lambda (x) (lambda (y) x)))`,
`(mk 1)`, `(mk 2)` succeeds and its value is a Function whose captured index is -1,
which is not an index of the environment stack. -/
theorem closure_captures_negative_index :
    statusOf (interpret closureTwiceProgram 100) = some LINF_SUCCEEDED ∧
    valueOf (interpret closureTwiceProgram 100) = some ⟨.func (some 7) (some 9) (-1), 1⟩ ∧
    inStack (-1) = false := by
  refine ⟨?_, ?_, ?_⟩ <;> decide!

/-- C8, evaluated on the code.  The `make-add` program succeeds and yields Number 7,
but the call `(add3 4)` pushes its environment at index -1, looks `x` and `y` up there
and pops it from there: the accesses outside of the stack recorded by the run, the
write of `push`, the two lookups and the read of `pop`, are all at -1. -/
theorem make_add_leaves_the_stack :
    statusOf (interpret makeAddProgram 100) = some LINF_SUCCEEDED ∧
    valueOf (interpret makeAddProgram 100) = some ⟨.number 7, 1⟩ ∧
    (stateOf (interpret makeAddProgram 100)).map (fun s => s.oob) = some [-1, -1, -1, -1] := by
  refine ⟨?_, ?_, ?_⟩ <;> decide!

/-- C10, evaluated on the code.  `((lambda (x) x) 5)`, a Pair whose head is a Pair,
is not applied: the run fails with `LERR_THROW_ERROR`, no value, and the diagnostic
"invalid syntax." -/
theorem lambda_head_is_invalid :
    statusOf (interpret lambdaHeadProgram 100) = some LERR_THROW_ERROR ∧
    valueOf (interpret lambdaHeadProgram 100) = none ∧
    (stateOf (interpret lambdaHeadProgram 100)).map (fun s => s.errors)
      = some [(1, "invalid syntax.")] := by
  refine ⟨?_, ?_, ?_⟩ <;> decide!

/-- C7, the example of the claim.  `(define fact ...)` followed by `(fact 5)`
succeeds and yields Number 120.  Every environment of the run is pushed inside the
stack; the last three of the six calls of `pop`, each of which decrements `m_sp` twice
(C4), read `m_stack` at the indices -1, -3 and -5 into a variable that is not used. -/
theorem fact_five_is_120 :
    statusOf (interpret factProgram 100) = some LINF_SUCCEEDED ∧
    valueOf (interpret factProgram 100) = some ⟨.number 120, 1⟩ ∧
    (stateOf (interpret factProgram 100)).map (fun s => s.oob) = some [-1, -3, -5] := by
  refine ⟨?_, ?_, ?_⟩ <;> decide!

/-- C7 as amended.  The run of the parsed program `(define fact (lambda (n) (if (= n 0)
1 (* n (fact (- n 1))))))`, `(fact n)` succeeds for every `n` up to 22 and yields a
Number equal to `n!`, and no diagnostic is emitted.  The arithmetic of the model is
exact, and up to 22 it is the arithmetic of the program: for every `k` from 1 to `n`
the difference `k - 1`, the product `1 * k` and the product `k * (k - 1)!`, which the
call `(fact k)` forms, are values of the type `double`, so that the operations of
`double` return them unrounded. -/
theorem fact_yields_factorial (n fuel : Nat) (hn : n ≤ 22) (hfuel : 3 * n + 7 ≤ fuel) :
    (∃ (a : Nat) (t : Lisp),
      (Lisp.run fuel).run (factParsed n) = .ok ((LINF_SUCCEEDED, some (some a)), t) ∧
      t.heap[a]? = some (some ⟨.number (n.factorial : Rat), 1⟩) ∧ t.errors = []) ∧
    (∀ k : Nat, 1 ≤ k → k ≤ n →
      subDouble (k : Rat) 1 = some ((k - 1 : Nat) : Rat) ∧
      mulDouble 1 (k : Rat) = some (k : Rat) ∧
      mulDouble (k : Rat) (((k - 1).factorial : Nat) : Rat) = some ((k.factorial : Nat) : Rat)) := by
  refine ⟨fact_run n fuel (by omega) hfuel, ?_⟩
  intro k h1 hk
  obtain ⟨j, rfl⟩ : ∃ j, k = j + 1 := ⟨k - 1, by omega⟩
  exact fact_steps_exact j (List.mem_range.mpr (by omega))

/-- C7 at `n = 5`: the parser turns the text of the program into `factParsed 5`, and
the run yields Number `5!`, which is 120; every Number in the store at the end of the
run is a value of the type `double`. -/
theorem fact_yields_factorial_witness :
    stateOf ((do
        Lisp.setPrintAtomCallback
        let _ ← Lisp.parser (factProgramFor 5) : M Unit).run Lisp.init)
      = some (factParsed 5) ∧
    (5 ≤ 22 ∧ 3 * 5 + 7 ≤ 100 ∧
      (∃ (a : Nat) (t : Lisp),
        (Lisp.run 100).run (factParsed 5) = .ok ((LINF_SUCCEEDED, some (some a)), t) ∧
        t.heap[a]? = some (some ⟨.number (Nat.factorial 5 : Rat), 1⟩) ∧ t.errors = []) ∧
      Nat.factorial 5 = 120) ∧
    (stateOf (interpret (factProgramFor 5) 100)).map numbersAreDoubles = some true :=
  ⟨by decide!, ⟨by decide, by decide,
    (fact_yields_factorial 5 100 (by decide) (by decide)).1, by decide⟩, by decide!⟩

/-- C7 as stated fails at `n = 23`.  The call `(fact 23)` multiplies 23 by the value of
`(fact 22)`.  The run of `(fact 22)` yields `22!`, and every Number in its store is a
value of the type `double`.  The product of 23 and `22!` is not: `23!` is
25852016738884976640000, and the product that `*` returns is the `double` nearest to
it, 25852016738884978212864. -/
theorem fact_of_23_is_rounded :
    valueOf (interpret (factProgramFor 22) 200)
      = some ⟨.number (Nat.factorial 22 : Rat), 1⟩ ∧
    (stateOf (interpret (factProgramFor 22) 200)).map numbersAreDoubles = some true ∧
    roundDouble 23 = some 23 ∧
    roundDouble (Nat.factorial 22 : Rat) = some (Nat.factorial 22 : Rat) ∧
    mulDouble 1 23 = some 23 ∧
    mulDouble 23 (Nat.factorial 22 : Rat) = some 25852016738884978212864 ∧
    Nat.factorial 23 = 25852016738884976640000 ∧
    roundDouble (Nat.factorial 23 : Rat) = some 25852016738884978212864 ∧
    roundDouble (Nat.factorial 23 : Rat) ≠ some (Nat.factorial 23 : Rat) :=
  ⟨fact_22_value, fact_22_doubles, by decide!, by decide!, by decide!, by decide!, by decide!,
    by decide!, by decide!⟩

/-- C9, the claim fails for Function nodes.  With `f` bound to a Function, `(eval f)`
does not yield that Function: the run fails with `LERR_THROW_ERROR` and the
diagnostic "invalid syntax."; the same happens when `eval` is applied directly to
a Function node. -/
theorem eval_of_function_fails :
    statusOf (interpret evalFunctionProgram 100) = some LERR_THROW_ERROR ∧
    valueOf (interpret evalFunctionProgram 100) = none ∧
    (stateOf (interpret evalFunctionProgram 100)).map (fun s => s.errors)
      = some [(1, "invalid syntax.")] ∧
    returned ((do
        let f ← createFunc none none 0 7
        let r ← eval 1 f.2 0
        pure (r, ← getRc) : M (Ptr × Int)).run Lisp.init) = some (none, LERR_THROW_ERROR) := by
  refine ⟨?_, ?_, ?_, ?_⟩ <;> decide!

/-- C2, the claim fails.  For the token sequence of the two top-level lists `(a) (b)`
`Parser::parse` succeeds with a root (node 1) that is a list of length 1, not 2: its
one element is the Symbol `a` (node 0), the root is the first list alone, and no node
was made of the tokens of `(b)`.  For the empty token sequence (k = 0) the parser
dereferences the null cursor. -/
theorem parse_two_lists_reads_first_only :
    returned ((Parser.parse twoListsProgram).run Lisp.init)
      = some (LINF_SUCCEEDED, some (some 1)) ∧
    (stateOf ((Parser.parse twoListsProgram).run Lisp.init)).map
        (fun s => (listElems s 2 (some 1), s.heap))
      = some (some [some 0],
          [some ⟨.symbol "a", 1⟩, some ⟨.pair (some 0) none, 1⟩]) ∧
    (Parser.parse []).run Lisp.init = .error Fault.nullDeref := by
  refine ⟨?_, ?_, ?_⟩ <;> decide!

/-- C2 as amended.  `Parser::parse` reads the first top-level expression only.  When
the token sequence starts with a list `( e1 ... ek )` of `k >= 0` complete expressions
(each atom a token the parser accepts), whatever tokens `rest` follow it, the parse
succeeds from every state and its root is the proper Pair-list of length `k` whose
elements are the syntax trees of `e1 ... ek` in source order. -/
theorem parse_root_is_first_list (lo lc : Nat) (es : List SExpr) (hes : ∀ e ∈ es, e.Accepted)
    (rest : List LexNode) (s : Lisp) :
    ∃ root s' ps,
      (Parser.parse ((SExpr.list lo (SList.ofList lc es)).toks ++ rest)).run s
        = .ok ((LINF_SUCCEEDED, some root), s') ∧
      listElems s' es.length root = some ps ∧
      List.Forall₂ (fun e q => e.TreeAt s'.heap q) es ps := by
  obtain ⟨root, ext, hrun, htree⟩ := parse_first_expression (.list lo (SList.ofList lc es))
    (ofList_accepted lc es hes) rest s
  obtain ⟨ps, hps, hall⟩ := ofList_elems
    { s with heap := s.heap ++ ext, rc := LINF_SUCCEEDED } lc es root htree
  exact ⟨root, _, ps, hrun, hps, hall⟩

/-- The amended C2 at the token sequence `( ( a ) ( b ) ) ( c )`. -/
theorem parse_root_is_first_list_witness :
    ∃ root s' ps,
      (Parser.parse ((SExpr.list 1 (SList.ofList 1 twoLists)).toks ++ words "( c )")).run
          Lisp.init
        = .ok ((LINF_SUCCEEDED, some root), s') ∧
      listElems s' twoLists.length root = some ps ∧
      List.Forall₂ (fun (e : SExpr) (q : Ptr) => e.TreeAt s'.heap q) twoLists ps :=
  parse_root_is_first_list 1 1 twoLists twoLists_accepted (words "( c )") Lisp.init

/-- C3.  Let the call `(set-car! e1 e2)` (resp. `(set-cdr! e1 e2)`) at node `l` be
evaluated from state `s` with any evaluator `ev`, the first operand evaluating to the
Pair node `p` and the second to the value `v`.  Then the call succeeds, `p` holds `v`
as its head (resp. tail), and from then on every call `(car e)` (resp. `(cdr e)`),
with any evaluator and environment, whose operand `e` evaluates to the same node `p`
(a variable bound to it, for one) yields `v`, as long as node `p` is as the mutation
left it. -/
theorem pair_mutation_visible_through_aliases
    (ev : Eval) (fuel : Nat) (envsp : EnvSP) (s s1 s2 : Lisp) (l p : Nat)
    (op e1 e2 v hd tl : Ptr)
    (hcall : listElems s 3 (some l) = some [op, e1, e2])
    (h1 : (ev e1 envsp).run { s with rc := LINF_SUCCEEDED } = .ok (some p, s1))
    (hrc1 : 0 < s1.rc)
    (hcall1 : listElems s1 3 (some l) = some [op, e1, e2])
    (h2 : (ev e2 envsp).run s1 = .ok (v, s2)) (hrc2 : 0 < s2.rc)
    (hcall2 : listElems s2 3 (some l) = some [op, e1, e2])
    (hp : pairAt s2 p = some (hd, tl)) :
    (∃ s3, (symbolSetCar ev (fuel + 4) (some l) envsp).run s = .ok (some s2.heap.length, s3) ∧
      0 < s3.rc ∧ pairAt s3 p = some (v, tl) ∧
      ∀ (ev' : Eval) (fuel' : Nat) (envsp' : EnvSP) (t t1 : Lisp) (c : Nat) (op' e : Ptr),
        listElems t 2 (some c) = some [op', e] →
        (ev' e envsp').run { t with rc := LINF_SUCCEEDED } = .ok (some p, t1) → 0 < t1.rc →
        t1.heap[p]? = s3.heap[p]? →
        (symbolCar ev' (fuel' + 3) (some c) envsp').run t = .ok (v, t1)) ∧
    (∃ s3, (symbolSetCdr ev (fuel + 4) (some l) envsp).run s = .ok (some s2.heap.length, s3) ∧
      0 < s3.rc ∧ pairAt s3 p = some (hd, v) ∧
      ∀ (ev' : Eval) (fuel' : Nat) (envsp' : EnvSP) (t t1 : Lisp) (c : Nat) (op' e : Ptr),
        listElems t 2 (some c) = some [op', e] →
        (ev' e envsp').run { t with rc := LINF_SUCCEEDED } = .ok (some p, t1) → 0 < t1.rc →
        t1.heap[p]? = s3.heap[p]? →
        (symbolCdr ev' (fuel' + 3) (some c) envsp').run t = .ok (v, t1)) := by
  obtain ⟨lp, hp'⟩ := pairAt_some hp
  obtain ⟨_, _, ln0, _, _, c0, _, _⟩ := listElems_three hcall2
  have hpos : (0 : Int) < LINF_SUCCEEDED := by decide
  constructor
  · obtain ⟨nl, hl⟩ := getElem?_set_some (z := ⟨.pair v tl, lp⟩) hp' c0
    have hkey : (s2.heap.set p (some ⟨.pair v tl, lp⟩)
        ++ [some ⟨.boolean true, nl.line⟩])[p]? = some (some ⟨.pair v tl, lp⟩) :=
      getElem?_set_append_self hp'
    refine ⟨_, symbolSetCar_ok hcall h1 hrc1 hcall1 h2 hrc2 hl hp', hpos, ?_, ?_⟩
    · simp only [pairAt, hkey]
    · intro ev' fuel' envsp' t t1 c op' e hc he hrc hsame
      rw [hkey] at hsame
      exact symbolCar_ok hc he hrc hsame
  · obtain ⟨nl, hl⟩ := getElem?_set_some (z := ⟨.pair hd v, lp⟩) hp' c0
    have hkey : (s2.heap.set p (some ⟨.pair hd v, lp⟩)
        ++ [some ⟨.boolean true, nl.line⟩])[p]? = some (some ⟨.pair hd v, lp⟩) :=
      getElem?_set_append_self hp'
    refine ⟨_, symbolSetCdr_ok hcall h1 hrc1 hcall1 h2 hrc2 hl hp', hpos, ?_, ?_⟩
    · simp only [pairAt, hkey]
    · intro ev' fuel' envsp' t t1 c op' e hc he hrc hsame
      rw [hkey] at hsame
      exact symbolCdr_ok hc he hrc hsame

/-- C3 at the example of the claim: in the state reached after `(define p (cons 1 2))`
and `(define q p)`, `(set-car! p 9)` stores node 19 in the Pair (node 33) and
`(car q)` then yields node 19, the Number 9; the whole program yields Number 9,
and so does its `set-cdr!`/`cdr` variant. -/
theorem pair_mutation_witness :
    (symbolSetCar (eval 50) 4 (some 22) 0).run aliasBefore = .ok (some 38, aliasAfter) ∧
    (symbolCar (eval 50) 3 (some 26) 0).run aliasAfter = .ok (some 19, aliasAfter) ∧
    aliasAfter.heap[19]? = some (some ⟨.number 9, 1⟩) ∧
    valueOf (interpret aliasProgram 100) = some ⟨.number 9, 1⟩ ∧
    valueOf (interpret aliasCdrProgram 100) = some ⟨.number 9, 1⟩ := by
  have a1 : listElems aliasBefore 3 (some 22) = some [some 17, some 18, some 19] := by decide!
  have a2 : (eval 50 (some 18) 0).run { aliasBefore with rc := LINF_SUCCEEDED }
      = .ok (some 33, aliasBefore) := by decide!
  have a3 : (0 : Int) < aliasBefore.rc := by decide!
  have a4 : (eval 50 (some 19) 0).run aliasBefore = .ok (some 19, aliasBefore) := by decide!
  have a5 : pairAt aliasBefore 33 = some (some 3, some 4) := by decide!
  have h2 : (symbolSetCar (eval 50) 4 (some 22) 0).run aliasBefore
      = .ok (some 38, aliasAfter) := by decide!
  have b1 : listElems aliasAfter 2 (some 26) = some [some 23, some 24] := by decide!
  have b2 : (eval 50 (some 24) 0).run { aliasAfter with rc := LINF_SUCCEEDED }
      = .ok (some 33, aliasAfter) := by decide!
  have b3 : (0 : Int) < aliasAfter.rc := by decide!
  have b4 : aliasAfter.heap[19]? = some (some ⟨.number 9, 1⟩) := by decide!
  obtain ⟨⟨s3, hrun, _, _, hcar⟩, _⟩ :=
    pair_mutation_visible_through_aliases (eval 50) 0 0 aliasBefore aliasBefore
      aliasBefore 22 33 (some 17) (some 18) (some 19) (some 19) (some 3) (some 4)
      a1 a2 a3 a1 a4 a3 a1 a5
  have hs3 : s3 = aliasAfter := (Prod.mk.inj (Except.ok.inj (hrun.symm.trans h2))).2
  exact ⟨h2, hcar (eval 50) 0 0 aliasAfter aliasAfter 26 (some 23) (some 24) b1 b2 b3
    (by rw [hs3]), b4, by decide!, by decide!⟩

/-- C9 as amended.  For every node whose variant is Boolean, Number, String or
Character, `eval` returns the node itself and leaves the whole interpreter state as
it was: neither the environment nor the status variable is read or written (the
status stays a success when it was one). -/
theorem eval_self_evaluating (fuel a : Nat) (envsp : EnvSP) (s : Lisp) (n : SynNode)
    (hn : s.heap[a]? = some (some n))
    (ht : n.object.type = .OBJTYPE_BOOLEAN ∨ n.object.type = .OBJTYPE_NUMBER ∨
      n.object.type = .OBJTYPE_STRING ∨ n.object.type = .OBJTYPE_CHARACTER) :
    (eval (fuel + 1) (some a) envsp).run s = .ok (some a, s) := by
  show eval (fuel + 1) (some a) envsp s = _
  simp only [eval, bind_ok (targetEval_ok hn), decide_eq_true ht, if_true, pure_apply]

/-- The amended C9 at a Number node, in an environment index that was never set up
and with a failing status on entry. -/
theorem eval_self_evaluating_witness :
    (eval 1 (some 0) 7).run { Lisp.init with heap := [some ⟨.number 5, 3⟩], rc := LERR_FAILED }
      = .ok (some 0, { Lisp.init with heap := [some ⟨.number 5, 3⟩], rc := LERR_FAILED }) :=
  eval_self_evaluating 0 0 7 _ ⟨.number 5, 3⟩ rfl (Or.inr (Or.inl rfl))

/-- C11.  In a state whose slot `sp` holds an environment in which the first frame
occurs once among the nodes of the environment, `defineVariable(sp, s, v)` succeeds
for every Symbol `s` and every `v`.  Afterwards `lookupVariable(sp, y)` succeeds with
`v` for every Symbol node `y` that has the name of `s`, the node `s` itself or any
other, whatever was bound to that name before; and for every Symbol of another name a
lookup that returned before the definition (a value or symbol-not-found) returns the
same afterwards. -/
theorem define_shadows_and_preserves (s : Lisp) (sp : EnvSP) (k n0 f l0 x lx : Nat)
    (tl v : Ptr) (name : String) (A : List Nat)
    (hin : inStack sp = true)
    (hslot : s.m_stack.lookup sp = some (some n0))
    (hn0 : s.heap[n0]? = some (some ⟨.pair (some f) tl, l0⟩))
    (hA : envNodes s.heap k (some n0) = some A) (hf : A.count f = 1)
    (hx : s.heap[x]? = some (some ⟨.symbol name, lx⟩)) :
    ∃ t, defineVariable sp (some x) v s = .ok (LINF_SUCCEEDED, t) ∧
      (∀ (fuel y ly : Nat), 2 ≤ fuel →
        t.heap[y]? = some (some ⟨.symbol name, ly⟩) →
        lookupVariable fuel sp (some y) t = .ok ((LINF_SUCCEEDED, v), t)) ∧
      t.heap[x]? = some (some ⟨.symbol name, lx⟩) ∧
      (∀ (y ly : Nat) (nm : String), s.heap[y]? = some (some ⟨.symbol nm, ly⟩) →
        t.heap[y]? = some (some ⟨.symbol nm, ly⟩)) ∧
      (∀ (fuel y ly : Nat) (nm : String) (r : Int × Ptr) (s1 : Lisp),
        s.heap[y]? = some (some ⟨.symbol nm, ly⟩) → nm ≠ name →
        lookupVariable fuel sp (some y) s = .ok (r, s1) →
        s1 = s ∧ ∀ fuel', fuel < fuel' → lookupVariable fuel' sp (some y) t = .ok (r, t)) := by
  obtain ⟨m, lf, pv, pl, vs, ls, rest, hcf, hvs, hls, hrest, hne, hfv, hfl, hfr⟩ :=
    envNodes_once hn0 hA hf
  have hsym : ∀ (y l : Nat) (nm' : String), s.heap[y]? = some (some ⟨.symbol nm', l⟩) →
      y ≠ f := by
    intro y l nm' hy e
    rw [e, hcf] at hy
    simp at hy
  have hlt : f < s.heap.length := getElem?_lt_of_some hcf
  have hx' : (definedHeap s.heap f lf (some x) v pv pl)[x]?
      = some (some ⟨.symbol name, lx⟩) := definedHeap_old (hsym _ _ _ hx) hx
  refine ⟨{ s with heap := definedHeap s.heap f lf (some x) v pv pl },
    defineVariable_ok (some x) v hin hslot hn0 hcf, ?_, hx',
    fun y ly nm hy => definedHeap_old (hsym _ _ _ hy) hy, ?_⟩
  · intro fuel y ly hfuel hy'
    obtain ⟨F, rfl⟩ : ∃ F, fuel = F + 2 := ⟨fuel - 2, by omega⟩
    rw [lookupVariable_read (s := { s with heap := definedHeap s.heap f lf (some x) v pv pl })
      (F + 2) hin hslot hy']
    have hch : lookupChainH (definedHeap s.heap f lf (some x) v pv pl) name (F + 2) (some n0)
        = .ok (some (some (s.heap.length + 1))) :=
      chain_step.mpr ⟨f, l0, lf, tl, _, _, definedHeap_old hne hn0, definedHeap_frame hlt,
        Or.inl ⟨_, frame_step.mpr ⟨some x, pv, 0, definedHeap_symbol hlt,
          Or.inl ⟨x, lx, rfl, hx', rfl⟩⟩, rfl⟩⟩
    rw [lookupH_some hch (definedHeap_value hlt)]
    rfl
  · intro fuel y ly nm r s1 hy hnm hold
    rw [lookupVariable_read fuel hin hslot hy] at hold
    obtain ⟨hlk, hs1⟩ := readIn_inv hold
    refine ⟨hs1, ?_⟩
    intro fuel' hfuel'
    have hy' : (definedHeap s.heap f lf (some x) v pv pl)[y]?
        = some (some ⟨.symbol nm, ly⟩) := definedHeap_old (hsym _ _ _ hy) hy
    rw [lookupVariable_read (s := { s with heap := definedHeap s.heap f lf (some x) v pv pl })
      fuel' hin hslot hy']
    rcases lookupH_ok hlk with ⟨hc, rfl⟩ | ⟨a, l, w, tl', hc, ha, rfl⟩
    · obtain ⟨h1, _⟩ :=
        define_keeps_chain (v := v) hn0 hcf hvs hls hrest hne hfv hfl hfr hx hnm hc
      rw [lookupH_none (lookupChainH_fuel_le hfuel' h1)]
      rfl
    · obtain ⟨h1, h2⟩ :=
        define_keeps_chain (v := v) hn0 hcf hvs hls hrest hne hfv hfl hfr hx hnm hc
      obtain ⟨a', e, hne'⟩ := h2 _ rfl
      simp only [Option.some.injEq] at e
      subst e
      rw [lookupH_some (lookupChainH_fuel_le hfuel' h1) (definedHeap_old hne' ha)]
      rfl

/-- C11 at the third definition of `( ( define x 1 ) ( define y 2 ) ( define x 3 ) z )`:
the global environment is the chain node 24 with the frame 23 and the cells 27, 25,
28, 26; `x` (node 13) is bound to Number 1 (node 2) and is given the value node 14.
The Symbol `x` of the first definition is the node 1, and the lookup through it yields
the node 14 as well. -/
theorem define_shadows_witness :
    (inStack 0 = true ∧
     defineReady.m_stack.lookup 0 = some (some 24) ∧
     defineReady.heap[24]? = some (some ⟨.pair (some 23) none, 0⟩) ∧
     envNodes defineReady.heap 10 (some 24) = some [24, 23, 27, 25, 28, 26] ∧
     [24, 23, 27, 25, 28, 26].count 23 = 1 ∧
     defineReady.heap[13]? = some (some ⟨.symbol "x", 1⟩) ∧
     defineReady.heap[1]? = some (some ⟨.symbol "x", 1⟩) ∧
     returned (lookupVariable 10 0 (some 13) defineReady) = some (LINF_SUCCEEDED, some 2) ∧
     returned (lookupVariable 10 0 (some 1) defineReady) = some (LINF_SUCCEEDED, some 2)) ∧
    ∃ t, defineVariable 0 (some 13) (some 14) defineReady = .ok (LINF_SUCCEEDED, t) ∧
      (∀ (fuel y ly : Nat), 2 ≤ fuel →
        t.heap[y]? = some (some ⟨.symbol "x", ly⟩) →
        lookupVariable fuel 0 (some y) t = .ok ((LINF_SUCCEEDED, some 14), t)) ∧
      t.heap[13]? = some (some ⟨.symbol "x", 1⟩) ∧
      (∀ (y ly : Nat) (nm : String), defineReady.heap[y]? = some (some ⟨.symbol nm, ly⟩) →
        t.heap[y]? = some (some ⟨.symbol nm, ly⟩)) ∧
      (∀ (fuel y ly : Nat) (nm : String) (r : Int × Ptr) (s1 : Lisp),
        defineReady.heap[y]? = some (some ⟨.symbol nm, ly⟩) → nm ≠ "x" →
        lookupVariable fuel 0 (some y) defineReady = .ok (r, s1) →
        s1 = defineReady ∧
          ∀ fuel', fuel < fuel' → lookupVariable fuel' 0 (some y) t = .ok (r, t)) :=
  ⟨⟨by decide, by decide!, by decide!, by decide!, by decide, by decide!, by decide!,
     by decide!, by decide!⟩,
   define_shadows_and_preserves defineReady 0 10 24 23 0 13 1 none (some 14) "x"
     [24, 23, 27, 25, 28, 26] (by decide) (by decide!) (by decide!) (by decide!) (by decide)
     (by decide!)⟩

/-- C12.  For a list of Symbols `params` and a list `args` of the same length, in a
state with a stack pointer that is not negative and for a parent index inside the
array, if `push(params, args, parent)` succeeds with index `n`, then
`lookupVariable(n, p)` returns the argument at the position of the first occurrence of
`p` in `params`, and for a Symbol that does not occur in `params` `lookupVariable(n, s)`
returns what `lookupVariable(parent, s)` returned before the push (a value or
symbol-not-found). -/
theorem push_binds_parameters (s t : Lisp) (params args : Ptr) (parent n : EnvSP)
    (k1 k2 : Nat) (xs vs : List Ptr) (names : List String)
    (hps : listElems s k1 params = some xs) (hnames : symbolNames s xs = some names)
    (hvs : listElems s k2 args = some vs) (hlen : xs.length = vs.length)
    (hsp : 0 ≤ s.m_sp) (hin : inStack parent = true)
    (hpush : push params args parent s = .ok ((LINF_SUCCEEDED, some n), t)) :
    (∀ (fuel x lx : Nat) (p : String) (v : Ptr), names.length + 1 < fuel →
        s.heap[x]? = some (some ⟨.symbol p, lx⟩) → p ∈ names →
        vs[names.indexOf p]? = some v →
        lookupVariable fuel n (some x) t = .ok ((LINF_SUCCEEDED, v), t)) ∧
    (∀ (fuel y ly : Nat) (nm : String) (r : Int × Ptr) (s1 : Lisp),
        s.heap[y]? = some (some ⟨.symbol nm, ly⟩) → nm ∉ names →
        lookupVariable fuel parent (some y) s = .ok (r, s1) →
        s1 = s ∧ ∀ fuel', fuel < fuel' → names.length + 1 < fuel' →
          lookupVariable fuel' n (some y) t = .ok (r, t)) := by
  obtain ⟨t0, hslot, rfl, hlt, rfl⟩ := push_inv hin hsp hpush
  have hle : ∀ (a : Nat) (nd : SynNode), s.heap[a]? = some (some nd) →
      (s.heap ++ [some ⟨.pair params args, 0⟩]
        ++ [some ⟨.pair (some s.heap.length) t0, 0⟩])[a]? = some (some nd) :=
    fun a nd ha => getElem?_append_some _ (getElem?_append_some _ ha)
  have hinN : inStack s.m_sp = true := inStack_of hsp (by omega)
  have hslotN : List.lookup s.m_sp ((s.m_sp, some (s.heap.length + 1)) :: s.m_stack)
      = some (some (s.heap.length + 1)) := by
    simp [List.lookup]
  have hframe : (s.heap ++ [some ⟨.pair params args, 0⟩]
      ++ [some ⟨.pair (some s.heap.length) t0, 0⟩])[s.heap.length]?
      = some (some ⟨.pair params args, 0⟩) := by
    rw [List.getElem?_append_left (by simp), List.getElem?_append_right (by omega)]
    simp
  have hchain : (s.heap ++ [some ⟨.pair params args, 0⟩]
      ++ [some ⟨.pair (some s.heap.length) t0, 0⟩])[s.heap.length + 1]?
      = some (some ⟨.pair (some s.heap.length) t0, 0⟩) := by
    rw [List.getElem?_append_right (by simp)]
    simp
  constructor
  · intro fuel x lx p v hfuel hx hp hv
    obtain ⟨F, rfl⟩ : ∃ F, fuel = F + 1 := ⟨fuel - 1, by omega⟩
    obtain ⟨_, hhit⟩ := frame_walk hle p names xs vs k1 k2 params args F hps hnames hvs hlen
      (by omega)
    obtain ⟨c, l, tl, hc, hcell⟩ := hhit hp v hv
    rw [lookupVariable_read _ hinN hslotN (hle _ _ hx)]
    rw [lookupH_some (chain_step.mpr ⟨_, _, _, _, _, _, hchain, hframe,
      Or.inl ⟨_, hc, rfl⟩⟩) hcell]
    rfl
  · intro fuel y ly nm r s1 hy hnot hold
    rw [lookupVariable_read fuel hin hslot hy] at hold
    obtain ⟨hlk, hs1⟩ := readIn_inv hold
    refine ⟨hs1, ?_⟩
    intro fuel' hf1 hf2
    obtain ⟨F, rfl⟩ : ∃ F, fuel' = F + 1 := ⟨fuel' - 1, by omega⟩
    obtain ⟨hmiss, _⟩ := frame_walk hle nm names xs vs k1 k2 params args F hps hnames hvs hlen
      (by omega)
    rw [lookupVariable_read _ hinN hslotN (hle _ _ hy)]
    rcases lookupH_ok hlk with ⟨hc, rfl⟩ | ⟨a, l, w, tl', hc, ha, rfl⟩
    · rw [lookupH_none (chain_step.mpr ⟨_, _, _, _, _, _, hchain, hframe,
        Or.inr ⟨hmiss hnot, lookupChainH_fuel_le (by omega) (lookupChainH_mono hle _ _ _ hc)⟩⟩)]
      rfl
    · rw [lookupH_some (chain_step.mpr ⟨_, _, _, _, _, _, hchain, hframe,
        Or.inr ⟨hmiss hnot, lookupChainH_fuel_le (by omega) (lookupChainH_mono hle _ _ _ hc)⟩⟩)
        (hle _ _ ha)]
      rfl

/-- C12 at the lists `(a b a)` (node 11) and `(1 2 3)` (node 17) of `pushProgram`,
pushed on the global frame in which `c` is bound to Number 7 (node 2): afterwards `a`
is bound to node 12, the first of its two arguments, `c` is still bound to node 2 and
`d` is still not found. -/
theorem push_binds_witness :
    (listElems pushReady 5 (some 11) = some [some 6, some 7, some 8] ∧
     symbolNames pushReady [some 6, some 7, some 8] = some ["a", "b", "a"] ∧
     listElems pushReady 5 (some 17) = some [some 12, some 13, some 14] ∧
     0 ≤ pushReady.m_sp ∧ inStack 0 = true ∧
     push (some 11) (some 17) 0 pushReady = .ok ((LINF_SUCCEEDED, some 0), pushDone) ∧
     returned (lookupVariable 10 0 (some 8) pushDone) = some (LINF_SUCCEEDED, some 12) ∧
     returned (lookupVariable 10 0 (some 18) pushDone) = some (LINF_SUCCEEDED, some 2) ∧
     returned (lookupVariable 10 0 (some 19) pushDone) = some (LERR_SYMBOL_NOT_FOUND, none)) ∧
    (∀ (fuel x lx : Nat) (p : String) (v : Ptr), ["a", "b", "a"].length + 1 < fuel →
        pushReady.heap[x]? = some (some ⟨.symbol p, lx⟩) → p ∈ ["a", "b", "a"] →
        [some 12, some 13, some 14][["a", "b", "a"].indexOf p]? = some v →
        lookupVariable fuel 0 (some x) pushDone = .ok ((LINF_SUCCEEDED, v), pushDone)) ∧
    (∀ (fuel y ly : Nat) (nm : String) (r : Int × Ptr) (s1 : Lisp),
        pushReady.heap[y]? = some (some ⟨.symbol nm, ly⟩) → nm ∉ ["a", "b", "a"] →
        lookupVariable fuel 0 (some y) pushReady = .ok (r, s1) →
        s1 = pushReady ∧ ∀ fuel', fuel < fuel' → ["a", "b", "a"].length + 1 < fuel' →
          lookupVariable fuel' 0 (some y) pushDone = .ok (r, pushDone)) :=
  ⟨⟨by decide!, by decide!, by decide!, by decide!, by decide,
    run_eq_of (by decide!) (by decide!), by decide!, by decide!, by decide!⟩,
   push_binds_parameters pushReady pushDone (some 11) (some 17) 0 0 5 5
     [some 6, some 7, some 8] [some 12, some 13, some 14] ["a", "b", "a"]
     (by decide!) (by decide!) (by decide!) (by decide) (by decide!) (by decide)
     (run_eq_of (by decide!) (by decide!))⟩

/-- C13, evaluated on the code.  `setVariable` deletes the node that was bound before
it overwrites the cell.  After `(define x 1)`, `(define y x)` and `(set! x 2)` the
lookup of `y` succeeds with node 2, which is deleted, and a following `(set! y 3)`
deletes that node a second time; a single `(set! x 2)` after `(define x 1)` does bind
`x` to Number 2.  For a Symbol that no frame of the chain binds, `setVariable` returns
symbol-not-found and leaves the state as it was, and `set!` reports the error. -/
theorem set_deletes_the_old_value :
    outcomeOf (interpret setTwiceLookProgram 100)
      = some (LINF_SUCCEEDED, some (some 2), some none) ∧
    faultOf (interpret setTwiceProgram 100) = some Fault.deleted ∧
    valueOf (interpret setOnceProgram 100) = some ⟨.number 2, 1⟩ ∧
    (∀ (fuel x lx : Nat) (sp : EnvSP) (name : String) (chain val : Ptr) (s : Lisp),
      inStack sp = true → s.m_stack.lookup sp = some chain →
      s.heap[x]? = some (some ⟨.symbol name, lx⟩) →
      lookupChainH s.heap name fuel chain = .ok none →
      setVariable fuel sp (some x) val s = .ok (LERR_SYMBOL_NOT_FOUND, s)) ∧
    statusOf (interpret setUnboundProgram 100) = some LERR_THROW_ERROR ∧
    (stateOf (interpret setUnboundProgram 100)).map (fun s => s.errors)
      = some [(1, "set: target variable was not found.")] := by
  refine ⟨by decide!, by decide!, by decide!, ?_, by decide!, by decide!⟩
  intro fuel x lx sp name chain val s hin hslot hx hch
  have hlk : lookupChain name fuel chain s = .ok (none, s) := by
    rw [lookupChain_read, hch]
    rfl
  have hf : LP_SUCCESS LERR_SYMBOL_NOT_FOUND = false := by decide
  simp only [setVariable, lookupVariableList, bind_assoc, bind_ok (typeOf_ok hx),
    objData.type, ne_eq, not_true_eq_false, if_false, bind_ok (node_ok hin hslot),
    bind_ok (symbolOf_ok hx), bind_ok hlk, pure_bind, hf, Bool.false_eq_true, pure_apply]

/-- C14, evaluated on the code.  After `(define p (cons 1 2))`, `(define q p)` and
`(set! p 0)` the Pair that `q` is still bound to (node 30) is deleted, and the run of
`(car q)` reads the deleted node instead of yielding Number 1. -/
theorem set_frees_the_shared_pair :
    outcomeOf (interpret setAliasLookProgram 100)
      = some (LINF_SUCCEEDED, some (some 30), some none) ∧
    faultOf (interpret setAliasProgram 100) = some Fault.deleted := by
  constructor <;> decide!

/-- C15.  In every state with `m_sp + 1 >= 2048`, `push` returns the stack-overflow
status and leaves the whole state as it was; in every state with `m_sp + 1 < 2048` a
call of `push` that returns reports success, stores `m_sp` in `*out` and increments
`m_sp`, and it does return when the parent slot is one that was written; after
`newenv` exactly 2047 consecutive calls of `push` succeed and the next one reports the
overflow. -/
theorem push_overflow_is_checked :
    (∀ (s : Lisp) (vars vals : Ptr) (sp : EnvSP), 2048 ≤ s.m_sp + 1 →
      push vars vals sp s = .ok ((LERR_STACK_OVERFLOWS, none), s)) ∧
    (∀ (s t : Lisp) (vars vals : Ptr) (sp : EnvSP) (r : Int × Option EnvSP),
      0 ≤ s.m_sp → s.m_sp + 1 < 2048 → push vars vals sp s = .ok (r, t) →
      r = (LINF_SUCCEEDED, some s.m_sp) ∧ t.m_sp = s.m_sp + 1) ∧
    (∀ (s : Lisp) (vars vals t0 : Ptr) (sp : EnvSP), 0 ≤ s.m_sp → s.m_sp + 1 < 2048 →
      inStack sp = true → s.m_stack.lookup sp = some t0 →
      ∃ t, push vars vals sp s = .ok ((LINF_SUCCEEDED, some s.m_sp), t)) ∧
    returned ((do
        let _ ← newenv
        pushes 2048 : M (List Int)).run Lisp.init)
      = some (List.replicate 2047 LINF_SUCCEEDED ++ [LERR_STACK_OVERFLOWS]) := by
  refine ⟨fun s vars vals sp h => push_full vars vals sp h,
    fun s t vars vals sp r _ h hr => push_room h hr,
    fun s vars vals t0 sp h0 h1 hin hs => ⟨_, push_ok hin hs h0 h1⟩, ?_⟩
  obtain ⟨e, hnew, hsp, hs0⟩ : ∃ e, newenv Lisp.init = .ok (LINF_SUCCEEDED, e) ∧ e.m_sp = 0 ∧
      (e.m_stack.lookup 0).isSome = true := ⟨_, rfl, rfl, rfl⟩
  obtain ⟨t, hsplit, _⟩ := pushes_until_full 2047 e (by omega) (by rw [hsp]; decide) hs0
  show returned ((newenv >>= fun _ => pushes 2048) Lisp.init) = _
  rw [bind_ok hnew, hsplit]
  rfl

/-- C16.  For every Pair whose head is a Symbol naming an entry of the table
`tokens`, `eval` runs the handler of that entry (and clears the result when the handler
left a failure status); the environment is not consulted for the name, whatever it
binds the name to. -/
theorem primitive_call_uses_table (fuel : Nat) (s : Lisp) (E : EnvSP) (cn hd l1 l2 : Nat)
    (rest : Ptr) (name : String) (tk : Token)
    (hcn : s.heap[cn]? = some (some ⟨.pair (some hd) rest, l1⟩))
    (hhd : s.heap[hd]? = some (some ⟨.symbol name, l2⟩))
    (hm : matchToken name = some tk) :
    tk.symbol = name ∧
    eval (fuel + 1) (some cn) E s = (do
      let val ← tk.eval (eval fuel) fuel (some cn) E
      if LP_SUCCESS (← getRc) then pure val else pure none : M Ptr) s := by
  refine ⟨?_, (eval_call hcn hhd).trans (evalCall_table hcn hhd hm)⟩
  have := List.find?_some hm
  simpa using this

/-- C16 at the example of the claim: after `(define car (lambda (x) 42))` the name
`car` is bound to the Function (node 25), and `(car (cons 1 2))` (node 20) is still
the run of `symbolCar` and yields Number 1. -/
theorem primitive_call_witness :
    returned ((lookupVariable 10 0 (some 12)).run shadowCarState)
      = some (LINF_SUCCEEDED, some 25) ∧
    shadowCarState.heap[25]? = some (some ⟨.func (some 4) (some 6) 0, 1⟩) ∧
    ((returned ((eval 50 (some 20) 0).run shadowCarState)).bind id).bind
        (fun a => shadowCarState.heap[a]?) = some (some ⟨.number 1, 1⟩) ∧
    valueOf (interpret shadowCarProgram 100) = some ⟨.number 1, 1⟩ ∧
    (shadowCarState.heap[20]? = some (some ⟨.pair (some 12) (some 19), 1⟩) ∧
     shadowCarState.heap[12]? = some (some ⟨.symbol "car", 1⟩) ∧
     matchToken "car" = some ⟨"car", symbolCar⟩ ∧
     (Token.symbol ⟨"car", symbolCar⟩ = "car" ∧
      eval (49 + 1) (some 20) 0 shadowCarState = (do
        let val ← symbolCar (eval 49) 49 (some 20) 0
        if LP_SUCCESS (← getRc) then pure val else pure none : M Ptr) shadowCarState)) :=
  ⟨by decide!, by decide!, by decide!, by decide!, by decide!, by decide!, matchToken_car,
    primitive_call_uses_table 49 shadowCarState 0 20 12 1 1 (some 19) "car" ⟨"car", symbolCar⟩
      (by decide!) (by decide!) matchToken_car⟩

/-- C17, evaluated on the code.  The comparisons and the type predicates do not count
their operands: each of `(= 1 2 3)`, `(> 1 2 3)`, `(< 1 2 3)`, `(>= 1 2 3)`,
`(<= 1 2 3)`, `(boolean? 1 2)`, `(number? 1 2)`, `(char? 1 2)`, `(string? 1 2)` ends
with the success status, `(= 1 2 3)` yields Boolean false and `(number? 1 2)` yields
Boolean true, and `(= 1)` reads through a null pointer.  A form that does call
`validateSyntax`, such as `(- 1 2 3)`, ends with the syntax-error status. -/
theorem comparisons_accept_surplus_operands :
    (∀ p ∈ surplusOperandPrograms, statusOf (interpret p 100) = some LINF_SUCCEEDED) ∧
    valueOf (interpret equalThreeProgram 100) = some ⟨.boolean false, 1⟩ ∧
    valueOf (interpret numberPTwoProgram 100) = some ⟨.boolean true, 1⟩ ∧
    faultOf (interpret equalOneProgram 100) = some Fault.nullDeref ∧
    statusOf (interpret subThreeProgram 100) = some LERR_SYNTAX_ERROR := by
  refine ⟨?_, ?_, ?_, ?_, ?_⟩ <;> decide!

/-- C18, evaluated on the code.  A call with fewer operands than parameters, `(f 1)`
for `(lambda (x y) x)`, and a call with operands of a Function without parameters,
`(f 1)` for `(lambda () 7)`, read through a null pointer.  A call with more operands
than parameters, and a call without operands of a Function with a parameter, end
with the error "invalid number of actual parameters of target function."; a call with
as many operands as parameters succeeds. -/
theorem short_call_reads_null :
    faultOf (interpret tooFewProgram 100) = some Fault.nullDeref ∧
    faultOf (interpret noParamProgram 100) = some Fault.nullDeref ∧
    statusOf (interpret tooManyProgram 100) = some LERR_THROW_ERROR ∧
    (stateOf (interpret tooManyProgram 100)).map (fun s => s.errors)
      = some [(1, "invalid number of actual parameters of target function.")] ∧
    statusOf (interpret noOperandProgram 100) = some LERR_THROW_ERROR ∧
    (stateOf (interpret noOperandProgram 100)).map (fun s => s.errors)
      = some [(1, "invalid number of actual parameters of target function.")] ∧
    valueOf (interpret sameCountProgram 100) = some ⟨.number 2, 1⟩ := by
  refine ⟨?_, ?_, ?_, ?_, ?_, ?_, ?_⟩ <;> decide!

/-- C20, evaluated on the code.  For `(cond ((nofn) 1))`, whose test calls an unbound
function, the loop of `symbolCond` stays at the clause after the test has failed and
evaluates the test again: whatever the number of steps allowed, the run is still in
that loop when they are used up and never returns the failure status. -/
theorem cond_retries_failing_test_forever (fuel : Nat) :
    faultOf (interpret condFailProgram fuel) = some Fault.outOfFuel := by
  have hparse : (do
      Lisp.setPrintAtomCallback
      Lisp.parser condFailProgram : M Int) Lisp.init = .ok (LINF_SUCCEEDED, condFailParsed) :=
    run_eq_of (by decide!) (by decide!)
  obtain ⟨e, hnew, hast, h8, h7, h0, hinv⟩ : ∃ e, newenv condFailParsed = .ok (LINF_SUCCEEDED, e) ∧
      e.m_ast = some 8 ∧
      e.heap[8]? = some (some ⟨.pair (some 7) none, 1⟩) ∧
      e.heap[7]? = some (some ⟨.pair (some 0) (some 6), 1⟩) ∧
      e.heap[0]? = some (some ⟨.symbol "cond", 1⟩) ∧
      CondFailInv e :=
    ⟨_, rfl, rfl, rfl, rfl, rfl, rfl, rfl, rfl, rfl, rfl, rfl, rfl⟩
  match fuel with
  | 0 => decide!
  | 1 => decide!
  | 2 => decide!
  | 3 => decide!
  | f + 4 =>
    have htest : ∀ s : Lisp, CondFailInv s →
        eval (f + 3) (some 2) 0 s = .ok (none,
          { s with rc := LERR_THROW_ERROR,
                   errors := s.errors ++ [(1, "target function was not found")] }) := by
      intro s ⟨_, _, h2, h1, h10, h9, hslot⟩
      have hfr : lookupFrame "nofn" (f + 1) none none s = .ok (none, s) := lookupFrame_end _
      have hch : lookupChain "nofn" (f + 1 + 1) (some 10) s = .ok (none, s) := by
        rw [lookupChain_miss h10 h9 hfr]; exact lookupChain_end
      have hlk : lookupVariable (f + 2) 0 (some 1) s = _ :=
        lookupVariable_missing (by decide) h1 hslot hch
      exact (eval_call h2 h1).trans (evalCall_unbound h2 h1 matchToken_nofn hlk)
    have hstuck : condLoop (eval (f + 3)) (f + 3) 0 (f + 3) (some 6)
        { e with rc := LINF_SUCCEEDED } = .error Fault.outOfFuel :=
      condLoop_stuck CondFailInv
        (fun s hs => ⟨none, some 4, none, 1, 1, _, _, hs.1, hs.2.1, hs.2.2.1,
          by simp [objData.type], htest s hs, show LERR_THROW_ERROR < 1 by decide,
          hs.1, hs.2.1, hs.2.2.1, hs.2.2.2.1, hs.2.2.2.2.1, hs.2.2.2.2.2.1, hs.2.2.2.2.2.2⟩)
        (f + 3) { e with rc := LINF_SUCCEEDED } hinv
    have h7' : ({ e with rc := LINF_SUCCEEDED } : Lisp).heap[7]? = _ := h7
    have h8' : ({ e with rc := LINF_SUCCEEDED } : Lisp).heap[8]? = _ := h8
    have hcond : symbolCond (eval (f + 3)) (f + 3) (some 7) 0 { e with rc := LINF_SUCCEEDED }
        = .error Fault.outOfFuel := by
      simp only [symbolCond, bind_ok (OBJ_NEXT_ok h7'), hstuck]
    have hev : eval (f + 3 + 1) (some 7) 0 { e with rc := LINF_SUCCEEDED }
        = .error Fault.outOfFuel := by
      rw [eval_call h7' h0, evalCall_table h7' h0 matchToken_cond]
      exact bind_error hcond
    have hdisp : dispatchEvaling (eval (f + 4)) (f + 4) (some 8) 0
        { e with rc := LINF_SUCCEEDED } = .error Fault.outOfFuel := by
      simp only [dispatchEvaling, dispatchLoop, Option.isSome_some, if_true,
        bind_ok (typeOf_ok h8'), objData.type, ne_eq, not_true_eq_false, if_false,
        bind_ok (OBJ_LEAF_ok h8')]
      exact bind_error hev
    have hdisp' : dispatchEvaling (eval (f + 4)) (f + 4) e.m_ast 0
        { e with rc := LINF_SUCCEEDED } = .error Fault.outOfFuel :=
      (congrArg (fun p => dispatchEvaling (eval (f + 4)) (f + 4) p 0
        { e with rc := LINF_SUCCEEDED }) hast).trans hdisp
    have hp : condFailParsed.m_parsed = true := rfl
    have hrun : Lisp.run (f + 4) condFailParsed = .error Fault.outOfFuel := by
      simp only [Lisp.run, bind_ok (get_apply _), hp, Bool.not_true, Bool.false_eq_true,
        if_false, bind_ok hnew, bind_ok (setRc_apply _ _), bind_ok (getRc_apply _),
        LP_SUCCESS_one, if_true]
      exact bind_error hdisp'
    have hall : interpret condFailProgram (f + 4) = .error Fault.outOfFuel := by
      show (do
        Lisp.setPrintAtomCallback
        let rc ← Lisp.parser condFailProgram
        if LP_SUCCESS rc then Lisp.run (f + 4) else pure (rc, none) : M (Int × Option Ptr))
        Lisp.init = _
      have h1 : Lisp.setPrintAtomCallback Lisp.init
          = .ok ((), { Lisp.init with m_printAtom := true }) := rfl
      have h2 : Lisp.parser condFailProgram { Lisp.init with m_printAtom := true }
          = .ok (LINF_SUCCEEDED, condFailParsed) := by
        have := hparse
        rw [bind_ok h1] at this
        exact this
      simp only [bind_ok h1, bind_ok h2, LP_SUCCESS_one, if_true, hrun]
    rw [hall]; rfl

/-- C21, evaluated on the code.  The handlers of `+`, `*` and of the comparisons do not test the
status after an operand is evaluated: when the evaluation of the first operand ends
without a node (as a failed one does), `symbolAdd` and `symbolMul` read the variant of
the absent result, and `cmpInner` first evaluates the second operand as well and then
reads the variant of the absent first result.  So `(+ u 1)`, `(* u 1)` and
`(= u (display 1))` with `u` undefined leave defined behaviour instead of returning
the lookup error, and in the last one the operand `(display 1)` is evaluated (it hands
the number 1 to the print callback) after the lookup of `u` has failed.  The handler
of `-`, which tests the status, returns the lookup error and prints nothing. -/
theorem failed_operand_is_dereferenced :
    (∀ (ev : Eval) (envsp : EnvSP) (fuel cn a l0 l1 : Nat) (hd e tl : Ptr) (s s1 : Lisp),
      s.heap[cn]? = some (some ⟨.pair hd (some a), l0⟩) →
      s.heap[a]? = some (some ⟨.pair e tl, l1⟩) →
      ev e envsp s = .ok (none, s1) →
      symbolAdd ev (fuel + 1) (some cn) envsp s = .error Fault.nullDeref ∧
      symbolMul ev (fuel + 1) (some cn) envsp s = .error Fault.nullDeref) ∧
    (∀ (ev : Eval) (envsp : EnvSP) (op : CmpOpcode) (cn a b l0 l1 l2 : Nat)
        (hd e1 e2 tl v2 : Ptr) (s s1 s2 : Lisp),
      s.heap[cn]? = some (some ⟨.pair hd (some a), l0⟩) →
      s.heap[a]? = some (some ⟨.pair e1 (some b), l1⟩) →
      ev e1 envsp s = .ok (none, s1) →
      s1.heap[cn]? = some (some ⟨.pair hd (some a), l0⟩) →
      s1.heap[a]? = some (some ⟨.pair e1 (some b), l1⟩) →
      s1.heap[b]? = some (some ⟨.pair e2 tl, l2⟩) →
      ev e2 envsp s1 = .ok (v2, s2) →
      cmpInner ev (some cn) envsp op s = .error Fault.nullDeref) ∧
    faultOf (interpret addUndefinedProgram 100) = some Fault.nullDeref ∧
    faultOf (interpret mulUndefinedProgram 100) = some Fault.nullDeref ∧
    faultOf (interpret equalUndefinedProgram 100) = some Fault.nullDeref ∧
    (equalReady.heap[8]? = some (some ⟨.pair (some 0) (some 7), 1⟩) ∧
     equalReady.heap[7]? = some (some ⟨.pair (some 1) (some 6), 1⟩) ∧
     equalReady.heap[6]? = some (some ⟨.pair (some 5) none, 1⟩) ∧
     equalReady.heap[1]? = some (some ⟨.symbol "u", 1⟩) ∧
     equalReady.heap[3]? = some (some ⟨.number 1, 1⟩) ∧
     returned (eval 50 (some 1) 0 equalReady) = some none ∧
     stateOf (eval 50 (some 1) 0 equalReady) = some equalFailed ∧
     equalFailed.rc = LERR_THROW_ERROR ∧
     equalFailed.errors = [(1, "variable was not found.")] ∧
     equalFailed.printed = [] ∧
     printedOf (eval 50 (some 5) 0 equalFailed) = some [(some 3, true)]) ∧
    statusOf (interpret subUndefinedProgram 100) = some LERR_THROW_ERROR ∧
    errorsOf (interpret subUndefinedProgram 100) = some [(1, "variable was not found.")] ∧
    printedOf (interpret subUndefinedProgram 100) = some [] := by
  refine ⟨?_, ?_, ?_, ?_, ?_, ?_, ?_, ?_, ?_⟩
  · intro ev envsp fuel cn a l0 l1 hd e tl s s1 hcn ha hev
    exact ⟨symbolAdd_nil hcn ha hev, symbolMul_nil hcn ha hev⟩
  · intro ev envsp op cn a b l0 l1 l2 hd e1 e2 tl v2 s s1 s2 hcn ha hev1 hcn1 ha1 hb1 hev2
    exact cmpInner_nil hcn ha hev1 hcn1 ha1 hb1 hev2
  · decide!
  · decide!
  · decide!
  · decide!
  · decide!
  · decide!
  · decide!

/-- C22, evaluated on the code.  `symbolAppend` evaluates the first operand a second time where
the second operand is meant, so the second operand is never evaluated and the tail of
the terminal Pair of the first list is set to the first list itself.  For
`(append (quote (1 2)) (quote (3)))` the call succeeds and returns the Pair at
address 5, whose chain of tails goes to the Pair at 4 and from there back to 5: it is
not a finite list of any length, and the number 3 is not among its elements.  With
`(display 3)` as second operand nothing is printed, and with an undefined variable as
second operand no error is reported. -/
theorem append_links_the_first_list_to_itself :
    outcomeOf (interpret appendProgram 100)
      = some (LINF_SUCCEEDED, some (some 5), some (some ⟨.pair (some 2) (some 4), 1⟩)) ∧
    appendResult.heap[4]? = some (some ⟨.pair (some 3) (some 5), 1⟩) ∧
    appendResult.heap[2]? = some (some ⟨.number 1, 1⟩) ∧
    appendResult.heap[3]? = some (some ⟨.number 2, 1⟩) ∧
    appendResult.heap[9]? = some (some ⟨.number 3, 1⟩) ∧
    (∀ n, listElems appendResult n (some 5) = none) ∧
    statusOf (interpret appendDisplayProgram 100) = some LINF_SUCCEEDED ∧
    printedOf (interpret appendDisplayProgram 100) = some [] ∧
    statusOf (interpret appendUndefinedProgram 100) = some LINF_SUCCEEDED ∧
    errorsOf (interpret appendUndefinedProgram 100) = some [] := by
  have h5 : appendResult.heap[5]? = some (some ⟨.pair (some 2) (some 4), 1⟩) := by decide!
  have h4 : appendResult.heap[4]? = some (some ⟨.pair (some 3) (some 5), 1⟩) := by decide!
  refine ⟨?_, h4, ?_, ?_, ?_, fun n => (listElems_cycle h5 h4 n).1, ?_, ?_, ?_, ?_⟩
  · decide!
  · decide!
  · decide!
  · decide!
  · decide!
  · decide!
  · decide!
  · decide!

/-- C23, evaluated on the code.  `symbolCar` and `symbolCdr` test the status of the evaluation of
the operand and then read the variant of the result without testing that there is
one.  An operand that evaluates to nil with success, as `(quote ())` and
`(cdr (quote (1)))` do, makes them read through the null pointer instead of reporting
an error.  For a result node that is not a Pair (an atom or a Function) they report
the error, and for a Pair they return its head and its tail. -/
theorem car_of_nil_reads_null :
    (∀ (ev : Eval) (fuel : Nat) (envsp : EnvSP) (t t1 : Lisp) (c : Nat) (op e : Ptr),
      listElems t 2 (some c) = some [op, e] →
      ev e envsp { t with rc := LINF_SUCCEEDED } = .ok (none, t1) → 0 < t1.rc →
      symbolCar ev (fuel + 3) (some c) envsp t = .error Fault.nullDeref ∧
      symbolCdr ev (fuel + 3) (some c) envsp t = .error Fault.nullDeref) ∧
    faultOf (interpret carNilProgram 100) = some Fault.nullDeref ∧
    faultOf (interpret carEndProgram 100) = some Fault.nullDeref ∧
    faultOf (interpret cdrNilProgram 100) = some Fault.nullDeref ∧
    (∀ (ev : Eval) (fuel : Nat) (envsp : EnvSP) (t t1 : Lisp) (c p : Nat) (op e : Ptr)
        (n nc : SynNode),
      listElems t 2 (some c) = some [op, e] →
      ev e envsp { t with rc := LINF_SUCCEEDED } = .ok (some p, t1) → 0 < t1.rc →
      t1.heap[p]? = some (some n) → n.object.type ≠ .OBJTYPE_PAIR →
      t1.heap[c]? = some (some nc) →
      symbolCar ev (fuel + 3) (some c) envsp t = .ok (none,
        { t1 with rc := LERR_THROW_ERROR,
                  errors := t1.errors ++ [(nc.line, "car - the result is invalid.")] }) ∧
      symbolCdr ev (fuel + 3) (some c) envsp t = .ok (none,
        { t1 with rc := LERR_THROW_ERROR,
                  errors := t1.errors ++ [(nc.line, "cdr - the result is invalid.")] })) ∧
    (∀ (ev : Eval) (fuel : Nat) (envsp : EnvSP) (t t1 : Lisp) (c p lp : Nat)
        (op e hd tl : Ptr),
      listElems t 2 (some c) = some [op, e] →
      ev e envsp { t with rc := LINF_SUCCEEDED } = .ok (some p, t1) → 0 < t1.rc →
      t1.heap[p]? = some (some ⟨.pair hd tl, lp⟩) →
      symbolCar ev (fuel + 3) (some c) envsp t = .ok (hd, t1) ∧
      symbolCdr ev (fuel + 3) (some c) envsp t = .ok (tl, t1)) ∧
    statusOf (interpret carNumberProgram 100) = some LERR_THROW_ERROR ∧
    errorsOf (interpret carNumberProgram 100) = some [(1, "car - the result is invalid.")] ∧
    statusOf (interpret cdrNumberProgram 100) = some LERR_THROW_ERROR ∧
    errorsOf (interpret cdrNumberProgram 100) = some [(1, "cdr - the result is invalid.")] ∧
    statusOf (interpret carFunctionProgram 100) = some LERR_THROW_ERROR ∧
    valueOf (interpret carPairProgram 100) = some ⟨.number 1, 1⟩ ∧
    valueOf (interpret cdrPairProgram 100) = some ⟨.pair (some 3) none, 1⟩ := by
  refine ⟨?_, ?_, ?_, ?_, ?_, ?_, ?_, ?_, ?_, ?_, ?_, ?_, ?_⟩
  · intro ev fuel envsp t t1 c op e hcall h1 hrc
    exact ⟨symbolCar_nil hcall h1 hrc, symbolCdr_nil hcall h1 hrc⟩
  · decide!
  · decide!
  · decide!
  · intro ev fuel envsp t t1 c p op e n nc hcall h1 hrc hp hty hc
    exact ⟨symbolCar_mismatch hcall h1 hrc hp hty hc, symbolCdr_mismatch hcall h1 hrc hp hty hc⟩
  · intro ev fuel envsp t t1 c p lp op e hd tl hcall h1 hrc hp
    exact ⟨symbolCar_ok hcall h1 hrc hp, symbolCdr_ok hcall h1 hrc hp⟩
  · decide!
  · decide!
  · decide!
  · decide!
  · decide!
  · decide!
  · decide!

/-- C24.  The type predicates read the variant of the operand node as it stands in
the call and never evaluate it.  For each of `boolean?`, `number?`, `char?` and
`string?` and every call whose first operand is a node `n` (not nil), the evaluation
of the call appends one Boolean to the store, changes nothing else but the status,
which is success, and returns that Boolean; it is true exactly when `n` has the
variant the predicate names. -/
theorem type_predicate_reads_operand_node (fuel : Nat) (s : Lisp) (E : EnvSP)
    (cn h a1 x l0 l1 lh : Nat) (tl : Ptr) (n : SynNode) (name : String) (ty : objType)
    (hname : (name, ty) ∈ typePredicates)
    (hcn : s.heap[cn]? = some (some ⟨.pair (some h) (some a1), l0⟩))
    (hh : s.heap[h]? = some (some ⟨.symbol name, lh⟩))
    (ha1 : s.heap[a1]? = some (some ⟨.pair (some x) tl, l1⟩))
    (hx : s.heap[x]? = some (some n)) :
    eval (fuel + 1) (some cn) E s = .ok (some s.heap.length,
      { s with heap := s.heap ++ [some ⟨.boolean (decide (ty = n.object.type)), l0⟩],
               rc := LINF_SUCCEEDED }) := by
  have hpos : (0 : Int) < LINF_SUCCEEDED := by decide
  simp only [typePredicates, List.mem_cons, Prod.mk.injEq, List.mem_singleton,
    List.not_mem_nil, or_false] at hname
  rw [eval_call hcn hh]
  rcases hname with ⟨rfl, rfl⟩ | ⟨rfl, rfl⟩ | ⟨rfl, rfl⟩ | ⟨rfl, rfl⟩
  · exact evalCall_token hcn hh matchToken_booleanP (predTypeInner_ok E _ hcn ha1 hx) hpos
  · exact evalCall_token hcn hh matchToken_numberP (predTypeInner_ok E _ hcn ha1 hx) hpos
  · exact evalCall_token hcn hh matchToken_charP (predTypeInner_ok E _ hcn ha1 hx) hpos
  · exact evalCall_token hcn hh matchToken_stringP (predTypeInner_ok E _ hcn ha1 hx) hpos

/-- C24 at the call `(number? x)` with `x` bound to 5, and the three
examples: `(number? 5)` is true, `(number? x)` and `(number? (+ 1 2))` are false. -/
theorem type_predicate_witness :
    (("number?", objType.OBJTYPE_NUMBER) ∈ typePredicates ∧
     numberPReady.heap[9]? = some (some ⟨.pair (some 6) (some 8), 1⟩) ∧
     numberPReady.heap[6]? = some (some ⟨.symbol "number?", 1⟩) ∧
     numberPReady.heap[8]? = some (some ⟨.pair (some 7) none, 1⟩) ∧
     numberPReady.heap[7]? = some (some ⟨.symbol "x", 1⟩) ∧
     returned (lookupVariable 10 0 (some 7) numberPReady) = some (LINF_SUCCEEDED, some 2) ∧
     numberPReady.heap[2]? = some (some ⟨.number 5, 1⟩)) ∧
    eval (49 + 1) (some 9) 0 numberPReady = .ok (some numberPReady.heap.length,
      { numberPReady with
          heap := numberPReady.heap ++ [some ⟨.boolean (decide (objType.OBJTYPE_NUMBER
            = (SynNode.mk (.symbol "x") 1).object.type)), 1⟩],
          rc := LINF_SUCCEEDED }) ∧
    valueOf (interpret numberPFiveProgram 100) = some ⟨.boolean true, 1⟩ ∧
    valueOf (interpret numberPSymbolProgram 100) = some ⟨.boolean false, 1⟩ ∧
    valueOf (interpret numberPCallProgram 100) = some ⟨.boolean false, 1⟩ :=
  ⟨⟨by decide, by decide!, by decide!, by decide!, by decide!, by decide!, by decide!⟩,
   type_predicate_reads_operand_node 49 numberPReady 0 9 6 8 7 1 1 1 none ⟨.symbol "x", 1⟩
     "number?" .OBJTYPE_NUMBER (by decide) (by decide!) (by decide!) (by decide!) (by decide!),
   by decide!, by decide!, by decide!⟩

/-- C25, evaluated on the code.  The folds of `+` and `*`.  Let the operands of the call evaluate
one after the other to the Numbers `ns`, up to the cell `q` of the operand list
(`EvalsNumbers`).  If `q` is the end of the list, `symbolAdd` returns a new Number
with the sum of `ns` (0 for no operand) and `symbolMul` one with the product (1 for no
operand).  If the operand at `q` evaluates to a node that is not a Number, both fail
with the status `LERR_THROW_ERROR` and the diagnostic of the type mismatch.  If that
operand evaluates to nil, which is not a Number either, the handlers read the variant
through the null pointer instead of failing with an error. -/
theorem add_and_mul_fold_numbers (ev : Eval) (envsp : EnvSP) (fuel cn l0 : Nat) (hd p q : Ptr)
    (s t : Lisp) (ns : List Rat)
    (hcn : s.heap[cn]? = some (some ⟨.pair hd p, l0⟩))
    (hnum : EvalsNumbers ev envsp p s ns q t) (hfuel : ns.length < fuel) :
    (q = none →
      symbolAdd ev fuel (some cn) envsp s = .ok (some t.heap.length,
        { t with heap := t.heap ++ [some ⟨.number ns.sum, l0⟩], rc := LINF_SUCCEEDED }) ∧
      symbolMul ev fuel (some cn) envsp s = .ok (some t.heap.length,
        { t with heap := t.heap ++ [some ⟨.number ns.prod, l0⟩], rc := LINF_SUCCEEDED })) ∧
    (∀ (b x r l1 : Nat) (tl : Ptr) (t1 : Lisp) (nx nr : SynNode), q = some b →
      t.heap[b]? = some (some ⟨.pair (some x) tl, l1⟩) →
      ev (some x) envsp t = .ok (some r, t1) →
      t1.heap[r]? = some (some nr) → nr.object.type ≠ .OBJTYPE_NUMBER →
      t1.heap[x]? = some (some nx) →
      symbolAdd ev fuel (some cn) envsp s = .ok (none,
        { t1 with rc := LERR_THROW_ERROR,
                  errors := t1.errors ++ [(nx.line, "add - operand(s) type mismatched.")] }) ∧
      symbolMul ev fuel (some cn) envsp s = .ok (none,
        { t1 with rc := LERR_THROW_ERROR,
                  errors := t1.errors ++ [(nx.line, "mul - operand(s) type mismatched.")] })) ∧
    (∀ (b l1 : Nat) (e tl : Ptr) (t1 : Lisp), q = some b →
      t.heap[b]? = some (some ⟨.pair e tl, l1⟩) →
      ev e envsp t = .ok (none, t1) →
      symbolAdd ev fuel (some cn) envsp s = .error Fault.nullDeref ∧
      symbolMul ev fuel (some cn) envsp s = .error Fault.nullDeref) := by
  obtain ⟨k, rfl⟩ : ∃ k, fuel = (k + 1) + ns.length := ⟨fuel - ns.length - 1, by omega⟩
  have hadd : ∀ x : Option Rat → M Ptr, (addLoop ev envsp (k + 1 + ns.length) p 0 >>= x) s
      = (addLoop ev envsp (k + 1) q ns.sum >>= x) t := by
    intro x
    rw [bind_apply, bind_apply, addLoop_numbers hnum (k + 1) 0, zero_add]
  have hmul : ∀ x : Option Rat → M Ptr, (mulLoop ev envsp (k + 1 + ns.length) p 1 >>= x) s
      = (mulLoop ev envsp (k + 1) q ns.prod >>= x) t := by
    intro x
    rw [bind_apply, bind_apply, mulLoop_numbers hnum (k + 1) 1, one_mul]
  have hpos : (0 : Int) < LINF_SUCCEEDED := by decide
  refine ⟨?_, ?_, ?_⟩
  · rintro rfl
    constructor
    · simp only [symbolAdd, bind_ok (lineOf_ok hcn), bind_ok (OBJ_NEXT_ok hcn), hadd,
        bind_ok (addLoop_end _ _), bind_ok (createAtom_apply _ _ _), bind_ok (getRc_apply _),
        LP_SUCCESS_of_pos hpos, if_true, pure_apply]
    · simp only [symbolMul, bind_ok (lineOf_ok hcn), bind_ok (OBJ_NEXT_ok hcn), hmul,
        bind_ok (mulLoop_end _ _), bind_ok (createAtom_apply _ _ _), bind_ok (getRc_apply _),
        LP_SUCCESS_of_pos hpos, if_true, pure_apply]
  · rintro b x r l1 tl t1 nx nr rfl hb hev hr hty hx
    constructor
    · simp only [symbolAdd, bind_ok (lineOf_ok hcn), bind_ok (OBJ_NEXT_ok hcn), hadd,
        bind_ok (addLoop_mismatch _ hb hev hr hty hx), pure_apply]
    · simp only [symbolMul, bind_ok (lineOf_ok hcn), bind_ok (OBJ_NEXT_ok hcn), hmul,
        bind_ok (mulLoop_mismatch _ hb hev hr hty hx), pure_apply]
  · rintro b l1 e tl t1 rfl hb hev
    constructor
    · simp only [symbolAdd, bind_ok (lineOf_ok hcn), bind_ok (OBJ_NEXT_ok hcn), hadd,
        bind_error (addLoop_nil _ hb hev)]
    · simp only [symbolMul, bind_ok (lineOf_ok hcn), bind_ok (OBJ_NEXT_ok hcn), hmul,
        bind_error (mulLoop_nil _ hb hev)]

/-- C25 at the call `(+ 1 2 3)`, and the examples: `(+ 1 2 3)` is 6,
`(*)` is 1, `(+)` is 0, `(* 2 3 4)` is 24, `(+ 1 #t)` fails with the error of the
type mismatch, and `(+ 1 (quote ()))` reads through the null pointer. -/
theorem add_and_mul_fold_witness :
    (addReady.heap[7]? = some (some ⟨.pair (some 0) (some 6), 1⟩) ∧
     EvalsNumbers (eval 50) 0 (some 6) addReady [1, 2, 3] none addReady ∧
     ([1, 2, 3] : List Rat).length < 50) ∧
    (symbolAdd (eval 50) 50 (some 7) 0 addReady = .ok (some addReady.heap.length,
      { addReady with heap := addReady.heap ++ [some ⟨.number ([1, 2, 3] : List Rat).sum, 1⟩],
                      rc := LINF_SUCCEEDED }) ∧
     symbolMul (eval 50) 50 (some 7) 0 addReady = .ok (some addReady.heap.length,
      { addReady with heap := addReady.heap ++ [some ⟨.number ([1, 2, 3] : List Rat).prod, 1⟩],
                      rc := LINF_SUCCEEDED })) ∧
    ([1, 2, 3] : List Rat).sum = 6 ∧
    valueOf (interpret addThreeProgram 100) = some ⟨.number 6, 1⟩ ∧
    valueOf (interpret mulNoneProgram 100) = some ⟨.number 1, 1⟩ ∧
    valueOf (interpret addNoneProgram 100) = some ⟨.number 0, 1⟩ ∧
    valueOf (interpret mulThreeProgram 100) = some ⟨.number 24, 1⟩ ∧
    statusOf (interpret addBooleanProgram 100) = some LERR_THROW_ERROR ∧
    errorsOf (interpret addBooleanProgram 100)
      = some [(1, "add - operand(s) type mismatched.")] ∧
    faultOf (interpret addNilProgram 100) = some Fault.nullDeref :=
  ⟨⟨by decide!, addReady_numbers, by decide⟩,
   (add_and_mul_fold_numbers (eval 50) 0 50 7 1 (some 0) (some 6) none addReady addReady
      [1, 2, 3] (by decide!) addReady_numbers (by decide)).1 rfl,
   by norm_num, by decide!, by decide!, by decide!, by decide!, by decide!, by decide!,
   by decide!⟩

/-- C26.  The operands of a call of a user-defined Function are evaluated from left
to right, once each, in the environment of the caller, and before the body runs.
For a call `cn` of the Function `fn` whose first operand `e1` evaluates with success
and whose further operands `es` are evaluated in the order of the list with the
results `rs` (`OperandsRun`, whose steps are chained through the states, so that an
operand starts in the state in which the operand before it ended), `evalList` returns
the list of the values in the state `t` reached after the last operand, and
`applyFunc` is the run of `evalProcedure` on the body from that state `t`. -/
theorem operands_evaluate_in_order (ev : Eval) (envsp fsp : EnvSP)
    (fuel fn cn ps al lf l0 l1 l2 : Nat) (hd x pst e1 alt r1 body : Ptr) (s s1 t : Lisp)
    (es rs : List Ptr)
    (hfn : s.heap[fn]? = some (some ⟨.func (some ps) body fsp, lf⟩))
    (hcn : s.heap[cn]? = some (some ⟨.pair hd (some al), l0⟩))
    (hal : s.heap[al]? = some (some ⟨.pair e1 alt, l2⟩))
    (hev : ev e1 envsp s = .ok (r1, s1)) (hrc : 0 < s1.rc)
    (hps1 : s1.heap[ps]? = some (some ⟨.pair x pst, l1⟩))
    (hal1 : s1.heap[al]? = some (some ⟨.pair e1 alt, l2⟩))
    (hrun : OperandsRun ev envsp pst alt s1.heap.length
      { s1 with heap := s1.heap ++ [some ⟨.pair r1 none, 0⟩], rc := LINF_SUCCEEDED } es rs t)
    (hfn1 : t.heap[fn]? = some (some ⟨.func (some ps) body fsp, lf⟩))
    (hfuel : es.length < fuel) :
    evalList ev fuel (some ps) (some al) envsp s = .ok (some s1.heap.length, t) ∧
    applyFunc ev fuel (some fn) (some cn) envsp s = (do
      let result ← evalProcedure ev fuel body (some ps) (some s1.heap.length) fsp
      if LP_SUCCESS (← getRc) then pure result else pure none : M Ptr) t := by
  obtain ⟨k, rfl⟩ : ∃ k, fuel = k + es.length + 1 := ⟨fuel - es.length - 1, by omega⟩
  have hpos : (0 : Int) < LINF_SUCCEEDED := by decide
  have hps' : ({ s1 with heap := s1.heap ++ [some ⟨.pair r1 none, 0⟩], rc := LINF_SUCCEEDED } : Lisp).heap[ps]?
      = some (some ⟨.pair x pst, l1⟩) := getElem?_append_some _ hps1
  have hal' : ({ s1 with heap := s1.heap ++ [some ⟨.pair r1 none, 0⟩], rc := LINF_SUCCEEDED } : Lisp).heap[al]?
      = some (some ⟨.pair e1 alt, l2⟩) := getElem?_append_some _ hal1
  have hlist : evalList ev (k + es.length + 1) (some ps) (some al) envsp s
      = .ok (some s1.heap.length, t) := by
    simp only [evalList, Option.isNone_some, Option.isSome_some, Bool.false_and,
      Bool.and_false, Bool.or_self, Bool.false_eq_true, if_false, bind_ok (OBJ_LEAF_ok hal),
      bind_ok hev, bind_ok (getRc_apply _), LP_FAILURE_of_pos hrc,
      bind_ok (createPair_apply _ _ _ _), bind_ok (setRc_apply _ _), LP_FAILURE_of_pos hpos,
      bind_ok (OBJ_NEXT_ok hps'), bind_ok (OBJ_NEXT_ok hal'),
      bind_ok (evalListLoop_run hrun k), Option.isSome_none, pure_apply]
  have hrct : 0 < t.rc := operandsRun_rc hrun hpos
  refine ⟨hlist, ?_⟩
  simp only [applyFunc, bind_ok (funcOf_ok hfn), bind_ok (OBJ_NEXT_ok hcn), bind_ok hlist,
    bind_ok (getRc_apply _), LP_SUCCESS_of_pos hrct, if_true, bind_ok (funcOf_ok hfn1)]

/-- C26 at the call `(f (display 1) (display 2))` of the example: the
print callback has received nothing before the call, the number 1 after the first
operand, the numbers 1 and 2 when the operands are done, and the body then adds 3. -/
theorem operands_in_order_witness :
    (orderReady.heap[33]? = some (some ⟨.func (some 6) (some 11) 0, 1⟩) ∧
     orderReady.heap[28]? = some (some ⟨.pair (some 17) (some 27), 1⟩) ∧
     orderReady.heap[27]? = some (some ⟨.pair (some 21) (some 26), 1⟩) ∧
     orderReady.heap[26]? = some (some ⟨.pair (some 25) none, 1⟩) ∧
     eval 49 (some 21) 0 orderReady = .ok (some 36, orderFirst) ∧
     OperandsRun (eval 49) 0 (some 5) (some 26) orderFirst.heap.length
       { orderFirst with heap := orderFirst.heap ++ [some ⟨.pair (some 36) none, 0⟩], rc := LINF_SUCCEEDED }
       [some 25] [some 38] orderEvaluated) ∧
    (evalList (eval 49) 49 (some 6) (some 27) 0 orderReady
        = .ok (some orderFirst.heap.length, orderEvaluated) ∧
     applyFunc (eval 49) 49 (some 33) (some 28) 0 orderReady = (do
       let result ← evalProcedure (eval 49) 49 (some 11) (some 6) (some orderFirst.heap.length) 0
       if LP_SUCCESS (← getRc) then pure result else pure none : M Ptr) orderEvaluated) ∧
    orderReady.printed = [] ∧
    orderFirst.printed = [(some 19, true)] ∧
    orderEvaluated.printed = [(some 19, true), (some 23, true)] ∧
    printedOf (interpret orderProgram 100)
      = some [(some 19, true), (some 23, true), (some 8, true)] ∧
    orderReady.heap[19]? = some (some ⟨.number 1, 1⟩) ∧
    orderReady.heap[23]? = some (some ⟨.number 2, 1⟩) ∧
    orderReady.heap[8]? = some (some ⟨.number 3, 1⟩) :=
  ⟨⟨by decide!, by decide!, by decide!, by decide!, orderReady_first, orderFirst_run⟩,
   operands_evaluate_in_order (eval 49) 0 0 49 33 28 6 27 1 1 1 1 (some 17) (some 3) (some 5)
     (some 21) (some 26) (some 36) (some 11) orderReady orderFirst orderEvaluated [some 25]
     [some 38] (by decide!) (by decide!) (by decide!) orderReady_first (by decide!) (by decide!)
     (by decide!) orderFirst_run (by decide!) (by decide),
   by decide!, by decide!, by decide!, by decide!, by decide!, by decide!, by decide!⟩

/-- C27.  `Lisp::run` and the flag `m_parsed`.  When the flag is not set, `run`
returns `LERR_FAILED`, stores no result and leaves the interpreter as it found it: no
environment is made and nothing is evaluated.  The flag is not set at construction,
and every return of `Lisp::parser` (of the whole function on the bytes of a stream,
and of its part after the lexer on a token list) leaves the flag equal to the success
of that call, so a failed parse after a successful one clears it.  When the flag is
set, `run` first resets the environment stack (`newenv`: index 0 and a fresh global
environment) and then evaluates the root `m_ast` at the index 0.  The scenario at the
end: a successful parse, then a failed one, then `run`, which fails without effect. -/
theorem run_requires_successful_parse :
    (∀ (fuel : Nat) (s : Lisp), s.m_parsed = false →
      Lisp.run fuel s = .ok ((LERR_FAILED, none), s)) ∧
    Lisp.init.m_parsed = false ∧
    (∀ (lexlist ll : List LexNode) (input : List Nat) (s s1 : Lisp) (rc : Int),
      Lisp.parserStream lexlist input s = .ok ((rc, ll), s1) →
      s1.m_parsed = LP_SUCCESS rc) ∧
    (∀ (toks : List LexNode) (s s1 : Lisp) (rc : Int),
      Lisp.parser toks s = .ok (rc, s1) → s1.m_parsed = LP_SUCCESS rc) ∧
    (∀ (fuel : Nat) (s : Lisp), s.m_parsed = true →
      ∃ e, newenv s = .ok (LINF_SUCCEEDED, e) ∧ e.m_sp = 0 ∧
        e.m_stack.lookup 0 = some (some (s.heap.length + 1)) ∧
        e.heap = s.heap ++ [some ⟨.pair none none, 0⟩,
          some ⟨.pair (some s.heap.length) none, 0⟩] ∧
        e.m_ast = s.m_ast ∧
        Lisp.run fuel s = (do
          let result ← dispatchEvaling (eval fuel) fuel s.m_ast 0
          if LP_SUCCESS (← getRc) then pure (← getRc, some result)
          else pure (← getRc, none) : M (Int × Option Ptr)) { e with rc := LINF_SUCCEEDED }) ∧
    returned (parseTwiceThenRun.run Lisp.init)
      = some ([LINF_SUCCEEDED, LERR_THROW_ERROR, LERR_FAILED], true) := by
  refine ⟨?_, rfl, fun _ _ _ _ _ _ h => parserStream_parsed h,
    fun _ _ _ _ h => parser_parsed h, ?_, ?_⟩
  · intro fuel s hs
    simp only [Lisp.run, bind_ok (get_apply _), hs, Bool.not_false, if_true, pure_apply]
  · intro fuel s hs
    obtain ⟨e, hnew, h1, h2, h3, h4⟩ : ∃ e, newenv s = .ok (LINF_SUCCEEDED, e) ∧ e.m_sp = 0 ∧
        e.m_stack.lookup 0 = some (some (s.heap.length + 1)) ∧
        e.heap = s.heap ++ [some ⟨.pair none none, 0⟩,
          some ⟨.pair (some s.heap.length) none, 0⟩] ∧ e.m_ast = s.m_ast := by
      refine ⟨_, rfl, rfl, ?_, ?_, rfl⟩
      · simp [List.lookup]
      · simp [createSynNode, alloc]
    refine ⟨e, hnew, h1, h2, h3, h4, ?_⟩
    simp only [Lisp.run, bind_ok (get_apply _), hs, Bool.not_true, Bool.false_eq_true, if_false,
      bind_ok hnew, bind_ok (setRc_apply _ _), bind_ok (getRc_apply _), LP_SUCCESS_one, if_true]
    rw [h4]
  · decide!

/-- C28, evaluated on the code.  The lexer drops input bytes without a report.  `Getchar` hands
the byte over as a `char`, so the byte 255 is the value `STREAM_EOF`: in the main loop
it ends the lexing with success and everything after it is lost, inside a token it
ends the token and is consumed.  A NUL byte that begins a token is not stored, since
the first byte is appended as a C string.  A comment that runs to the end of the input
makes a token of the byte 255, which is not in the input.  A token of 16 bytes is
written past the end of the buffer of its `StringPool`. -/
theorem lexer_drops_bytes :
    lexOf [40, 97, 41, 255, 40, 98, 41]
      = some (LINF_SUCCEEDED,
          [(.LEX_OPEN_PAREN, [], 1), (.LEX_MISC, [97], 1), (.LEX_CLOSE_PAREN, [], 1)]) ∧
    lexOf [97, 255, 98] = some (LINF_SUCCEEDED, [(.LEX_MISC, [97], 1), (.LEX_MISC, [98], 1)]) ∧
    lexOf [0, 97, 98, 32, 99]
      = some (LINF_SUCCEEDED, [(.LEX_MISC, [97, 98], 1), (.LEX_MISC, [99], 1)]) ∧
    lexOf (bytes "a ;x") = some (LINF_SUCCEEDED, [(.LEX_MISC, [97], 1), (.LEX_MISC, [255], 1)]) ∧
    lexOf (bytes "abcdefghijklmno")
      = some (LINF_SUCCEEDED, [(.LEX_MISC, bytes "abcdefghijklmno", 1)]) ∧
    faultOf ((Lexer.lex [] (bytes "abcdefghijklmnop")).run Lisp.init)
      = some Fault.bufferOverrun ∧
    lexOf (bytes "(a \"b c\" ;x\n d)")
      = some (LINF_SUCCEEDED,
          [(.LEX_OPEN_PAREN, [], 1), (.LEX_MISC, bytes "a", 1), (.LEX_STRING, bytes "\"b c\"", 1),
           (.LEX_MISC, bytes "d", 2), (.LEX_CLOSE_PAREN, [], 2)]) := by
  refine ⟨?_, ?_, ?_, ?_, ?_, ?_, ?_⟩
  · decide!
  · decide!
  · decide!
  · decide!
  · decide!
  · decide!
  · decide!

/-- C29 as amended.  A token that begins with a double quote does not end at the
next double quote.  For every input whose bytes are below 256 and in which the token
has at most 15 bytes, `Lexer::lexMisc`, entered with the opening quote, makes one
token of kind `LEX_STRING` of the opening quote and of the bytes `tokenRest` reads:
every further double quote switches between inside and outside of a string, and the
token runs up to the first parenthesis, semicolon, tab, newline or blank outside a
string (which is left in the input), to a byte 255 or to the end of the input.  When
the token ends inside a string, the lexer reports the unpaired quote, else the main
loop appends the token and goes on with the input that is left. -/
theorem string_token_runs_to_delimiter (fuel line : Nat) (lexlist : List LexNode)
    (stream : List Nat) (s : Lisp) (hbytes : ∀ b ∈ stream, b < 256)
    (hlen : (tokenRest true stream).1.length + 2 ≤ 16) :
    Lexer.lexMisc ⟨.LEX_STRING, "", line⟩ 34 stream s
      = .ok ((if (tokenRest true stream).2.1 then LERR_THROW_ERROR else LINF_SUCCEEDED,
              ⟨.LEX_STRING, String.mk ((34 :: (tokenRest true stream).1).map Char.ofNat), line⟩,
              (tokenRest true stream).2.2),
             if (tokenRest true stream).2.1
             then { s with errors := s.errors ++ [(line, "String '\"' unpaired!\n")] }
             else s) ∧
    lexLoop (fuel + 1) line lexlist (34 :: stream) s
      = if (tokenRest true stream).2.1
        then .ok ((LERR_THROW_ERROR, line, lexlist, (tokenRest true stream).2.2),
          { s with errors := s.errors ++ [(line, "String '\"' unpaired!\n")] })
        else lexLoop fuel line
          (lexlist ++ [⟨.LEX_STRING,
            String.mk ((34 :: (tokenRest true stream).1).map Char.ofNat), line⟩])
          (tokenRest true stream).2.2 s :=
  ⟨lexMisc_string line stream s hbytes hlen, lexLoop_string fuel line lexlist stream s hbytes hlen⟩

/-- C29 at the input `"abc"def x`, whose string token is `"abc"def`,
with the readings of `tokenRest` on three inputs and the tokens of two inputs. -/
theorem string_token_witness :
    ((∀ b ∈ bytes "abc\"def x", b < 256) ∧
     (tokenRest true (bytes "abc\"def x")).1.length + 2 ≤ 16) ∧
    tokenRest true (bytes "abc\"def x") = (bytes "abc\"def", false, bytes " x") ∧
    tokenRest true (bytes "a b\" c") = (bytes "a b\"", false, bytes " c") ∧
    tokenRest true (bytes "abc def") = (bytes "abc def", true, []) ∧
    Lexer.lexMisc ⟨.LEX_STRING, "", 1⟩ 34 (bytes "abc\"def x") Lisp.init
      = .ok ((if (tokenRest true (bytes "abc\"def x")).2.1 then LERR_THROW_ERROR
                else LINF_SUCCEEDED,
              ⟨.LEX_STRING,
                String.mk ((34 :: (tokenRest true (bytes "abc\"def x")).1).map Char.ofNat), 1⟩,
              (tokenRest true (bytes "abc\"def x")).2.2),
             if (tokenRest true (bytes "abc\"def x")).2.1
             then { Lisp.init with
                      errors := Lisp.init.errors ++ [(1, "String '\"' unpaired!\n")] }
             else Lisp.init) ∧
    lexOf (bytes "\"abc\"def x")
      = some (LINF_SUCCEEDED, [(.LEX_STRING, bytes "\"abc\"def", 1), (.LEX_MISC, bytes "x", 1)]) ∧
    lexOf (bytes "\"a b\" c")
      = some (LINF_SUCCEEDED, [(.LEX_STRING, bytes "\"a b\"", 1), (.LEX_MISC, bytes "c", 1)]) :=
  ⟨⟨by decide, by decide⟩, by decide, by decide, by decide,
   (string_token_runs_to_delimiter 0 1 [] (bytes "abc\"def x") Lisp.init (by decide)
     (by decide)).1,
   by decide!, by decide!⟩

/-- C29 as stated fails: the input `"abc"def` is lexed to the single
token `"abc"def` of kind `LEX_STRING`, not to the string `"abc"` followed by `def`,
and `"a""b"` is one token as well, not two.  The parser rejects the first one with
"String format mismatch." and takes the second one for the string `a""b`. -/
theorem string_token_goes_past_closing_quote :
    lexOf (bytes "\"abc\"def") = some (LINF_SUCCEEDED, [(.LEX_STRING, bytes "\"abc\"def", 1)]) ∧
    lexOf (bytes "\"abc\"def")
      ≠ some (LINF_SUCCEEDED, [(.LEX_STRING, bytes "\"abc\"", 1), (.LEX_MISC, bytes "def", 1)]) ∧
    lexOf (bytes "\"a\"\"b\"") = some (LINF_SUCCEEDED, [(.LEX_STRING, bytes "\"a\"\"b\"", 1)]) ∧
    lexOf (bytes "\"a\"\"b\"")
      ≠ some (LINF_SUCCEEDED,
          [(.LEX_STRING, bytes "\"a\"", 1), (.LEX_STRING, bytes "\"b\"", 1)]) ∧
    (returned ((Lisp.parserStream [] (bytes "(\"abc\"def)")).run Lisp.init)).map Prod.fst
      = some LERR_THROW_ERROR ∧
    errorsOf ((Lisp.parserStream [] (bytes "(\"abc\"def)")).run Lisp.init)
      = some [(1, "String format mismatch.")] ∧
    (stateOf ((Lisp.parserStream [] (bytes "(\"a\"\"b\")")).run Lisp.init)).map
        (fun s => s.heap[0]?)
      = some (some (some ⟨.string "a\"\"b", 1⟩)) := by
  refine ⟨?_, ?_, ?_, ?_, ?_, ?_, ?_⟩
  · decide!
  · decide!
  · decide!
  · decide!
  · decide!
  · decide!
  · decide!

/-- C30, evaluated on the code.  The line counter of the lexer is advanced by the main loop only,
so a newline inside a string literal, which `Lexer::lexMisc` consumes, is not counted.
In the input of the two lines `"a` and `b" c` followed by the line `d`, the token `c`
begins at offset 6 on line 2 and the token `d` at offset 8 on line 3, and the lexer
records the lines 1 and 2 for them.  A newline that ends a comment is counted. -/
theorem newline_in_string_is_not_counted :
    lexOf (bytes "\"a\nb\" c\nd")
      = some (LINF_SUCCEEDED,
          [(.LEX_STRING, bytes "\"a\nb\"", 1), (.LEX_MISC, bytes "c", 1),
           (.LEX_MISC, bytes "d", 2)]) ∧
    (bytes "\"a\nb\" c\nd")[6]? = some 99 ∧ lineAt (bytes "\"a\nb\" c\nd") 6 = 2 ∧
    (bytes "\"a\nb\" c\nd")[8]? = some 100 ∧ lineAt (bytes "\"a\nb\" c\nd") 8 = 3 ∧
    lexOf (bytes "a ;x\nb") = some (LINF_SUCCEEDED, [(.LEX_MISC, bytes "a", 1), (.LEX_MISC, bytes "b", 2)]) ∧
    lineAt (bytes "a ;x\nb") 5 = 2 := by
  refine ⟨?_, ?_, ?_, ?_, ?_, ?_, ?_⟩
  · decide!
  · decide
  · decide
  · decide
  · decide
  · decide!
  · decide

/-- C31, evaluated on the code.  When the main loop of `Lexer::lex` meets a `;` that is
followed by text without a newline up to the end of the input, `skipComment` returns
with `STREAM_EOF` in `c`, and the loop, which does not test for it, makes a `LEX_MISC`
token of this value: the token list ends with a token of the one byte 255, which is
not in the input, where the input without the comment ends with no token.  A comment
that ends at a newline produces no token, and the newline is counted.  So lexing `a ;x`
gives the tokens `a` and the byte 255, and lexing `a ` gives the token `a`. -/
theorem comment_at_end_makes_a_token :
    (∀ (fuel line : Nat) (lexlist : List LexNode) (text : List Nat) (s : Lisp),
      (∀ b ∈ text, b < 255 ∧ b ≠ 10) →
      lexLoop (fuel + 2) line lexlist (59 :: text) s
        = .ok ((LINF_SUCCEEDED, line,
            lexlist ++ [⟨.LEX_MISC, String.mk [Char.ofNat 255], line⟩], []), s)) ∧
    (∀ (fuel line : Nat) (lexlist : List LexNode) (s : Lisp),
      lexLoop (fuel + 1) line lexlist [] s = .ok ((LINF_SUCCEEDED, line, lexlist, []), s)) ∧
    (∀ (fuel line : Nat) (lexlist : List LexNode) (text rest : List Nat) (s : Lisp),
      (∀ b ∈ text, b < 255 ∧ b ≠ 10) →
      lexLoop (fuel + 1) line lexlist (59 :: (text ++ 10 :: rest)) s
        = lexLoop fuel (line + 1) lexlist rest s) ∧
    lexOf (bytes "a ;x") = some (LINF_SUCCEEDED, [(.LEX_MISC, [97], 1), (.LEX_MISC, [255], 1)]) ∧
    lexOf (bytes "a ") = some (LINF_SUCCEEDED, [(.LEX_MISC, [97], 1)]) ∧
    lexOf (bytes "(a);") = some (LINF_SUCCEEDED,
      [(.LEX_OPEN_PAREN, [], 1), (.LEX_MISC, [97], 1), (.LEX_CLOSE_PAREN, [], 1),
       (.LEX_MISC, [255], 1)]) ∧
    lexOf (bytes "(a)") = some (LINF_SUCCEEDED,
      [(.LEX_OPEN_PAREN, [], 1), (.LEX_MISC, [97], 1), (.LEX_CLOSE_PAREN, [], 1)]) ∧
    lexOf (bytes "a ;x\n") = some (LINF_SUCCEEDED, [(.LEX_MISC, [97], 1)]) ∧
    lexOf (bytes "\"a;b\" c") = some (LINF_SUCCEEDED,
      [(.LEX_STRING, bytes "\"a;b\"", 1), (.LEX_MISC, [99], 1)]) := by
  refine ⟨lexLoop_comment_eof, lexLoop_end, lexLoop_comment_line, ?_, ?_, ?_, ?_, ?_, ?_⟩
  all_goals decide!

/-- C32, evaluated on the code.  For a token that the main loop of `Lexer::lex` starts
at the byte `b0` (bytes below 256, at most 15 of them in the token): when the number of
double quotes in the token is odd, so that the token ends inside a string, `lex`
returns `LERR_THROW_ERROR`, the token is not added to the list, and the diagnostic
carries the value `line` of the line counter; when the number is even the token is
added and no error is reported.  The line counter is not advanced inside string
literals, so it is not always the line on which the token began: in the input of the
two lines `"a` and `b" "c` the token `"c` begins on line 2 and the diagnostic carries
line 1. -/
theorem unpaired_quote_is_reported :
    (∀ (fuel line b0 : Nat) (lexlist : List LexNode) (stream : List Nat) (s : Lisp),
      b0 < 255 → b0 ≠ 0 → isDelimiter b0 = false → (∀ b ∈ stream, b < 256) →
      (tokenRest (decide (b0 = 34)) stream).1.length + 2 ≤ 16 →
      lexLoop (fuel + 1) line lexlist (b0 :: stream) s
        = if oddQuotes (b0 :: (tokenRest (decide (b0 = 34)) stream).1)
          then .ok ((LERR_THROW_ERROR, line, lexlist, (tokenRest (decide (b0 = 34)) stream).2.2),
            { s with errors := s.errors ++ [(line, "String '\"' unpaired!\n")] })
          else lexLoop fuel line
            (lexlist ++ [⟨if b0 = 34 then .LEX_STRING else .LEX_MISC,
              String.mk ((b0 :: (tokenRest (decide (b0 = 34)) stream).1).map Char.ofNat), line⟩])
            (tokenRest (decide (b0 = 34)) stream).2.2 s) ∧
    lexOf (bytes "(define x \"abc") = some (LERR_THROW_ERROR,
      [(.LEX_OPEN_PAREN, [], 1), (.LEX_MISC, bytes "define", 1), (.LEX_MISC, bytes "x", 1)]) ∧
    errorsOf ((Lexer.lex [] (bytes "(define x \"abc")).run Lisp.init)
      = some [(1, "String '\"' unpaired!\n")] ∧
    errorsOf ((Lexer.lex [] (bytes "a\n\nb \"c d\ne")).run Lisp.init)
      = some [(3, "String '\"' unpaired!\n")] ∧
    lexOf (bytes "a\"b") = some (LERR_THROW_ERROR, []) ∧
    lexOf (bytes "\"a\" b\"c\"d") = some (LINF_SUCCEEDED,
      [(.LEX_STRING, bytes "\"a\"", 1), (.LEX_MISC, bytes "b\"c\"d", 1)]) ∧
    errorsOf ((Lexer.lex [] (bytes "\"a\" b\"c\"d")).run Lisp.init) = some [] ∧
    lexOf (bytes "\"a\nb\" \"c") = some (LERR_THROW_ERROR, [(.LEX_STRING, bytes "\"a\nb\"", 1)]) ∧
    errorsOf ((Lexer.lex [] (bytes "\"a\nb\" \"c")).run Lisp.init)
      = some [(1, "String '\"' unpaired!\n")] ∧
    (bytes "\"a\nb\" \"c")[6]? = some 34 ∧ lineAt (bytes "\"a\nb\" \"c") 6 = 2 := by
  refine ⟨?_, ?_, ?_, ?_, ?_, ?_, ?_, ?_, ?_, ?_, ?_⟩
  · intro fuel line b0 lexlist stream s hb0 h0 hstart hbytes hlen
    rw [lexLoop_token fuel line b0 lexlist stream s hb0 h0 hstart hbytes hlen,
      tokenRest_parity, oddQuotes_cons]
  all_goals decide!

/-- C33, evaluated on the code.  `Parser::generateBoolean` looks at the second byte of
the lexeme only.  For every `LEX_MISC` token whose lexeme begins with `#`, the parser
makes Boolean true when the second byte is `t` or `T`, Boolean false when it is `f` or
`F`, and fails with the error "Not a boolean value." otherwise, whatever follows the
second byte.  So `#t`, `#T`, `#f`, `#F` are read as claimed and `#`, `#x` are
rejected, and `#tx`, `#true` and `#fx` are accepted as Booleans instead of being
rejected. -/
theorem boolean_lexeme_ignores_its_tail :
    (∀ (w : String) (line : Nat) (s : Lisp), byteAt w 0 = Char.ofNat 35 →
      generateMisc ⟨.LEX_MISC, w, line⟩ s
        = if byteAt w 1 = Char.ofNat 116 ∨ byteAt w 1 = Char.ofNat 84 then
            .ok (some s.heap.length,
              { s with heap := s.heap ++ [some ⟨.boolean true, line⟩], rc := LINF_SUCCEEDED })
          else if byteAt w 1 = Char.ofNat 102 ∨ byteAt w 1 = Char.ofNat 70 then
            .ok (some s.heap.length,
              { s with heap := s.heap ++ [some ⟨.boolean false, line⟩], rc := LINF_SUCCEEDED })
          else .ok (none, { s with rc := LERR_THROW_ERROR,
                                   errors := s.errors ++ [(line, "Not a boolean value.")] })) ∧
    parsedRoot (bytes "#t") = some (LINF_SUCCEEDED, some ⟨.boolean true, 1⟩) ∧
    parsedRoot (bytes "#T") = some (LINF_SUCCEEDED, some ⟨.boolean true, 1⟩) ∧
    parsedRoot (bytes "#f") = some (LINF_SUCCEEDED, some ⟨.boolean false, 1⟩) ∧
    parsedRoot (bytes "#F") = some (LINF_SUCCEEDED, some ⟨.boolean false, 1⟩) ∧
    parsedRoot (bytes "#") = some (LERR_THROW_ERROR, none) ∧
    parsedRoot (bytes "#x") = some (LERR_THROW_ERROR, none) ∧
    parsedRoot (bytes "#tx") = some (LINF_SUCCEEDED, some ⟨.boolean true, 1⟩) ∧
    parsedRoot (bytes "#true") = some (LINF_SUCCEEDED, some ⟨.boolean true, 1⟩) ∧
    parsedRoot (bytes "#fx") = some (LINF_SUCCEEDED, some ⟨.boolean false, 1⟩) := by
  refine ⟨?_, ?_, ?_, ?_, ?_, ?_, ?_, ?_, ?_, ?_⟩
  · intro w line s h
    rw [generateMisc_hash w line s h]
    exact generateBoolean_second w line _ s h
  all_goals decide!

/-- C34.  For every text made of an optional single sign, decimal digits `ds` and an
optional fractional part (a point followed by the digits `fs`), `parserNumberStr`
succeeds and stores, in exact arithmetic, the integer written by the digits `ds fs`,
divided by 10 to the number of digits behind the point, negated when the sign is `-`;
and `Parser::generateNumber` makes of a token with this text the Number of that
value. -/
theorem number_string_value (sign ds : List Char) (frac : Option (List Char)) (line : Nat)
    (s : Lisp)
    (hsign : sign = [] ∨ sign = [Char.ofNat 43] ∨ sign = [Char.ofNat 45])
    (hds : ∀ c ∈ ds, IsDigit c = true) (hfs : ∀ c ∈ fracDigits frac, IsDigit c = true) :
    parserNumberStr (String.mk (sign ++ (ds ++ fracChars frac)))
      = (LINF_SUCCEEDED, some ((if sign = [Char.ofNat 45] then -1 else 1)
          * (digitsValue (ds ++ fracDigits frac) : Rat) / 10 ^ (fracDigits frac).length)) ∧
    generateNumber ⟨.LEX_MISC, String.mk (sign ++ (ds ++ fracChars frac)), line⟩ s
      = .ok (some s.heap.length,
          { s with heap := s.heap ++ [some ⟨.number ((if sign = [Char.ofNat 45] then -1 else 1)
              * (digitsValue (ds ++ fracDigits frac) : Rat)
              / 10 ^ (fracDigits frac).length), line⟩],
                   rc := LINF_SUCCEEDED }) := by
  have hpre : ∀ c ∈ sign, c = Char.ofNat 32 ∨ c = Char.ofNat 43 ∨ c = Char.ofNat 45 := by
    rcases hsign with rfl | rfl | rfl <;> simp
  have hval : ((signAfter sign 1 : Int) : Rat)
      = (if sign = [Char.ofNat 45] then -1 else 1) := by
    rcases hsign with rfl | rfl | rfl
    · simp [signAfter]
    · rw [signAfter_plus]
      simp [signAfter]
    · rw [signAfter_minus]
      simp [signAfter]
  have h := parserNumberStr_shape sign ds frac hpre hds hfs
  rw [hval] at h
  refine ⟨h, generateNumber_ok line _ s ?_⟩
  rw [cString_of_no_nul (number_text_no_nul hpre hds hfs)]
  exact h

/-- C34 at the text `-12.50`, with the three examples of the claim. -/
theorem number_string_value_witness :
    (([Char.ofNat 45] : List Char) = [] ∨ ([Char.ofNat 45] : List Char) = [Char.ofNat 43]
        ∨ ([Char.ofNat 45] : List Char) = [Char.ofNat 45]) ∧
    (∀ c ∈ "12".data, IsDigit c = true) ∧
    (∀ c ∈ fracDigits (some "50".data), IsDigit c = true) ∧
    parserNumberStr (String.mk ([Char.ofNat 45] ++ ("12".data ++ fracChars (some "50".data))))
      = (LINF_SUCCEEDED, some ((if ([Char.ofNat 45] : List Char) = [Char.ofNat 45] then -1 else 1)
          * (digitsValue ("12".data ++ fracDigits (some "50".data)) : Rat)
          / 10 ^ (fracDigits (some "50".data)).length)) ∧
    String.mk ([Char.ofNat 45] ++ ("12".data ++ fracChars (some "50".data))) = "-12.50" ∧
    digitsValue ("12".data ++ fracDigits (some "50".data)) = 1250 ∧
    parserNumberStr "-12.50" = (LINF_SUCCEEDED, some (-25 / 2)) ∧
    parserNumberStr ".5" = (LINF_SUCCEEDED, some (1 / 2)) ∧
    parserNumberStr "7" = (LINF_SUCCEEDED, some 7) ∧
    parserNumberStr "+3.25" = (LINF_SUCCEEDED, some (13 / 4)) ∧
    parserNumberStr "5." = (LINF_SUCCEEDED, some 5) :=
  ⟨by decide, by decide, by decide,
   (number_string_value [Char.ofNat 45] "12".data (some "50".data) 1 Lisp.init (by decide)
     (by decide) (by decide)).1,
   by decide, by decide, by decide!, by decide!, by decide!, by decide!, by decide!⟩

/-- C35 as amended.  The parser makes one String node of every `LEX_STRING` token whose
lexeme is a payload between two double quotes, one Character node of every lexeme of
a byte between two apostrophes, and one Boolean node of a lexeme that begins with `#t`,
`#T`, `#f` or `#F`.  `OutputSynNode` writes a String whose payload has no NUL byte as the
payload between double quotes and a Character as the byte between apostrophes, which
are the lexemes they were made of, and a Boolean as `#t` or `#f`.  Whenever the lexer
reads this text as a single token (`singleToken`, which holds of every lexeme that the
lexer has stored as a token), lexing and parsing the text gives a single atom of the
same variant and value.  A Symbol is written as `symbol = ` followed by its name, and
whenever the name is a single token this text is read as three tokens of which the
parser takes the first: the result is the Symbol `symbol`, whatever the name was.  The
text of a Number is not given by the model. -/
theorem atoms_round_trip :
    (∀ (pb : List Nat) (line : Nat) (s : Lisp), (∀ b ∈ pb, b < 256 ∧ b ≠ 0) →
      generateString ⟨.LEX_STRING, wordOf (34 :: (pb ++ [34])), line⟩ s
          = .ok (some s.heap.length,
              { s with heap := s.heap ++ [some ⟨.string (wordOf pb), line⟩],
                       rc := LINF_SUCCEEDED }) ∧
        OutputSynNode ⟨.string (wordOf pb), line⟩ = some (34 :: (pb ++ [34])) ∧
        (singleToken (34 :: (pb ++ [34])) = true →
          parsedRoot (34 :: (pb ++ [34]))
            = some (LINF_SUCCEEDED, some ⟨.string (wordOf pb), 1⟩))) ∧
    (∀ (x line : Nat) (s : Lisp), x < 256 →
      generateMisc ⟨.LEX_MISC, wordOf [39, x, 39], line⟩ s
          = .ok (some s.heap.length,
              { s with heap := s.heap ++ [some ⟨.character (Char.ofNat x), line⟩],
                       rc := LINF_SUCCEEDED }) ∧
        OutputSynNode ⟨.character (Char.ofNat x), line⟩ = some [39, x, 39] ∧
        (singleToken [39, x, 39] = true →
          parsedRoot [39, x, 39]
            = some (LINF_SUCCEEDED, some ⟨.character (Char.ofNat x), 1⟩))) ∧
    (∀ (w : String) (line : Nat) (s : Lisp), byteAt w 0 = Char.ofNat 35 →
      (byteAt w 1 = Char.ofNat 116 ∨ byteAt w 1 = Char.ofNat 84 →
        generateMisc ⟨.LEX_MISC, w, line⟩ s
          = .ok (some s.heap.length,
              { s with heap := s.heap ++ [some ⟨.boolean true, line⟩],
                       rc := LINF_SUCCEEDED })) ∧
      (¬ (byteAt w 1 = Char.ofNat 116 ∨ byteAt w 1 = Char.ofNat 84) →
        byteAt w 1 = Char.ofNat 102 ∨ byteAt w 1 = Char.ofNat 70 →
        generateMisc ⟨.LEX_MISC, w, line⟩ s
          = .ok (some s.heap.length,
              { s with heap := s.heap ++ [some ⟨.boolean false, line⟩],
                       rc := LINF_SUCCEEDED }))) ∧
    (∀ (v : Bool) (line : Nat),
      OutputSynNode ⟨.boolean v, line⟩ = some (if v = true then bytes "#t" else bytes "#f") ∧
      parsedRoot (if v = true then bytes "#t" else bytes "#f")
        = some (LINF_SUCCEEDED, some ⟨.boolean v, 1⟩)) ∧
    (∀ (b0 : Nat) (rest : List Nat), singleToken (b0 :: rest) = true →
      lexOf (b0 :: rest)
        = some (LINF_SUCCEEDED,
            [(if b0 = 34 then .LEX_STRING else .LEX_MISC, b0 :: rest, 1)])) ∧
    (∀ (b0 : Nat) (stream : List Nat), b0 < 255 → b0 ≠ 0 → isDelimiter b0 = false →
      (∀ b ∈ stream, b < 256) →
      (tokenRest (decide (b0 = 34)) stream).1.length + 2 ≤ 16 →
      (tokenRest (decide (b0 = 34)) stream).2.1 = false →
      singleToken (b0 :: (tokenRest (decide (b0 = 34)) stream).1) = true) ∧
    (∀ (v : String) (line : Nat),
      OutputSynNode ⟨.symbol v, line⟩ = some (bytes "symbol = " ++ bytes (cString v))) ∧
    (∀ (b0 : Nat) (rest : List Nat), singleToken (b0 :: rest) = true →
      parsedRoot (bytes "symbol = " ++ b0 :: rest)
        = some (LINF_SUCCEEDED, some ⟨.symbol "symbol", 1⟩)) := by
  refine ⟨?_, ?_, ?_, ?_, lexOf_single, singleToken_of_lexed, fun _ _ => rfl,
    parsedRoot_symbol_rendering⟩
  · intro pb line s h
    refine ⟨generateString_quoted pb line s, output_string pb line h, fun hs => ?_⟩
    exact parsedRoot_atom (lex_single 34 (pb ++ [34]) hs _) (atomNode_string pb 1)
  · intro x line s h
    refine ⟨generateMisc_character x line s, output_character x line h, fun hs => ?_⟩
    exact parsedRoot_atom (lex_single 39 [x, 39] hs _) (atomNode_character x 1)
  · intro w line s h
    constructor
    · intro h1
      rw [generateMisc_hash w line s h, generateBoolean_second w line _ s h, if_pos h1]
    · intro h1 h2
      rw [generateMisc_hash w line s h, generateBoolean_second w line _ s h, if_neg h1,
        if_pos h2]
  · intro v line
    cases v
    · exact ⟨rfl, by decide!⟩
    · exact ⟨rfl, by decide!⟩

/-- C35 at the String `"ab c"`, the Character `'x'` and the Symbol `x`: the texts
`"ab c"` and `'x'` are read back as the String `ab c` and the Character `x`, and the
text `symbol = x` of the Symbol `x` is read back as the Symbol `symbol`. -/
theorem atoms_round_trip_witness :
    parsedRoot (bytes "\"ab c\"") = some (LINF_SUCCEEDED, some ⟨.string "ab c", 1⟩) ∧
    parsedRoot (bytes "'x'") = some (LINF_SUCCEEDED, some ⟨.character (Char.ofNat 120), 1⟩) ∧
    parsedRoot (bytes "symbol = x") = some (LINF_SUCCEEDED, some ⟨.symbol "symbol", 1⟩) :=
  ⟨(atoms_round_trip.1 [97, 98, 32, 99] 1 Lisp.init (by decide)).2.2 (by decide),
    (atoms_round_trip.2.1 120 1 Lisp.init (by decide)).2.2 (by decide),
    atoms_round_trip.2.2.2.2.2.2.2 120 [] (by decide)⟩

/-- C35 as stated fails: the token `x` is accepted by the parser, which makes the Symbol
`x` of it; `OutputSynNode` writes this node as `symbol = x`; the lexer reads this text
as the three tokens `symbol`, `=` and `x`, and the parser makes the Symbol `symbol` of
it, which is not the Symbol `x`.  The same happens to the Symbol `+`. -/
theorem symbol_is_read_back_as_symbol :
    parsedRoot (bytes "x") = some (LINF_SUCCEEDED, some ⟨.symbol "x", 1⟩) ∧
    OutputSynNode ⟨.symbol "x", 1⟩ = some (bytes "symbol = x") ∧
    lexOf (bytes "symbol = x")
      = some (LINF_SUCCEEDED, [(.LEX_MISC, bytes "symbol", 1), (.LEX_MISC, bytes "=", 1),
          (.LEX_MISC, bytes "x", 1)]) ∧
    parsedRoot (bytes "symbol = x") = some (LINF_SUCCEEDED, some ⟨.symbol "symbol", 1⟩) ∧
    parsedRoot (bytes "symbol = x") ≠ parsedRoot (bytes "x") ∧
    parsedRoot (bytes "+") = some (LINF_SUCCEEDED, some ⟨.symbol "+", 1⟩) ∧
    OutputSynNode ⟨.symbol "+", 1⟩ = some (bytes "symbol = +") ∧
    parsedRoot (bytes "symbol = +") = some (LINF_SUCCEEDED, some ⟨.symbol "symbol", 1⟩) := by
  refine ⟨?_, ?_, ?_, ?_, ?_, ?_, ?_, ?_⟩
  all_goals decide!

/-- C36, evaluated on the code.  When the tokens end inside a list, `generateList`
reads the line of the diagnostic through `LEX_PREV(m_lexlistTail)`, the token in front
of the last one.  For the one token `(` there is no such token and the parser reads
through the null pointer.  For every longer sequence that opens a list, goes on with
complete expressions and opened inner lists and ends before the list is closed,
`Parser::parse` returns `LERR_THROW_ERROR` without a root, and the diagnostic
"Parentheses do not match." carries the line of the token in front of the last token,
not the line of the last one: for `(` on line 1 followed by `a` on line 2 it is
line 1. -/
theorem unclosed_list_reads_token_before_last :
    (∀ (line : Nat) (s : Lisp),
      Parser.parse [⟨.LEX_OPEN_PAREN, "", line⟩] s = .error Fault.nullDeref) ∧
    (∀ (line : Nat) (b : SOpen), b.Accepted → b.toks ≠ [] → ∀ s : Lisp,
      ∃ ext t, (⟨.LEX_OPEN_PAREN, "", line⟩ :: b.toks)[b.toks.length - 1]? = some t ∧
        Parser.parse (⟨.LEX_OPEN_PAREN, "", line⟩ :: b.toks) s
          = .ok ((LERR_THROW_ERROR, none),
              { s with heap := s.heap ++ ext, rc := LERR_THROW_ERROR,
                       errors := s.errors ++ [(t.m_line, "Parentheses do not match.")] })) ∧
    faultOf ((Lisp.parserStream [] (bytes "(")).run Lisp.init) = some Fault.nullDeref ∧
    lexOf (bytes "(\na") = some (LINF_SUCCEEDED, [(.LEX_OPEN_PAREN, [], 1), (.LEX_MISC, [97], 2)]) ∧
    parsedRoot (bytes "(\na") = some (LERR_THROW_ERROR, none) ∧
    errorsOf ((Lisp.parserStream [] (bytes "(\na")).run Lisp.init)
      = some [(1, "Parentheses do not match.")] ∧
    errorsOf ((Lisp.parserStream [] (bytes "(a (b c)\n(d")).run Lisp.init)
      = some [(2, "Parentheses do not match.")] := by
  refine ⟨parse_lone_open, fun line b hb hne s => parse_open line b hb hne s, ?_, ?_, ?_, ?_, ?_⟩
  all_goals decide!

/-- C37, evaluated on the code.  For every `LEX_MISC` token whose lexeme does not begin
with `#` or `'`, the parser calls `generateNumber` exactly when the lexeme is
`numberLike`, and else makes a Symbol.  The payload of the Symbol is the C string at
the start of the lexeme: the full lexeme when it holds no NUL byte, and the bytes
before the first NUL otherwise.  So `+`, `-`, `.` and `-x` are Symbols and `-5`, `+.5`
and `.5` are Numbers, and the lexeme of the three bytes `a`, NUL, `b`, which the lexer
makes of these input bytes, becomes the Symbol `a`. -/
theorem misc_lexeme_is_number_or_symbol :
    (∀ (w : String) (line : Nat) (s : Lisp),
      byteAt w 0 ≠ Char.ofNat 35 → byteAt w 0 ≠ Char.ofNat 39 →
      generateMisc ⟨.LEX_MISC, w, line⟩ s
        = if numberLike w then generateNumber ⟨.LEX_MISC, w, line⟩ s
          else .ok (some s.heap.length,
            { s with heap := s.heap ++ [some ⟨.symbol (cString w), line⟩],
                     rc := LINF_SUCCEEDED })) ∧
    (∀ w : String, (∀ c ∈ w.data, c ≠ Char.ofNat 0) → cString w = w) ∧
    parsedRoot (bytes "+") = some (LINF_SUCCEEDED, some ⟨.symbol "+", 1⟩) ∧
    parsedRoot (bytes "-") = some (LINF_SUCCEEDED, some ⟨.symbol "-", 1⟩) ∧
    parsedRoot (bytes ".") = some (LINF_SUCCEEDED, some ⟨.symbol ".", 1⟩) ∧
    parsedRoot (bytes "-x") = some (LINF_SUCCEEDED, some ⟨.symbol "-x", 1⟩) ∧
    parsedRoot (bytes "-5") = some (LINF_SUCCEEDED, some ⟨.number (-5), 1⟩) ∧
    parsedRoot (bytes "+.5") = some (LINF_SUCCEEDED, some ⟨.number (1 / 2), 1⟩) ∧
    parsedRoot (bytes ".5") = some (LINF_SUCCEEDED, some ⟨.number (1 / 2), 1⟩) ∧
    parsedRoot (bytes "1x") = some (LERR_FAILED, none) ∧
    lexOf [97, 0, 98] = some (LINF_SUCCEEDED, [(.LEX_MISC, [97, 0, 98], 1)]) ∧
    parsedRoot [97, 0, 98] = some (LINF_SUCCEEDED, some ⟨.symbol "a", 1⟩) := by
  refine ⟨generateMisc_other, fun w h => cString_of_no_nul h, ?_, ?_, ?_, ?_, ?_, ?_, ?_, ?_,
    ?_, ?_⟩
  all_goals decide!

/-- C38 as amended.  `parserNumberStr` succeeds exactly on the texts that consist of
any run of blanks and sign characters, then decimal digits, then optionally a point
and decimal digits, where each of the three parts may be empty; on every other text it
returns `LERR_FAILED`.  A value is stored in `*out` exactly when it succeeds. -/
theorem number_string_accepted_iff (src : String) :
    ((parserNumberStr src).1 = LINF_SUCCEEDED ↔
      ∃ (pre ds : List Char) (frac : Option (List Char)),
        (∀ c ∈ pre, c = Char.ofNat 32 ∨ c = Char.ofNat 43 ∨ c = Char.ofNat 45) ∧
        (∀ c ∈ ds, IsDigit c = true) ∧ (∀ c ∈ fracDigits frac, IsDigit c = true) ∧
        src.data = pre ++ (ds ++ fracChars frac)) ∧
    ((parserNumberStr src).1 = LINF_SUCCEEDED ∨ parserNumberStr src = (LERR_FAILED, none)) ∧
    ((parserNumberStr src).2.isSome = true ↔ (parserNumberStr src).1 = LINF_SUCCEEDED) := by
  refine ⟨⟨?_, ?_⟩, ?_, ?_⟩
  · intro h
    obtain ⟨pre, e1, hpre, -⟩ := parseSign_split src.data 1
    obtain ⟨ds, frac, e2, hds, hfs⟩ := parseDigits_split (parseSign src.data 1).1 0
    refine ⟨pre, ds, frac, hpre, hds, hfs, ?_⟩
    by_cases hr : (parseDigits (parseSign src.data 1).1 0).1 = []
    · rw [hr, List.append_nil] at e2
      rw [← e2]
      exact e1
    · exfalso
      simp only [parserNumberStr, ne_eq, hr, not_false_eq_true, if_true] at h
      exact absurd h (by decide)
  · rintro ⟨pre, ds, frac, hpre, hds, hfs, e⟩
    have : src = String.mk (pre ++ (ds ++ fracChars frac)) := by
      cases src
      simp only at e
      rw [e]
    rw [this, parserNumberStr_shape pre ds frac hpre hds hfs]
  · by_cases hr : (parseDigits (parseSign src.data 1).1 0).1 = []
    · left
      simp only [parserNumberStr, ne_eq, hr, not_true_eq_false, if_false]
    · right
      simp only [parserNumberStr, ne_eq, hr, not_false_eq_true, if_true]
  · by_cases hr : (parseDigits (parseSign src.data 1).1 0).1 = []
    · simp only [parserNumberStr, ne_eq, hr, not_true_eq_false, if_false, Option.isSome_some]
    · simp only [parserNumberStr, ne_eq, hr, not_false_eq_true, if_true, Option.isSome_none,
        Bool.false_eq_true, false_iff]
      decide

/-- C38 as stated fails: `parserNumberStr` succeeds on `+-5`, on `--5` and on `- 5`,
which it reads as -5, on `-+ 5`, which it reads as 5, and on the texts without any
digit, the empty text and `-.`.  It fails when a byte follows the numeric run. -/
theorem number_string_takes_signs_and_blanks :
    parserNumberStr "+-5" = (LINF_SUCCEEDED, some (-5)) ∧
    parserNumberStr "--5" = (LINF_SUCCEEDED, some (-5)) ∧
    parserNumberStr "- 5" = (LINF_SUCCEEDED, some (-5)) ∧
    parserNumberStr "-+ 5" = (LINF_SUCCEEDED, some 5) ∧
    (parserNumberStr "").1 = LINF_SUCCEEDED ∧
    (parserNumberStr "-.").1 = LINF_SUCCEEDED ∧
    parserNumberStr "5x" = (LERR_FAILED, none) ∧
    parserNumberStr "1.2.3" = (LERR_FAILED, none) ∧
    parserNumberStr "5-" = (LERR_FAILED, none) ∧
    parserNumberStr "5 " = (LERR_FAILED, none) := by
  refine ⟨?_, ?_, ?_, ?_, ?_, ?_, ?_, ?_, ?_, ?_⟩ <;> decide!

/-- C39.  For every expression whose outermost form is a list and which is built from
Symbol atoms and nested, possibly empty lists, `Parser::generate`, started at the
first token of the tokens that write the expression (whatever tokens follow them),
succeeds, leaves the cursor just behind the closing parenthesis of the expression and
returns the expression: every list a chain of Pairs that ends in null, the empty list
null, every atom a Symbol node with the name of its token; `Parser::parse` returns
this root with the status of success.  The store is extended by the new nodes and
nothing else changes. -/
theorem symbol_lists_parse_to_themselves (line : Nat) (body : SList) (hsym : body.Symbols)
    (rest : List LexNode) (s : Lisp) :
    ∃ root ext,
      generate ((SExpr.list line body).toks ++ rest)
          (2 * ((SExpr.list line body).toks ++ rest).length + 2) 0 s
        = .ok ((root, (SExpr.list line body).toks.length),
            { s with heap := s.heap ++ ext, rc := LINF_SUCCEEDED }) ∧
      Parser.parse ((SExpr.list line body).toks ++ rest) s
        = .ok ((LINF_SUCCEEDED, some root),
            { s with heap := s.heap ++ ext, rc := LINF_SUCCEEDED }) ∧
      (SExpr.list line body).AstAt (s.heap ++ ext) root := by
  have hacc : (SExpr.list line body).Accepted := symbolsList_accepted body hsym
  obtain ⟨p, ext, hrun, htree⟩ := generate_spec (.list line body) hacc [] rest s
    (2 * ((SExpr.list line body).toks ++ rest).length + 2)
    (by simp only [List.length_append]; omega)
  simp only [List.nil_append, List.length_nil, zero_add] at hrun
  refine ⟨p, ext, hrun, ?_, symbols_ast _ (.list line body) p hsym htree⟩
  simp only [Parser.parse, bind_ok hrun, bind_ok (getRc_apply _), LP_SUCCESS_one, if_true,
    pure_apply]

/-- C39 at the expression `(a () (b c))`, followed by one more token: the root is the
Pair at address 7, the list of the Symbol `a`, of null for the empty list, and of the
list of `b` and `c`. -/
theorem symbol_lists_witness :
    nestedBody.Symbols ∧
    (∃ root ext,
      generate ((SExpr.list 1 nestedBody).toks ++ [LexNode.mk .LEX_MISC "d" 3])
          (2 * ((SExpr.list 1 nestedBody).toks ++ [LexNode.mk .LEX_MISC "d" 3]).length + 2) 0 Lisp.init
        = .ok ((root, (SExpr.list 1 nestedBody).toks.length),
            { Lisp.init with heap := Lisp.init.heap ++ ext, rc := LINF_SUCCEEDED }) ∧
      Parser.parse ((SExpr.list 1 nestedBody).toks ++ [LexNode.mk .LEX_MISC "d" 3]) Lisp.init
        = .ok ((LINF_SUCCEEDED, some root),
            { Lisp.init with heap := Lisp.init.heap ++ ext, rc := LINF_SUCCEEDED }) ∧
      (SExpr.list 1 nestedBody).AstAt (Lisp.init.heap ++ ext) root) ∧
    nestedSymbols.toks.length = 9 ∧
    (returned ((Parser.parse (nestedSymbols.toks ++ [LexNode.mk .LEX_MISC "d" 3])).run Lisp.init))
      = some (LINF_SUCCEEDED, some (some 7)) ∧
    (stateOf ((Parser.parse (nestedSymbols.toks ++ [LexNode.mk .LEX_MISC "d" 3])).run Lisp.init)).map
        (fun s => s.heap)
      = some [some ⟨.symbol "a", 1⟩, some ⟨.symbol "b", 2⟩, some ⟨.symbol "c", 2⟩,
          some ⟨.pair (some 2) none, 2⟩, some ⟨.pair (some 1) (some 3), 2⟩,
          some ⟨.pair (some 4) none, 2⟩, some ⟨.pair none (some 5), 2⟩,
          some ⟨.pair (some 0) (some 6), 2⟩] :=
  ⟨nestedBody_symbols,
   symbol_lists_parse_to_themselves 1 nestedBody nestedBody_symbols [LexNode.mk .LEX_MISC "d" 3]
     Lisp.init,
   by decide, by decide!, by decide!⟩

/-- C40, evaluated on the code.  While the content and its NUL fit into the inline
buffer of 16 bytes, `append` keeps them there and `buffer()` holds the bytes appended
so far.  The first `append` that does not fit allocates the heap buffer with
`resizeBuffer(buffsize + lenwr)`, where `buffsize` is still 0: the size is that of the
appended part only, rounded up to 15 for up to 14 bytes, and not `len + lensrc + 1`,
which is at least 17.  The old content is copied to the block and the new bytes and the
NUL are written at the offsets from `len` on, behind the end of the block.  This is the
case of every lexeme of 16 bytes or more, since the lexer appends at most 2 bytes at a
time: `Lexer::lexMisc` leaves the buffer for each of them.  An `append` of 15 bytes or
more that leaves the inline buffer gets a block that is large enough. -/
theorem append_overruns_first_heap_buffer :
    StringPool.init.Inline [] ∧
    (∀ (p : StringPool) (w src : List Nat), p.Inline w → w.length + src.length + 1 ≤ 16 →
      ∃ q, p.appendBytes src = .ok (LINF_SUCCEEDED, q) ∧ q.Inline (w ++ src) ∧
        q.content = w ++ src) ∧
    (∀ (p : StringPool) (w src : List Nat), p.Inline w → 16 < w.length + src.length + 1 →
      src.length ≤ 14 → p.appendBytes src = .error Fault.bufferOverrun) ∧
    (∀ (p : StringPool) (wb : List Nat) (src : List Int), p.Inline wb → src.length ≤ 14 →
      StringPool.append (String.mk (wb.map Char.ofNat)) src
        = (match p.appendBytes (src.map toByte) with
           | .ok (_, q) => .ok (String.mk (q.content.map Char.ofNat))
           | .error e => .error e)) ∧
    (∀ (ty : LexType) (line b0 : Nat) (stream : List Nat) (s : Lisp), b0 < 256 → b0 ≠ 0 →
      (∀ b ∈ stream, b < 256) →
      16 ≤ (b0 :: (tokenRest (decide (b0 = 34)) stream).1).length →
      Lexer.lexMisc ⟨ty, "", line⟩ (toChar b0) stream s = .error Fault.bufferOverrun) ∧
    lexemeAppends (bytes "abcdefghijklmnop")
      = [[97], [98, 99], [100, 101], [102, 103], [104, 105], [106, 107], [108, 109],
         [110, 111], [112]] ∧
    (match appendAll (lexemeAppends (bytes "abcdefghijklmno")) with
     | .ok p => some (p.content, p.len, p.heap_buff)
     | .error _ => none) = some (bytes "abcdefghijklmno", 15, none) ∧
    faultOf (appendAll (lexemeAppends (bytes "abcdefghijklmnop"))) = some Fault.bufferOverrun ∧
    (match appendAll (lexemeAppends (bytes "abcdefghijklmno")) with
     | .ok p => (match p.resizeBuffer (p.buffsize + 2) with
        | .ok (_, q) => some (q.buffsize, q.len + 2)
        | .error _ => none)
     | .error _ => none) = some (15, 17) ∧
    (match appendAll [[97], bytes "bcdefghijklmnop"] with
     | .ok p => some (p.content, p.len, p.buffsize, p.inheap)
     | .error _ => none) = some (bytes "abcdefghijklmnop", 16, 31, true) ∧
    faultOf ((Lexer.lex [] (bytes "(abcdefghijklmnop)")).run Lisp.init)
      = some Fault.bufferOverrun := by
  refine ⟨init_inline, ?_, ?_, ?_, ?_, ?_, ?_, ?_, ?_, ?_, ?_⟩
  · intro p w src hp h
    obtain ⟨q, h1, h2⟩ := appendBytes_inline src hp h
    exact ⟨q, h1, h2, inline_content h2⟩
  · intro p w src hp h hs
    exact appendBytes_overrun src hp h hs
  · intro p wb src hp hs
    exact append_refines src hp hs
  · intro ty line b0 stream s hb0 h0 hbytes hlen
    exact lexMisc_long ty line b0 stream s hb0 h0 hbytes hlen
  all_goals decide!

end DSL
